import Mathlib

/-! ## csproto: the generated codec of `AllTheThings`

A shallow embedding of `example/permessage/gogo/gogo_permessage_example_allthethings.pb.fm.go`
(`Size`, `Marshal`, `MarshalTo`, `Unmarshal`) together with the primitives of the `csproto`
package that the generated code calls.  The primitives are not among the sources at hand; they
are modelled from the specification and marked as such.

Conventions.
* A byte is a `Fin 256`; a Go `[]byte` or `string` is a `List Byte`.
* Go `int32`/`int64` values are `Int`s, `uint32`/`uint64` values are `Nat`s; conversions
  reduce modulo `2^32`/`2^64` explicitly and `AllTheThings.WF` records the ranges of the fields.
* A Go function that can panic returns an `Option` (`none` is the panic); a Go function that
  returns an `error` returns an `Except Err _` or carries an `Option Err`.
-/

namespace Csproto

/-! ## Bytes and machine integers -/

/-- One octet. -/
abbrev Byte := Fin 256

/-- The octet holding `n` (reduced modulo 256, as Go's `byte(n)`). -/
def byte (n : Nat) : Byte := ⟨n % 256, Nat.mod_lt _ (by decide)⟩

/-- Go's conversion `uint64(v)` of a signed integer: two's complement, modulo `2^64`. -/
def u64 (v : Int) : Nat := (v % 18446744073709551616).toNat

/-- Go's conversion `uint32(v)` of an unsigned integer: truncation modulo `2^32`. -/
def u32 (v : Nat) : Nat := v % 4294967296

/-- Go's conversion `int32(v)` of an unsigned integer: the low 32 bits, read as two's complement. -/
def i32 (v : Nat) : Int :=
  if v % 4294967296 < 2147483648 then ((v % 4294967296 : Nat) : Int)
  else ((v % 4294967296 : Nat) : Int) - 4294967296

/-- Go's conversion `int64(v)` of an unsigned integer: the low 64 bits, read as two's complement. -/
def i64 (v : Nat) : Int :=
  if v % 18446744073709551616 < 9223372036854775808 then ((v % 18446744073709551616 : Nat) : Int)
  else ((v % 18446744073709551616 : Nat) : Int) - 18446744073709551616

/-- The value is an `int32`. -/
def isInt32 (v : Int) : Prop := -2147483648 ≤ v ∧ v < 2147483648

/-- The value is an `int64`. -/
def isInt64 (v : Int) : Prop := -9223372036854775808 ≤ v ∧ v < 9223372036854775808

/-- The value is a `uint32`. -/
def isUInt32 (v : Nat) : Prop := v < 4294967296

/-- The value is a `uint64`. -/
def isUInt64 (v : Nat) : Prop := v < 18446744073709551616

instance (v : Int) : Decidable (isInt32 v) := by unfold isInt32; infer_instance
instance (v : Int) : Decidable (isInt64 v) := by unfold isInt64; infer_instance
instance (v : Nat) : Decidable (isUInt32 v) := by unfold isUInt32; infer_instance
instance (v : Nat) : Decidable (isUInt64 v) := by unfold isUInt64; infer_instance

/-! ## Errors -/

/-- Errors returned by the codec.  The first group is the taxonomy of the decoder primitives
(modelled from the spec), with `nestedFailure` standing for an error of the nested message's own
codec; the second group are the errors the generated code builds with `fmt.Errorf`: the empty
buffer, a wrong wire type, and the wrappers around a failed decode, skip or nested encode.
`loopBound` is no error of the codec: it marks a run of the loop of `Unmarshal` that would need
more iterations than the embedding allows. -/
inductive Err where
  | malformedTag
  | truncatedVarint
  | varintOverflow
  | truncatedFixedWidth
  | truncatedPayload
  | unsupportedWireType
  | nestedDecodeFailure (cause : Err)
  | nestedFailure (code : Nat)
  | emptyInput
  | wireTypeMismatch (tag : Nat) (wt : Nat)
  | fieldDecode (tag : Nat) (cause : Err)
  | skipFailed (tag : Nat) (cause : Err)
  | fieldEncode (tag : Nat) (cause : Err)
  | loopBound
  deriving DecidableEq, Repr

/-- Equality of results is decidable. -/
instance instDecidableEqExcept {ε α : Type} [DecidableEq ε] [DecidableEq α] :
    DecidableEq (Except ε α)
  | .ok a, .ok b => if h : a = b then isTrue (by rw [h]) else isFalse (fun h2 => h (by cases h2; rfl))
  | .error a, .error b =>
    if h : a = b then isTrue (by rw [h]) else isFalse (fun h2 => h (by cases h2; rfl))
  | .ok _, .error _ => isFalse (fun h => by cases h)
  | .error _, .ok _ => isFalse (fun h => by cases h)

/-! ## Wire types -/

/-- Wire type code 0. -/
def WireTypeVarint : Nat := 0
/-- Wire type code 1. -/
def WireTypeFixed64 : Nat := 1
/-- Wire type code 2. -/
def WireTypeLengthDelimited : Nat := 2
/-- Wire type code 5. -/
def WireTypeFixed32 : Nat := 5

/-! ## Primitive encoder (pure byte producers) -/

/-- Groups of a base-128 varint, least significant first; `fuel + 1` bounds the number of groups. -/
def encodeVarintAux : Nat → Nat → List Byte
  | 0, v => [byte (v % 128)]
  | fuel + 1, v =>
    if v < 128 then [byte v] else byte (v % 128 + 128) :: encodeVarintAux fuel (v / 128)

/-- Modelled from the spec: `writeVarint(u64)` of the primitive encoder (package `csproto`, not
among the sources): little-endian base-128 groups, continuation bit set on all but the last
byte, canonical (non-padded) encoding.  A `uint64` has at most ten groups. -/
def EncodeVarint (v : Nat) : List Byte := encodeVarintAux 9 (v % 18446744073709551616)

/-- Modelled from the spec: `writeTag(fieldNumber, wireTypeCode)`: the varint of
`(fieldNumber<<3)|wireTypeCode`. -/
def EncodeTag (tag wt : Nat) : List Byte := EncodeVarint ((tag <<< 3) ||| wt)

/-- Modelled from the spec: the zig-zag map `(n << 1) ^ (n >> 63)` on the signed 64-bit domain,
as the unsigned 64-bit result. -/
def zigzagEncode (n : Int) : Nat := u64 (Int.xor (n <<< 1) (n >>> 63))

/-- Modelled from the spec: the zig-zag map "truncated appropriately for 32-bit variants":
`(n << 1) ^ (n >> 31)` as an unsigned 32-bit result. -/
def zigzagEncode32 (n : Int) : Nat := u32 (u64 (Int.xor (n <<< 1) (n >>> 31)))

/-- Modelled from the spec: the inverse of the zig-zag map on an unsigned 64-bit value. -/
def zigzagDecode (u : Nat) : Int :=
  if u % 2 = 0 then ((u / 2 : Nat) : Int) else -((u / 2 : Nat) : Int) - 1

/-- Little-endian bytes of `v`, `n` of them. -/
def leBytes : Nat → Nat → List Byte
  | 0, _ => []
  | n + 1, v => byte (v % 256) :: leBytes n (v / 256)

/-- The number denoted by little-endian bytes. -/
def leValue : List Byte → Nat
  | [] => 0
  | b :: bs => b.val + 256 * leValue bs

/-- Modelled from the spec: `writeFixed32`: raw little-endian bytes, fixed width. -/
def EncodeFixed32 (v : Nat) : List Byte := leBytes 4 (v % 4294967296)

/-- Modelled from the spec: `writeFixed64`: raw little-endian bytes, fixed width. -/
def EncodeFixed64 (v : Nat) : List Byte := leBytes 8 (v % 18446744073709551616)

/-- Modelled from the spec: `writeLengthDelimited(bytes)`: `writeVarint(len(bytes))` followed by
the raw bytes. -/
def EncodeLengthDelimited (bs : List Byte) : List Byte := EncodeVarint bs.length ++ bs

/-! ## Sizes -/

/-- Number of groups of a varint; `fuel + 1` bounds the number of groups. -/
def sizeOfVarintAux : Nat → Nat → Nat
  | 0, _ => 1
  | fuel + 1, v => if v < 128 then 1 else 1 + sizeOfVarintAux fuel (v / 128)

/-- Modelled from the spec: `csproto.SizeOfVarint`, the `sizeOfEncodedValue` of a varint: the
number of bytes of the canonical varint of a `uint64`. -/
def SizeOfVarint (v : Nat) : Nat := sizeOfVarintAux 9 (v % 18446744073709551616)

/-- Modelled from the spec: `csproto.SizeOfTagKey`, the `sizeOfTag` of a field number: the size of
the varint of the field number shifted past the three wire-type bits. -/
def SizeOfTagKey (k : Nat) : Nat := SizeOfVarint (k <<< 3)

/-- Modelled from the spec: `csproto.SizeOfZigZag`: the size of the varint of the zig-zag map of
the argument read as a signed 64-bit integer. -/
def SizeOfZigZag (v : Nat) : Nat := SizeOfVarint (zigzagEncode (i64 v))

/-! ## The encoder over a caller-supplied buffer -/

/-- Modelled from the spec: the primitive encoder `csproto.Encoder`: a destination buffer and a
write cursor. -/
structure Encoder where
  p : List Byte
  offset : Nat
  deriving DecidableEq, Repr

/-- Modelled from the spec: `csproto.NewEncoder(dest)`: the cursor starts at the beginning. -/
def NewEncoder (dest : List Byte) : Encoder := ⟨dest, 0⟩

/-- Modelled from the spec: the contract of the primitive encoder: "append the wire
representation of one value and advance the cursor by exactly the number of bytes", mutating
"only the caller-provided buffer region from the cursor onward; never reallocates".  A write
that does not fit in the buffer is the Go index-out-of-range panic (`none`). -/
def Encoder.write (e : Encoder) (bs : List Byte) : Option Encoder :=
  if e.offset + bs.length ≤ e.p.length then
    some ⟨e.p.take e.offset ++ bs ++ e.p.drop (e.offset + bs.length), e.offset + bs.length⟩
  else none

/-- Modelled from the spec: `Encoder.EncodeInt32(tag, v)`: tag with wire type 0, then the varint
of the sign-extended value. -/
def Encoder.EncodeInt32 (e : Encoder) (tag : Nat) (v : Int) : Option Encoder :=
  (e.write (EncodeTag tag WireTypeVarint)).bind fun e => e.write (EncodeVarint (u64 v))

/-- Modelled from the spec: `Encoder.EncodeInt64(tag, v)`. -/
def Encoder.EncodeInt64 (e : Encoder) (tag : Nat) (v : Int) : Option Encoder :=
  (e.write (EncodeTag tag WireTypeVarint)).bind fun e => e.write (EncodeVarint (u64 v))

/-- Modelled from the spec: `Encoder.EncodeUInt32(tag, v)`. -/
def Encoder.EncodeUInt32 (e : Encoder) (tag : Nat) (v : Nat) : Option Encoder :=
  (e.write (EncodeTag tag WireTypeVarint)).bind fun e => e.write (EncodeVarint v)

/-- Modelled from the spec: `Encoder.EncodeUInt64(tag, v)`. -/
def Encoder.EncodeUInt64 (e : Encoder) (tag : Nat) (v : Nat) : Option Encoder :=
  (e.write (EncodeTag tag WireTypeVarint)).bind fun e => e.write (EncodeVarint v)

/-- Modelled from the spec: `Encoder.EncodeSInt32(tag, v)`: `writeZigZag` in its 32-bit variant. -/
def Encoder.EncodeSInt32 (e : Encoder) (tag : Nat) (v : Int) : Option Encoder :=
  (e.write (EncodeTag tag WireTypeVarint)).bind fun e => e.write (EncodeVarint (zigzagEncode32 v))

/-- Modelled from the spec: `Encoder.EncodeSInt64(tag, v)`: `writeZigZag`. -/
def Encoder.EncodeSInt64 (e : Encoder) (tag : Nat) (v : Int) : Option Encoder :=
  (e.write (EncodeTag tag WireTypeVarint)).bind fun e => e.write (EncodeVarint (zigzagEncode v))

/-- Modelled from the spec: `Encoder.EncodeBool(tag, v)`: tag with wire type 0, then one byte,
1 or 0. -/
def Encoder.EncodeBool (e : Encoder) (tag : Nat) (v : Bool) : Option Encoder :=
  (e.write (EncodeTag tag WireTypeVarint)).bind fun e => e.write [if v then 1 else 0]

/-- Modelled from the spec: `Encoder.EncodeFixed32(tag, v)`: tag with wire type 5, then
`writeFixed32`. -/
def Encoder.EncodeFixed32 (e : Encoder) (tag : Nat) (v : Nat) : Option Encoder :=
  (e.write (EncodeTag tag WireTypeFixed32)).bind fun e => e.write (Csproto.EncodeFixed32 v)

/-- Modelled from the spec: `Encoder.EncodeFixed64(tag, v)`: tag with wire type 1, then
`writeFixed64`. -/
def Encoder.EncodeFixed64 (e : Encoder) (tag : Nat) (v : Nat) : Option Encoder :=
  (e.write (EncodeTag tag WireTypeFixed64)).bind fun e => e.write (Csproto.EncodeFixed64 v)

/-- Modelled from the spec: `Encoder.EncodeBytes(tag, v)`: tag with wire type 2, then
`writeLengthDelimited`. -/
def Encoder.EncodeBytes (e : Encoder) (tag : Nat) (v : List Byte) : Option Encoder :=
  (e.write (EncodeTag tag WireTypeLengthDelimited)).bind fun e =>
    e.write (EncodeLengthDelimited v)

/-- Modelled from the spec: `Encoder.EncodeString(tag, s)`: as `EncodeBytes` on the bytes of the
string. -/
def Encoder.EncodeString (e : Encoder) (tag : Nat) (s : List Byte) : Option Encoder :=
  e.EncodeBytes tag s

/-- The encoder has written exactly `w` into a buffer of `n` bytes. -/
def Encoder.At (e : Encoder) (w : List Byte) (n : Nat) : Prop :=
  e.offset = w.length ∧ e.p.take e.offset = w ∧ e.p.length = n

/-! ## The nested message -/

/-- The codec of the nested message type `EmbeddedEvent`, whose generated file is not among the
sources: its `Size`, `Marshal` and `Unmarshal` (into a fresh value) are parameters. -/
structure NestedCodec (E : Type) where
  Size : E → Nat
  Marshal : E → Except Err (List Byte)
  Unmarshal : List Byte → Except Err E

/-- Modelled from the spec: `Encoder.EncodeNested(tag, m)`: the nested message's own `Marshal`
output is the payload of a length-delimited value; a failure of the nested `Marshal` is returned
as an error (second component) and nothing is written. -/
def Encoder.EncodeNested {E : Type} (c : NestedCodec E) (e : Encoder) (tag : Nat) (m : E) :
    Option (Encoder × Option Err) :=
  match c.Marshal m with
  | .error err => some (e, some err)
  | .ok payload =>
    ((e.write (EncodeTag tag WireTypeLengthDelimited)).bind fun e =>
      e.write (EncodeLengthDelimited payload)).map fun e => (e, none)

/-! ## The message -/

/-- Modelled from the spec: the Go struct `AllTheThings` (declared in the generated `.pb.go`
file, not among the sources).  The fields and their Go types are the ones `Size`, `MarshalTo`
and `Unmarshal` read and assign; `XXX_unrecognized` is the unrecognized tail. -/
structure AllTheThings (E : Type) where
  ID : Int
  TheString : List Byte
  TheBool : Bool
  TheInt32 : Int
  TheInt64 : Int
  TheUInt32 : Nat
  TheUInt64 : Nat
  TheSInt32 : Int
  TheSInt64 : Int
  TheFixed32 : Nat
  TheFixed64 : Nat
  TheSFixed32 : Int
  TheSFixed64 : Int
  TheEventType : Int
  TheBytes : List Byte
  TheMessage : Option E
  XXX_unrecognized : List Byte
  deriving DecidableEq, Repr

/-- The field values are in the ranges of their Go types (a length is a non-negative `int`). -/
def AllTheThings.WF {E : Type} (m : AllTheThings E) : Prop :=
  isInt32 m.ID ∧ isInt32 m.TheInt32 ∧ isInt64 m.TheInt64 ∧ isUInt32 m.TheUInt32 ∧
  isUInt64 m.TheUInt64 ∧ isInt32 m.TheSInt32 ∧ isInt64 m.TheSInt64 ∧ isUInt32 m.TheFixed32 ∧
  isUInt64 m.TheFixed64 ∧ isInt32 m.TheSFixed32 ∧ isInt64 m.TheSFixed64 ∧
  isInt32 m.TheEventType ∧ m.TheString.length < 9223372036854775808 ∧
  m.TheBytes.length < 9223372036854775808

instance {E : Type} (m : AllTheThings E) : Decidable m.WF := by
  unfold AllTheThings.WF; infer_instance

/-- Modelled from the spec: the zero state `AllTheThings{}` that `Reset` (generated in the
`.pb.go` file, not among the sources) leaves: every field at its zero value, no nested message
and an empty unrecognized tail. -/
def AllTheThings.zero {E : Type} : AllTheThings E :=
  { ID := 0, TheString := [], TheBool := false, TheInt32 := 0, TheInt64 := 0, TheUInt32 := 0,
    TheUInt64 := 0, TheSInt32 := 0, TheSInt64 := 0, TheFixed32 := 0, TheFixed64 := 0,
    TheSFixed32 := 0, TheSFixed64 := 0, TheEventType := 0, TheBytes := [], TheMessage := none,
    XXX_unrecognized := [] }

/-- Modelled from the spec: `m.Reset()`: "resets the target to its zero state (clearing prior
contents, including prior unrecognized tail)". -/
def AllTheThings.Reset {E : Type} (_m : AllTheThings E) : AllTheThings E := AllTheThings.zero

/-- The method `AllTheThings.Size`: the size, in bytes, of the encoding of `m`; `none` is the nil
receiver. -/
def AllTheThings.Size {E : Type} (c : NestedCodec E) (m : Option (AllTheThings E)) : Nat :=
  match m with
  | none => 0
  | some m =>
    let sz := 0
    -- ID (int32,optional)
    let sz := sz + (SizeOfTagKey 1 + SizeOfVarint (u64 m.ID))
    -- TheString (string,optional)
    let sz := if m.TheString.length > 0 then
        sz + (SizeOfTagKey 2 + SizeOfVarint m.TheString.length + m.TheString.length) else sz
    -- TheBool (bool,optional)
    let sz := sz + (SizeOfTagKey 3 + 1)
    -- TheInt32 (int32,optional)
    let sz := sz + (SizeOfTagKey 4 + SizeOfVarint (u64 m.TheInt32))
    -- TheInt64 (int64,optional)
    let sz := sz + (SizeOfTagKey 5 + SizeOfVarint (u64 m.TheInt64))
    -- TheUInt32 (uint32,optional)
    let sz := sz + (SizeOfTagKey 6 + SizeOfVarint m.TheUInt32)
    -- TheUInt64 (uint64,optional)
    let sz := sz + (SizeOfTagKey 7 + SizeOfVarint m.TheUInt64)
    -- TheSInt32 (sint32,optional)
    let sz := sz + (SizeOfTagKey 8 + SizeOfZigZag (u64 m.TheSInt32))
    -- TheSInt64 (sint64,optional)
    let sz := sz + (SizeOfTagKey 9 + SizeOfZigZag (u64 m.TheSInt64))
    -- TheFixed32 (fixed32,optional)
    let sz := sz + (SizeOfTagKey 10 + 4)
    -- TheFixed64 (fixed64,optional)
    let sz := sz + (SizeOfTagKey 11 + 8)
    -- TheSFixed32 (sfixed32,optional)
    let sz := sz + (SizeOfTagKey 12 + 4)
    -- TheSFixed64 (sfixed64,optional)
    let sz := sz + (SizeOfTagKey 13 + 8)
    -- TheEventType (enum,optional)
    let sz := sz + (SizeOfTagKey 14 + SizeOfVarint (u64 m.TheEventType))
    -- TheBytes (bytes,optional)
    let sz := if m.TheBytes.length > 0 then
        sz + (SizeOfTagKey 15 + SizeOfVarint m.TheBytes.length + m.TheBytes.length) else sz
    -- TheMessage (message,optional)
    let sz := match m.TheMessage with
      | some e => sz + (SizeOfTagKey 16 + SizeOfVarint (c.Size e) + c.Size e)
      | none => sz
    sz

/-- The body of `AllTheThings.MarshalTo` on a non-nil receiver, returning the encoder it leaves
behind and the error it returns; `none` is a panic (a write outside `dest`). -/
def AllTheThings.marshalEnc {E : Type} (c : NestedCodec E) (m : AllTheThings E)
    (dest : List Byte) : Option (Encoder × Option Err) :=
  let enc := NewEncoder dest
  -- ID (1,int32,optional)
  match enc.EncodeInt32 1 m.ID with
  | none => none
  | some enc =>
  -- TheString (2,string,optional)
  match (if m.TheString.length > 0 then enc.EncodeString 2 m.TheString else some enc) with
  | none => none
  | some enc =>
  -- TheBool (3,bool,optional)
  match enc.EncodeBool 3 m.TheBool with
  | none => none
  | some enc =>
  -- TheInt32 (4,int32,optional)
  match enc.EncodeInt32 4 m.TheInt32 with
  | none => none
  | some enc =>
  -- TheInt64 (5,int64,optional)
  match enc.EncodeInt64 5 m.TheInt64 with
  | none => none
  | some enc =>
  -- TheUInt32 (6,uint32,optional)
  match enc.EncodeUInt32 6 m.TheUInt32 with
  | none => none
  | some enc =>
  -- TheUInt64 (7,uint64,optional)
  match enc.EncodeUInt64 7 m.TheUInt64 with
  | none => none
  | some enc =>
  -- TheSInt32 (8,sint32,optional)
  match enc.EncodeSInt32 8 m.TheSInt32 with
  | none => none
  | some enc =>
  -- TheSInt64 (9,sint64,optional)
  match enc.EncodeSInt64 9 m.TheSInt64 with
  | none => none
  | some enc =>
  -- TheFixed32 (10,fixed32,optional)
  match enc.EncodeFixed32 10 m.TheFixed32 with
  | none => none
  | some enc =>
  -- TheFixed64 (11,fixed64,optional)
  match enc.EncodeFixed64 11 m.TheFixed64 with
  | none => none
  | some enc =>
  -- TheSFixed32 (12,sfixed32,optional)
  match enc.EncodeFixed32 12 (u32 (u64 m.TheSFixed32)) with
  | none => none
  | some enc =>
  -- TheSFixed64 (13,sfixed64,optional)
  match enc.EncodeFixed64 13 (u64 m.TheSFixed64) with
  | none => none
  | some enc =>
  -- TheEventType (14,enum,optional)
  match enc.EncodeInt32 14 m.TheEventType with
  | none => none
  | some enc =>
  -- TheBytes (15,bytes,optional)
  match (if m.TheBytes.length > 0 then enc.EncodeBytes 15 m.TheBytes else some enc) with
  | none => none
  | some enc =>
  -- TheMessage (16,message,optional)
  match m.TheMessage with
  | none => some (enc, none)
  | some e =>
    match enc.EncodeNested c 16 e with
    | none => none
    | some (enc, some err) => some (enc, some (Err.fieldEncode 16 err))
    | some (enc, none) => some (enc, none)

/-- The method `AllTheThings.MarshalTo`: writes the encoding of `m` to `dest`; returns the contents of
`dest` afterwards and the error.  `none` is a panic: a nil receiver, or a write outside `dest`. -/
def AllTheThings.MarshalTo {E : Type} (c : NestedCodec E) (m : Option (AllTheThings E))
    (dest : List Byte) : Option (List Byte × Option Err) :=
  match m with
  | none => none
  | some m => (AllTheThings.marshalEnc c m dest).map fun r => (r.1.p, r.2)

/-- The method `AllTheThings.Marshal`: allocates a zeroed buffer of `Size` bytes and calls `MarshalTo`;
returns the buffer and the error. -/
def AllTheThings.Marshal {E : Type} (c : NestedCodec E) (m : Option (AllTheThings E)) :
    Option (List Byte × Option Err) :=
  let siz := AllTheThings.Size c m
  let buf := List.replicate siz (0 : Byte)
  AllTheThings.MarshalTo c m buf

/-! ## Primitive decoder -/

/-- Accumulates the 7-bit groups of a varint, least significant first.  Returns the value and the
number of bytes read; `fuel` bounds the number of groups. -/
def decodeVarintAux : Nat → List Byte → Except Err (Nat × Nat)
  | _, [] => .error .truncatedVarint
  | 0, _ :: _ => .error .varintOverflow
  | fuel + 1, b :: rest =>
    if b.val < 128 then .ok (b.val, 1)
    else
      match decodeVarintAux fuel rest with
      | .error err => .error err
      | .ok (v, n) => .ok (b.val % 128 + 128 * v, n + 1)

/-- Modelled from the spec: `readVarint()` of the primitive decoder (package `csproto`, not among
the sources), on the bytes at the cursor: "accumulate 7-bit groups; fails with `TruncatedVarint`
if the buffer ends before a terminating byte appears, and with `VarintOverflow` if more than 10
groups are consumed".  Returns the `uint64` and the number of bytes read. -/
def DecodeVarint (p : List Byte) : Except Err (Nat × Nat) :=
  match decodeVarintAux 10 p with
  | .error err => .error err
  | .ok (v, n) => .ok (v % 18446744073709551616, n)

/-- Modelled from the spec: the primitive decoder `csproto.Decoder`: an input buffer it does not
own and a read cursor. -/
structure Decoder where
  p : List Byte
  offset : Nat
  deriving DecidableEq, Repr

/-- Modelled from the spec: `csproto.NewDecoder(p)`: the cursor starts at the beginning. -/
def NewDecoder (p : List Byte) : Decoder := ⟨p, 0⟩

/-- The bytes from the cursor onward. -/
def Decoder.rest (d : Decoder) : List Byte := d.p.drop d.offset

/-- The decoder with its cursor moved forward by `n`. -/
def Decoder.advance (d : Decoder) (n : Nat) : Decoder := { d with offset := d.offset + n }

/-- Modelled from the spec: `Decoder.More()`: "loop while bytes remain". -/
def Decoder.More (d : Decoder) : Bool := decide (d.offset < d.p.length)

/-- Modelled from the spec: `readVarint()` at the cursor, advancing it. -/
def Decoder.readVarint (d : Decoder) : Except Err (Nat × Decoder) :=
  match DecodeVarint d.rest with
  | .error err => .error err
  | .ok (v, n) => .ok (v, d.advance n)

/-- Modelled from the spec: `readTag()`: "decode one varint, split into field number and 3-bit
wire-type code; fails with `MalformedTag` if the varint decoding itself fails or the buffer is
exhausted mid-tag". -/
def Decoder.DecodeTag (d : Decoder) : Except Err (Nat × Nat × Decoder) :=
  match d.readVarint with
  | .error _ => .error .malformedTag
  | .ok (v, d) => .ok (v >>> 3, v &&& 7, d)

/-- Modelled from the spec: `readFixed32`/`readFixed64` for a width of `n` bytes: fails with
`TruncatedFixedWidth` if fewer than `n` bytes remain; the value is little-endian. -/
def Decoder.readFixed (d : Decoder) (n : Nat) : Except Err (Nat × Decoder) :=
  if d.rest.length < n then .error .truncatedFixedWidth
  else .ok (leValue (d.rest.take n), d.advance n)

/-- Modelled from the spec: `readLengthDelimited()`: "`readVarint()` for length, then fails with
`TruncatedPayload` if fewer than that many bytes remain; otherwise returns a view over exactly
that many bytes and advances the cursor past them". -/
def Decoder.readLengthDelimited (d : Decoder) : Except Err (List Byte × Decoder) :=
  match d.readVarint with
  | .error err => .error err
  | .ok (l, d) =>
    if d.rest.length < l then .error .truncatedPayload
    else .ok (d.rest.take l, d.advance l)

/-- Modelled from the spec: `Decoder.DecodeInt32()`: a varint, converted to `int32`. -/
def Decoder.DecodeInt32 (d : Decoder) : Except Err (Int × Decoder) :=
  match d.readVarint with
  | .error err => .error err
  | .ok (v, d) => .ok (i32 v, d)

/-- Modelled from the spec: `Decoder.DecodeInt64()`: a varint, converted to `int64`. -/
def Decoder.DecodeInt64 (d : Decoder) : Except Err (Int × Decoder) :=
  match d.readVarint with
  | .error err => .error err
  | .ok (v, d) => .ok (i64 v, d)

/-- Modelled from the spec: `Decoder.DecodeUInt32()`: a varint, converted to `uint32`. -/
def Decoder.DecodeUInt32 (d : Decoder) : Except Err (Nat × Decoder) :=
  match d.readVarint with
  | .error err => .error err
  | .ok (v, d) => .ok (u32 v, d)

/-- Modelled from the spec: `Decoder.DecodeUInt64()`: a varint. -/
def Decoder.DecodeUInt64 (d : Decoder) : Except Err (Nat × Decoder) :=
  d.readVarint

/-- Modelled from the spec: `Decoder.DecodeBool()`: a varint, true when non-zero. -/
def Decoder.DecodeBool (d : Decoder) : Except Err (Bool × Decoder) :=
  match d.readVarint with
  | .error err => .error err
  | .ok (v, d) => .ok (decide (v ≠ 0), d)

/-- Modelled from the spec: `Decoder.DecodeSInt32()`: `readZigZag()` "truncated appropriately for
32-bit variants": the inverse zig-zag map of the low 32 bits of the varint. -/
def Decoder.DecodeSInt32 (d : Decoder) : Except Err (Int × Decoder) :=
  match d.readVarint with
  | .error err => .error err
  | .ok (v, d) => .ok (zigzagDecode (u32 v), d)

/-- Modelled from the spec: `Decoder.DecodeSInt64()`: `readZigZag()`: "inverse of the zig-zag map
applied to `readVarint()`'s result". -/
def Decoder.DecodeSInt64 (d : Decoder) : Except Err (Int × Decoder) :=
  match d.readVarint with
  | .error err => .error err
  | .ok (v, d) => .ok (zigzagDecode v, d)

/-- Modelled from the spec: `Decoder.DecodeFixed32()`: `readFixed32`. -/
def Decoder.DecodeFixed32 (d : Decoder) : Except Err (Nat × Decoder) := d.readFixed 4

/-- Modelled from the spec: `Decoder.DecodeFixed64()`: `readFixed64`. -/
def Decoder.DecodeFixed64 (d : Decoder) : Except Err (Nat × Decoder) := d.readFixed 8

/-- Modelled from the spec: `Decoder.DecodeBytes()`: `readLengthDelimited()`. -/
def Decoder.DecodeBytes (d : Decoder) : Except Err (List Byte × Decoder) := d.readLengthDelimited

/-- Modelled from the spec: `Decoder.DecodeString()`: `readLengthDelimited()`, no UTF-8
validation. -/
def Decoder.DecodeString (d : Decoder) : Except Err (List Byte × Decoder) := d.readLengthDelimited

/-- Modelled from the spec: `Decoder.DecodeNested(&mm)`: "recursively invoke the nested shape's
Unmarshal into a freshly zeroed nested value, over exactly the length-delimited payload slice";
a failure of the nested `Unmarshal` is a `NestedDecodeFailure`. -/
def Decoder.DecodeNested {E : Type} (c : NestedCodec E) (d : Decoder) : Except Err (E × Decoder) :=
  match d.readLengthDelimited with
  | .error err => .error err
  | .ok (payload, d) =>
    match c.Unmarshal payload with
    | .error err => .error (.nestedDecodeFailure err)
    | .ok mm => .ok (mm, d)

/-- Modelled from the spec: `Decoder.Skip(tag, wt)`: "decode and discard a value of the given wire
type (varint: consume one varint; fixed32/64: consume 4/8 bytes; length-delimited: consume
length-prefix + payload); returns the exact raw bytes consumed (tag *not* included)"; "fails with
`UnsupportedWireType`" for the group codes, and here for every code that is not 0, 1, 2 or 5. -/
def Decoder.Skip (d : Decoder) (_tag : Nat) (wt : Nat) : Except Err (List Byte × Decoder) :=
  if wt = WireTypeVarint then
    match d.readVarint with
    | .error err => .error err
    | .ok (_, d2) => .ok (d.rest.take (d2.offset - d.offset), d2)
  else if wt = WireTypeFixed64 then
    match d.readFixed 8 with
    | .error err => .error err
    | .ok (_, d2) => .ok (d.rest.take (d2.offset - d.offset), d2)
  else if wt = WireTypeLengthDelimited then
    match d.readLengthDelimited with
    | .error err => .error err
    | .ok (_, d2) => .ok (d.rest.take (d2.offset - d.offset), d2)
  else if wt = WireTypeFixed32 then
    match d.readFixed 4 with
    | .error err => .error err
    | .ok (_, d2) => .ok (d.rest.take (d2.offset - d.offset), d2)
  else .error .unsupportedWireType

/-! ## Unmarshal -/

/-- One iteration of the loop of `AllTheThings.Unmarshal`: `dec.DecodeTag()` and the `switch` on
the tag.  Returns the decoder and the target after the iteration, or the error the iteration
returns; the target is assigned only when the value was decoded. -/
def AllTheThings.unmarshalStep {E : Type} (c : NestedCodec E) (dec : Decoder)
    (m : AllTheThings E) : Except Err (Decoder × AllTheThings E) :=
  match dec.DecodeTag with
  | .error err => .error err
  | .ok (tag, wt, dec) =>
    if tag = 1 then
      -- ID (int32,optional)
      if wt ≠ WireTypeVarint then .error (.wireTypeMismatch 1 wt)
      else match dec.DecodeInt32 with
        | .error err => .error (.fieldDecode 1 err)
        | .ok (v, dec) => .ok (dec, { m with ID := v })
    else if tag = 2 then
      -- TheString (string,optional)
      if wt ≠ WireTypeLengthDelimited then .error (.wireTypeMismatch 2 wt)
      else match dec.DecodeString with
        | .error err => .error (.fieldDecode 2 err)
        | .ok (v, dec) => .ok (dec, { m with TheString := v })
    else if tag = 3 then
      -- TheBool (bool,optional)
      if wt ≠ WireTypeVarint then .error (.wireTypeMismatch 3 wt)
      else match dec.DecodeBool with
        | .error err => .error (.fieldDecode 3 err)
        | .ok (v, dec) => .ok (dec, { m with TheBool := v })
    else if tag = 4 then
      -- TheInt32 (int32,optional)
      if wt ≠ WireTypeVarint then .error (.wireTypeMismatch 4 wt)
      else match dec.DecodeInt32 with
        | .error err => .error (.fieldDecode 4 err)
        | .ok (v, dec) => .ok (dec, { m with TheInt32 := v })
    else if tag = 5 then
      -- TheInt64 (int64,optional)
      if wt ≠ WireTypeVarint then .error (.wireTypeMismatch 5 wt)
      else match dec.DecodeInt64 with
        | .error err => .error (.fieldDecode 5 err)
        | .ok (v, dec) => .ok (dec, { m with TheInt64 := v })
    else if tag = 6 then
      -- TheUInt32 (uint32,optional)
      if wt ≠ WireTypeVarint then .error (.wireTypeMismatch 6 wt)
      else match dec.DecodeUInt32 with
        | .error err => .error (.fieldDecode 6 err)
        | .ok (v, dec) => .ok (dec, { m with TheUInt32 := v })
    else if tag = 7 then
      -- TheUInt64 (uint64,optional)
      if wt ≠ WireTypeVarint then .error (.wireTypeMismatch 7 wt)
      else match dec.DecodeUInt64 with
        | .error err => .error (.fieldDecode 7 err)
        | .ok (v, dec) => .ok (dec, { m with TheUInt64 := v })
    else if tag = 8 then
      -- TheSInt32 (sint32,optional)
      if wt ≠ WireTypeVarint then .error (.wireTypeMismatch 8 wt)
      else match dec.DecodeSInt32 with
        | .error err => .error (.fieldDecode 8 err)
        | .ok (v, dec) => .ok (dec, { m with TheSInt32 := v })
    else if tag = 9 then
      -- TheSInt64 (sint64,optional)
      if wt ≠ WireTypeVarint then .error (.wireTypeMismatch 9 wt)
      else match dec.DecodeSInt64 with
        | .error err => .error (.fieldDecode 9 err)
        | .ok (v, dec) => .ok (dec, { m with TheSInt64 := v })
    else if tag = 10 then
      -- TheFixed32 (fixed32,optional)
      if wt ≠ WireTypeFixed32 then .error (.wireTypeMismatch 10 wt)
      else match dec.DecodeFixed32 with
        | .error err => .error (.fieldDecode 10 err)
        | .ok (v, dec) => .ok (dec, { m with TheFixed32 := v })
    else if tag = 11 then
      -- TheFixed64 (fixed64,optional)
      if wt ≠ WireTypeFixed64 then .error (.wireTypeMismatch 11 wt)
      else match dec.DecodeFixed64 with
        | .error err => .error (.fieldDecode 11 err)
        | .ok (v, dec) => .ok (dec, { m with TheFixed64 := v })
    else if tag = 12 then
      -- TheSFixed32 (sfixed32,optional)
      if wt ≠ WireTypeFixed32 then .error (.wireTypeMismatch 12 wt)
      else match dec.DecodeFixed32 with
        | .error err => .error (.fieldDecode 12 err)
        | .ok (v, dec) => .ok (dec, { m with TheSFixed32 := i32 v })
    else if tag = 13 then
      -- TheSFixed64 (sfixed64,optional)
      if wt ≠ WireTypeFixed64 then .error (.wireTypeMismatch 13 wt)
      else match dec.DecodeFixed64 with
        | .error err => .error (.fieldDecode 13 err)
        | .ok (v, dec) => .ok (dec, { m with TheSFixed64 := i64 v })
    else if tag = 14 then
      -- TheEventType (enum,optional)
      if wt ≠ WireTypeVarint then .error (.wireTypeMismatch 14 wt)
      else match dec.DecodeInt32 with
        | .error err => .error (.fieldDecode 14 err)
        | .ok (v, dec) => .ok (dec, { m with TheEventType := v })
    else if tag = 15 then
      -- TheBytes (bytes,optional)
      if wt ≠ WireTypeLengthDelimited then .error (.wireTypeMismatch 15 wt)
      else match dec.DecodeBytes with
        | .error err => .error (.fieldDecode 15 err)
        | .ok (v, dec) => .ok (dec, { m with TheBytes := v })
    else if tag = 16 then
      -- TheMessage (message,optional)
      if wt ≠ WireTypeLengthDelimited then .error (.wireTypeMismatch 16 wt)
      else match dec.DecodeNested c with
        | .error err => .error (.fieldDecode 16 err)
        | .ok (mm, dec) => .ok (dec, { m with TheMessage := some mm })
    else
      match dec.Skip tag wt with
      | .error err => .error (.skipFailed tag err)
      | .ok (skipped, dec) =>
        .ok (dec, { m with XXX_unrecognized := m.XXX_unrecognized ++ skipped })

/-- Result of the loop of `Unmarshal`: the target, the decoder, and the error returned (`none`
is Go's `nil`). -/
structure Outcome (E : Type) where
  m : AllTheThings E
  dec : Decoder
  err : Option Err
  deriving DecidableEq, Repr

/-- The loop `for dec.More() { ... }` of `AllTheThings.Unmarshal`, run for at most `fuel`
iterations.  On an error the target keeps what the earlier iterations assigned. -/
def AllTheThings.unmarshalLoop {E : Type} (c : NestedCodec E) :
    Nat → Decoder → AllTheThings E → Outcome E
  | 0, dec, m => ⟨m, dec, some .loopBound⟩
  | fuel + 1, dec, m =>
    if dec.More then
      match AllTheThings.unmarshalStep c dec m with
      | .error err => ⟨m, dec, some err⟩
      | .ok (dec2, m2) => AllTheThings.unmarshalLoop c fuel dec2 m2
    else ⟨m, dec, none⟩

/-- The number of times the body of the loop `for dec.More() { ... }` of
`AllTheThings.Unmarshal` is entered when the loop is allowed `fuel` iterations: the loop of
`unmarshalLoop` with a counter in place of the result. -/
def AllTheThings.loopIterations {E : Type} (c : NestedCodec E) :
    Nat → Decoder → AllTheThings E → Nat
  | 0, _, _ => 0
  | fuel + 1, dec, m =>
    if dec.More then
      match AllTheThings.unmarshalStep c dec m with
      | .error _ => 1
      | .ok (dec2, m2) => 1 + AllTheThings.loopIterations c fuel dec2 m2
    else 0

/-- The body of `AllTheThings.Unmarshal` with the decoder it leaves behind: the empty buffer is
refused before anything is touched; otherwise the target is reset and the loop runs.  Every
iteration reads at least one byte, so `len(p) + 1` iterations are enough. -/
def AllTheThings.unmarshalRun {E : Type} (c : NestedCodec E) (m : AllTheThings E)
    (p : List Byte) : Outcome E :=
  if p.length = 0 then ⟨m, NewDecoder p, some .emptyInput⟩
  else
    -- clear any existing data
    let m := m.Reset
    let dec := NewDecoder p
    AllTheThings.unmarshalLoop c (p.length + 1) dec m

/-- The method `AllTheThings.Unmarshal`: decodes `p` into the target `m`; returns the target after the call
and the error (`none` is Go's `nil`). -/
def AllTheThings.Unmarshal {E : Type} (c : NestedCodec E) (m : AllTheThings E)
    (p : List Byte) : AllTheThings E × Option Err :=
  let r := AllTheThings.unmarshalRun c m p
  (r.m, r.err)

/-! ## Field records on the wire

The vocabulary in which the properties of the codec are stated: a buffer seen as a sequence of
field records, each a tag followed by a value of one of the four wire types. -/

/-- A value on the wire with the raw bytes it occupies: a varint (raw groups and the number they
denote), eight or four raw bytes, or a length prefix (raw groups) followed by a payload. -/
inductive WireValue where
  | varint (raw : List Byte) (v : Nat)
  | fixed64 (raw : List Byte)
  | lengthDelimited (lenRaw : List Byte) (payload : List Byte)
  | fixed32 (raw : List Byte)
  deriving DecidableEq, Repr

/-- The wire-type code of a value. -/
def WireValue.wireType : WireValue → Nat
  | .varint _ _ => WireTypeVarint
  | .fixed64 _ => WireTypeFixed64
  | .lengthDelimited _ _ => WireTypeLengthDelimited
  | .fixed32 _ => WireTypeFixed32

/-- The bytes of a value, the tag not included. -/
def WireValue.bytes : WireValue → List Byte
  | .varint raw _ => raw
  | .fixed64 raw => raw
  | .lengthDelimited lenRaw payload => lenRaw ++ payload
  | .fixed32 raw => raw

/-- The value is well formed: the raw groups of a varint are one whole varint denoting the
number (canonical or not), a fixed-width value has its width, and a length prefix is one whole
varint denoting the length of the payload. -/
def WireValue.Valid : WireValue → Prop
  | .varint raw v => DecodeVarint raw = .ok (v, raw.length)
  | .fixed64 raw => raw.length = 8
  | .lengthDelimited lenRaw payload => DecodeVarint lenRaw = .ok (payload.length, lenRaw.length)
  | .fixed32 raw => raw.length = 4

instance (w : WireValue) : Decidable w.Valid := by
  cases w <;> unfold WireValue.Valid <;> infer_instance

/-- A field record: the raw bytes of its tag, its field number, and its value. -/
structure Record where
  tagRaw : List Byte
  tag : Nat
  val : WireValue
  deriving DecidableEq, Repr

/-- The bytes of a record: tag bytes followed by value bytes. -/
def Record.bytes (r : Record) : List Byte := r.tagRaw ++ r.val.bytes

/-- The record is well formed: its tag bytes are one whole varint whose value is
`(fieldNumber<<3)|wireType`, and its value is well formed. -/
def Record.Valid (r : Record) : Prop :=
  DecodeVarint r.tagRaw = .ok ((r.tag <<< 3) ||| r.val.wireType, r.tagRaw.length) ∧ r.val.Valid

instance (r : Record) : Decidable r.Valid := by
  unfold Record.Valid; infer_instance

/-- The bytes of a sequence of records, in order. -/
def recordsBytes : List Record → List Byte
  | [] => []
  | r :: rs => r.bytes ++ recordsBytes rs

/-- The wire type the generated `Unmarshal` expects for a known field number. -/
def expectedWireType (k : Nat) : Nat :=
  if k = 2 ∨ k = 15 ∨ k = 16 then WireTypeLengthDelimited
  else if k = 10 ∨ k = 12 then WireTypeFixed32
  else if k = 11 ∨ k = 13 then WireTypeFixed64
  else WireTypeVarint

/-- A well-formed record of a known field: the field number is in 1..16, the value has the wire
type the field expects and, for the nested message (field 16), the payload is one the nested
`Unmarshal` accepts. -/
def Record.IsKnownField {E : Type} (c : NestedCodec E) (r : Record) : Prop :=
  r.Valid ∧ (1 ≤ r.tag ∧ r.tag ≤ 16) ∧ r.val.wireType = expectedWireType r.tag ∧
  (r.tag = 16 → ∀ lenRaw payload, r.val = .lengthDelimited lenRaw payload →
    ∃ e, c.Unmarshal payload = .ok e)

/-- A well-formed record of an unknown field: the field number is not in 1..16 (the wire type
is one of 0, 1, 2 and 5, as for every `WireValue`). -/
def Record.IsUnknownField (r : Record) : Prop :=
  r.Valid ∧ ¬ (1 ≤ r.tag ∧ r.tag ≤ 16)

/-- What a record does to the target: the field a known record assigns and the value it gets,
the error of a known field number that carries another wire type or whose nested message is
refused, and for every other field number the value bytes appended to the unrecognized tail. -/
def Record.effect {E : Type} (c : NestedCodec E) (r : Record) (m : AllTheThings E) :
    Except Err (AllTheThings E) :=
  if r.tag = 1 then
    match r.val with
    | .varint _ v => .ok { m with ID := i32 v }
    | w => .error (.wireTypeMismatch 1 w.wireType)
  else if r.tag = 2 then
    match r.val with
    | .lengthDelimited _ b => .ok { m with TheString := b }
    | w => .error (.wireTypeMismatch 2 w.wireType)
  else if r.tag = 3 then
    match r.val with
    | .varint _ v => .ok { m with TheBool := decide (v ≠ 0) }
    | w => .error (.wireTypeMismatch 3 w.wireType)
  else if r.tag = 4 then
    match r.val with
    | .varint _ v => .ok { m with TheInt32 := i32 v }
    | w => .error (.wireTypeMismatch 4 w.wireType)
  else if r.tag = 5 then
    match r.val with
    | .varint _ v => .ok { m with TheInt64 := i64 v }
    | w => .error (.wireTypeMismatch 5 w.wireType)
  else if r.tag = 6 then
    match r.val with
    | .varint _ v => .ok { m with TheUInt32 := u32 v }
    | w => .error (.wireTypeMismatch 6 w.wireType)
  else if r.tag = 7 then
    match r.val with
    | .varint _ v => .ok { m with TheUInt64 := v }
    | w => .error (.wireTypeMismatch 7 w.wireType)
  else if r.tag = 8 then
    match r.val with
    | .varint _ v => .ok { m with TheSInt32 := zigzagDecode (u32 v) }
    | w => .error (.wireTypeMismatch 8 w.wireType)
  else if r.tag = 9 then
    match r.val with
    | .varint _ v => .ok { m with TheSInt64 := zigzagDecode v }
    | w => .error (.wireTypeMismatch 9 w.wireType)
  else if r.tag = 10 then
    match r.val with
    | .fixed32 raw => .ok { m with TheFixed32 := leValue raw }
    | w => .error (.wireTypeMismatch 10 w.wireType)
  else if r.tag = 11 then
    match r.val with
    | .fixed64 raw => .ok { m with TheFixed64 := leValue raw }
    | w => .error (.wireTypeMismatch 11 w.wireType)
  else if r.tag = 12 then
    match r.val with
    | .fixed32 raw => .ok { m with TheSFixed32 := i32 (leValue raw) }
    | w => .error (.wireTypeMismatch 12 w.wireType)
  else if r.tag = 13 then
    match r.val with
    | .fixed64 raw => .ok { m with TheSFixed64 := i64 (leValue raw) }
    | w => .error (.wireTypeMismatch 13 w.wireType)
  else if r.tag = 14 then
    match r.val with
    | .varint _ v => .ok { m with TheEventType := i32 v }
    | w => .error (.wireTypeMismatch 14 w.wireType)
  else if r.tag = 15 then
    match r.val with
    | .lengthDelimited _ b => .ok { m with TheBytes := b }
    | w => .error (.wireTypeMismatch 15 w.wireType)
  else if r.tag = 16 then
    match r.val with
    | .lengthDelimited _ b =>
      match c.Unmarshal b with
      | .ok mm => .ok { m with TheMessage := some mm }
      | .error err => .error (.fieldDecode 16 (.nestedDecodeFailure err))
    | w => .error (.wireTypeMismatch 16 w.wireType)
  else .ok { m with XXX_unrecognized := m.XXX_unrecognized ++ r.val.bytes }

/-- The effect of a sequence of records, in order, stopping at the first error: the target it
leaves and the error. -/
def runRecords {E : Type} (c : NestedCodec E) : List Record → AllTheThings E →
    AllTheThings E × Option Err
  | [], m => (m, none)
  | r :: rs, m =>
    match r.effect c m with
    | .error err => (m, some err)
    | .ok m2 => runRecords c rs m2

/-- The value bytes (tag bytes not included) of the records whose field number is not in
1..16, concatenated in order. -/
def unknownValueBytes : List Record → List Byte
  | [] => []
  | r :: rs => (if 1 ≤ r.tag ∧ r.tag ≤ 16 then [] else r.val.bytes) ++ unknownValueBytes rs

/-- The value of a singular scalar field of the message (fields 1 to 15), whatever its Go
type. -/
inductive FieldValue where
  | int (v : Int)
  | nat (v : Nat)
  | bool (b : Bool)
  | bytes (b : List Byte)
  | absent
  deriving DecidableEq, Repr

/-- The value of the singular scalar field with field number `k` in `m`; `absent` for every
number that is not in 1..15. -/
def AllTheThings.field {E : Type} (m : AllTheThings E) (k : Nat) : FieldValue :=
  if k = 1 then .int m.ID
  else if k = 2 then .bytes m.TheString
  else if k = 3 then .bool m.TheBool
  else if k = 4 then .int m.TheInt32
  else if k = 5 then .int m.TheInt64
  else if k = 6 then .nat m.TheUInt32
  else if k = 7 then .nat m.TheUInt64
  else if k = 8 then .int m.TheSInt32
  else if k = 9 then .int m.TheSInt64
  else if k = 10 then .nat m.TheFixed32
  else if k = 11 then .nat m.TheFixed64
  else if k = 12 then .int m.TheSFixed32
  else if k = 13 then .int m.TheSFixed64
  else if k = 14 then .int m.TheEventType
  else if k = 15 then .bytes m.TheBytes
  else .absent

/-- A well-formed record of a known singular scalar field: the field number is in 1..15 and the
value has the wire type the field expects. -/
def Record.IsScalarField (r : Record) : Prop :=
  r.Valid ∧ (1 ≤ r.tag ∧ r.tag ≤ 15) ∧ r.val.wireType = expectedWireType r.tag

instance (r : Record) : Decidable r.IsScalarField := by
  unfold Record.IsScalarField; infer_instance

/-- The value a record gives to the field it names: the value of that field after the record is
applied to the zero state. -/
def Record.value {E : Type} (c : NestedCodec E) (r : Record) : FieldValue :=
  match r.effect c AllTheThings.zero with
  | .ok m => m.field r.tag
  | .error _ => .absent

/-- The last record of the sequence that names field `k`, if any. -/
def lastWithTag (k : Nat) : List Record → Option Record
  | [] => none
  | r :: rs =>
    match lastWithTag k rs with
    | some x => some x
    | none => if r.tag = k then some r else none

/-- The canonical record of a varint field. -/
def Record.ofVarint (tag v : Nat) : Record :=
  ⟨EncodeTag tag WireTypeVarint, tag, .varint (EncodeVarint v) (v % 18446744073709551616)⟩

/-- The canonical record of a 32-bit fixed field. -/
def Record.ofFixed32 (tag v : Nat) : Record :=
  ⟨EncodeTag tag WireTypeFixed32, tag, .fixed32 (EncodeFixed32 v)⟩

/-- The canonical record of a 64-bit fixed field. -/
def Record.ofFixed64 (tag v : Nat) : Record :=
  ⟨EncodeTag tag WireTypeFixed64, tag, .fixed64 (EncodeFixed64 v)⟩

/-- The canonical record of a length-delimited field. -/
def Record.ofBytes (tag : Nat) (b : List Byte) : Record :=
  ⟨EncodeTag tag WireTypeLengthDelimited, tag, .lengthDelimited (EncodeVarint b.length) b⟩

/-- The records `MarshalTo` writes for `m`, in the order it writes them: fields 1 and 3 to 14
always, field 2 and field 15 when non-empty, field 16 when the nested message is present and
its `Marshal` succeeds. -/
def AllTheThings.records {E : Type} (c : NestedCodec E) (m : AllTheThings E) : List Record :=
  [Record.ofVarint 1 (u64 m.ID)] ++
  (if m.TheString.length > 0 then [Record.ofBytes 2 m.TheString] else []) ++
  [Record.ofVarint 3 (if m.TheBool then 1 else 0),
   Record.ofVarint 4 (u64 m.TheInt32),
   Record.ofVarint 5 (u64 m.TheInt64),
   Record.ofVarint 6 m.TheUInt32,
   Record.ofVarint 7 m.TheUInt64,
   Record.ofVarint 8 (zigzagEncode32 m.TheSInt32),
   Record.ofVarint 9 (zigzagEncode m.TheSInt64),
   Record.ofFixed32 10 m.TheFixed32,
   Record.ofFixed64 11 m.TheFixed64,
   Record.ofFixed32 12 (u32 (u64 m.TheSFixed32)),
   Record.ofFixed64 13 (u64 m.TheSFixed64),
   Record.ofVarint 14 (u64 m.TheEventType)] ++
  (if m.TheBytes.length > 0 then [Record.ofBytes 15 m.TheBytes] else []) ++
  (match m.TheMessage with
   | none => []
   | some e =>
     match c.Marshal e with
     | .ok payload => [Record.ofBytes 16 payload]
     | .error _ => [])

/-! ## A concrete instance, for evaluating the definitions -/

/-- A nested codec whose messages are non-empty byte strings encoded as themselves; like every
`Unmarshal` it refuses the empty buffer. -/
def exampleCodec : NestedCodec (List Byte) where
  Size := fun e => e.length
  Marshal := fun e => .ok e
  Unmarshal := fun p => if p.length = 0 then .error .emptyInput else .ok p

/-- A nested codec whose `Marshal` refuses every message. -/
def refusingCodec : NestedCodec (List Byte) where
  Size := fun e => e.length
  Marshal := fun _ => .error (.nestedFailure 1)
  Unmarshal := fun p => if p.length = 0 then .error .emptyInput else .ok p

/-- A message with negative, minimal and non-zero values, a string, bytes and a nested
message. -/
def exampleMessage : AllTheThings (List Byte) :=
  { ID := 42, TheString := [104, 101, 108, 108, 111], TheBool := true, TheInt32 := -1,
    TheInt64 := -9223372036854775808, TheUInt32 := 4294967295, TheUInt64 := 300,
    TheSInt32 := -2147483648, TheSInt64 := -3, TheFixed32 := 16909060, TheFixed64 := 1,
    TheSFixed32 := -7, TheSFixed64 := -9, TheEventType := -2, TheBytes := [0, 255],
    TheMessage := some [1, 2, 3], XXX_unrecognized := [] }

/-! ## Lemmas -/

theorem zz_shape_nat (a k : Nat) (h : a < 2 ^ k) :
    Int.xor ((a : Int) <<< (1 : Int)) ((a : Int) >>> ((k : Nat) : Int)) = ((2 * a : Nat) : Int) := by
  rw [show (1 : Int) = ((1 : Nat) : Int) from rfl, Int.shiftLeft_coe_nat, Int.shiftRight_coe_nat]
  have h0 : a >>> k = 0 := by
    rw [Nat.shiftRight_eq_div_pow]; exact Nat.div_eq_of_lt h
  rw [h0]
  show ((a <<< 1 ^^^ 0 : Nat) : Int) = _
  rw [Nat.xor_zero, Nat.shiftLeft_eq]; congr 1; omega

theorem zz_shape_neg (a k : Nat) (h : a < 2 ^ k) :
    Int.xor (Int.negSucc a <<< (1 : Int)) (Int.negSucc a >>> ((k : Nat) : Int)) = ((2 * a + 1 : Nat) : Int) := by
  rw [show (1 : Int) = ((1 : Nat) : Int) from rfl, Int.shiftLeft_negSucc, Int.shiftRight_negSucc]
  have h0 : a >>> k = 0 := by
    rw [Nat.shiftRight_eq_div_pow]; exact Nat.div_eq_of_lt h
  rw [h0]
  show ((Nat.shiftLeft' true a 1 ^^^ 0 : Nat) : Int) = _
  rw [Nat.xor_zero]
  simp [Nat.shiftLeft', Nat.bit]

theorem zigzagEncode_eq (n : Int) (h : isInt64 n) :
    zigzagEncode n = if 0 ≤ n then (2 * n).toNat else (-2 * n - 1).toNat := by
  unfold isInt64 at h
  unfold zigzagEncode u64
  rcases n with a | a
  · rw [Int.ofNat_eq_coe] at h ⊢
    have := zz_shape_nat a 63 (by norm_num; omega)
    simp only [Nat.cast_ofNat] at this ⊢
    rw [this, if_pos (Int.ofNat_nonneg a)]; omega
  · have hn : ¬ (0 ≤ Int.negSucc a) := by simp
    rw [if_neg hn]
    have := zz_shape_neg a 63 (by rw [Int.negSucc_eq] at h; norm_num; omega)
    simp only [Nat.cast_ofNat] at this ⊢
    rw [this, Int.negSucc_eq]
    rw [Int.negSucc_eq] at h
    omega

theorem zigzagEncode32_eq (n : Int) (h : isInt32 n) :
    zigzagEncode32 n = if 0 ≤ n then (2 * n).toNat else (-2 * n - 1).toNat := by
  unfold isInt32 at h
  unfold zigzagEncode32 u64 u32
  rcases n with a | a
  · rw [Int.ofNat_eq_coe] at h ⊢
    have := zz_shape_nat a 31 (by norm_num; omega)
    simp only [Nat.cast_ofNat] at this ⊢
    rw [this, if_pos (Int.ofNat_nonneg a)]; omega
  · have hn : ¬ (0 ≤ Int.negSucc a) := by simp
    rw [if_neg hn]
    have := zz_shape_neg a 31 (by rw [Int.negSucc_eq] at h; norm_num; omega)
    simp only [Nat.cast_ofNat] at this ⊢
    rw [this, Int.negSucc_eq]
    rw [Int.negSucc_eq] at h
    omega

@[simp] theorem byte_val (n : Nat) : (byte n).val = n % 256 := rfl

theorem encodeVarintAux_length (f v : Nat) :
    (encodeVarintAux f v).length = sizeOfVarintAux f v := by
  induction f generalizing v with
  | zero => simp [encodeVarintAux, sizeOfVarintAux]
  | succ f ih =>
    unfold encodeVarintAux sizeOfVarintAux
    split
    · simp
    · simp [ih]; omega

theorem EncodeVarint_length (v : Nat) : (EncodeVarint v).length = SizeOfVarint v :=
  encodeVarintAux_length _ _

theorem sizeOfVarintAux_pos (f v : Nat) : 1 ≤ sizeOfVarintAux f v := by
  cases f <;> unfold sizeOfVarintAux
  · omega
  · split <;> omega

theorem sizeOfVarintAux_le (f v : Nat) : sizeOfVarintAux f v ≤ f + 1 := by
  induction f generalizing v with
  | zero => simp [sizeOfVarintAux]
  | succ f ih =>
    unfold sizeOfVarintAux
    split
    · omega
    · have := ih (v / 128); omega

theorem SizeOfVarint_pos (v : Nat) : 1 ≤ SizeOfVarint v := sizeOfVarintAux_pos _ _
theorem SizeOfVarint_le (v : Nat) : SizeOfVarint v ≤ 10 := sizeOfVarintAux_le _ _

theorem decodeVarintAux_cons (g : Nat) (b : Byte) (rest : List Byte) :
    decodeVarintAux (g + 1) (b :: rest) =
      if b.val < 128 then .ok (b.val, 1)
      else
        match decodeVarintAux g rest with
        | .error err => .error err
        | .ok (v, n) => .ok (b.val % 128 + 128 * v, n + 1) := rfl

/-- Decoding the canonical groups of `v` gives `v` back, whatever follows. -/
theorem decodeVarintAux_encode (f g v : Nat) (rest : List Byte) (hv : v < 128 ^ (f + 1))
    (hg : f < g) :
    decodeVarintAux g (encodeVarintAux f v ++ rest) = .ok (v, sizeOfVarintAux f v) := by
  induction f generalizing g v with
  | zero =>
    obtain ⟨g, rfl⟩ : ∃ k, g = k + 1 := ⟨g - 1, by omega⟩
    have hv : v < 128 := by simpa using hv
    have h1 : v % 128 % 256 < 128 := by omega
    have h2 : v % 128 % 256 = v := by omega
    simp only [encodeVarintAux, sizeOfVarintAux, List.singleton_append, decodeVarintAux_cons,
      byte_val, h2, if_pos hv]
  | succ f ih =>
    obtain ⟨g, rfl⟩ : ∃ k, g = k + 1 := ⟨g - 1, by omega⟩
    unfold encodeVarintAux sizeOfVarintAux
    split
    · rename_i h
      have h1 : v % 256 < 128 := by omega
      have h2 : v % 256 = v := by omega
      simp only [List.singleton_append, decodeVarintAux_cons, byte_val, h2, if_pos h]
    · rename_i h
      have hv2 : v / 128 < 128 ^ (f + 1) := by
        rw [Nat.div_lt_iff_lt_mul (by decide)]
        rw [pow_succ] at hv; exact hv
      have := ih g (v / 128) hv2 (by omega)
      have h1 : ¬ ((v % 128 + 128) % 256 < 128) := by omega
      rw [List.cons_append, decodeVarintAux_cons, byte_val, if_neg h1, this]
      simp only [Except.ok.injEq, Prod.mk.injEq]
      omega

theorem DecodeVarint_encode (v : Nat) (rest : List Byte) (hv : v < 18446744073709551616) :
    DecodeVarint (EncodeVarint v ++ rest) = .ok (v, SizeOfVarint v) := by
  unfold DecodeVarint EncodeVarint SizeOfVarint
  rw [Nat.mod_eq_of_lt hv]
  rw [decodeVarintAux_encode 9 10 v rest (by norm_num; omega) (by decide)]
  simp [Nat.mod_eq_of_lt hv]

theorem decodeVarintAux_nil (g : Nat) : ∃ e, decodeVarintAux g [] = .error e := by
  cases g
  · exact ⟨_, rfl⟩
  · exact ⟨_, rfl⟩

/-- A strict initial segment of the canonical groups of `v` does not decode. -/
theorem decodeVarintAux_take (f g v k : Nat) (hk : k < sizeOfVarintAux f v) :
    ∃ e, decodeVarintAux g ((encodeVarintAux f v).take k) = .error e := by
  induction f generalizing g v k with
  | zero =>
    have : k = 0 := by simp [sizeOfVarintAux] at hk; exact hk
    subst this
    simpa using decodeVarintAux_nil g
  | succ f ih =>
    cases k with
    | zero => simpa using decodeVarintAux_nil g
    | succ k =>
      unfold sizeOfVarintAux at hk
      unfold encodeVarintAux
      split
      · rename_i h; rw [if_pos h] at hk; omega
      · rename_i h
        rw [if_neg h] at hk
        cases g with
        | zero => exact ⟨_, rfl⟩
        | succ g =>
          obtain ⟨e, he⟩ := ih g (v / 128) k (by omega)
          have h1 : ¬ ((v % 128 + 128) % 256 < 128) := by omega
          rw [List.take_succ_cons, decodeVarintAux_cons, byte_val, if_neg h1, he]
          exact ⟨_, rfl⟩

theorem DecodeVarint_take (v k : Nat) (hk : k < SizeOfVarint v) :
    ∃ e, DecodeVarint ((EncodeVarint v).take k) = .error e := by
  unfold DecodeVarint EncodeVarint
  obtain ⟨e, he⟩ := decodeVarintAux_take 9 10 _ k hk
  rw [he]; exact ⟨_, rfl⟩

/-- A successful varint read consumes at least one byte and stays inside the buffer. -/
theorem decodeVarintAux_bounds (g : Nat) (p : List Byte) (v n : Nat)
    (h : decodeVarintAux g p = .ok (v, n)) : 1 ≤ n ∧ n ≤ p.length ∧ n ≤ g := by
  induction g generalizing p v n with
  | zero => cases p <;> simp [decodeVarintAux] at h
  | succ g ih =>
    cases p with
    | nil => simp [decodeVarintAux] at h
    | cons b tl =>
      rw [decodeVarintAux_cons] at h
      split at h
      · simp only [Except.ok.injEq, Prod.mk.injEq] at h
        simp; omega
      · split at h
        · simp at h
        · rename_i v2 n2 heq
          simp only [Except.ok.injEq, Prod.mk.injEq] at h
          have := ih tl v2 n2 heq
          simp; omega

theorem DecodeVarint_bounds (p : List Byte) (v n : Nat) (h : DecodeVarint p = .ok (v, n)) :
    1 ≤ n ∧ n ≤ p.length ∧ v < 18446744073709551616 := by
  unfold DecodeVarint at h
  split at h
  · simp at h
  · rename_i v2 n2 heq
    simp only [Except.ok.injEq, Prod.mk.injEq] at h
    have := decodeVarintAux_bounds _ _ _ _ heq
    omega

/-- A successful varint read is not affected by the bytes after it. -/
theorem decodeVarintAux_append (g : Nat) (p q : List Byte) (r : Nat × Nat)
    (h : decodeVarintAux g p = .ok r) : decodeVarintAux g (p ++ q) = .ok r := by
  induction g generalizing p r with
  | zero => cases p <;> simp [decodeVarintAux] at h
  | succ g ih =>
    cases p with
    | nil => simp [decodeVarintAux] at h
    | cons b tl =>
      rw [decodeVarintAux_cons] at h
      rw [List.cons_append, decodeVarintAux_cons]
      split
      · rename_i hb; rw [if_pos hb] at h; exact h
      · rename_i hb
        rw [if_neg hb] at h
        split at h
        · simp at h
        · rename_i v2 n2 heq
          rw [ih tl (v2, n2) heq]
          exact h

theorem DecodeVarint_append (p q : List Byte) (r : Nat × Nat)
    (h : DecodeVarint p = .ok r) : DecodeVarint (p ++ q) = .ok r := by
  unfold DecodeVarint at h ⊢
  split at h
  · simp at h
  · rename_i v2 n2 heq
    rw [decodeVarintAux_append _ _ q _ heq]
    exact h

/-- A successful varint read only looks at the bytes it consumes. -/
theorem decodeVarintAux_take_self (g : Nat) (p : List Byte) (v n : Nat)
    (h : decodeVarintAux g p = .ok (v, n)) : decodeVarintAux g (p.take n) = .ok (v, n) := by
  induction g generalizing p v n with
  | zero => cases p <;> simp [decodeVarintAux] at h
  | succ g ih =>
    cases p with
    | nil => simp [decodeVarintAux] at h
    | cons b tl =>
      rw [decodeVarintAux_cons] at h
      split at h
      · rename_i hb
        simp only [Except.ok.injEq, Prod.mk.injEq] at h
        obtain ⟨h1, h2⟩ := h
        subst h2
        rw [List.take_succ_cons, decodeVarintAux_cons, if_pos hb, h1]
      · rename_i hb
        split at h
        · simp at h
        · rename_i v2 n2 heq
          simp only [Except.ok.injEq, Prod.mk.injEq] at h
          obtain ⟨h1, h2⟩ := h
          subst h2
          subst h1
          rw [List.take_succ_cons, decodeVarintAux_cons, if_neg hb, ih tl v2 n2 heq]

theorem DecodeVarint_take_self (p : List Byte) (v n : Nat)
    (h : DecodeVarint p = .ok (v, n)) : DecodeVarint (p.take n) = .ok (v, n) := by
  unfold DecodeVarint at h ⊢
  split at h
  · simp at h
  · rename_i v2 n2 heq
    simp only [Except.ok.injEq, Prod.mk.injEq] at h
    obtain ⟨h1, h2⟩ := h
    subst h2
    subst h1
    rw [decodeVarintAux_take_self _ _ _ _ heq]

/-! ### Fixed-width values -/

theorem leBytes_length (n v : Nat) : (leBytes n v).length = n := by
  induction n generalizing v with
  | zero => rfl
  | succ n ih => simp [leBytes, ih]

theorem leValue_leBytes (n v : Nat) : leValue (leBytes n v) = v % 256 ^ n := by
  induction n generalizing v with
  | zero => simp [leBytes, leValue, Nat.mod_one]
  | succ n ih =>
    simp only [leBytes, leValue, byte_val, ih]
    rw [pow_succ, Nat.mul_comm (256 ^ n) 256, Nat.mod_mul, Nat.mod_mod]

/-! ### Tags -/

theorem tag_split (t w : Nat) (hw : w < 8) :
    ((t <<< 3) ||| w) >>> 3 = t ∧ ((t <<< 3) ||| w) &&& 7 = w := by
  have h1 : (t <<< 3) ||| w = 8 * t + w := by
    rw [Nat.shiftLeft_eq, Nat.mul_comm]
    exact (Nat.mul_add_lt_is_or (show w < 2 ^ 3 by omega) t).symm
  have h2 : ∀ x : Nat, x &&& 7 = x % 8 := fun x => Nat.and_pow_two_sub_one_eq_mod x 3
  rw [h1, h2, Nat.shiftRight_eq_div_pow]
  constructor
  · show (8 * t + w) / 8 = t
    omega
  · omega

theorem Encoder.At_new (dest : List Byte) : (NewEncoder dest).At [] dest.length := by
  simp [Encoder.At, NewEncoder]

theorem Encoder.write_spec (e : Encoder) (w bs : List Byte) (n : Nat) (h : e.At w n)
    (hfit : w.length + bs.length ≤ n) :
    ∃ e2, e.write bs = some e2 ∧ e2.At (w ++ bs) n := by
  obtain ⟨h1, h2, h3⟩ := h
  have hc : e.offset + bs.length ≤ e.p.length := by omega
  refine ⟨_, by unfold Encoder.write; rw [if_pos hc], ?_, ?_, ?_⟩
  · simp [h1]
  · show List.take (e.offset + bs.length)
      (List.take e.offset e.p ++ bs ++ List.drop (e.offset + bs.length) e.p) = w ++ bs
    rw [h2]
    exact List.take_left' (by simp [h1])
  · simp; omega

theorem Encoder.write2_spec (e : Encoder) (w a b : List Byte) (n : Nat) (h : e.At w n)
    (hfit : w.length + (a ++ b).length ≤ n) :
    ∃ e2, (e.write a).bind (fun e => e.write b) = some e2 ∧ e2.At (w ++ (a ++ b)) n := by
  rw [List.length_append] at hfit
  obtain ⟨e1, h1, i1⟩ := Encoder.write_spec e w a n h (by omega)
  obtain ⟨e2, h2, i2⟩ := Encoder.write_spec e1 (w ++ a) b n i1 (by simp; omega)
  refine ⟨e2, by rw [h1]; exact h2, by rw [← List.append_assoc]; exact i2⟩

theorem EncodeVarint_bool (b : Bool) : EncodeVarint (if b then 1 else 0) = [if b then 1 else 0] := by
  cases b <;> decide

theorem recordsBytes_append (a b : List Record) :
    recordsBytes (a ++ b) = recordsBytes a ++ recordsBytes b := by
  induction a with
  | nil => rfl
  | cons r rs ih => simp [recordsBytes, ih]

theorem recordsBytes_singleton (r : Record) : recordsBytes [r] = r.bytes := by
  simp [recordsBytes]

theorem EncodeInt32_spec (e : Encoder) (w : List Byte) (n t : Nat) (v : Int) (h : e.At w n)
    (hfit : w.length + (Record.ofVarint t (u64 v)).bytes.length ≤ n) :
    ∃ e2, e.EncodeInt32 t v = some e2 ∧ e2.At (w ++ (Record.ofVarint t (u64 v)).bytes) n :=
  Encoder.write2_spec e w _ _ n h hfit

theorem EncodeInt64_spec (e : Encoder) (w : List Byte) (n t : Nat) (v : Int) (h : e.At w n)
    (hfit : w.length + (Record.ofVarint t (u64 v)).bytes.length ≤ n) :
    ∃ e2, e.EncodeInt64 t v = some e2 ∧ e2.At (w ++ (Record.ofVarint t (u64 v)).bytes) n :=
  Encoder.write2_spec e w _ _ n h hfit

theorem EncodeUInt32_spec (e : Encoder) (w : List Byte) (n t : Nat) (v : Nat) (h : e.At w n)
    (hfit : w.length + (Record.ofVarint t v).bytes.length ≤ n) :
    ∃ e2, e.EncodeUInt32 t v = some e2 ∧ e2.At (w ++ (Record.ofVarint t v).bytes) n :=
  Encoder.write2_spec e w _ _ n h hfit

theorem EncodeUInt64_spec (e : Encoder) (w : List Byte) (n t : Nat) (v : Nat) (h : e.At w n)
    (hfit : w.length + (Record.ofVarint t v).bytes.length ≤ n) :
    ∃ e2, e.EncodeUInt64 t v = some e2 ∧ e2.At (w ++ (Record.ofVarint t v).bytes) n :=
  Encoder.write2_spec e w _ _ n h hfit

theorem EncodeSInt32_spec (e : Encoder) (w : List Byte) (n t : Nat) (v : Int) (h : e.At w n)
    (hfit : w.length + (Record.ofVarint t (zigzagEncode32 v)).bytes.length ≤ n) :
    ∃ e2, e.EncodeSInt32 t v = some e2 ∧
      e2.At (w ++ (Record.ofVarint t (zigzagEncode32 v)).bytes) n :=
  Encoder.write2_spec e w _ _ n h hfit

theorem EncodeSInt64_spec (e : Encoder) (w : List Byte) (n t : Nat) (v : Int) (h : e.At w n)
    (hfit : w.length + (Record.ofVarint t (zigzagEncode v)).bytes.length ≤ n) :
    ∃ e2, e.EncodeSInt64 t v = some e2 ∧
      e2.At (w ++ (Record.ofVarint t (zigzagEncode v)).bytes) n :=
  Encoder.write2_spec e w _ _ n h hfit

theorem EncodeBool_spec (e : Encoder) (w : List Byte) (n t : Nat) (v : Bool) (h : e.At w n)
    (hfit : w.length + (Record.ofVarint t (if v then 1 else 0)).bytes.length ≤ n) :
    ∃ e2, e.EncodeBool t v = some e2 ∧
      e2.At (w ++ (Record.ofVarint t (if v then 1 else 0)).bytes) n := by
  have := Encoder.write2_spec e w (EncodeTag t WireTypeVarint) [if v then 1 else 0] n h
    (by simpa [Record.ofVarint, Record.bytes, WireValue.bytes, EncodeVarint_bool] using hfit)
  simpa [Record.ofVarint, Record.bytes, WireValue.bytes, EncodeVarint_bool,
    Encoder.EncodeBool] using this

theorem EncodeFixed32_spec (e : Encoder) (w : List Byte) (n t : Nat) (v : Nat) (h : e.At w n)
    (hfit : w.length + (Record.ofFixed32 t v).bytes.length ≤ n) :
    ∃ e2, e.EncodeFixed32 t v = some e2 ∧ e2.At (w ++ (Record.ofFixed32 t v).bytes) n :=
  Encoder.write2_spec e w _ _ n h hfit

theorem EncodeFixed64_spec (e : Encoder) (w : List Byte) (n t : Nat) (v : Nat) (h : e.At w n)
    (hfit : w.length + (Record.ofFixed64 t v).bytes.length ≤ n) :
    ∃ e2, e.EncodeFixed64 t v = some e2 ∧ e2.At (w ++ (Record.ofFixed64 t v).bytes) n :=
  Encoder.write2_spec e w _ _ n h hfit

theorem EncodeBytes_spec (e : Encoder) (w : List Byte) (n t : Nat) (v : List Byte)
    (h : e.At w n) (hfit : w.length + (Record.ofBytes t v).bytes.length ≤ n) :
    ∃ e2, e.EncodeBytes t v = some e2 ∧ e2.At (w ++ (Record.ofBytes t v).bytes) n :=
  Encoder.write2_spec e w _ _ n h hfit

theorem optString_spec {E : Type} (e : Encoder) (w : List Byte) (n : Nat) (m : AllTheThings E)
    (h : e.At w n)
    (hfit : w.length + (recordsBytes
      (if m.TheString.length > 0 then [Record.ofBytes 2 m.TheString] else [])).length ≤ n) :
    ∃ e2, (if m.TheString.length > 0 then e.EncodeString 2 m.TheString else some e) = some e2 ∧
      e2.At (w ++ recordsBytes
        (if m.TheString.length > 0 then [Record.ofBytes 2 m.TheString] else [])) n := by
  split
  · rename_i hpos
    rw [if_pos hpos, recordsBytes_singleton] at hfit
    rw [recordsBytes_singleton]
    exact EncodeBytes_spec e w n 2 m.TheString h hfit
  · exact ⟨e, rfl, by simpa [recordsBytes] using h⟩

theorem optBytes_spec {E : Type} (e : Encoder) (w : List Byte) (n : Nat) (m : AllTheThings E)
    (h : e.At w n)
    (hfit : w.length + (recordsBytes
      (if m.TheBytes.length > 0 then [Record.ofBytes 15 m.TheBytes] else [])).length ≤ n) :
    ∃ e2, (if m.TheBytes.length > 0 then e.EncodeBytes 15 m.TheBytes else some e) = some e2 ∧
      e2.At (w ++ recordsBytes
        (if m.TheBytes.length > 0 then [Record.ofBytes 15 m.TheBytes] else [])) n := by
  split
  · rename_i hpos
    rw [if_pos hpos, recordsBytes_singleton] at hfit
    rw [recordsBytes_singleton]
    exact EncodeBytes_spec e w n 15 m.TheBytes h hfit
  · exact ⟨e, rfl, by simpa [recordsBytes] using h⟩

theorem EncodeNested_spec {E : Type} (c : NestedCodec E) (e : Encoder) (w : List Byte)
    (n t : Nat) (x : E) (payload : List Byte) (hm : c.Marshal x = .ok payload) (h : e.At w n)
    (hfit : w.length + (Record.ofBytes t payload).bytes.length ≤ n) :
    ∃ e2, e.EncodeNested c t x = some (e2, none) ∧
      e2.At (w ++ (Record.ofBytes t payload).bytes) n := by
  obtain ⟨e2, h2, i2⟩ := EncodeBytes_spec e w n t payload h hfit
  refine ⟨e2, ?_, i2⟩
  unfold Encoder.EncodeNested
  rw [hm]
  unfold Encoder.EncodeBytes at h2
  simp only [h2, Option.map_some']

/-- The bytes of the records of `m`, piece by piece. -/
theorem records_bytes {E : Type} (c : NestedCodec E) (m : AllTheThings E) :
    recordsBytes (m.records c) =
      [] ++ (Record.ofVarint 1 (u64 m.ID)).bytes ++
      recordsBytes (if m.TheString.length > 0 then [Record.ofBytes 2 m.TheString] else []) ++
      (Record.ofVarint 3 (if m.TheBool then 1 else 0)).bytes ++
      (Record.ofVarint 4 (u64 m.TheInt32)).bytes ++
      (Record.ofVarint 5 (u64 m.TheInt64)).bytes ++
      (Record.ofVarint 6 m.TheUInt32).bytes ++
      (Record.ofVarint 7 m.TheUInt64).bytes ++
      (Record.ofVarint 8 (zigzagEncode32 m.TheSInt32)).bytes ++
      (Record.ofVarint 9 (zigzagEncode m.TheSInt64)).bytes ++
      (Record.ofFixed32 10 m.TheFixed32).bytes ++
      (Record.ofFixed64 11 m.TheFixed64).bytes ++
      (Record.ofFixed32 12 (u32 (u64 m.TheSFixed32))).bytes ++
      (Record.ofFixed64 13 (u64 m.TheSFixed64)).bytes ++
      (Record.ofVarint 14 (u64 m.TheEventType)).bytes ++
      recordsBytes (if m.TheBytes.length > 0 then [Record.ofBytes 15 m.TheBytes] else []) ++
      recordsBytes (match m.TheMessage with
        | none => []
        | some e =>
          match c.Marshal e with
          | .ok payload => [Record.ofBytes 16 payload]
          | .error _ => []) := by
  unfold AllTheThings.records
  simp only [recordsBytes_append]
  simp only [recordsBytes, List.append_nil, List.nil_append, List.append_assoc]

/-- Writing with `MarshalTo` into a buffer that is large enough puts the records of `m` at its
start and returns no error, provided the nested message (if any) marshals. -/
theorem marshalEnc_ok {E : Type} (c : NestedCodec E) (m : AllTheThings E) (dest : List Byte)
    (h : (recordsBytes (m.records c)).length ≤ dest.length)
    (hn : ∀ e, m.TheMessage = some e → ∃ payload, c.Marshal e = .ok payload) :
    ∃ enc, AllTheThings.marshalEnc c m dest = some (enc, none) ∧
      enc.At (recordsBytes (m.records c)) dest.length := by
  rw [records_bytes] at h ⊢
  unfold AllTheThings.marshalEnc
  simp only []
  obtain ⟨e1, h1, i1⟩ := EncodeInt32_spec (NewEncoder dest) _ dest.length 1 m.ID (Encoder.At_new dest)
    (by simp only [List.length_append, List.length_nil] at h ⊢; omega)
  simp only [h1]
  obtain ⟨e2, h2, i2⟩ := optString_spec (e1) _ dest.length m i1
    (by simp only [List.length_append, List.length_nil] at h ⊢; omega)
  simp only [h2]
  obtain ⟨e3, h3, i3⟩ := EncodeBool_spec (e2) _ dest.length 3 m.TheBool i2
    (by simp only [List.length_append, List.length_nil] at h ⊢; omega)
  simp only [h3]
  obtain ⟨e4, h4, i4⟩ := EncodeInt32_spec (e3) _ dest.length 4 m.TheInt32 i3
    (by simp only [List.length_append, List.length_nil] at h ⊢; omega)
  simp only [h4]
  obtain ⟨e5, h5, i5⟩ := EncodeInt64_spec (e4) _ dest.length 5 m.TheInt64 i4
    (by simp only [List.length_append, List.length_nil] at h ⊢; omega)
  simp only [h5]
  obtain ⟨e6, h6, i6⟩ := EncodeUInt32_spec (e5) _ dest.length 6 m.TheUInt32 i5
    (by simp only [List.length_append, List.length_nil] at h ⊢; omega)
  simp only [h6]
  obtain ⟨e7, h7, i7⟩ := EncodeUInt64_spec (e6) _ dest.length 7 m.TheUInt64 i6
    (by simp only [List.length_append, List.length_nil] at h ⊢; omega)
  simp only [h7]
  obtain ⟨e8, h8, i8⟩ := EncodeSInt32_spec (e7) _ dest.length 8 m.TheSInt32 i7
    (by simp only [List.length_append, List.length_nil] at h ⊢; omega)
  simp only [h8]
  obtain ⟨e9, h9, i9⟩ := EncodeSInt64_spec (e8) _ dest.length 9 m.TheSInt64 i8
    (by simp only [List.length_append, List.length_nil] at h ⊢; omega)
  simp only [h9]
  obtain ⟨e10, h10, i10⟩ := EncodeFixed32_spec (e9) _ dest.length 10 m.TheFixed32 i9
    (by simp only [List.length_append, List.length_nil] at h ⊢; omega)
  simp only [h10]
  obtain ⟨e11, h11, i11⟩ := EncodeFixed64_spec (e10) _ dest.length 11 m.TheFixed64 i10
    (by simp only [List.length_append, List.length_nil] at h ⊢; omega)
  simp only [h11]
  obtain ⟨e12, h12, i12⟩ := EncodeFixed32_spec (e11) _ dest.length 12 (u32 (u64 m.TheSFixed32)) i11
    (by simp only [List.length_append, List.length_nil] at h ⊢; omega)
  simp only [h12]
  obtain ⟨e13, h13, i13⟩ := EncodeFixed64_spec (e12) _ dest.length 13 (u64 m.TheSFixed64) i12
    (by simp only [List.length_append, List.length_nil] at h ⊢; omega)
  simp only [h13]
  obtain ⟨e14, h14, i14⟩ := EncodeInt32_spec (e13) _ dest.length 14 m.TheEventType i13
    (by simp only [List.length_append, List.length_nil] at h ⊢; omega)
  simp only [h14]
  obtain ⟨e15, h15, i15⟩ := optBytes_spec (e14) _ dest.length m i14
    (by simp only [List.length_append, List.length_nil] at h ⊢; omega)
  simp only [h15]
  cases hm : m.TheMessage with
  | none =>
    simp only [hm, recordsBytes, List.append_nil] at h ⊢
    exact ⟨e15, rfl, i15⟩
  | some x =>
    obtain ⟨payload, hp⟩ := hn x hm
    simp only [hm, hp, recordsBytes, List.append_nil] at h ⊢
    obtain ⟨e16, h16, i16⟩ := EncodeNested_spec c e15 _ dest.length 16 x payload hp i15
      (by simp only [List.length_append, List.length_nil] at h ⊢; omega)
    simp only [h16]
    exact ⟨e16, rfl, i16⟩


theorem ofVarint_bytes_length (t v : Nat) :
    (Record.ofVarint t v).bytes.length = (EncodeTag t WireTypeVarint).length + SizeOfVarint v := by
  simp [Record.ofVarint, Record.bytes, WireValue.bytes, EncodeVarint_length]

theorem ofFixed32_bytes_length (t v : Nat) :
    (Record.ofFixed32 t v).bytes.length = (EncodeTag t WireTypeFixed32).length + 4 := by
  simp [Record.ofFixed32, Record.bytes, WireValue.bytes, EncodeFixed32, leBytes_length]

theorem ofFixed64_bytes_length (t v : Nat) :
    (Record.ofFixed64 t v).bytes.length = (EncodeTag t WireTypeFixed64).length + 8 := by
  simp [Record.ofFixed64, Record.bytes, WireValue.bytes, EncodeFixed64, leBytes_length]

theorem ofBytes_bytes_length (t : Nat) (b : List Byte) :
    (Record.ofBytes t b).bytes.length =
      (EncodeTag t WireTypeLengthDelimited).length + SizeOfVarint b.length + b.length := by
  simp [Record.ofBytes, Record.bytes, WireValue.bytes, EncodeVarint_length]
  omega

theorem i64_u64 (v : Int) (h : isInt64 v) : i64 (u64 v) = v := by
  unfold i64 u64; unfold isInt64 at h; omega

theorem isInt64_of_isInt32 (v : Int) (h : isInt32 v) : isInt64 v := by
  unfold isInt32 at h; unfold isInt64; omega

theorem zigzagEncode32_eq_zigzagEncode (v : Int) (h : isInt32 v) :
    zigzagEncode32 v = zigzagEncode v := by
  rw [zigzagEncode32_eq v h, zigzagEncode_eq v (isInt64_of_isInt32 v h)]

theorem SizeOfZigZag_int32 (v : Int) (h : isInt32 v) :
    SizeOfZigZag (u64 v) = SizeOfVarint (zigzagEncode32 v) := by
  unfold SizeOfZigZag
  rw [i64_u64 v (isInt64_of_isInt32 v h), zigzagEncode32_eq_zigzagEncode v h]

theorem SizeOfZigZag_int64 (v : Int) (h : isInt64 v) :
    SizeOfZigZag (u64 v) = SizeOfVarint (zigzagEncode v) := by
  unfold SizeOfZigZag
  rw [i64_u64 v h]

theorem SizeOfVarint_bool (b : Bool) : SizeOfVarint (if b then 1 else 0) = 1 := by
  cases b <;> decide

/-- The method `Size` counts exactly the bytes of the records of `m`. -/
theorem Size_eq_records {E : Type} (c : NestedCodec E) (m : AllTheThings E) (hwf : m.WF)
    (hn : ∀ e, m.TheMessage = some e →
      ∃ payload, c.Marshal e = .ok payload ∧ payload.length = c.Size e) :
    AllTheThings.Size c (some m) = (recordsBytes (m.records c)).length := by
  obtain ⟨-, -, -, -, -, h8, h9, -⟩ := hwf
  rw [records_bytes]
  simp only [AllTheThings.Size, List.length_append, List.length_nil, ofVarint_bytes_length,
    ofFixed32_bytes_length, ofFixed64_bytes_length, SizeOfZigZag_int32 _ h8,
    SizeOfZigZag_int64 _ h9, SizeOfVarint_bool]
  have t1 : SizeOfTagKey 1 = 1 := by decide
  have t2 : SizeOfTagKey 2 = 1 := by decide
  have t3 : SizeOfTagKey 3 = 1 := by decide
  have t4 : SizeOfTagKey 4 = 1 := by decide
  have t5 : SizeOfTagKey 5 = 1 := by decide
  have t6 : SizeOfTagKey 6 = 1 := by decide
  have t7 : SizeOfTagKey 7 = 1 := by decide
  have t8 : SizeOfTagKey 8 = 1 := by decide
  have t9 : SizeOfTagKey 9 = 1 := by decide
  have t10 : SizeOfTagKey 10 = 1 := by decide
  have t11 : SizeOfTagKey 11 = 1 := by decide
  have t12 : SizeOfTagKey 12 = 1 := by decide
  have t13 : SizeOfTagKey 13 = 1 := by decide
  have t14 : SizeOfTagKey 14 = 1 := by decide
  have t15 : SizeOfTagKey 15 = 1 := by decide
  have t16 : SizeOfTagKey 16 = 2 := by decide
  have g1 : (EncodeTag 1 WireTypeVarint).length = 1 := by decide
  have g2 : (EncodeTag 2 WireTypeLengthDelimited).length = 1 := by decide
  have g3 : (EncodeTag 3 WireTypeVarint).length = 1 := by decide
  have g4 : (EncodeTag 4 WireTypeVarint).length = 1 := by decide
  have g5 : (EncodeTag 5 WireTypeVarint).length = 1 := by decide
  have g6 : (EncodeTag 6 WireTypeVarint).length = 1 := by decide
  have g7 : (EncodeTag 7 WireTypeVarint).length = 1 := by decide
  have g8 : (EncodeTag 8 WireTypeVarint).length = 1 := by decide
  have g9 : (EncodeTag 9 WireTypeVarint).length = 1 := by decide
  have g10 : (EncodeTag 10 WireTypeFixed32).length = 1 := by decide
  have g11 : (EncodeTag 11 WireTypeFixed64).length = 1 := by decide
  have g12 : (EncodeTag 12 WireTypeFixed32).length = 1 := by decide
  have g13 : (EncodeTag 13 WireTypeFixed64).length = 1 := by decide
  have g14 : (EncodeTag 14 WireTypeVarint).length = 1 := by decide
  have g15 : (EncodeTag 15 WireTypeLengthDelimited).length = 1 := by decide
  have g16 : (EncodeTag 16 WireTypeLengthDelimited).length = 2 := by decide
  simp only [t1, t2, t3, t4, t5, t6, t7, t8, t9, t10, t11, t12, t13, t14, t15, t16,
    g1, g3, g4, g5, g6, g7, g8, g9, g10, g11, g12, g13, g14]
  have s2 : (recordsBytes
      (if m.TheString.length > 0 then [Record.ofBytes 2 m.TheString] else [])).length =
      if m.TheString.length > 0 then 1 + SizeOfVarint m.TheString.length + m.TheString.length
      else 0 := by
    split <;> simp [recordsBytes, ofBytes_bytes_length, g2]
  have s15 : (recordsBytes
      (if m.TheBytes.length > 0 then [Record.ofBytes 15 m.TheBytes] else [])).length =
      if m.TheBytes.length > 0 then 1 + SizeOfVarint m.TheBytes.length + m.TheBytes.length
      else 0 := by
    split <;> simp [recordsBytes, ofBytes_bytes_length, g15]
  rw [s2, s15]
  cases hm : m.TheMessage with
  | none =>
    simp only [recordsBytes, List.length_nil]
    split <;> split <;> omega
  | some x =>
    obtain ⟨payload, hp, hl⟩ := hn x hm
    simp only [hp, recordsBytes, List.append_nil, ofBytes_bytes_length, g16, hl]
    split <;> split <;> omega



/-! ### The decoder on a buffer that continues with given bytes -/

@[simp] theorem Decoder.advance_p (d : Decoder) (n : Nat) : (d.advance n).p = d.p := rfl

@[simp] theorem Decoder.advance_offset (d : Decoder) (n : Nat) :
    (d.advance n).offset = d.offset + n := rfl

theorem Decoder.advance_advance (d : Decoder) (a b : Nat) :
    (d.advance a).advance b = d.advance (a + b) := by
  simp [Decoder.advance, Nat.add_assoc]

theorem Decoder.rest_advance (d : Decoder) (n : Nat) : (d.advance n).rest = d.rest.drop n := by
  simp [Decoder.rest, Decoder.advance, List.drop_drop]

theorem Decoder.rest_advance_of (d : Decoder) (a tl : List Byte) (h : d.rest = a ++ tl) :
    (d.advance a.length).rest = tl := by
  rw [Decoder.rest_advance, h, List.drop_left]

theorem wireType_lt (w : WireValue) : w.wireType < 8 := by
  cases w <;> simp [WireValue.wireType, WireTypeVarint, WireTypeFixed64, WireTypeFixed32,
    WireTypeLengthDelimited]

theorem readVarint_of (d : Decoder) (raw tl : List Byte) (v : Nat) (h : d.rest = raw ++ tl)
    (hv : DecodeVarint raw = .ok (v, raw.length)) :
    d.readVarint = .ok (v, d.advance raw.length) := by
  unfold Decoder.readVarint
  rw [h, DecodeVarint_append raw tl _ hv]

theorem DecodeTag_of (d : Decoder) (r : Record) (tl : List Byte) (hr : r.Valid)
    (h : d.rest = r.bytes ++ tl) :
    d.DecodeTag = .ok (r.tag, r.val.wireType, d.advance r.tagRaw.length) := by
  unfold Decoder.DecodeTag
  rw [Record.bytes, List.append_assoc] at h
  rw [readVarint_of d r.tagRaw _ _ h hr.1]
  obtain ⟨h1, h2⟩ := tag_split r.tag r.val.wireType (wireType_lt _)
  simp only [h1, h2]

theorem readFixed_of (d : Decoder) (raw tl : List Byte) (n : Nat) (h : d.rest = raw ++ tl)
    (hn : raw.length = n) : d.readFixed n = .ok (leValue raw, d.advance n) := by
  unfold Decoder.readFixed
  have h1 : ¬ (d.rest.length < n) := by rw [h]; simp; omega
  rw [if_neg h1, h, List.take_left' hn]

theorem readLengthDelimited_of (d : Decoder) (lenRaw payload tl : List Byte)
    (h : d.rest = lenRaw ++ payload ++ tl)
    (hv : DecodeVarint lenRaw = .ok (payload.length, lenRaw.length)) :
    d.readLengthDelimited = .ok (payload, d.advance (lenRaw.length + payload.length)) := by
  unfold Decoder.readLengthDelimited
  rw [List.append_assoc] at h
  rw [readVarint_of d lenRaw _ _ h hv]
  have h2 := Decoder.rest_advance_of d lenRaw _ h
  have h1 : ¬ ((payload ++ tl).length < payload.length) := by simp
  simp only [h2, if_neg h1, List.take_left' rfl, Decoder.advance_advance]

theorem Skip_of (d : Decoder) (w : WireValue) (tl : List Byte) (tag : Nat) (hw : w.Valid)
    (h : d.rest = w.bytes ++ tl) :
    d.Skip tag w.wireType = .ok (w.bytes, d.advance w.bytes.length) := by
  have htake : ∀ n, n = w.bytes.length → d.rest.take (d.offset + n - d.offset) = w.bytes := by
    intro n hn
    rw [Nat.add_sub_cancel_left, h]
    exact List.take_left' hn.symm
  cases w with
  | varint raw v =>
    simp only [WireValue.bytes, WireValue.Valid] at h hw htake
    simp only [Decoder.Skip, WireValue.wireType, if_true, readVarint_of d raw tl v h hw,
      Decoder.advance_offset, htake _ rfl, WireValue.bytes]
  | fixed64 raw =>
    simp only [WireValue.bytes, WireValue.Valid] at h hw htake
    simp only [Decoder.Skip, WireValue.wireType, WireTypeFixed64, WireTypeVarint,
      Nat.one_ne_zero, if_false, if_true, readFixed_of d raw tl 8 h hw,
      Decoder.advance_offset, htake 8 hw.symm, WireValue.bytes, hw]
  | lengthDelimited lenRaw payload =>
    simp only [WireValue.bytes, WireValue.Valid] at h hw htake
    have e1 : (2 : Nat) ≠ 0 := by decide
    have e2 : (2 : Nat) ≠ 1 := by decide
    simp only [Decoder.Skip, WireValue.wireType, WireTypeFixed64, WireTypeVarint,
      WireTypeLengthDelimited, e1, e2, if_false, if_true,
      readLengthDelimited_of d lenRaw payload tl h hw,
      Decoder.advance_offset, htake _ (List.length_append _ _).symm, WireValue.bytes,
      List.length_append]
  | fixed32 raw =>
    simp only [WireValue.bytes, WireValue.Valid] at h hw htake
    have e1 : (5 : Nat) ≠ 0 := by decide
    have e2 : (5 : Nat) ≠ 1 := by decide
    have e3 : (5 : Nat) ≠ 2 := by decide
    simp only [Decoder.Skip, WireValue.wireType, WireTypeFixed64, WireTypeVarint,
      WireTypeLengthDelimited, WireTypeFixed32, e1, e2, e3, if_false, if_true,
      readFixed_of d raw tl 4 h hw,
      Decoder.advance_offset, htake 4 hw.symm, WireValue.bytes, hw]

/-! ### The arms of the switch -/

theorem unmarshalStep_tag1 {E : Type} (c : NestedCodec E) (d d1 : Decoder) (wt : Nat)
    (m : AllTheThings E) (hd : d.DecodeTag = .ok (1, wt, d1)) :
    AllTheThings.unmarshalStep c d m =
      if wt ≠ WireTypeVarint then .error (.wireTypeMismatch 1 wt)
      else match d1.DecodeInt32 with
        | .error err => .error (.fieldDecode 1 err)
        | .ok (v, dec) => .ok (dec, { m with ID := v }) := by
  unfold AllTheThings.unmarshalStep
  rw [hd]
  simp only [if_false, if_true]

theorem effect_tag1 {E : Type} (c : NestedCodec E) (r : Record) (m : AllTheThings E)
    (hk : r.tag = 1) :
    r.effect c m =
      match r.val with
      | .varint _ v => .ok { m with ID := i32 v }
      | w => .error (.wireTypeMismatch 1 w.wireType) := by
  unfold Record.effect
  rw [hk]
  simp only [if_false, if_true]

theorem unmarshalStep_tag2 {E : Type} (c : NestedCodec E) (d d1 : Decoder) (wt : Nat)
    (m : AllTheThings E) (hd : d.DecodeTag = .ok (2, wt, d1)) :
    AllTheThings.unmarshalStep c d m =
      if wt ≠ WireTypeLengthDelimited then .error (.wireTypeMismatch 2 wt)
      else match d1.DecodeString with
        | .error err => .error (.fieldDecode 2 err)
        | .ok (v, dec) => .ok (dec, { m with TheString := v }) := by
  unfold AllTheThings.unmarshalStep
  rw [hd]
  simp only [show ¬ ((2 : Nat) = 1) by decide, if_false, if_true]

theorem effect_tag2 {E : Type} (c : NestedCodec E) (r : Record) (m : AllTheThings E)
    (hk : r.tag = 2) :
    r.effect c m =
      match r.val with
      | .lengthDelimited _ b => .ok { m with TheString := b }
      | w => .error (.wireTypeMismatch 2 w.wireType) := by
  unfold Record.effect
  rw [hk]
  simp only [show ¬ ((2 : Nat) = 1) by decide, if_false, if_true]

theorem unmarshalStep_tag3 {E : Type} (c : NestedCodec E) (d d1 : Decoder) (wt : Nat)
    (m : AllTheThings E) (hd : d.DecodeTag = .ok (3, wt, d1)) :
    AllTheThings.unmarshalStep c d m =
      if wt ≠ WireTypeVarint then .error (.wireTypeMismatch 3 wt)
      else match d1.DecodeBool with
        | .error err => .error (.fieldDecode 3 err)
        | .ok (v, dec) => .ok (dec, { m with TheBool := v }) := by
  unfold AllTheThings.unmarshalStep
  rw [hd]
  simp only [show ¬ ((3 : Nat) = 1) by decide, show ¬ ((3 : Nat) = 2) by decide, if_false, if_true]

theorem effect_tag3 {E : Type} (c : NestedCodec E) (r : Record) (m : AllTheThings E)
    (hk : r.tag = 3) :
    r.effect c m =
      match r.val with
      | .varint _ v => .ok { m with TheBool := decide (v ≠ 0) }
      | w => .error (.wireTypeMismatch 3 w.wireType) := by
  unfold Record.effect
  rw [hk]
  simp only [show ¬ ((3 : Nat) = 1) by decide, show ¬ ((3 : Nat) = 2) by decide, if_false, if_true]

theorem unmarshalStep_tag4 {E : Type} (c : NestedCodec E) (d d1 : Decoder) (wt : Nat)
    (m : AllTheThings E) (hd : d.DecodeTag = .ok (4, wt, d1)) :
    AllTheThings.unmarshalStep c d m =
      if wt ≠ WireTypeVarint then .error (.wireTypeMismatch 4 wt)
      else match d1.DecodeInt32 with
        | .error err => .error (.fieldDecode 4 err)
        | .ok (v, dec) => .ok (dec, { m with TheInt32 := v }) := by
  unfold AllTheThings.unmarshalStep
  rw [hd]
  simp only [show ¬ ((4 : Nat) = 1) by decide, show ¬ ((4 : Nat) = 2) by decide, show ¬ ((4 : Nat) = 3) by decide, if_false, if_true]

theorem effect_tag4 {E : Type} (c : NestedCodec E) (r : Record) (m : AllTheThings E)
    (hk : r.tag = 4) :
    r.effect c m =
      match r.val with
      | .varint _ v => .ok { m with TheInt32 := i32 v }
      | w => .error (.wireTypeMismatch 4 w.wireType) := by
  unfold Record.effect
  rw [hk]
  simp only [show ¬ ((4 : Nat) = 1) by decide, show ¬ ((4 : Nat) = 2) by decide, show ¬ ((4 : Nat) = 3) by decide, if_false, if_true]

theorem unmarshalStep_tag5 {E : Type} (c : NestedCodec E) (d d1 : Decoder) (wt : Nat)
    (m : AllTheThings E) (hd : d.DecodeTag = .ok (5, wt, d1)) :
    AllTheThings.unmarshalStep c d m =
      if wt ≠ WireTypeVarint then .error (.wireTypeMismatch 5 wt)
      else match d1.DecodeInt64 with
        | .error err => .error (.fieldDecode 5 err)
        | .ok (v, dec) => .ok (dec, { m with TheInt64 := v }) := by
  unfold AllTheThings.unmarshalStep
  rw [hd]
  simp only [show ¬ ((5 : Nat) = 1) by decide, show ¬ ((5 : Nat) = 2) by decide, show ¬ ((5 : Nat) = 3) by decide, show ¬ ((5 : Nat) = 4) by decide, if_false, if_true]

theorem effect_tag5 {E : Type} (c : NestedCodec E) (r : Record) (m : AllTheThings E)
    (hk : r.tag = 5) :
    r.effect c m =
      match r.val with
      | .varint _ v => .ok { m with TheInt64 := i64 v }
      | w => .error (.wireTypeMismatch 5 w.wireType) := by
  unfold Record.effect
  rw [hk]
  simp only [show ¬ ((5 : Nat) = 1) by decide, show ¬ ((5 : Nat) = 2) by decide, show ¬ ((5 : Nat) = 3) by decide, show ¬ ((5 : Nat) = 4) by decide, if_false, if_true]

theorem unmarshalStep_tag6 {E : Type} (c : NestedCodec E) (d d1 : Decoder) (wt : Nat)
    (m : AllTheThings E) (hd : d.DecodeTag = .ok (6, wt, d1)) :
    AllTheThings.unmarshalStep c d m =
      if wt ≠ WireTypeVarint then .error (.wireTypeMismatch 6 wt)
      else match d1.DecodeUInt32 with
        | .error err => .error (.fieldDecode 6 err)
        | .ok (v, dec) => .ok (dec, { m with TheUInt32 := v }) := by
  unfold AllTheThings.unmarshalStep
  rw [hd]
  simp only [show ¬ ((6 : Nat) = 1) by decide, show ¬ ((6 : Nat) = 2) by decide, show ¬ ((6 : Nat) = 3) by decide, show ¬ ((6 : Nat) = 4) by decide, show ¬ ((6 : Nat) = 5) by decide, if_false, if_true]

theorem effect_tag6 {E : Type} (c : NestedCodec E) (r : Record) (m : AllTheThings E)
    (hk : r.tag = 6) :
    r.effect c m =
      match r.val with
      | .varint _ v => .ok { m with TheUInt32 := u32 v }
      | w => .error (.wireTypeMismatch 6 w.wireType) := by
  unfold Record.effect
  rw [hk]
  simp only [show ¬ ((6 : Nat) = 1) by decide, show ¬ ((6 : Nat) = 2) by decide, show ¬ ((6 : Nat) = 3) by decide, show ¬ ((6 : Nat) = 4) by decide, show ¬ ((6 : Nat) = 5) by decide, if_false, if_true]

theorem unmarshalStep_tag7 {E : Type} (c : NestedCodec E) (d d1 : Decoder) (wt : Nat)
    (m : AllTheThings E) (hd : d.DecodeTag = .ok (7, wt, d1)) :
    AllTheThings.unmarshalStep c d m =
      if wt ≠ WireTypeVarint then .error (.wireTypeMismatch 7 wt)
      else match d1.DecodeUInt64 with
        | .error err => .error (.fieldDecode 7 err)
        | .ok (v, dec) => .ok (dec, { m with TheUInt64 := v }) := by
  unfold AllTheThings.unmarshalStep
  rw [hd]
  simp only [show ¬ ((7 : Nat) = 1) by decide, show ¬ ((7 : Nat) = 2) by decide, show ¬ ((7 : Nat) = 3) by decide, show ¬ ((7 : Nat) = 4) by decide, show ¬ ((7 : Nat) = 5) by decide, show ¬ ((7 : Nat) = 6) by decide, if_false, if_true]

theorem effect_tag7 {E : Type} (c : NestedCodec E) (r : Record) (m : AllTheThings E)
    (hk : r.tag = 7) :
    r.effect c m =
      match r.val with
      | .varint _ v => .ok { m with TheUInt64 := v }
      | w => .error (.wireTypeMismatch 7 w.wireType) := by
  unfold Record.effect
  rw [hk]
  simp only [show ¬ ((7 : Nat) = 1) by decide, show ¬ ((7 : Nat) = 2) by decide, show ¬ ((7 : Nat) = 3) by decide, show ¬ ((7 : Nat) = 4) by decide, show ¬ ((7 : Nat) = 5) by decide, show ¬ ((7 : Nat) = 6) by decide, if_false, if_true]

theorem unmarshalStep_tag8 {E : Type} (c : NestedCodec E) (d d1 : Decoder) (wt : Nat)
    (m : AllTheThings E) (hd : d.DecodeTag = .ok (8, wt, d1)) :
    AllTheThings.unmarshalStep c d m =
      if wt ≠ WireTypeVarint then .error (.wireTypeMismatch 8 wt)
      else match d1.DecodeSInt32 with
        | .error err => .error (.fieldDecode 8 err)
        | .ok (v, dec) => .ok (dec, { m with TheSInt32 := v }) := by
  unfold AllTheThings.unmarshalStep
  rw [hd]
  simp only [show ¬ ((8 : Nat) = 1) by decide, show ¬ ((8 : Nat) = 2) by decide, show ¬ ((8 : Nat) = 3) by decide, show ¬ ((8 : Nat) = 4) by decide, show ¬ ((8 : Nat) = 5) by decide, show ¬ ((8 : Nat) = 6) by decide, show ¬ ((8 : Nat) = 7) by decide, if_false, if_true]

theorem effect_tag8 {E : Type} (c : NestedCodec E) (r : Record) (m : AllTheThings E)
    (hk : r.tag = 8) :
    r.effect c m =
      match r.val with
      | .varint _ v => .ok { m with TheSInt32 := zigzagDecode (u32 v) }
      | w => .error (.wireTypeMismatch 8 w.wireType) := by
  unfold Record.effect
  rw [hk]
  simp only [show ¬ ((8 : Nat) = 1) by decide, show ¬ ((8 : Nat) = 2) by decide, show ¬ ((8 : Nat) = 3) by decide, show ¬ ((8 : Nat) = 4) by decide, show ¬ ((8 : Nat) = 5) by decide, show ¬ ((8 : Nat) = 6) by decide, show ¬ ((8 : Nat) = 7) by decide, if_false, if_true]

theorem unmarshalStep_tag9 {E : Type} (c : NestedCodec E) (d d1 : Decoder) (wt : Nat)
    (m : AllTheThings E) (hd : d.DecodeTag = .ok (9, wt, d1)) :
    AllTheThings.unmarshalStep c d m =
      if wt ≠ WireTypeVarint then .error (.wireTypeMismatch 9 wt)
      else match d1.DecodeSInt64 with
        | .error err => .error (.fieldDecode 9 err)
        | .ok (v, dec) => .ok (dec, { m with TheSInt64 := v }) := by
  unfold AllTheThings.unmarshalStep
  rw [hd]
  simp only [show ¬ ((9 : Nat) = 1) by decide, show ¬ ((9 : Nat) = 2) by decide, show ¬ ((9 : Nat) = 3) by decide, show ¬ ((9 : Nat) = 4) by decide, show ¬ ((9 : Nat) = 5) by decide, show ¬ ((9 : Nat) = 6) by decide, show ¬ ((9 : Nat) = 7) by decide, show ¬ ((9 : Nat) = 8) by decide, if_false, if_true]

theorem effect_tag9 {E : Type} (c : NestedCodec E) (r : Record) (m : AllTheThings E)
    (hk : r.tag = 9) :
    r.effect c m =
      match r.val with
      | .varint _ v => .ok { m with TheSInt64 := zigzagDecode v }
      | w => .error (.wireTypeMismatch 9 w.wireType) := by
  unfold Record.effect
  rw [hk]
  simp only [show ¬ ((9 : Nat) = 1) by decide, show ¬ ((9 : Nat) = 2) by decide, show ¬ ((9 : Nat) = 3) by decide, show ¬ ((9 : Nat) = 4) by decide, show ¬ ((9 : Nat) = 5) by decide, show ¬ ((9 : Nat) = 6) by decide, show ¬ ((9 : Nat) = 7) by decide, show ¬ ((9 : Nat) = 8) by decide, if_false, if_true]

theorem unmarshalStep_tag10 {E : Type} (c : NestedCodec E) (d d1 : Decoder) (wt : Nat)
    (m : AllTheThings E) (hd : d.DecodeTag = .ok (10, wt, d1)) :
    AllTheThings.unmarshalStep c d m =
      if wt ≠ WireTypeFixed32 then .error (.wireTypeMismatch 10 wt)
      else match d1.DecodeFixed32 with
        | .error err => .error (.fieldDecode 10 err)
        | .ok (v, dec) => .ok (dec, { m with TheFixed32 := v }) := by
  unfold AllTheThings.unmarshalStep
  rw [hd]
  simp only [show ¬ ((10 : Nat) = 1) by decide, show ¬ ((10 : Nat) = 2) by decide, show ¬ ((10 : Nat) = 3) by decide, show ¬ ((10 : Nat) = 4) by decide, show ¬ ((10 : Nat) = 5) by decide, show ¬ ((10 : Nat) = 6) by decide, show ¬ ((10 : Nat) = 7) by decide, show ¬ ((10 : Nat) = 8) by decide, show ¬ ((10 : Nat) = 9) by decide, if_false, if_true]

theorem effect_tag10 {E : Type} (c : NestedCodec E) (r : Record) (m : AllTheThings E)
    (hk : r.tag = 10) :
    r.effect c m =
      match r.val with
      | .fixed32 raw => .ok { m with TheFixed32 := leValue raw }
      | w => .error (.wireTypeMismatch 10 w.wireType) := by
  unfold Record.effect
  rw [hk]
  simp only [show ¬ ((10 : Nat) = 1) by decide, show ¬ ((10 : Nat) = 2) by decide, show ¬ ((10 : Nat) = 3) by decide, show ¬ ((10 : Nat) = 4) by decide, show ¬ ((10 : Nat) = 5) by decide, show ¬ ((10 : Nat) = 6) by decide, show ¬ ((10 : Nat) = 7) by decide, show ¬ ((10 : Nat) = 8) by decide, show ¬ ((10 : Nat) = 9) by decide, if_false, if_true]

theorem unmarshalStep_tag11 {E : Type} (c : NestedCodec E) (d d1 : Decoder) (wt : Nat)
    (m : AllTheThings E) (hd : d.DecodeTag = .ok (11, wt, d1)) :
    AllTheThings.unmarshalStep c d m =
      if wt ≠ WireTypeFixed64 then .error (.wireTypeMismatch 11 wt)
      else match d1.DecodeFixed64 with
        | .error err => .error (.fieldDecode 11 err)
        | .ok (v, dec) => .ok (dec, { m with TheFixed64 := v }) := by
  unfold AllTheThings.unmarshalStep
  rw [hd]
  simp only [show ¬ ((11 : Nat) = 1) by decide, show ¬ ((11 : Nat) = 2) by decide, show ¬ ((11 : Nat) = 3) by decide, show ¬ ((11 : Nat) = 4) by decide, show ¬ ((11 : Nat) = 5) by decide, show ¬ ((11 : Nat) = 6) by decide, show ¬ ((11 : Nat) = 7) by decide, show ¬ ((11 : Nat) = 8) by decide, show ¬ ((11 : Nat) = 9) by decide, show ¬ ((11 : Nat) = 10) by decide, if_false, if_true]

theorem effect_tag11 {E : Type} (c : NestedCodec E) (r : Record) (m : AllTheThings E)
    (hk : r.tag = 11) :
    r.effect c m =
      match r.val with
      | .fixed64 raw => .ok { m with TheFixed64 := leValue raw }
      | w => .error (.wireTypeMismatch 11 w.wireType) := by
  unfold Record.effect
  rw [hk]
  simp only [show ¬ ((11 : Nat) = 1) by decide, show ¬ ((11 : Nat) = 2) by decide, show ¬ ((11 : Nat) = 3) by decide, show ¬ ((11 : Nat) = 4) by decide, show ¬ ((11 : Nat) = 5) by decide, show ¬ ((11 : Nat) = 6) by decide, show ¬ ((11 : Nat) = 7) by decide, show ¬ ((11 : Nat) = 8) by decide, show ¬ ((11 : Nat) = 9) by decide, show ¬ ((11 : Nat) = 10) by decide, if_false, if_true]

theorem unmarshalStep_tag12 {E : Type} (c : NestedCodec E) (d d1 : Decoder) (wt : Nat)
    (m : AllTheThings E) (hd : d.DecodeTag = .ok (12, wt, d1)) :
    AllTheThings.unmarshalStep c d m =
      if wt ≠ WireTypeFixed32 then .error (.wireTypeMismatch 12 wt)
      else match d1.DecodeFixed32 with
        | .error err => .error (.fieldDecode 12 err)
        | .ok (v, dec) => .ok (dec, { m with TheSFixed32 := i32 v }) := by
  unfold AllTheThings.unmarshalStep
  rw [hd]
  simp only [show ¬ ((12 : Nat) = 1) by decide, show ¬ ((12 : Nat) = 2) by decide, show ¬ ((12 : Nat) = 3) by decide, show ¬ ((12 : Nat) = 4) by decide, show ¬ ((12 : Nat) = 5) by decide, show ¬ ((12 : Nat) = 6) by decide, show ¬ ((12 : Nat) = 7) by decide, show ¬ ((12 : Nat) = 8) by decide, show ¬ ((12 : Nat) = 9) by decide, show ¬ ((12 : Nat) = 10) by decide, show ¬ ((12 : Nat) = 11) by decide, if_false, if_true]

theorem effect_tag12 {E : Type} (c : NestedCodec E) (r : Record) (m : AllTheThings E)
    (hk : r.tag = 12) :
    r.effect c m =
      match r.val with
      | .fixed32 raw => .ok { m with TheSFixed32 := i32 (leValue raw) }
      | w => .error (.wireTypeMismatch 12 w.wireType) := by
  unfold Record.effect
  rw [hk]
  simp only [show ¬ ((12 : Nat) = 1) by decide, show ¬ ((12 : Nat) = 2) by decide, show ¬ ((12 : Nat) = 3) by decide, show ¬ ((12 : Nat) = 4) by decide, show ¬ ((12 : Nat) = 5) by decide, show ¬ ((12 : Nat) = 6) by decide, show ¬ ((12 : Nat) = 7) by decide, show ¬ ((12 : Nat) = 8) by decide, show ¬ ((12 : Nat) = 9) by decide, show ¬ ((12 : Nat) = 10) by decide, show ¬ ((12 : Nat) = 11) by decide, if_false, if_true]

theorem unmarshalStep_tag13 {E : Type} (c : NestedCodec E) (d d1 : Decoder) (wt : Nat)
    (m : AllTheThings E) (hd : d.DecodeTag = .ok (13, wt, d1)) :
    AllTheThings.unmarshalStep c d m =
      if wt ≠ WireTypeFixed64 then .error (.wireTypeMismatch 13 wt)
      else match d1.DecodeFixed64 with
        | .error err => .error (.fieldDecode 13 err)
        | .ok (v, dec) => .ok (dec, { m with TheSFixed64 := i64 v }) := by
  unfold AllTheThings.unmarshalStep
  rw [hd]
  simp only [show ¬ ((13 : Nat) = 1) by decide, show ¬ ((13 : Nat) = 2) by decide, show ¬ ((13 : Nat) = 3) by decide, show ¬ ((13 : Nat) = 4) by decide, show ¬ ((13 : Nat) = 5) by decide, show ¬ ((13 : Nat) = 6) by decide, show ¬ ((13 : Nat) = 7) by decide, show ¬ ((13 : Nat) = 8) by decide, show ¬ ((13 : Nat) = 9) by decide, show ¬ ((13 : Nat) = 10) by decide, show ¬ ((13 : Nat) = 11) by decide, show ¬ ((13 : Nat) = 12) by decide, if_false, if_true]

theorem effect_tag13 {E : Type} (c : NestedCodec E) (r : Record) (m : AllTheThings E)
    (hk : r.tag = 13) :
    r.effect c m =
      match r.val with
      | .fixed64 raw => .ok { m with TheSFixed64 := i64 (leValue raw) }
      | w => .error (.wireTypeMismatch 13 w.wireType) := by
  unfold Record.effect
  rw [hk]
  simp only [show ¬ ((13 : Nat) = 1) by decide, show ¬ ((13 : Nat) = 2) by decide, show ¬ ((13 : Nat) = 3) by decide, show ¬ ((13 : Nat) = 4) by decide, show ¬ ((13 : Nat) = 5) by decide, show ¬ ((13 : Nat) = 6) by decide, show ¬ ((13 : Nat) = 7) by decide, show ¬ ((13 : Nat) = 8) by decide, show ¬ ((13 : Nat) = 9) by decide, show ¬ ((13 : Nat) = 10) by decide, show ¬ ((13 : Nat) = 11) by decide, show ¬ ((13 : Nat) = 12) by decide, if_false, if_true]

theorem unmarshalStep_tag14 {E : Type} (c : NestedCodec E) (d d1 : Decoder) (wt : Nat)
    (m : AllTheThings E) (hd : d.DecodeTag = .ok (14, wt, d1)) :
    AllTheThings.unmarshalStep c d m =
      if wt ≠ WireTypeVarint then .error (.wireTypeMismatch 14 wt)
      else match d1.DecodeInt32 with
        | .error err => .error (.fieldDecode 14 err)
        | .ok (v, dec) => .ok (dec, { m with TheEventType := v }) := by
  unfold AllTheThings.unmarshalStep
  rw [hd]
  simp only [show ¬ ((14 : Nat) = 1) by decide, show ¬ ((14 : Nat) = 2) by decide, show ¬ ((14 : Nat) = 3) by decide, show ¬ ((14 : Nat) = 4) by decide, show ¬ ((14 : Nat) = 5) by decide, show ¬ ((14 : Nat) = 6) by decide, show ¬ ((14 : Nat) = 7) by decide, show ¬ ((14 : Nat) = 8) by decide, show ¬ ((14 : Nat) = 9) by decide, show ¬ ((14 : Nat) = 10) by decide, show ¬ ((14 : Nat) = 11) by decide, show ¬ ((14 : Nat) = 12) by decide, show ¬ ((14 : Nat) = 13) by decide, if_false, if_true]

theorem effect_tag14 {E : Type} (c : NestedCodec E) (r : Record) (m : AllTheThings E)
    (hk : r.tag = 14) :
    r.effect c m =
      match r.val with
      | .varint _ v => .ok { m with TheEventType := i32 v }
      | w => .error (.wireTypeMismatch 14 w.wireType) := by
  unfold Record.effect
  rw [hk]
  simp only [show ¬ ((14 : Nat) = 1) by decide, show ¬ ((14 : Nat) = 2) by decide, show ¬ ((14 : Nat) = 3) by decide, show ¬ ((14 : Nat) = 4) by decide, show ¬ ((14 : Nat) = 5) by decide, show ¬ ((14 : Nat) = 6) by decide, show ¬ ((14 : Nat) = 7) by decide, show ¬ ((14 : Nat) = 8) by decide, show ¬ ((14 : Nat) = 9) by decide, show ¬ ((14 : Nat) = 10) by decide, show ¬ ((14 : Nat) = 11) by decide, show ¬ ((14 : Nat) = 12) by decide, show ¬ ((14 : Nat) = 13) by decide, if_false, if_true]

theorem unmarshalStep_tag15 {E : Type} (c : NestedCodec E) (d d1 : Decoder) (wt : Nat)
    (m : AllTheThings E) (hd : d.DecodeTag = .ok (15, wt, d1)) :
    AllTheThings.unmarshalStep c d m =
      if wt ≠ WireTypeLengthDelimited then .error (.wireTypeMismatch 15 wt)
      else match d1.DecodeBytes with
        | .error err => .error (.fieldDecode 15 err)
        | .ok (v, dec) => .ok (dec, { m with TheBytes := v }) := by
  unfold AllTheThings.unmarshalStep
  rw [hd]
  simp only [show ¬ ((15 : Nat) = 1) by decide, show ¬ ((15 : Nat) = 2) by decide, show ¬ ((15 : Nat) = 3) by decide, show ¬ ((15 : Nat) = 4) by decide, show ¬ ((15 : Nat) = 5) by decide, show ¬ ((15 : Nat) = 6) by decide, show ¬ ((15 : Nat) = 7) by decide, show ¬ ((15 : Nat) = 8) by decide, show ¬ ((15 : Nat) = 9) by decide, show ¬ ((15 : Nat) = 10) by decide, show ¬ ((15 : Nat) = 11) by decide, show ¬ ((15 : Nat) = 12) by decide, show ¬ ((15 : Nat) = 13) by decide, show ¬ ((15 : Nat) = 14) by decide, if_false, if_true]

theorem effect_tag15 {E : Type} (c : NestedCodec E) (r : Record) (m : AllTheThings E)
    (hk : r.tag = 15) :
    r.effect c m =
      match r.val with
      | .lengthDelimited _ b => .ok { m with TheBytes := b }
      | w => .error (.wireTypeMismatch 15 w.wireType) := by
  unfold Record.effect
  rw [hk]
  simp only [show ¬ ((15 : Nat) = 1) by decide, show ¬ ((15 : Nat) = 2) by decide, show ¬ ((15 : Nat) = 3) by decide, show ¬ ((15 : Nat) = 4) by decide, show ¬ ((15 : Nat) = 5) by decide, show ¬ ((15 : Nat) = 6) by decide, show ¬ ((15 : Nat) = 7) by decide, show ¬ ((15 : Nat) = 8) by decide, show ¬ ((15 : Nat) = 9) by decide, show ¬ ((15 : Nat) = 10) by decide, show ¬ ((15 : Nat) = 11) by decide, show ¬ ((15 : Nat) = 12) by decide, show ¬ ((15 : Nat) = 13) by decide, show ¬ ((15 : Nat) = 14) by decide, if_false, if_true]

theorem unmarshalStep_tag16 {E : Type} (c : NestedCodec E) (d d1 : Decoder) (wt : Nat)
    (m : AllTheThings E) (hd : d.DecodeTag = .ok (16, wt, d1)) :
    AllTheThings.unmarshalStep c d m =
      if wt ≠ WireTypeLengthDelimited then .error (.wireTypeMismatch 16 wt)
      else match d1.DecodeNested c with
        | .error err => .error (.fieldDecode 16 err)
        | .ok (mm, dec) => .ok (dec, { m with TheMessage := some mm }) := by
  unfold AllTheThings.unmarshalStep
  rw [hd]
  simp only [show ¬ ((16 : Nat) = 1) by decide, show ¬ ((16 : Nat) = 2) by decide, show ¬ ((16 : Nat) = 3) by decide, show ¬ ((16 : Nat) = 4) by decide, show ¬ ((16 : Nat) = 5) by decide, show ¬ ((16 : Nat) = 6) by decide, show ¬ ((16 : Nat) = 7) by decide, show ¬ ((16 : Nat) = 8) by decide, show ¬ ((16 : Nat) = 9) by decide, show ¬ ((16 : Nat) = 10) by decide, show ¬ ((16 : Nat) = 11) by decide, show ¬ ((16 : Nat) = 12) by decide, show ¬ ((16 : Nat) = 13) by decide, show ¬ ((16 : Nat) = 14) by decide, show ¬ ((16 : Nat) = 15) by decide, if_false, if_true]

theorem effect_tag16 {E : Type} (c : NestedCodec E) (r : Record) (m : AllTheThings E)
    (hk : r.tag = 16) :
    r.effect c m =
      match r.val with
      | .lengthDelimited _ b =>
        match c.Unmarshal b with
        | .ok mm => .ok { m with TheMessage := some mm }
        | .error err => .error (.fieldDecode 16 (.nestedDecodeFailure err))
      | w => .error (.wireTypeMismatch 16 w.wireType) := by
  unfold Record.effect
  rw [hk]
  simp only [show ¬ ((16 : Nat) = 1) by decide, show ¬ ((16 : Nat) = 2) by decide, show ¬ ((16 : Nat) = 3) by decide, show ¬ ((16 : Nat) = 4) by decide, show ¬ ((16 : Nat) = 5) by decide, show ¬ ((16 : Nat) = 6) by decide, show ¬ ((16 : Nat) = 7) by decide, show ¬ ((16 : Nat) = 8) by decide, show ¬ ((16 : Nat) = 9) by decide, show ¬ ((16 : Nat) = 10) by decide, show ¬ ((16 : Nat) = 11) by decide, show ¬ ((16 : Nat) = 12) by decide, show ¬ ((16 : Nat) = 13) by decide, show ¬ ((16 : Nat) = 14) by decide, show ¬ ((16 : Nat) = 15) by decide, if_false, if_true]

theorem unmarshalStep_default {E : Type} (c : NestedCodec E) (d d1 : Decoder) (tag wt : Nat)
    (m : AllTheThings E) (hd : d.DecodeTag = .ok (tag, wt, d1)) (hk : ¬ (1 ≤ tag ∧ tag ≤ 16)) :
    AllTheThings.unmarshalStep c d m =
      match d1.Skip tag wt with
      | .error err => .error (.skipFailed tag err)
      | .ok (skipped, dec) =>
        .ok (dec, { m with XXX_unrecognized := m.XXX_unrecognized ++ skipped }) := by
  unfold AllTheThings.unmarshalStep
  rw [hd]
  simp only [show ¬ (tag = 1) by omega, show ¬ (tag = 2) by omega, show ¬ (tag = 3) by omega, show ¬ (tag = 4) by omega, show ¬ (tag = 5) by omega, show ¬ (tag = 6) by omega, show ¬ (tag = 7) by omega, show ¬ (tag = 8) by omega, show ¬ (tag = 9) by omega, show ¬ (tag = 10) by omega, show ¬ (tag = 11) by omega, show ¬ (tag = 12) by omega, show ¬ (tag = 13) by omega, show ¬ (tag = 14) by omega, show ¬ (tag = 15) by omega, show ¬ (tag = 16) by omega, if_false]

theorem effect_default {E : Type} (c : NestedCodec E) (r : Record) (m : AllTheThings E)
    (hk : ¬ (1 ≤ r.tag ∧ r.tag ≤ 16)) :
    r.effect c m = .ok { m with XXX_unrecognized := m.XXX_unrecognized ++ r.val.bytes } := by
  unfold Record.effect
  simp only [show ¬ (r.tag = 1) by omega, show ¬ (r.tag = 2) by omega, show ¬ (r.tag = 3) by omega, show ¬ (r.tag = 4) by omega, show ¬ (r.tag = 5) by omega, show ¬ (r.tag = 6) by omega, show ¬ (r.tag = 7) by omega, show ¬ (r.tag = 8) by omega, show ¬ (r.tag = 9) by omega, show ¬ (r.tag = 10) by omega, show ¬ (r.tag = 11) by omega, show ¬ (r.tag = 12) by omega, show ¬ (r.tag = 13) by omega, show ¬ (r.tag = 14) by omega, show ¬ (r.tag = 15) by omega, show ¬ (r.tag = 16) by omega, if_false]

theorem tag_cases (k : Nat) :
    k = 1 ∨ k = 2 ∨ k = 3 ∨ k = 4 ∨ k = 5 ∨ k = 6 ∨ k = 7 ∨ k = 8 ∨ k = 9 ∨ k = 10 ∨ k = 11 ∨
    k = 12 ∨ k = 13 ∨ k = 14 ∨ k = 15 ∨ k = 16 ∨ ¬ (1 ≤ k ∧ k ≤ 16) := by
  omega

/-- One iteration of the loop at a well-formed record does what the record says and moves the
cursor past the record, whatever follows it. -/
theorem unmarshalStep_of_record {E : Type} (c : NestedCodec E) (d : Decoder) (r : Record)
    (tl : List Byte) (m : AllTheThings E) (hr : r.Valid) (h : d.rest = r.bytes ++ tl) :
    AllTheThings.unmarshalStep c d m =
      match r.effect c m with
      | .error err => .error err
      | .ok m2 => .ok (d.advance r.bytes.length, m2) := by
  have htag := DecodeTag_of d r tl hr h
  have h1 : (d.advance r.tagRaw.length).rest = r.val.bytes ++ tl := by
    rw [Record.bytes, List.append_assoc] at h
    exact Decoder.rest_advance_of d _ _ h
  have hlen : r.bytes.length = r.tagRaw.length + r.val.bytes.length := by
    simp [Record.bytes]
  have hskip := Skip_of (d.advance r.tagRaw.length) r.val tl r.tag hr.2 h1
  have hv := hr.2
  rw [hlen]
  simp only [← Decoder.advance_advance]
  generalize d.advance r.tagRaw.length = d1 at h1 hskip htag ⊢
  cases hval : r.val with
  | varint raw v =>
    rw [hval] at h1 hv htag
    simp only [WireValue.bytes, WireValue.Valid, WireValue.wireType] at h1 hv htag ⊢
    have hrv := readVarint_of d1 raw tl v h1 hv
    rcases tag_cases r.tag with hk | hk | hk | hk | hk | hk | hk | hk | hk | hk | hk | hk | hk | hk | hk | hk | hk
    · rw [unmarshalStep_tag1 c d _ _ m (by rw [htag, hk]), effect_tag1 c _ m hk]
      simp only [hval]
      simp [hrv, WireTypeVarint, WireTypeFixed64, WireTypeFixed32, WireTypeLengthDelimited, Decoder.DecodeInt32, Decoder.DecodeInt64, Decoder.DecodeUInt32, Decoder.DecodeUInt64, Decoder.DecodeBool, Decoder.DecodeSInt32, Decoder.DecodeSInt64, Decoder.DecodeFixed32, Decoder.DecodeFixed64, Decoder.DecodeBytes, Decoder.DecodeString, Decoder.DecodeNested, Decoder.advance_advance, WireValue.wireType]
    · rw [unmarshalStep_tag2 c d _ _ m (by rw [htag, hk]), effect_tag2 c _ m hk]
      simp only [hval]
      simp [hrv, WireTypeVarint, WireTypeFixed64, WireTypeFixed32, WireTypeLengthDelimited, Decoder.DecodeInt32, Decoder.DecodeInt64, Decoder.DecodeUInt32, Decoder.DecodeUInt64, Decoder.DecodeBool, Decoder.DecodeSInt32, Decoder.DecodeSInt64, Decoder.DecodeFixed32, Decoder.DecodeFixed64, Decoder.DecodeBytes, Decoder.DecodeString, Decoder.DecodeNested, Decoder.advance_advance, WireValue.wireType]
    · rw [unmarshalStep_tag3 c d _ _ m (by rw [htag, hk]), effect_tag3 c _ m hk]
      simp only [hval]
      simp [hrv, WireTypeVarint, WireTypeFixed64, WireTypeFixed32, WireTypeLengthDelimited, Decoder.DecodeInt32, Decoder.DecodeInt64, Decoder.DecodeUInt32, Decoder.DecodeUInt64, Decoder.DecodeBool, Decoder.DecodeSInt32, Decoder.DecodeSInt64, Decoder.DecodeFixed32, Decoder.DecodeFixed64, Decoder.DecodeBytes, Decoder.DecodeString, Decoder.DecodeNested, Decoder.advance_advance, WireValue.wireType]
    · rw [unmarshalStep_tag4 c d _ _ m (by rw [htag, hk]), effect_tag4 c _ m hk]
      simp only [hval]
      simp [hrv, WireTypeVarint, WireTypeFixed64, WireTypeFixed32, WireTypeLengthDelimited, Decoder.DecodeInt32, Decoder.DecodeInt64, Decoder.DecodeUInt32, Decoder.DecodeUInt64, Decoder.DecodeBool, Decoder.DecodeSInt32, Decoder.DecodeSInt64, Decoder.DecodeFixed32, Decoder.DecodeFixed64, Decoder.DecodeBytes, Decoder.DecodeString, Decoder.DecodeNested, Decoder.advance_advance, WireValue.wireType]
    · rw [unmarshalStep_tag5 c d _ _ m (by rw [htag, hk]), effect_tag5 c _ m hk]
      simp only [hval]
      simp [hrv, WireTypeVarint, WireTypeFixed64, WireTypeFixed32, WireTypeLengthDelimited, Decoder.DecodeInt32, Decoder.DecodeInt64, Decoder.DecodeUInt32, Decoder.DecodeUInt64, Decoder.DecodeBool, Decoder.DecodeSInt32, Decoder.DecodeSInt64, Decoder.DecodeFixed32, Decoder.DecodeFixed64, Decoder.DecodeBytes, Decoder.DecodeString, Decoder.DecodeNested, Decoder.advance_advance, WireValue.wireType]
    · rw [unmarshalStep_tag6 c d _ _ m (by rw [htag, hk]), effect_tag6 c _ m hk]
      simp only [hval]
      simp [hrv, WireTypeVarint, WireTypeFixed64, WireTypeFixed32, WireTypeLengthDelimited, Decoder.DecodeInt32, Decoder.DecodeInt64, Decoder.DecodeUInt32, Decoder.DecodeUInt64, Decoder.DecodeBool, Decoder.DecodeSInt32, Decoder.DecodeSInt64, Decoder.DecodeFixed32, Decoder.DecodeFixed64, Decoder.DecodeBytes, Decoder.DecodeString, Decoder.DecodeNested, Decoder.advance_advance, WireValue.wireType]
    · rw [unmarshalStep_tag7 c d _ _ m (by rw [htag, hk]), effect_tag7 c _ m hk]
      simp only [hval]
      simp [hrv, WireTypeVarint, WireTypeFixed64, WireTypeFixed32, WireTypeLengthDelimited, Decoder.DecodeInt32, Decoder.DecodeInt64, Decoder.DecodeUInt32, Decoder.DecodeUInt64, Decoder.DecodeBool, Decoder.DecodeSInt32, Decoder.DecodeSInt64, Decoder.DecodeFixed32, Decoder.DecodeFixed64, Decoder.DecodeBytes, Decoder.DecodeString, Decoder.DecodeNested, Decoder.advance_advance, WireValue.wireType]
    · rw [unmarshalStep_tag8 c d _ _ m (by rw [htag, hk]), effect_tag8 c _ m hk]
      simp only [hval]
      simp [hrv, WireTypeVarint, WireTypeFixed64, WireTypeFixed32, WireTypeLengthDelimited, Decoder.DecodeInt32, Decoder.DecodeInt64, Decoder.DecodeUInt32, Decoder.DecodeUInt64, Decoder.DecodeBool, Decoder.DecodeSInt32, Decoder.DecodeSInt64, Decoder.DecodeFixed32, Decoder.DecodeFixed64, Decoder.DecodeBytes, Decoder.DecodeString, Decoder.DecodeNested, Decoder.advance_advance, WireValue.wireType]
    · rw [unmarshalStep_tag9 c d _ _ m (by rw [htag, hk]), effect_tag9 c _ m hk]
      simp only [hval]
      simp [hrv, WireTypeVarint, WireTypeFixed64, WireTypeFixed32, WireTypeLengthDelimited, Decoder.DecodeInt32, Decoder.DecodeInt64, Decoder.DecodeUInt32, Decoder.DecodeUInt64, Decoder.DecodeBool, Decoder.DecodeSInt32, Decoder.DecodeSInt64, Decoder.DecodeFixed32, Decoder.DecodeFixed64, Decoder.DecodeBytes, Decoder.DecodeString, Decoder.DecodeNested, Decoder.advance_advance, WireValue.wireType]
    · rw [unmarshalStep_tag10 c d _ _ m (by rw [htag, hk]), effect_tag10 c _ m hk]
      simp only [hval]
      simp [hrv, WireTypeVarint, WireTypeFixed64, WireTypeFixed32, WireTypeLengthDelimited, Decoder.DecodeInt32, Decoder.DecodeInt64, Decoder.DecodeUInt32, Decoder.DecodeUInt64, Decoder.DecodeBool, Decoder.DecodeSInt32, Decoder.DecodeSInt64, Decoder.DecodeFixed32, Decoder.DecodeFixed64, Decoder.DecodeBytes, Decoder.DecodeString, Decoder.DecodeNested, Decoder.advance_advance, WireValue.wireType]
    · rw [unmarshalStep_tag11 c d _ _ m (by rw [htag, hk]), effect_tag11 c _ m hk]
      simp only [hval]
      simp [hrv, WireTypeVarint, WireTypeFixed64, WireTypeFixed32, WireTypeLengthDelimited, Decoder.DecodeInt32, Decoder.DecodeInt64, Decoder.DecodeUInt32, Decoder.DecodeUInt64, Decoder.DecodeBool, Decoder.DecodeSInt32, Decoder.DecodeSInt64, Decoder.DecodeFixed32, Decoder.DecodeFixed64, Decoder.DecodeBytes, Decoder.DecodeString, Decoder.DecodeNested, Decoder.advance_advance, WireValue.wireType]
    · rw [unmarshalStep_tag12 c d _ _ m (by rw [htag, hk]), effect_tag12 c _ m hk]
      simp only [hval]
      simp [hrv, WireTypeVarint, WireTypeFixed64, WireTypeFixed32, WireTypeLengthDelimited, Decoder.DecodeInt32, Decoder.DecodeInt64, Decoder.DecodeUInt32, Decoder.DecodeUInt64, Decoder.DecodeBool, Decoder.DecodeSInt32, Decoder.DecodeSInt64, Decoder.DecodeFixed32, Decoder.DecodeFixed64, Decoder.DecodeBytes, Decoder.DecodeString, Decoder.DecodeNested, Decoder.advance_advance, WireValue.wireType]
    · rw [unmarshalStep_tag13 c d _ _ m (by rw [htag, hk]), effect_tag13 c _ m hk]
      simp only [hval]
      simp [hrv, WireTypeVarint, WireTypeFixed64, WireTypeFixed32, WireTypeLengthDelimited, Decoder.DecodeInt32, Decoder.DecodeInt64, Decoder.DecodeUInt32, Decoder.DecodeUInt64, Decoder.DecodeBool, Decoder.DecodeSInt32, Decoder.DecodeSInt64, Decoder.DecodeFixed32, Decoder.DecodeFixed64, Decoder.DecodeBytes, Decoder.DecodeString, Decoder.DecodeNested, Decoder.advance_advance, WireValue.wireType]
    · rw [unmarshalStep_tag14 c d _ _ m (by rw [htag, hk]), effect_tag14 c _ m hk]
      simp only [hval]
      simp [hrv, WireTypeVarint, WireTypeFixed64, WireTypeFixed32, WireTypeLengthDelimited, Decoder.DecodeInt32, Decoder.DecodeInt64, Decoder.DecodeUInt32, Decoder.DecodeUInt64, Decoder.DecodeBool, Decoder.DecodeSInt32, Decoder.DecodeSInt64, Decoder.DecodeFixed32, Decoder.DecodeFixed64, Decoder.DecodeBytes, Decoder.DecodeString, Decoder.DecodeNested, Decoder.advance_advance, WireValue.wireType]
    · rw [unmarshalStep_tag15 c d _ _ m (by rw [htag, hk]), effect_tag15 c _ m hk]
      simp only [hval]
      simp [hrv, WireTypeVarint, WireTypeFixed64, WireTypeFixed32, WireTypeLengthDelimited, Decoder.DecodeInt32, Decoder.DecodeInt64, Decoder.DecodeUInt32, Decoder.DecodeUInt64, Decoder.DecodeBool, Decoder.DecodeSInt32, Decoder.DecodeSInt64, Decoder.DecodeFixed32, Decoder.DecodeFixed64, Decoder.DecodeBytes, Decoder.DecodeString, Decoder.DecodeNested, Decoder.advance_advance, WireValue.wireType]
    · rw [unmarshalStep_tag16 c d _ _ m (by rw [htag, hk]), effect_tag16 c _ m hk]
      simp only [hval]
      simp [hrv, WireTypeVarint, WireTypeFixed64, WireTypeFixed32, WireTypeLengthDelimited, Decoder.DecodeInt32, Decoder.DecodeInt64, Decoder.DecodeUInt32, Decoder.DecodeUInt64, Decoder.DecodeBool, Decoder.DecodeSInt32, Decoder.DecodeSInt64, Decoder.DecodeFixed32, Decoder.DecodeFixed64, Decoder.DecodeBytes, Decoder.DecodeString, Decoder.DecodeNested, Decoder.advance_advance, WireValue.wireType]
    · rw [unmarshalStep_default c d _ _ _ m htag hk, effect_default c _ m hk]
      simp only [hval, WireValue.wireType, WireValue.bytes] at hskip ⊢
      simp [hskip, List.length_append, Decoder.advance_advance]
  | fixed64 raw =>
    rw [hval] at h1 hv htag
    simp only [WireValue.bytes, WireValue.Valid, WireValue.wireType] at h1 hv htag ⊢
    have hrf := readFixed_of d1 raw tl 8 h1 hv
    rcases tag_cases r.tag with hk | hk | hk | hk | hk | hk | hk | hk | hk | hk | hk | hk | hk | hk | hk | hk | hk
    · rw [unmarshalStep_tag1 c d _ _ m (by rw [htag, hk]), effect_tag1 c _ m hk]
      simp only [hval]
      simp [hrf, hv, WireTypeVarint, WireTypeFixed64, WireTypeFixed32, WireTypeLengthDelimited, Decoder.DecodeInt32, Decoder.DecodeInt64, Decoder.DecodeUInt32, Decoder.DecodeUInt64, Decoder.DecodeBool, Decoder.DecodeSInt32, Decoder.DecodeSInt64, Decoder.DecodeFixed32, Decoder.DecodeFixed64, Decoder.DecodeBytes, Decoder.DecodeString, Decoder.DecodeNested, Decoder.advance_advance, WireValue.wireType]
    · rw [unmarshalStep_tag2 c d _ _ m (by rw [htag, hk]), effect_tag2 c _ m hk]
      simp only [hval]
      simp [hrf, hv, WireTypeVarint, WireTypeFixed64, WireTypeFixed32, WireTypeLengthDelimited, Decoder.DecodeInt32, Decoder.DecodeInt64, Decoder.DecodeUInt32, Decoder.DecodeUInt64, Decoder.DecodeBool, Decoder.DecodeSInt32, Decoder.DecodeSInt64, Decoder.DecodeFixed32, Decoder.DecodeFixed64, Decoder.DecodeBytes, Decoder.DecodeString, Decoder.DecodeNested, Decoder.advance_advance, WireValue.wireType]
    · rw [unmarshalStep_tag3 c d _ _ m (by rw [htag, hk]), effect_tag3 c _ m hk]
      simp only [hval]
      simp [hrf, hv, WireTypeVarint, WireTypeFixed64, WireTypeFixed32, WireTypeLengthDelimited, Decoder.DecodeInt32, Decoder.DecodeInt64, Decoder.DecodeUInt32, Decoder.DecodeUInt64, Decoder.DecodeBool, Decoder.DecodeSInt32, Decoder.DecodeSInt64, Decoder.DecodeFixed32, Decoder.DecodeFixed64, Decoder.DecodeBytes, Decoder.DecodeString, Decoder.DecodeNested, Decoder.advance_advance, WireValue.wireType]
    · rw [unmarshalStep_tag4 c d _ _ m (by rw [htag, hk]), effect_tag4 c _ m hk]
      simp only [hval]
      simp [hrf, hv, WireTypeVarint, WireTypeFixed64, WireTypeFixed32, WireTypeLengthDelimited, Decoder.DecodeInt32, Decoder.DecodeInt64, Decoder.DecodeUInt32, Decoder.DecodeUInt64, Decoder.DecodeBool, Decoder.DecodeSInt32, Decoder.DecodeSInt64, Decoder.DecodeFixed32, Decoder.DecodeFixed64, Decoder.DecodeBytes, Decoder.DecodeString, Decoder.DecodeNested, Decoder.advance_advance, WireValue.wireType]
    · rw [unmarshalStep_tag5 c d _ _ m (by rw [htag, hk]), effect_tag5 c _ m hk]
      simp only [hval]
      simp [hrf, hv, WireTypeVarint, WireTypeFixed64, WireTypeFixed32, WireTypeLengthDelimited, Decoder.DecodeInt32, Decoder.DecodeInt64, Decoder.DecodeUInt32, Decoder.DecodeUInt64, Decoder.DecodeBool, Decoder.DecodeSInt32, Decoder.DecodeSInt64, Decoder.DecodeFixed32, Decoder.DecodeFixed64, Decoder.DecodeBytes, Decoder.DecodeString, Decoder.DecodeNested, Decoder.advance_advance, WireValue.wireType]
    · rw [unmarshalStep_tag6 c d _ _ m (by rw [htag, hk]), effect_tag6 c _ m hk]
      simp only [hval]
      simp [hrf, hv, WireTypeVarint, WireTypeFixed64, WireTypeFixed32, WireTypeLengthDelimited, Decoder.DecodeInt32, Decoder.DecodeInt64, Decoder.DecodeUInt32, Decoder.DecodeUInt64, Decoder.DecodeBool, Decoder.DecodeSInt32, Decoder.DecodeSInt64, Decoder.DecodeFixed32, Decoder.DecodeFixed64, Decoder.DecodeBytes, Decoder.DecodeString, Decoder.DecodeNested, Decoder.advance_advance, WireValue.wireType]
    · rw [unmarshalStep_tag7 c d _ _ m (by rw [htag, hk]), effect_tag7 c _ m hk]
      simp only [hval]
      simp [hrf, hv, WireTypeVarint, WireTypeFixed64, WireTypeFixed32, WireTypeLengthDelimited, Decoder.DecodeInt32, Decoder.DecodeInt64, Decoder.DecodeUInt32, Decoder.DecodeUInt64, Decoder.DecodeBool, Decoder.DecodeSInt32, Decoder.DecodeSInt64, Decoder.DecodeFixed32, Decoder.DecodeFixed64, Decoder.DecodeBytes, Decoder.DecodeString, Decoder.DecodeNested, Decoder.advance_advance, WireValue.wireType]
    · rw [unmarshalStep_tag8 c d _ _ m (by rw [htag, hk]), effect_tag8 c _ m hk]
      simp only [hval]
      simp [hrf, hv, WireTypeVarint, WireTypeFixed64, WireTypeFixed32, WireTypeLengthDelimited, Decoder.DecodeInt32, Decoder.DecodeInt64, Decoder.DecodeUInt32, Decoder.DecodeUInt64, Decoder.DecodeBool, Decoder.DecodeSInt32, Decoder.DecodeSInt64, Decoder.DecodeFixed32, Decoder.DecodeFixed64, Decoder.DecodeBytes, Decoder.DecodeString, Decoder.DecodeNested, Decoder.advance_advance, WireValue.wireType]
    · rw [unmarshalStep_tag9 c d _ _ m (by rw [htag, hk]), effect_tag9 c _ m hk]
      simp only [hval]
      simp [hrf, hv, WireTypeVarint, WireTypeFixed64, WireTypeFixed32, WireTypeLengthDelimited, Decoder.DecodeInt32, Decoder.DecodeInt64, Decoder.DecodeUInt32, Decoder.DecodeUInt64, Decoder.DecodeBool, Decoder.DecodeSInt32, Decoder.DecodeSInt64, Decoder.DecodeFixed32, Decoder.DecodeFixed64, Decoder.DecodeBytes, Decoder.DecodeString, Decoder.DecodeNested, Decoder.advance_advance, WireValue.wireType]
    · rw [unmarshalStep_tag10 c d _ _ m (by rw [htag, hk]), effect_tag10 c _ m hk]
      simp only [hval]
      simp [hrf, hv, WireTypeVarint, WireTypeFixed64, WireTypeFixed32, WireTypeLengthDelimited, Decoder.DecodeInt32, Decoder.DecodeInt64, Decoder.DecodeUInt32, Decoder.DecodeUInt64, Decoder.DecodeBool, Decoder.DecodeSInt32, Decoder.DecodeSInt64, Decoder.DecodeFixed32, Decoder.DecodeFixed64, Decoder.DecodeBytes, Decoder.DecodeString, Decoder.DecodeNested, Decoder.advance_advance, WireValue.wireType]
    · rw [unmarshalStep_tag11 c d _ _ m (by rw [htag, hk]), effect_tag11 c _ m hk]
      simp only [hval]
      simp [hrf, hv, WireTypeVarint, WireTypeFixed64, WireTypeFixed32, WireTypeLengthDelimited, Decoder.DecodeInt32, Decoder.DecodeInt64, Decoder.DecodeUInt32, Decoder.DecodeUInt64, Decoder.DecodeBool, Decoder.DecodeSInt32, Decoder.DecodeSInt64, Decoder.DecodeFixed32, Decoder.DecodeFixed64, Decoder.DecodeBytes, Decoder.DecodeString, Decoder.DecodeNested, Decoder.advance_advance, WireValue.wireType]
    · rw [unmarshalStep_tag12 c d _ _ m (by rw [htag, hk]), effect_tag12 c _ m hk]
      simp only [hval]
      simp [hrf, hv, WireTypeVarint, WireTypeFixed64, WireTypeFixed32, WireTypeLengthDelimited, Decoder.DecodeInt32, Decoder.DecodeInt64, Decoder.DecodeUInt32, Decoder.DecodeUInt64, Decoder.DecodeBool, Decoder.DecodeSInt32, Decoder.DecodeSInt64, Decoder.DecodeFixed32, Decoder.DecodeFixed64, Decoder.DecodeBytes, Decoder.DecodeString, Decoder.DecodeNested, Decoder.advance_advance, WireValue.wireType]
    · rw [unmarshalStep_tag13 c d _ _ m (by rw [htag, hk]), effect_tag13 c _ m hk]
      simp only [hval]
      simp [hrf, hv, WireTypeVarint, WireTypeFixed64, WireTypeFixed32, WireTypeLengthDelimited, Decoder.DecodeInt32, Decoder.DecodeInt64, Decoder.DecodeUInt32, Decoder.DecodeUInt64, Decoder.DecodeBool, Decoder.DecodeSInt32, Decoder.DecodeSInt64, Decoder.DecodeFixed32, Decoder.DecodeFixed64, Decoder.DecodeBytes, Decoder.DecodeString, Decoder.DecodeNested, Decoder.advance_advance, WireValue.wireType]
    · rw [unmarshalStep_tag14 c d _ _ m (by rw [htag, hk]), effect_tag14 c _ m hk]
      simp only [hval]
      simp [hrf, hv, WireTypeVarint, WireTypeFixed64, WireTypeFixed32, WireTypeLengthDelimited, Decoder.DecodeInt32, Decoder.DecodeInt64, Decoder.DecodeUInt32, Decoder.DecodeUInt64, Decoder.DecodeBool, Decoder.DecodeSInt32, Decoder.DecodeSInt64, Decoder.DecodeFixed32, Decoder.DecodeFixed64, Decoder.DecodeBytes, Decoder.DecodeString, Decoder.DecodeNested, Decoder.advance_advance, WireValue.wireType]
    · rw [unmarshalStep_tag15 c d _ _ m (by rw [htag, hk]), effect_tag15 c _ m hk]
      simp only [hval]
      simp [hrf, hv, WireTypeVarint, WireTypeFixed64, WireTypeFixed32, WireTypeLengthDelimited, Decoder.DecodeInt32, Decoder.DecodeInt64, Decoder.DecodeUInt32, Decoder.DecodeUInt64, Decoder.DecodeBool, Decoder.DecodeSInt32, Decoder.DecodeSInt64, Decoder.DecodeFixed32, Decoder.DecodeFixed64, Decoder.DecodeBytes, Decoder.DecodeString, Decoder.DecodeNested, Decoder.advance_advance, WireValue.wireType]
    · rw [unmarshalStep_tag16 c d _ _ m (by rw [htag, hk]), effect_tag16 c _ m hk]
      simp only [hval]
      simp [hrf, hv, WireTypeVarint, WireTypeFixed64, WireTypeFixed32, WireTypeLengthDelimited, Decoder.DecodeInt32, Decoder.DecodeInt64, Decoder.DecodeUInt32, Decoder.DecodeUInt64, Decoder.DecodeBool, Decoder.DecodeSInt32, Decoder.DecodeSInt64, Decoder.DecodeFixed32, Decoder.DecodeFixed64, Decoder.DecodeBytes, Decoder.DecodeString, Decoder.DecodeNested, Decoder.advance_advance, WireValue.wireType]
    · rw [unmarshalStep_default c d _ _ _ m htag hk, effect_default c _ m hk]
      simp only [hval, WireValue.wireType, WireValue.bytes] at hskip ⊢
      simp [hskip, List.length_append, Decoder.advance_advance]
  | lengthDelimited lenRaw payload =>
    rw [hval] at h1 hv htag
    simp only [WireValue.bytes, WireValue.Valid, WireValue.wireType] at h1 hv htag ⊢
    have hrl := readLengthDelimited_of d1 lenRaw payload tl h1 hv
    rcases tag_cases r.tag with hk | hk | hk | hk | hk | hk | hk | hk | hk | hk | hk | hk | hk | hk | hk | hk | hk
    · rw [unmarshalStep_tag1 c d _ _ m (by rw [htag, hk]), effect_tag1 c _ m hk]
      simp only [hval]
      simp [hrl, WireTypeVarint, WireTypeFixed64, WireTypeFixed32, WireTypeLengthDelimited, Decoder.DecodeInt32, Decoder.DecodeInt64, Decoder.DecodeUInt32, Decoder.DecodeUInt64, Decoder.DecodeBool, Decoder.DecodeSInt32, Decoder.DecodeSInt64, Decoder.DecodeFixed32, Decoder.DecodeFixed64, Decoder.DecodeBytes, Decoder.DecodeString, Decoder.DecodeNested, Decoder.advance_advance, WireValue.wireType]
    · rw [unmarshalStep_tag2 c d _ _ m (by rw [htag, hk]), effect_tag2 c _ m hk]
      simp only [hval]
      simp [hrl, WireTypeVarint, WireTypeFixed64, WireTypeFixed32, WireTypeLengthDelimited, Decoder.DecodeInt32, Decoder.DecodeInt64, Decoder.DecodeUInt32, Decoder.DecodeUInt64, Decoder.DecodeBool, Decoder.DecodeSInt32, Decoder.DecodeSInt64, Decoder.DecodeFixed32, Decoder.DecodeFixed64, Decoder.DecodeBytes, Decoder.DecodeString, Decoder.DecodeNested, Decoder.advance_advance, WireValue.wireType]
    · rw [unmarshalStep_tag3 c d _ _ m (by rw [htag, hk]), effect_tag3 c _ m hk]
      simp only [hval]
      simp [hrl, WireTypeVarint, WireTypeFixed64, WireTypeFixed32, WireTypeLengthDelimited, Decoder.DecodeInt32, Decoder.DecodeInt64, Decoder.DecodeUInt32, Decoder.DecodeUInt64, Decoder.DecodeBool, Decoder.DecodeSInt32, Decoder.DecodeSInt64, Decoder.DecodeFixed32, Decoder.DecodeFixed64, Decoder.DecodeBytes, Decoder.DecodeString, Decoder.DecodeNested, Decoder.advance_advance, WireValue.wireType]
    · rw [unmarshalStep_tag4 c d _ _ m (by rw [htag, hk]), effect_tag4 c _ m hk]
      simp only [hval]
      simp [hrl, WireTypeVarint, WireTypeFixed64, WireTypeFixed32, WireTypeLengthDelimited, Decoder.DecodeInt32, Decoder.DecodeInt64, Decoder.DecodeUInt32, Decoder.DecodeUInt64, Decoder.DecodeBool, Decoder.DecodeSInt32, Decoder.DecodeSInt64, Decoder.DecodeFixed32, Decoder.DecodeFixed64, Decoder.DecodeBytes, Decoder.DecodeString, Decoder.DecodeNested, Decoder.advance_advance, WireValue.wireType]
    · rw [unmarshalStep_tag5 c d _ _ m (by rw [htag, hk]), effect_tag5 c _ m hk]
      simp only [hval]
      simp [hrl, WireTypeVarint, WireTypeFixed64, WireTypeFixed32, WireTypeLengthDelimited, Decoder.DecodeInt32, Decoder.DecodeInt64, Decoder.DecodeUInt32, Decoder.DecodeUInt64, Decoder.DecodeBool, Decoder.DecodeSInt32, Decoder.DecodeSInt64, Decoder.DecodeFixed32, Decoder.DecodeFixed64, Decoder.DecodeBytes, Decoder.DecodeString, Decoder.DecodeNested, Decoder.advance_advance, WireValue.wireType]
    · rw [unmarshalStep_tag6 c d _ _ m (by rw [htag, hk]), effect_tag6 c _ m hk]
      simp only [hval]
      simp [hrl, WireTypeVarint, WireTypeFixed64, WireTypeFixed32, WireTypeLengthDelimited, Decoder.DecodeInt32, Decoder.DecodeInt64, Decoder.DecodeUInt32, Decoder.DecodeUInt64, Decoder.DecodeBool, Decoder.DecodeSInt32, Decoder.DecodeSInt64, Decoder.DecodeFixed32, Decoder.DecodeFixed64, Decoder.DecodeBytes, Decoder.DecodeString, Decoder.DecodeNested, Decoder.advance_advance, WireValue.wireType]
    · rw [unmarshalStep_tag7 c d _ _ m (by rw [htag, hk]), effect_tag7 c _ m hk]
      simp only [hval]
      simp [hrl, WireTypeVarint, WireTypeFixed64, WireTypeFixed32, WireTypeLengthDelimited, Decoder.DecodeInt32, Decoder.DecodeInt64, Decoder.DecodeUInt32, Decoder.DecodeUInt64, Decoder.DecodeBool, Decoder.DecodeSInt32, Decoder.DecodeSInt64, Decoder.DecodeFixed32, Decoder.DecodeFixed64, Decoder.DecodeBytes, Decoder.DecodeString, Decoder.DecodeNested, Decoder.advance_advance, WireValue.wireType]
    · rw [unmarshalStep_tag8 c d _ _ m (by rw [htag, hk]), effect_tag8 c _ m hk]
      simp only [hval]
      simp [hrl, WireTypeVarint, WireTypeFixed64, WireTypeFixed32, WireTypeLengthDelimited, Decoder.DecodeInt32, Decoder.DecodeInt64, Decoder.DecodeUInt32, Decoder.DecodeUInt64, Decoder.DecodeBool, Decoder.DecodeSInt32, Decoder.DecodeSInt64, Decoder.DecodeFixed32, Decoder.DecodeFixed64, Decoder.DecodeBytes, Decoder.DecodeString, Decoder.DecodeNested, Decoder.advance_advance, WireValue.wireType]
    · rw [unmarshalStep_tag9 c d _ _ m (by rw [htag, hk]), effect_tag9 c _ m hk]
      simp only [hval]
      simp [hrl, WireTypeVarint, WireTypeFixed64, WireTypeFixed32, WireTypeLengthDelimited, Decoder.DecodeInt32, Decoder.DecodeInt64, Decoder.DecodeUInt32, Decoder.DecodeUInt64, Decoder.DecodeBool, Decoder.DecodeSInt32, Decoder.DecodeSInt64, Decoder.DecodeFixed32, Decoder.DecodeFixed64, Decoder.DecodeBytes, Decoder.DecodeString, Decoder.DecodeNested, Decoder.advance_advance, WireValue.wireType]
    · rw [unmarshalStep_tag10 c d _ _ m (by rw [htag, hk]), effect_tag10 c _ m hk]
      simp only [hval]
      simp [hrl, WireTypeVarint, WireTypeFixed64, WireTypeFixed32, WireTypeLengthDelimited, Decoder.DecodeInt32, Decoder.DecodeInt64, Decoder.DecodeUInt32, Decoder.DecodeUInt64, Decoder.DecodeBool, Decoder.DecodeSInt32, Decoder.DecodeSInt64, Decoder.DecodeFixed32, Decoder.DecodeFixed64, Decoder.DecodeBytes, Decoder.DecodeString, Decoder.DecodeNested, Decoder.advance_advance, WireValue.wireType]
    · rw [unmarshalStep_tag11 c d _ _ m (by rw [htag, hk]), effect_tag11 c _ m hk]
      simp only [hval]
      simp [hrl, WireTypeVarint, WireTypeFixed64, WireTypeFixed32, WireTypeLengthDelimited, Decoder.DecodeInt32, Decoder.DecodeInt64, Decoder.DecodeUInt32, Decoder.DecodeUInt64, Decoder.DecodeBool, Decoder.DecodeSInt32, Decoder.DecodeSInt64, Decoder.DecodeFixed32, Decoder.DecodeFixed64, Decoder.DecodeBytes, Decoder.DecodeString, Decoder.DecodeNested, Decoder.advance_advance, WireValue.wireType]
    · rw [unmarshalStep_tag12 c d _ _ m (by rw [htag, hk]), effect_tag12 c _ m hk]
      simp only [hval]
      simp [hrl, WireTypeVarint, WireTypeFixed64, WireTypeFixed32, WireTypeLengthDelimited, Decoder.DecodeInt32, Decoder.DecodeInt64, Decoder.DecodeUInt32, Decoder.DecodeUInt64, Decoder.DecodeBool, Decoder.DecodeSInt32, Decoder.DecodeSInt64, Decoder.DecodeFixed32, Decoder.DecodeFixed64, Decoder.DecodeBytes, Decoder.DecodeString, Decoder.DecodeNested, Decoder.advance_advance, WireValue.wireType]
    · rw [unmarshalStep_tag13 c d _ _ m (by rw [htag, hk]), effect_tag13 c _ m hk]
      simp only [hval]
      simp [hrl, WireTypeVarint, WireTypeFixed64, WireTypeFixed32, WireTypeLengthDelimited, Decoder.DecodeInt32, Decoder.DecodeInt64, Decoder.DecodeUInt32, Decoder.DecodeUInt64, Decoder.DecodeBool, Decoder.DecodeSInt32, Decoder.DecodeSInt64, Decoder.DecodeFixed32, Decoder.DecodeFixed64, Decoder.DecodeBytes, Decoder.DecodeString, Decoder.DecodeNested, Decoder.advance_advance, WireValue.wireType]
    · rw [unmarshalStep_tag14 c d _ _ m (by rw [htag, hk]), effect_tag14 c _ m hk]
      simp only [hval]
      simp [hrl, WireTypeVarint, WireTypeFixed64, WireTypeFixed32, WireTypeLengthDelimited, Decoder.DecodeInt32, Decoder.DecodeInt64, Decoder.DecodeUInt32, Decoder.DecodeUInt64, Decoder.DecodeBool, Decoder.DecodeSInt32, Decoder.DecodeSInt64, Decoder.DecodeFixed32, Decoder.DecodeFixed64, Decoder.DecodeBytes, Decoder.DecodeString, Decoder.DecodeNested, Decoder.advance_advance, WireValue.wireType]
    · rw [unmarshalStep_tag15 c d _ _ m (by rw [htag, hk]), effect_tag15 c _ m hk]
      simp only [hval]
      simp [hrl, WireTypeVarint, WireTypeFixed64, WireTypeFixed32, WireTypeLengthDelimited, Decoder.DecodeInt32, Decoder.DecodeInt64, Decoder.DecodeUInt32, Decoder.DecodeUInt64, Decoder.DecodeBool, Decoder.DecodeSInt32, Decoder.DecodeSInt64, Decoder.DecodeFixed32, Decoder.DecodeFixed64, Decoder.DecodeBytes, Decoder.DecodeString, Decoder.DecodeNested, Decoder.advance_advance, WireValue.wireType]
    · rw [unmarshalStep_tag16 c d _ _ m (by rw [htag, hk]), effect_tag16 c _ m hk]
      simp only [hval]
      simp [hrl, WireTypeVarint, WireTypeFixed64, WireTypeFixed32, WireTypeLengthDelimited, Decoder.DecodeInt32, Decoder.DecodeInt64, Decoder.DecodeUInt32, Decoder.DecodeUInt64, Decoder.DecodeBool, Decoder.DecodeSInt32, Decoder.DecodeSInt64, Decoder.DecodeFixed32, Decoder.DecodeFixed64, Decoder.DecodeBytes, Decoder.DecodeString, Decoder.DecodeNested, Decoder.advance_advance, WireValue.wireType]
      cases c.Unmarshal payload <;> rfl
    · rw [unmarshalStep_default c d _ _ _ m htag hk, effect_default c _ m hk]
      simp only [hval, WireValue.wireType, WireValue.bytes] at hskip ⊢
      simp [hskip, List.length_append, Decoder.advance_advance]
  | fixed32 raw =>
    rw [hval] at h1 hv htag
    simp only [WireValue.bytes, WireValue.Valid, WireValue.wireType] at h1 hv htag ⊢
    have hrf := readFixed_of d1 raw tl 4 h1 hv
    rcases tag_cases r.tag with hk | hk | hk | hk | hk | hk | hk | hk | hk | hk | hk | hk | hk | hk | hk | hk | hk
    · rw [unmarshalStep_tag1 c d _ _ m (by rw [htag, hk]), effect_tag1 c _ m hk]
      simp only [hval]
      simp [hrf, hv, WireTypeVarint, WireTypeFixed64, WireTypeFixed32, WireTypeLengthDelimited, Decoder.DecodeInt32, Decoder.DecodeInt64, Decoder.DecodeUInt32, Decoder.DecodeUInt64, Decoder.DecodeBool, Decoder.DecodeSInt32, Decoder.DecodeSInt64, Decoder.DecodeFixed32, Decoder.DecodeFixed64, Decoder.DecodeBytes, Decoder.DecodeString, Decoder.DecodeNested, Decoder.advance_advance, WireValue.wireType]
    · rw [unmarshalStep_tag2 c d _ _ m (by rw [htag, hk]), effect_tag2 c _ m hk]
      simp only [hval]
      simp [hrf, hv, WireTypeVarint, WireTypeFixed64, WireTypeFixed32, WireTypeLengthDelimited, Decoder.DecodeInt32, Decoder.DecodeInt64, Decoder.DecodeUInt32, Decoder.DecodeUInt64, Decoder.DecodeBool, Decoder.DecodeSInt32, Decoder.DecodeSInt64, Decoder.DecodeFixed32, Decoder.DecodeFixed64, Decoder.DecodeBytes, Decoder.DecodeString, Decoder.DecodeNested, Decoder.advance_advance, WireValue.wireType]
    · rw [unmarshalStep_tag3 c d _ _ m (by rw [htag, hk]), effect_tag3 c _ m hk]
      simp only [hval]
      simp [hrf, hv, WireTypeVarint, WireTypeFixed64, WireTypeFixed32, WireTypeLengthDelimited, Decoder.DecodeInt32, Decoder.DecodeInt64, Decoder.DecodeUInt32, Decoder.DecodeUInt64, Decoder.DecodeBool, Decoder.DecodeSInt32, Decoder.DecodeSInt64, Decoder.DecodeFixed32, Decoder.DecodeFixed64, Decoder.DecodeBytes, Decoder.DecodeString, Decoder.DecodeNested, Decoder.advance_advance, WireValue.wireType]
    · rw [unmarshalStep_tag4 c d _ _ m (by rw [htag, hk]), effect_tag4 c _ m hk]
      simp only [hval]
      simp [hrf, hv, WireTypeVarint, WireTypeFixed64, WireTypeFixed32, WireTypeLengthDelimited, Decoder.DecodeInt32, Decoder.DecodeInt64, Decoder.DecodeUInt32, Decoder.DecodeUInt64, Decoder.DecodeBool, Decoder.DecodeSInt32, Decoder.DecodeSInt64, Decoder.DecodeFixed32, Decoder.DecodeFixed64, Decoder.DecodeBytes, Decoder.DecodeString, Decoder.DecodeNested, Decoder.advance_advance, WireValue.wireType]
    · rw [unmarshalStep_tag5 c d _ _ m (by rw [htag, hk]), effect_tag5 c _ m hk]
      simp only [hval]
      simp [hrf, hv, WireTypeVarint, WireTypeFixed64, WireTypeFixed32, WireTypeLengthDelimited, Decoder.DecodeInt32, Decoder.DecodeInt64, Decoder.DecodeUInt32, Decoder.DecodeUInt64, Decoder.DecodeBool, Decoder.DecodeSInt32, Decoder.DecodeSInt64, Decoder.DecodeFixed32, Decoder.DecodeFixed64, Decoder.DecodeBytes, Decoder.DecodeString, Decoder.DecodeNested, Decoder.advance_advance, WireValue.wireType]
    · rw [unmarshalStep_tag6 c d _ _ m (by rw [htag, hk]), effect_tag6 c _ m hk]
      simp only [hval]
      simp [hrf, hv, WireTypeVarint, WireTypeFixed64, WireTypeFixed32, WireTypeLengthDelimited, Decoder.DecodeInt32, Decoder.DecodeInt64, Decoder.DecodeUInt32, Decoder.DecodeUInt64, Decoder.DecodeBool, Decoder.DecodeSInt32, Decoder.DecodeSInt64, Decoder.DecodeFixed32, Decoder.DecodeFixed64, Decoder.DecodeBytes, Decoder.DecodeString, Decoder.DecodeNested, Decoder.advance_advance, WireValue.wireType]
    · rw [unmarshalStep_tag7 c d _ _ m (by rw [htag, hk]), effect_tag7 c _ m hk]
      simp only [hval]
      simp [hrf, hv, WireTypeVarint, WireTypeFixed64, WireTypeFixed32, WireTypeLengthDelimited, Decoder.DecodeInt32, Decoder.DecodeInt64, Decoder.DecodeUInt32, Decoder.DecodeUInt64, Decoder.DecodeBool, Decoder.DecodeSInt32, Decoder.DecodeSInt64, Decoder.DecodeFixed32, Decoder.DecodeFixed64, Decoder.DecodeBytes, Decoder.DecodeString, Decoder.DecodeNested, Decoder.advance_advance, WireValue.wireType]
    · rw [unmarshalStep_tag8 c d _ _ m (by rw [htag, hk]), effect_tag8 c _ m hk]
      simp only [hval]
      simp [hrf, hv, WireTypeVarint, WireTypeFixed64, WireTypeFixed32, WireTypeLengthDelimited, Decoder.DecodeInt32, Decoder.DecodeInt64, Decoder.DecodeUInt32, Decoder.DecodeUInt64, Decoder.DecodeBool, Decoder.DecodeSInt32, Decoder.DecodeSInt64, Decoder.DecodeFixed32, Decoder.DecodeFixed64, Decoder.DecodeBytes, Decoder.DecodeString, Decoder.DecodeNested, Decoder.advance_advance, WireValue.wireType]
    · rw [unmarshalStep_tag9 c d _ _ m (by rw [htag, hk]), effect_tag9 c _ m hk]
      simp only [hval]
      simp [hrf, hv, WireTypeVarint, WireTypeFixed64, WireTypeFixed32, WireTypeLengthDelimited, Decoder.DecodeInt32, Decoder.DecodeInt64, Decoder.DecodeUInt32, Decoder.DecodeUInt64, Decoder.DecodeBool, Decoder.DecodeSInt32, Decoder.DecodeSInt64, Decoder.DecodeFixed32, Decoder.DecodeFixed64, Decoder.DecodeBytes, Decoder.DecodeString, Decoder.DecodeNested, Decoder.advance_advance, WireValue.wireType]
    · rw [unmarshalStep_tag10 c d _ _ m (by rw [htag, hk]), effect_tag10 c _ m hk]
      simp only [hval]
      simp [hrf, hv, WireTypeVarint, WireTypeFixed64, WireTypeFixed32, WireTypeLengthDelimited, Decoder.DecodeInt32, Decoder.DecodeInt64, Decoder.DecodeUInt32, Decoder.DecodeUInt64, Decoder.DecodeBool, Decoder.DecodeSInt32, Decoder.DecodeSInt64, Decoder.DecodeFixed32, Decoder.DecodeFixed64, Decoder.DecodeBytes, Decoder.DecodeString, Decoder.DecodeNested, Decoder.advance_advance, WireValue.wireType]
    · rw [unmarshalStep_tag11 c d _ _ m (by rw [htag, hk]), effect_tag11 c _ m hk]
      simp only [hval]
      simp [hrf, hv, WireTypeVarint, WireTypeFixed64, WireTypeFixed32, WireTypeLengthDelimited, Decoder.DecodeInt32, Decoder.DecodeInt64, Decoder.DecodeUInt32, Decoder.DecodeUInt64, Decoder.DecodeBool, Decoder.DecodeSInt32, Decoder.DecodeSInt64, Decoder.DecodeFixed32, Decoder.DecodeFixed64, Decoder.DecodeBytes, Decoder.DecodeString, Decoder.DecodeNested, Decoder.advance_advance, WireValue.wireType]
    · rw [unmarshalStep_tag12 c d _ _ m (by rw [htag, hk]), effect_tag12 c _ m hk]
      simp only [hval]
      simp [hrf, hv, WireTypeVarint, WireTypeFixed64, WireTypeFixed32, WireTypeLengthDelimited, Decoder.DecodeInt32, Decoder.DecodeInt64, Decoder.DecodeUInt32, Decoder.DecodeUInt64, Decoder.DecodeBool, Decoder.DecodeSInt32, Decoder.DecodeSInt64, Decoder.DecodeFixed32, Decoder.DecodeFixed64, Decoder.DecodeBytes, Decoder.DecodeString, Decoder.DecodeNested, Decoder.advance_advance, WireValue.wireType]
    · rw [unmarshalStep_tag13 c d _ _ m (by rw [htag, hk]), effect_tag13 c _ m hk]
      simp only [hval]
      simp [hrf, hv, WireTypeVarint, WireTypeFixed64, WireTypeFixed32, WireTypeLengthDelimited, Decoder.DecodeInt32, Decoder.DecodeInt64, Decoder.DecodeUInt32, Decoder.DecodeUInt64, Decoder.DecodeBool, Decoder.DecodeSInt32, Decoder.DecodeSInt64, Decoder.DecodeFixed32, Decoder.DecodeFixed64, Decoder.DecodeBytes, Decoder.DecodeString, Decoder.DecodeNested, Decoder.advance_advance, WireValue.wireType]
    · rw [unmarshalStep_tag14 c d _ _ m (by rw [htag, hk]), effect_tag14 c _ m hk]
      simp only [hval]
      simp [hrf, hv, WireTypeVarint, WireTypeFixed64, WireTypeFixed32, WireTypeLengthDelimited, Decoder.DecodeInt32, Decoder.DecodeInt64, Decoder.DecodeUInt32, Decoder.DecodeUInt64, Decoder.DecodeBool, Decoder.DecodeSInt32, Decoder.DecodeSInt64, Decoder.DecodeFixed32, Decoder.DecodeFixed64, Decoder.DecodeBytes, Decoder.DecodeString, Decoder.DecodeNested, Decoder.advance_advance, WireValue.wireType]
    · rw [unmarshalStep_tag15 c d _ _ m (by rw [htag, hk]), effect_tag15 c _ m hk]
      simp only [hval]
      simp [hrf, hv, WireTypeVarint, WireTypeFixed64, WireTypeFixed32, WireTypeLengthDelimited, Decoder.DecodeInt32, Decoder.DecodeInt64, Decoder.DecodeUInt32, Decoder.DecodeUInt64, Decoder.DecodeBool, Decoder.DecodeSInt32, Decoder.DecodeSInt64, Decoder.DecodeFixed32, Decoder.DecodeFixed64, Decoder.DecodeBytes, Decoder.DecodeString, Decoder.DecodeNested, Decoder.advance_advance, WireValue.wireType]
    · rw [unmarshalStep_tag16 c d _ _ m (by rw [htag, hk]), effect_tag16 c _ m hk]
      simp only [hval]
      simp [hrf, hv, WireTypeVarint, WireTypeFixed64, WireTypeFixed32, WireTypeLengthDelimited, Decoder.DecodeInt32, Decoder.DecodeInt64, Decoder.DecodeUInt32, Decoder.DecodeUInt64, Decoder.DecodeBool, Decoder.DecodeSInt32, Decoder.DecodeSInt64, Decoder.DecodeFixed32, Decoder.DecodeFixed64, Decoder.DecodeBytes, Decoder.DecodeString, Decoder.DecodeNested, Decoder.advance_advance, WireValue.wireType]
    · rw [unmarshalStep_default c d _ _ _ m htag hk, effect_default c _ m hk]
      simp only [hval, WireValue.wireType, WireValue.bytes] at hskip ⊢
      simp [hskip, List.length_append, Decoder.advance_advance]


/-! ### The loop over a sequence of records -/

theorem Record.tagRaw_pos (r : Record) (hr : r.Valid) : 1 ≤ r.tagRaw.length :=
  (DecodeVarint_bounds _ _ _ hr.1).1

theorem Record.bytes_pos (r : Record) (hr : r.Valid) : 1 ≤ r.bytes.length := by
  have := r.tagRaw_pos hr
  simp [Record.bytes]; omega

theorem recordsBytes_length_ge (recs : List Record) (hv : ∀ r ∈ recs, r.Valid) :
    recs.length ≤ (recordsBytes recs).length := by
  induction recs with
  | nil => simp [recordsBytes]
  | cons r rs ih =>
    have h1 := r.bytes_pos (hv r (List.mem_cons_self _ _))
    have h2 := ih (fun x hx => hv x (List.mem_cons_of_mem _ hx))
    simp [recordsBytes]; omega

theorem Decoder.More_of_rest (d : Decoder) (a tl : List Byte) (h : d.rest = a ++ tl)
    (ha : 1 ≤ a.length) : d.More = true := by
  have h2 : d.rest.length = d.p.length - d.offset := by simp [Decoder.rest]
  have h3 : 1 ≤ d.rest.length := by rw [h]; simp; omega
  simp [Decoder.More]; omega

theorem Decoder.More_false_of_rest (d : Decoder) (h : d.rest = []) : d.More = false := by
  have h2 : d.rest.length = d.p.length - d.offset := by simp [Decoder.rest]
  rw [h] at h2
  simp [Decoder.More] at h2 ⊢; omega

theorem unmarshalLoop_succ {E : Type} (c : NestedCodec E) (fuel : Nat) (d : Decoder)
    (m : AllTheThings E) :
    AllTheThings.unmarshalLoop c (fuel + 1) d m =
      if d.More then
        match AllTheThings.unmarshalStep c d m with
        | .error err => ⟨m, d, some err⟩
        | .ok (dec2, m2) => AllTheThings.unmarshalLoop c fuel dec2 m2
      else ⟨m, d, none⟩ := rfl

/-- The loop reads a sequence of well-formed records whose effects all succeed one record per
iteration and goes on with what follows them. -/
theorem unmarshalLoop_records {E : Type} (c : NestedCodec E) (recs : List Record)
    (hv : ∀ r ∈ recs, r.Valid) (tl : List Byte) (fuel : Nat) (d : Decoder)
    (m m2 : AllTheThings E) (hd : d.rest = recordsBytes recs ++ tl)
    (hrun : runRecords c recs m = (m2, none)) :
    AllTheThings.unmarshalLoop c (recs.length + fuel) d m =
      AllTheThings.unmarshalLoop c fuel (d.advance (recordsBytes recs).length) m2 := by
  induction recs generalizing d m with
  | nil =>
    simp only [runRecords, Prod.mk.injEq, and_true] at hrun
    subst hrun
    simp [recordsBytes, Decoder.advance]
  | cons r rs ih =>
    have hr := hv r (List.mem_cons_self _ _)
    rw [recordsBytes, List.append_assoc] at hd
    have hmore := d.More_of_rest r.bytes _ hd (r.bytes_pos hr)
    have hstep := unmarshalStep_of_record c d r _ m hr hd
    rw [show (r :: rs).length + fuel = (rs.length + fuel) + 1 by simp; omega,
      unmarshalLoop_succ, hmore, if_pos rfl, hstep]
    unfold runRecords at hrun
    cases he : r.effect c m with
    | error err => rw [he] at hrun; simp at hrun
    | ok m1 =>
      rw [he] at hrun
      simp only [] at hrun ⊢
      rw [ih (fun x hx => hv x (List.mem_cons_of_mem _ hx)) (d.advance r.bytes.length) m1
        (Decoder.rest_advance_of d _ _ hd) hrun]
      simp [recordsBytes, Decoder.advance_advance]

/-- The loop stops at the first record whose effect is an error, with that error and the target
as the records before it left it. -/
theorem unmarshalLoop_records_error {E : Type} (c : NestedCodec E) (recs : List Record)
    (hv : ∀ r ∈ recs, r.Valid) (tl : List Byte) (fuel : Nat) (d : Decoder)
    (m m2 : AllTheThings E) (err : Err) (hd : d.rest = recordsBytes recs ++ tl)
    (hrun : runRecords c recs m = (m2, some err)) :
    ∃ d2, AllTheThings.unmarshalLoop c (recs.length + fuel) d m = ⟨m2, d2, some err⟩ := by
  induction recs generalizing d m with
  | nil => simp [runRecords] at hrun
  | cons r rs ih =>
    have hr := hv r (List.mem_cons_self _ _)
    rw [recordsBytes, List.append_assoc] at hd
    have hmore := d.More_of_rest r.bytes _ hd (r.bytes_pos hr)
    have hstep := unmarshalStep_of_record c d r _ m hr hd
    rw [show (r :: rs).length + fuel = (rs.length + fuel) + 1 by simp; omega,
      unmarshalLoop_succ, hmore, if_pos rfl, hstep]
    unfold runRecords at hrun
    cases he : r.effect c m with
    | error e2 =>
      rw [he] at hrun
      simp only [Prod.mk.injEq, Option.some.injEq] at hrun
      obtain ⟨h1, h2⟩ := hrun
      subst h1 h2
      exact ⟨d, rfl⟩
    | ok m1 =>
      rw [he] at hrun
      simp only [] at hrun ⊢
      exact ih (fun x hx => hv x (List.mem_cons_of_mem _ hx)) (d.advance r.bytes.length) m1
        (Decoder.rest_advance_of d _ _ hd) hrun

theorem NewDecoder_rest (p : List Byte) : (NewDecoder p).rest = p := rfl

/-- Decoding with `Unmarshal` a non-empty buffer made of well-formed records has the effect of
the records on the zero state; when no record fails, the cursor ends at the length of the
buffer. -/
theorem unmarshalRun_records {E : Type} (c : NestedCodec E) (recs : List Record)
    (hv : ∀ r ∈ recs, r.Valid) (hne : recs ≠ []) (m0 : AllTheThings E) :
    (AllTheThings.unmarshalRun c m0 (recordsBytes recs)).m =
        (runRecords c recs AllTheThings.zero).1 ∧
    (AllTheThings.unmarshalRun c m0 (recordsBytes recs)).err =
        (runRecords c recs AllTheThings.zero).2 ∧
    ((runRecords c recs AllTheThings.zero).2 = none →
      (AllTheThings.unmarshalRun c m0 (recordsBytes recs)).dec.offset =
        (recordsBytes recs).length ∧
      (AllTheThings.unmarshalRun c m0 (recordsBytes recs)).dec.p = recordsBytes recs) := by
  have hlen := recordsBytes_length_ge recs hv
  have hpos : 0 < recs.length := List.length_pos.mpr hne
  have hp : ¬ ((recordsBytes recs).length = 0) := by omega
  unfold AllTheThings.unmarshalRun
  rw [if_neg hp]
  simp only [AllTheThings.Reset]
  obtain ⟨k, hk⟩ : ∃ k, (recordsBytes recs).length + 1 = recs.length + (k + 1) :=
    ⟨(recordsBytes recs).length - recs.length, by omega⟩
  rw [hk]
  cases hrun : runRecords c recs AllTheThings.zero with
  | mk m2 e =>
    cases e with
    | none =>
      rw [unmarshalLoop_records c recs hv [] (k + 1) (NewDecoder _) _ m2
        (by rw [NewDecoder_rest, List.append_nil]) hrun]
      have hrest : ((NewDecoder (recordsBytes recs)).advance (recordsBytes recs).length).rest
          = [] := by
        simp [Decoder.rest, Decoder.advance, NewDecoder]
      rw [unmarshalLoop_succ, Decoder.More_false_of_rest _ hrest]
      simp [Decoder.advance, NewDecoder]
    | some err =>
      obtain ⟨d2, h2⟩ := unmarshalLoop_records_error c recs hv [] (k + 1) (NewDecoder _) _ m2 err
        (by rw [NewDecoder_rest, List.append_nil]) hrun
      rw [h2]
      simp

theorem Unmarshal_records {E : Type} (c : NestedCodec E) (recs : List Record)
    (hv : ∀ r ∈ recs, r.Valid) (hne : recs ≠ []) (m0 : AllTheThings E) :
    AllTheThings.Unmarshal c m0 (recordsBytes recs) = runRecords c recs AllTheThings.zero := by
  obtain ⟨h1, h2, -⟩ := unmarshalRun_records c recs hv hne m0
  unfold AllTheThings.Unmarshal
  simp only [h1, h2]



/-! ### Canonical records are well formed and decode to the value written -/

theorem DecodeVarint_EncodeVarint (v : Nat) :
    DecodeVarint (EncodeVarint v) =
      .ok (v % 18446744073709551616, (EncodeVarint v).length) := by
  have h := DecodeVarint_encode (v % 18446744073709551616) [] (Nat.mod_lt _ (by decide))
  have e : EncodeVarint (v % 18446744073709551616) = EncodeVarint v := by
    simp [EncodeVarint]
  have e2 : SizeOfVarint (v % 18446744073709551616) = SizeOfVarint v := by
    simp [SizeOfVarint]
  rw [List.append_nil, e, e2] at h
  rw [h, EncodeVarint_length]

theorem EncodeTag_valid (t wt : Nat) (ht : t < 2305843009213693952) (hw : wt < 8) :
    DecodeVarint (EncodeTag t wt) = .ok ((t <<< 3) ||| wt, (EncodeTag t wt).length) := by
  have h1 : (t <<< 3) ||| wt = 8 * t + wt := by
    rw [Nat.shiftLeft_eq, Nat.mul_comm]
    exact (Nat.mul_add_lt_is_or (show wt < 2 ^ 3 by omega) t).symm
  unfold EncodeTag
  rw [DecodeVarint_EncodeVarint, Nat.mod_eq_of_lt (by omega)]

theorem ofVarint_valid (t v : Nat) (ht : t < 2305843009213693952) :
    (Record.ofVarint t v).Valid :=
  ⟨EncodeTag_valid t _ ht (by decide), DecodeVarint_EncodeVarint v⟩

theorem ofFixed32_valid (t v : Nat) (ht : t < 2305843009213693952) :
    (Record.ofFixed32 t v).Valid :=
  ⟨EncodeTag_valid t _ ht (by decide), leBytes_length _ _⟩

theorem ofFixed64_valid (t v : Nat) (ht : t < 2305843009213693952) :
    (Record.ofFixed64 t v).Valid :=
  ⟨EncodeTag_valid t _ ht (by decide), leBytes_length _ _⟩

theorem ofBytes_valid (t : Nat) (b : List Byte) (ht : t < 2305843009213693952)
    (hb : b.length < 18446744073709551616) : (Record.ofBytes t b).Valid := by
  refine ⟨EncodeTag_valid t _ ht (by decide), ?_⟩
  show DecodeVarint (EncodeVarint b.length) = _
  rw [DecodeVarint_EncodeVarint, Nat.mod_eq_of_lt hb]

theorem i32_u64 (v : Int) (h : isInt32 v) : i32 (u64 v % 18446744073709551616) = v := by
  unfold i32 u64; unfold isInt32 at h; omega

theorem i64_u64_mod (v : Int) (h : isInt64 v) : i64 (u64 v % 18446744073709551616) = v := by
  unfold i64 u64; unfold isInt64 at h; omega

theorem u32_mod (v : Nat) (h : isUInt32 v) : u32 (v % 18446744073709551616) = v := by
  unfold u32; unfold isUInt32 at h; omega

theorem u64_mod (v : Nat) (h : isUInt64 v) : v % 18446744073709551616 = v := by
  unfold isUInt64 at h; omega

theorem bool_mod (b : Bool) :
    decide ((if b then 1 else 0) % 18446744073709551616 ≠ 0) = b := by
  cases b <;> decide

theorem zigzag32_roundtrip (v : Int) (h : isInt32 v) :
    zigzagDecode (u32 (zigzagEncode32 v % 18446744073709551616)) = v := by
  rw [zigzagEncode32_eq v h]
  unfold zigzagDecode u32; unfold isInt32 at h
  split <;> split <;> omega

theorem zigzag64_roundtrip (v : Int) (h : isInt64 v) :
    zigzagDecode (zigzagEncode v % 18446744073709551616) = v := by
  rw [zigzagEncode_eq v h]
  unfold zigzagDecode; unfold isInt64 at h
  split <;> split <;> omega

theorem fixed32_roundtrip (v : Nat) (h : isUInt32 v) : leValue (EncodeFixed32 v) = v := by
  unfold EncodeFixed32; unfold isUInt32 at h
  rw [leValue_leBytes]; norm_num; omega

theorem fixed64_roundtrip (v : Nat) (h : isUInt64 v) : leValue (EncodeFixed64 v) = v := by
  unfold EncodeFixed64; unfold isUInt64 at h
  rw [leValue_leBytes]; norm_num; omega

theorem sfixed32_roundtrip (v : Int) (h : isInt32 v) :
    i32 (leValue (EncodeFixed32 (u32 (u64 v)))) = v := by
  rw [fixed32_roundtrip _ (by unfold isUInt32 u32; omega)]
  unfold i32 u32 u64; unfold isInt32 at h; omega

theorem sfixed64_roundtrip (v : Int) (h : isInt64 v) :
    i64 (leValue (EncodeFixed64 (u64 v))) = v := by
  rw [fixed64_roundtrip _ (by unfold isUInt64 u64; omega)]
  exact i64_u64 v h



/-- Every record `MarshalTo` writes is well formed. -/
theorem records_valid {E : Type} (c : NestedCodec E) (m : AllTheThings E) (hwf : m.WF)
    (hn : ∀ e payload, m.TheMessage = some e → c.Marshal e = .ok payload →
      payload.length < 9223372036854775808) :
    ∀ r ∈ m.records c, r.Valid := by
  obtain ⟨-, -, -, -, -, -, -, -, -, -, -, -, hs, hb⟩ := hwf
  intro r hr
  unfold AllTheThings.records at hr
  simp only [List.mem_append, List.mem_cons, List.mem_singleton, List.not_mem_nil,
    or_false] at hr
  rcases hr with (((hr | hr) | hr) | hr) | hr
  · subst hr; exact ofVarint_valid _ _ (by decide)
  · split at hr
    · simp only [List.mem_singleton] at hr
      subst hr; exact ofBytes_valid _ _ (by decide) (by omega)
    · simp at hr
  · rcases hr with hr | hr | hr | hr | hr | hr | hr | hr | hr | hr | hr | hr <;> subst hr <;>
      first
      | exact ofVarint_valid _ _ (by decide)
      | exact ofFixed32_valid _ _ (by decide)
      | exact ofFixed64_valid _ _ (by decide)
  · split at hr
    · simp only [List.mem_singleton] at hr
      subst hr; exact ofBytes_valid _ _ (by decide) (by omega)
    · simp at hr
  · cases hm : m.TheMessage with
    | none => simp [hm] at hr
    | some e =>
      cases hp : c.Marshal e with
      | error err => simp [hm, hp] at hr
      | ok payload =>
        simp only [hm, hp, List.mem_singleton] at hr
        subst hr
        have := hn e payload hm hp
        exact ofBytes_valid _ _ (by decide) (by omega)

theorem runRecords_cons_ok {E : Type} (c : NestedCodec E) (r : Record) (rs : List Record)
    (m m1 : AllTheThings E) (h : r.effect c m = .ok m1) :
    runRecords c (r :: rs) m = runRecords c rs m1 := by
  simp only [runRecords, h]

theorem runRecords_append {E : Type} (c : NestedCodec E) (a b : List Record)
    (m m2 : AllTheThings E) (h : runRecords c a m = (m2, none)) :
    runRecords c (a ++ b) m = runRecords c b m2 := by
  induction a generalizing m with
  | nil => simp [runRecords] at h; subst h; rfl
  | cons r rs ih =>
    rw [List.cons_append]
    cases he : r.effect c m with
    | error err => simp [runRecords, he] at h
    | ok m1 =>
      rw [runRecords_cons_ok c r _ m m1 he] at h ⊢
      exact ih m1 h

theorem effect_canonical1 {E : Type} (c : NestedCodec E) (v : Nat) (m : AllTheThings E) :
    (Record.ofVarint 1 v).effect c m = .ok { m with ID := i32 (v % 18446744073709551616) } :=
  effect_tag1 c _ m rfl

theorem effect_canonical2 {E : Type} (c : NestedCodec E) (b : List Byte) (m : AllTheThings E) :
    (Record.ofBytes 2 b).effect c m = .ok { m with TheString := b } :=
  effect_tag2 c _ m rfl

theorem effect_canonical3 {E : Type} (c : NestedCodec E) (v : Nat) (m : AllTheThings E) :
    (Record.ofVarint 3 v).effect c m = .ok { m with TheBool := decide (v % 18446744073709551616 ≠ 0) } :=
  effect_tag3 c _ m rfl

theorem effect_canonical4 {E : Type} (c : NestedCodec E) (v : Nat) (m : AllTheThings E) :
    (Record.ofVarint 4 v).effect c m = .ok { m with TheInt32 := i32 (v % 18446744073709551616) } :=
  effect_tag4 c _ m rfl

theorem effect_canonical5 {E : Type} (c : NestedCodec E) (v : Nat) (m : AllTheThings E) :
    (Record.ofVarint 5 v).effect c m = .ok { m with TheInt64 := i64 (v % 18446744073709551616) } :=
  effect_tag5 c _ m rfl

theorem effect_canonical6 {E : Type} (c : NestedCodec E) (v : Nat) (m : AllTheThings E) :
    (Record.ofVarint 6 v).effect c m = .ok { m with TheUInt32 := u32 (v % 18446744073709551616) } :=
  effect_tag6 c _ m rfl

theorem effect_canonical7 {E : Type} (c : NestedCodec E) (v : Nat) (m : AllTheThings E) :
    (Record.ofVarint 7 v).effect c m = .ok { m with TheUInt64 := v % 18446744073709551616 } :=
  effect_tag7 c _ m rfl

theorem effect_canonical8 {E : Type} (c : NestedCodec E) (v : Nat) (m : AllTheThings E) :
    (Record.ofVarint 8 v).effect c m = .ok { m with TheSInt32 := zigzagDecode (u32 (v % 18446744073709551616)) } :=
  effect_tag8 c _ m rfl

theorem effect_canonical9 {E : Type} (c : NestedCodec E) (v : Nat) (m : AllTheThings E) :
    (Record.ofVarint 9 v).effect c m = .ok { m with TheSInt64 := zigzagDecode (v % 18446744073709551616) } :=
  effect_tag9 c _ m rfl

theorem effect_canonical10 {E : Type} (c : NestedCodec E) (v : Nat) (m : AllTheThings E) :
    (Record.ofFixed32 10 v).effect c m = .ok { m with TheFixed32 := leValue (EncodeFixed32 v) } :=
  effect_tag10 c _ m rfl

theorem effect_canonical11 {E : Type} (c : NestedCodec E) (v : Nat) (m : AllTheThings E) :
    (Record.ofFixed64 11 v).effect c m = .ok { m with TheFixed64 := leValue (EncodeFixed64 v) } :=
  effect_tag11 c _ m rfl

theorem effect_canonical12 {E : Type} (c : NestedCodec E) (v : Nat) (m : AllTheThings E) :
    (Record.ofFixed32 12 v).effect c m = .ok { m with TheSFixed32 := i32 (leValue (EncodeFixed32 v)) } :=
  effect_tag12 c _ m rfl

theorem effect_canonical13 {E : Type} (c : NestedCodec E) (v : Nat) (m : AllTheThings E) :
    (Record.ofFixed64 13 v).effect c m = .ok { m with TheSFixed64 := i64 (leValue (EncodeFixed64 v)) } :=
  effect_tag13 c _ m rfl

theorem effect_canonical14 {E : Type} (c : NestedCodec E) (v : Nat) (m : AllTheThings E) :
    (Record.ofVarint 14 v).effect c m = .ok { m with TheEventType := i32 (v % 18446744073709551616) } :=
  effect_tag14 c _ m rfl

theorem effect_canonical15 {E : Type} (c : NestedCodec E) (b : List Byte) (m : AllTheThings E) :
    (Record.ofBytes 15 b).effect c m = .ok { m with TheBytes := b } :=
  effect_tag15 c _ m rfl

theorem effect_canonical16 {E : Type} (c : NestedCodec E) (b : List Byte) (e : E)
    (m : AllTheThings E) (h : c.Unmarshal b = .ok e) :
    (Record.ofBytes 16 b).effect c m = .ok { m with TheMessage := some e } := by
  rw [effect_tag16 c _ m rfl]
  simp only [Record.ofBytes, h]

/-- The records of a message, applied in order to the zero state, rebuild the message. -/
theorem runRecords_records {E : Type} (c : NestedCodec E) (m : AllTheThings E) (hwf : m.WF)
    (hu : m.XXX_unrecognized = [])
    (hn : ∀ e, m.TheMessage = some e →
      ∃ payload, c.Marshal e = .ok payload ∧ c.Unmarshal payload = .ok e) :
    runRecords c (m.records c) AllTheThings.zero = (m, none) := by
  obtain ⟨h1, h4, h5, h6, h7, h8, h9, h10, h11, h12, h13, h14, hs, hb⟩ := hwf
  obtain ⟨ID, TheString, TheBool, TheInt32, TheInt64, TheUInt32, TheUInt64, TheSInt32,
    TheSInt64, TheFixed32, TheFixed64, TheSFixed32, TheSFixed64, TheEventType, TheBytes,
    TheMessage, XXX_unrecognized⟩ := m
  simp only [] at h1 h4 h5 h6 h7 h8 h9 h10 h11 h12 h13 h14 hs hb hu hn
  subst hu
  have conv := And.intro (i32_u64 ID h1) (And.intro (i32_u64 TheInt32 h4)
    (And.intro (i64_u64_mod TheInt64 h5) (And.intro (u32_mod TheUInt32 h6)
    (And.intro (u64_mod TheUInt64 h7) (And.intro (zigzag32_roundtrip TheSInt32 h8)
    (And.intro (zigzag64_roundtrip TheSInt64 h9) (And.intro (fixed32_roundtrip TheFixed32 h10)
    (And.intro (fixed64_roundtrip TheFixed64 h11) (And.intro (sfixed32_roundtrip TheSFixed32 h12)
    (And.intro (sfixed64_roundtrip TheSFixed64 h13) (And.intro (i32_u64 TheEventType h14)
    (bool_mod TheBool))))))))))))
  obtain ⟨c1, c4, c5, c6, c7, c8, c9, c10, c11, c12, c13, c14, c3⟩ := conv
  unfold AllTheThings.records
  simp only []
  have hS : TheString.length > 0 ∨ TheString = [] := by
    cases TheString <;> simp
  have hB : TheBytes.length > 0 ∨ TheBytes = [] := by
    cases TheBytes <;> simp
  cases TheMessage with
  | none =>
    rcases hS with hS | hS <;> rcases hB with hB | hB <;>
      simp [hS, hB, runRecords, effect_canonical1, effect_canonical2, effect_canonical3, effect_canonical4, effect_canonical5, effect_canonical6, effect_canonical7, effect_canonical8, effect_canonical9, effect_canonical10, effect_canonical11, effect_canonical12, effect_canonical13, effect_canonical14, effect_canonical15, AllTheThings.zero,
        c1, c3, c4, c5, c6, c7, c8, c9, c10, c11, c12, c13, c14]
  | some e =>
    obtain ⟨payload, hp, hq⟩ := hn e rfl
    rcases hS with hS | hS <;> rcases hB with hB | hB <;>
      simp [hS, hB, hp, runRecords, effect_canonical1, effect_canonical2, effect_canonical3, effect_canonical4, effect_canonical5, effect_canonical6, effect_canonical7, effect_canonical8, effect_canonical9, effect_canonical10, effect_canonical11, effect_canonical12, effect_canonical13, effect_canonical14, effect_canonical15, effect_canonical16 c payload e _ hq,
        AllTheThings.zero, c1, c3, c4, c5, c6, c7, c8, c9, c10, c11, c12, c13, c14]



theorem records_ne_nil {E : Type} (c : NestedCodec E) (m : AllTheThings E) :
    m.records c ≠ [] := by
  unfold AllTheThings.records
  simp

/-- The method `Marshal` returns the bytes of the records of `m`. -/
theorem Marshal_eq_records {E : Type} (c : NestedCodec E) (m : AllTheThings E) (hwf : m.WF)
    (hn : ∀ e, m.TheMessage = some e →
      ∃ payload, c.Marshal e = .ok payload ∧ payload.length = c.Size e) :
    AllTheThings.marshalEnc c m (List.replicate (AllTheThings.Size c (some m)) 0) =
        some (⟨recordsBytes (m.records c), AllTheThings.Size c (some m)⟩, none) ∧
    AllTheThings.Marshal c (some m) = some (recordsBytes (m.records c), none) := by
  have hsz := Size_eq_records c m hwf hn
  obtain ⟨enc, henc, h1, h2, h3⟩ := marshalEnc_ok c m
    (List.replicate (AllTheThings.Size c (some m)) 0) (by simp [hsz])
    (fun e he => by obtain ⟨p, hp, -⟩ := hn e he; exact ⟨p, hp⟩)
  have hlen : enc.p.length = AllTheThings.Size c (some m) := by simpa using h3
  have hp : enc.p = recordsBytes (m.records c) := by
    rw [← h2]
    exact (List.take_of_length_le (by omega)).symm
  have he : enc = ⟨recordsBytes (m.records c), AllTheThings.Size c (some m)⟩ := by
    cases enc
    simp only [Encoder.mk.injEq] at hp h1 ⊢
    exact ⟨hp, by omega⟩
  subst he
  exact ⟨henc, by simp [AllTheThings.Marshal, AllTheThings.MarshalTo, henc]⟩



/-! ### A known field with another wire type -/

/-- An iteration that reads the tag of a known field with a wire type the field does not expect
returns the wire-type error, whatever follows the tag. -/
theorem unmarshalStep_mismatch {E : Type} (c : NestedCodec E) (d d1 : Decoder) (k w : Nat)
    (m : AllTheThings E) (hd : d.DecodeTag = .ok (k, w, d1)) (hk : 1 ≤ k ∧ k ≤ 16)
    (hw : w ≠ expectedWireType k) :
    AllTheThings.unmarshalStep c d m = .error (.wireTypeMismatch k w) := by
  rcases tag_cases k with hk | hk | hk | hk | hk | hk | hk | hk | hk | hk | hk | hk | hk | hk | hk | hk | hk2
  · subst hk
    rw [unmarshalStep_tag1 c d d1 w m hd]
    simp only [expectedWireType] at hw
    simp only [WireTypeVarint, WireTypeFixed64, WireTypeFixed32, WireTypeLengthDelimited,
      Nat.reduceEqDiff, or_false, or_true, false_or, true_or, if_true, if_false] at hw ⊢
    rw [if_pos hw]
  · subst hk
    rw [unmarshalStep_tag2 c d d1 w m hd]
    simp only [expectedWireType] at hw
    simp only [WireTypeVarint, WireTypeFixed64, WireTypeFixed32, WireTypeLengthDelimited,
      Nat.reduceEqDiff, or_false, or_true, false_or, true_or, if_true, if_false] at hw ⊢
    rw [if_pos hw]
  · subst hk
    rw [unmarshalStep_tag3 c d d1 w m hd]
    simp only [expectedWireType] at hw
    simp only [WireTypeVarint, WireTypeFixed64, WireTypeFixed32, WireTypeLengthDelimited,
      Nat.reduceEqDiff, or_false, or_true, false_or, true_or, if_true, if_false] at hw ⊢
    rw [if_pos hw]
  · subst hk
    rw [unmarshalStep_tag4 c d d1 w m hd]
    simp only [expectedWireType] at hw
    simp only [WireTypeVarint, WireTypeFixed64, WireTypeFixed32, WireTypeLengthDelimited,
      Nat.reduceEqDiff, or_false, or_true, false_or, true_or, if_true, if_false] at hw ⊢
    rw [if_pos hw]
  · subst hk
    rw [unmarshalStep_tag5 c d d1 w m hd]
    simp only [expectedWireType] at hw
    simp only [WireTypeVarint, WireTypeFixed64, WireTypeFixed32, WireTypeLengthDelimited,
      Nat.reduceEqDiff, or_false, or_true, false_or, true_or, if_true, if_false] at hw ⊢
    rw [if_pos hw]
  · subst hk
    rw [unmarshalStep_tag6 c d d1 w m hd]
    simp only [expectedWireType] at hw
    simp only [WireTypeVarint, WireTypeFixed64, WireTypeFixed32, WireTypeLengthDelimited,
      Nat.reduceEqDiff, or_false, or_true, false_or, true_or, if_true, if_false] at hw ⊢
    rw [if_pos hw]
  · subst hk
    rw [unmarshalStep_tag7 c d d1 w m hd]
    simp only [expectedWireType] at hw
    simp only [WireTypeVarint, WireTypeFixed64, WireTypeFixed32, WireTypeLengthDelimited,
      Nat.reduceEqDiff, or_false, or_true, false_or, true_or, if_true, if_false] at hw ⊢
    rw [if_pos hw]
  · subst hk
    rw [unmarshalStep_tag8 c d d1 w m hd]
    simp only [expectedWireType] at hw
    simp only [WireTypeVarint, WireTypeFixed64, WireTypeFixed32, WireTypeLengthDelimited,
      Nat.reduceEqDiff, or_false, or_true, false_or, true_or, if_true, if_false] at hw ⊢
    rw [if_pos hw]
  · subst hk
    rw [unmarshalStep_tag9 c d d1 w m hd]
    simp only [expectedWireType] at hw
    simp only [WireTypeVarint, WireTypeFixed64, WireTypeFixed32, WireTypeLengthDelimited,
      Nat.reduceEqDiff, or_false, or_true, false_or, true_or, if_true, if_false] at hw ⊢
    rw [if_pos hw]
  · subst hk
    rw [unmarshalStep_tag10 c d d1 w m hd]
    simp only [expectedWireType] at hw
    simp only [WireTypeVarint, WireTypeFixed64, WireTypeFixed32, WireTypeLengthDelimited,
      Nat.reduceEqDiff, or_false, or_true, false_or, true_or, if_true, if_false] at hw ⊢
    rw [if_pos hw]
  · subst hk
    rw [unmarshalStep_tag11 c d d1 w m hd]
    simp only [expectedWireType] at hw
    simp only [WireTypeVarint, WireTypeFixed64, WireTypeFixed32, WireTypeLengthDelimited,
      Nat.reduceEqDiff, or_false, or_true, false_or, true_or, if_true, if_false] at hw ⊢
    rw [if_pos hw]
  · subst hk
    rw [unmarshalStep_tag12 c d d1 w m hd]
    simp only [expectedWireType] at hw
    simp only [WireTypeVarint, WireTypeFixed64, WireTypeFixed32, WireTypeLengthDelimited,
      Nat.reduceEqDiff, or_false, or_true, false_or, true_or, if_true, if_false] at hw ⊢
    rw [if_pos hw]
  · subst hk
    rw [unmarshalStep_tag13 c d d1 w m hd]
    simp only [expectedWireType] at hw
    simp only [WireTypeVarint, WireTypeFixed64, WireTypeFixed32, WireTypeLengthDelimited,
      Nat.reduceEqDiff, or_false, or_true, false_or, true_or, if_true, if_false] at hw ⊢
    rw [if_pos hw]
  · subst hk
    rw [unmarshalStep_tag14 c d d1 w m hd]
    simp only [expectedWireType] at hw
    simp only [WireTypeVarint, WireTypeFixed64, WireTypeFixed32, WireTypeLengthDelimited,
      Nat.reduceEqDiff, or_false, or_true, false_or, true_or, if_true, if_false] at hw ⊢
    rw [if_pos hw]
  · subst hk
    rw [unmarshalStep_tag15 c d d1 w m hd]
    simp only [expectedWireType] at hw
    simp only [WireTypeVarint, WireTypeFixed64, WireTypeFixed32, WireTypeLengthDelimited,
      Nat.reduceEqDiff, or_false, or_true, false_or, true_or, if_true, if_false] at hw ⊢
    rw [if_pos hw]
  · subst hk
    rw [unmarshalStep_tag16 c d d1 w m hd]
    simp only [expectedWireType] at hw
    simp only [WireTypeVarint, WireTypeFixed64, WireTypeFixed32, WireTypeLengthDelimited,
      Nat.reduceEqDiff, or_false, or_true, false_or, true_or, if_true, if_false] at hw ⊢
    rw [if_pos hw]
  · exact absurd hk hk2

theorem DecodeTag_of_raw (d : Decoder) (tagRaw tl : List Byte) (k w : Nat) (hw : w < 8)
    (h : d.rest = tagRaw ++ tl)
    (ht : DecodeVarint tagRaw = .ok ((k <<< 3) ||| w, tagRaw.length)) :
    d.DecodeTag = .ok (k, w, d.advance tagRaw.length) := by
  unfold Decoder.DecodeTag
  rw [readVarint_of d tagRaw _ _ h ht]
  obtain ⟨h1, h2⟩ := tag_split k w hw
  simp only [h1, h2]

/-- Decoding with `Unmarshal` well-formed records followed by the tag of a known field with
another wire type: the wire-type error, and the target as the records left it. -/
theorem Unmarshal_records_mismatch {E : Type} (c : NestedCodec E) (recs : List Record)
    (hv : ∀ r ∈ recs, r.Valid) (m2 : AllTheThings E)
    (hrun : runRecords c recs AllTheThings.zero = (m2, none))
    (tagRaw rest : List Byte) (k w : Nat) (hw8 : w < 8)
    (ht : DecodeVarint tagRaw = .ok ((k <<< 3) ||| w, tagRaw.length))
    (hk : 1 ≤ k ∧ k ≤ 16) (hw : w ≠ expectedWireType k) (m0 : AllTheThings E) :
    AllTheThings.Unmarshal c m0 (recordsBytes recs ++ tagRaw ++ rest) =
      (m2, some (.wireTypeMismatch k w)) := by
  have hlen := recordsBytes_length_ge recs hv
  have htag := (DecodeVarint_bounds _ _ _ ht).1
  have hp : ¬ ((recordsBytes recs ++ tagRaw ++ rest).length = 0) := by
    simp only [List.length_append]; omega
  unfold AllTheThings.Unmarshal AllTheThings.unmarshalRun
  rw [if_neg hp]
  simp only [AllTheThings.Reset]
  obtain ⟨f, hf⟩ : ∃ f, (recordsBytes recs ++ tagRaw ++ rest).length + 1 =
      recs.length + (f + 1) :=
    ⟨(recordsBytes recs ++ tagRaw ++ rest).length - recs.length, by
      simp only [List.length_append]; omega⟩
  rw [hf, unmarshalLoop_records c recs hv (tagRaw ++ rest) (f + 1) (NewDecoder _) _ m2
    (by rw [NewDecoder_rest, List.append_assoc]) hrun]
  have hrest : ((NewDecoder (recordsBytes recs ++ tagRaw ++ rest)).advance
      (recordsBytes recs).length).rest = tagRaw ++ rest := by
    rw [Decoder.rest_advance, NewDecoder_rest, List.append_assoc, List.drop_left]
  have hmore := Decoder.More_of_rest _ _ _ hrest htag
  have hdt := DecodeTag_of_raw _ tagRaw rest k w hw8 hrest ht
  rw [unmarshalLoop_succ, hmore, if_pos rfl, unmarshalStep_mismatch c _ _ k w m2 hdt hk hw]



/-- The effect of a well-formed record of a known field is an assignment: it succeeds and
leaves the unrecognized tail alone. -/
theorem effect_known_ok {E : Type} (c : NestedCodec E) (r : Record) (m : AllTheThings E)
    (h : r.IsKnownField c) :
    ∃ m2, r.effect c m = .ok m2 ∧ m2.XXX_unrecognized = m.XXX_unrecognized := by
  obtain ⟨-, hk0, hw, hn⟩ := h
  rcases tag_cases r.tag with hk | hk | hk | hk | hk | hk | hk | hk | hk | hk | hk | hk | hk | hk | hk | hk | hk2
  · rw [effect_tag1 c r m hk]
    rw [hk] at hw
    cases hval : r.val <;> rw [hval] at hw <;>
      simp [expectedWireType, WireValue.wireType, WireTypeVarint, WireTypeFixed64,
        WireTypeFixed32, WireTypeLengthDelimited] at hw ⊢
  · rw [effect_tag2 c r m hk]
    rw [hk] at hw
    cases hval : r.val <;> rw [hval] at hw <;>
      simp [expectedWireType, WireValue.wireType, WireTypeVarint, WireTypeFixed64,
        WireTypeFixed32, WireTypeLengthDelimited] at hw ⊢
  · rw [effect_tag3 c r m hk]
    rw [hk] at hw
    cases hval : r.val <;> rw [hval] at hw <;>
      simp [expectedWireType, WireValue.wireType, WireTypeVarint, WireTypeFixed64,
        WireTypeFixed32, WireTypeLengthDelimited] at hw ⊢
  · rw [effect_tag4 c r m hk]
    rw [hk] at hw
    cases hval : r.val <;> rw [hval] at hw <;>
      simp [expectedWireType, WireValue.wireType, WireTypeVarint, WireTypeFixed64,
        WireTypeFixed32, WireTypeLengthDelimited] at hw ⊢
  · rw [effect_tag5 c r m hk]
    rw [hk] at hw
    cases hval : r.val <;> rw [hval] at hw <;>
      simp [expectedWireType, WireValue.wireType, WireTypeVarint, WireTypeFixed64,
        WireTypeFixed32, WireTypeLengthDelimited] at hw ⊢
  · rw [effect_tag6 c r m hk]
    rw [hk] at hw
    cases hval : r.val <;> rw [hval] at hw <;>
      simp [expectedWireType, WireValue.wireType, WireTypeVarint, WireTypeFixed64,
        WireTypeFixed32, WireTypeLengthDelimited] at hw ⊢
  · rw [effect_tag7 c r m hk]
    rw [hk] at hw
    cases hval : r.val <;> rw [hval] at hw <;>
      simp [expectedWireType, WireValue.wireType, WireTypeVarint, WireTypeFixed64,
        WireTypeFixed32, WireTypeLengthDelimited] at hw ⊢
  · rw [effect_tag8 c r m hk]
    rw [hk] at hw
    cases hval : r.val <;> rw [hval] at hw <;>
      simp [expectedWireType, WireValue.wireType, WireTypeVarint, WireTypeFixed64,
        WireTypeFixed32, WireTypeLengthDelimited] at hw ⊢
  · rw [effect_tag9 c r m hk]
    rw [hk] at hw
    cases hval : r.val <;> rw [hval] at hw <;>
      simp [expectedWireType, WireValue.wireType, WireTypeVarint, WireTypeFixed64,
        WireTypeFixed32, WireTypeLengthDelimited] at hw ⊢
  · rw [effect_tag10 c r m hk]
    rw [hk] at hw
    cases hval : r.val <;> rw [hval] at hw <;>
      simp [expectedWireType, WireValue.wireType, WireTypeVarint, WireTypeFixed64,
        WireTypeFixed32, WireTypeLengthDelimited] at hw ⊢
  · rw [effect_tag11 c r m hk]
    rw [hk] at hw
    cases hval : r.val <;> rw [hval] at hw <;>
      simp [expectedWireType, WireValue.wireType, WireTypeVarint, WireTypeFixed64,
        WireTypeFixed32, WireTypeLengthDelimited] at hw ⊢
  · rw [effect_tag12 c r m hk]
    rw [hk] at hw
    cases hval : r.val <;> rw [hval] at hw <;>
      simp [expectedWireType, WireValue.wireType, WireTypeVarint, WireTypeFixed64,
        WireTypeFixed32, WireTypeLengthDelimited] at hw ⊢
  · rw [effect_tag13 c r m hk]
    rw [hk] at hw
    cases hval : r.val <;> rw [hval] at hw <;>
      simp [expectedWireType, WireValue.wireType, WireTypeVarint, WireTypeFixed64,
        WireTypeFixed32, WireTypeLengthDelimited] at hw ⊢
  · rw [effect_tag14 c r m hk]
    rw [hk] at hw
    cases hval : r.val <;> rw [hval] at hw <;>
      simp [expectedWireType, WireValue.wireType, WireTypeVarint, WireTypeFixed64,
        WireTypeFixed32, WireTypeLengthDelimited] at hw ⊢
  · rw [effect_tag15 c r m hk]
    rw [hk] at hw
    cases hval : r.val <;> rw [hval] at hw <;>
      simp [expectedWireType, WireValue.wireType, WireTypeVarint, WireTypeFixed64,
        WireTypeFixed32, WireTypeLengthDelimited] at hw ⊢
  · rw [effect_tag16 c r m hk]
    rw [hk] at hw
    cases hval : r.val with
    | lengthDelimited lenRaw payload =>
      obtain ⟨e, he⟩ := hn hk lenRaw payload hval
      simp [he]
    | varint raw v =>
      rw [hval] at hw
      simp [expectedWireType, WireValue.wireType, WireTypeVarint, WireTypeLengthDelimited] at hw
    | fixed64 raw =>
      rw [hval] at hw
      simp [expectedWireType, WireValue.wireType, WireTypeFixed64, WireTypeLengthDelimited] at hw
    | fixed32 raw =>
      rw [hval] at hw
      simp [expectedWireType, WireValue.wireType, WireTypeFixed32, WireTypeLengthDelimited] at hw
  · exact absurd hk0 hk2



/-! ### Truncated values -/

/-- A strict initial segment of a whole varint (canonical or not) does not decode. -/
theorem decodeVarintAux_take_lt (g : Nat) (raw : List Byte) (v j : Nat)
    (h : decodeVarintAux g raw = .ok (v, raw.length)) (hj : j < raw.length) :
    ∃ e, decodeVarintAux g (raw.take j) = .error e := by
  induction g generalizing raw v j with
  | zero => cases raw <;> simp [decodeVarintAux] at h
  | succ g ih =>
    cases raw with
    | nil => simp at hj
    | cons b tl =>
      cases j with
      | zero => simpa using decodeVarintAux_nil (g + 1)
      | succ j =>
        rw [decodeVarintAux_cons] at h
        rw [List.take_succ_cons, decodeVarintAux_cons]
        split at h
        · simp only [Except.ok.injEq, Prod.mk.injEq, List.length_cons] at h
          simp only [List.length_cons] at hj
          omega
        · rename_i hb
          rw [if_neg hb]
          split at h
          · simp at h
          · rename_i v2 n2 heq
            simp only [Except.ok.injEq, Prod.mk.injEq, List.length_cons,
              Nat.add_right_cancel_iff] at h
            obtain ⟨-, h2⟩ := h
            subst h2
            obtain ⟨e, he⟩ := ih tl v2 j heq (by simpa using hj)
            rw [he]
            exact ⟨_, rfl⟩

theorem DecodeVarint_take_lt (raw : List Byte) (v j : Nat)
    (h : DecodeVarint raw = .ok (v, raw.length)) (hj : j < raw.length) :
    ∃ e, DecodeVarint (raw.take j) = .error e := by
  unfold DecodeVarint at h ⊢
  split at h
  · simp at h
  · rename_i v2 n2 heq
    simp only [Except.ok.injEq, Prod.mk.injEq] at h
    obtain ⟨-, h2⟩ := h
    subst h2
    obtain ⟨e, he⟩ := decodeVarintAux_take_lt 10 raw v2 j heq hj
    rw [he]
    exact ⟨_, rfl⟩

theorem readVarint_truncated (d : Decoder) (raw : List Byte) (v j : Nat)
    (h : DecodeVarint raw = .ok (v, raw.length)) (hj : j < raw.length)
    (hd : d.rest = raw.take j) : ∃ e, d.readVarint = .error e := by
  obtain ⟨e, he⟩ := DecodeVarint_take_lt raw v j h hj
  unfold Decoder.readVarint
  rw [hd, he]
  exact ⟨_, rfl⟩

theorem readFixed_truncated (d : Decoder) (n : Nat) (h : d.rest.length < n) :
    d.readFixed n = .error .truncatedFixedWidth := by
  unfold Decoder.readFixed
  rw [if_pos h]

theorem readLengthDelimited_truncated (d : Decoder) (lenRaw payload : List Byte) (j : Nat)
    (h : DecodeVarint lenRaw = .ok (payload.length, lenRaw.length))
    (hj : j < (lenRaw ++ payload).length) (hd : d.rest = (lenRaw ++ payload).take j) :
    ∃ e, d.readLengthDelimited = .error e := by
  unfold Decoder.readLengthDelimited
  by_cases hc : j < lenRaw.length
  · rw [List.take_append_of_le_length (by omega)] at hd
    obtain ⟨e, he⟩ := readVarint_truncated d lenRaw _ j h hc hd
    rw [he]
    exact ⟨_, rfl⟩
  · rw [List.take_append_eq_append_take, List.take_of_length_le (by omega)] at hd
    rw [readVarint_of d lenRaw _ _ hd h]
    have h2 := Decoder.rest_advance_of d lenRaw _ hd
    simp only [List.length_append] at hj
    have h3 : (d.advance lenRaw.length).rest.length < payload.length := by
      rw [h2, List.length_take]; omega
    simp only [if_pos h3]
    exact ⟨_, rfl⟩

theorem Skip_truncated (d : Decoder) (w : WireValue) (tag j : Nat) (hw : w.Valid)
    (hj : j < w.bytes.length) (hd : d.rest = w.bytes.take j) :
    ∃ e, d.Skip tag w.wireType = .error e := by
  cases w with
  | varint raw v =>
    simp only [WireValue.bytes, WireValue.Valid] at hj hd hw
    obtain ⟨e, he⟩ := readVarint_truncated d raw v j hw hj hd
    simp only [Decoder.Skip, WireValue.wireType, if_true, he]
    exact ⟨_, rfl⟩
  | fixed64 raw =>
    simp only [WireValue.bytes, WireValue.Valid] at hj hd hw
    have h1 : d.rest.length < 8 := by rw [hd, List.length_take]; omega
    simp [Decoder.Skip, WireValue.wireType, WireTypeFixed64, WireTypeVarint,
      readFixed_truncated d 8 h1]
  | lengthDelimited lenRaw payload =>
    simp only [WireValue.bytes, WireValue.Valid] at hj hd hw
    obtain ⟨e, he⟩ := readLengthDelimited_truncated d lenRaw payload j hw hj hd
    simp [Decoder.Skip, WireValue.wireType, WireTypeFixed64, WireTypeVarint,
      WireTypeLengthDelimited, he]
  | fixed32 raw =>
    simp only [WireValue.bytes, WireValue.Valid] at hj hd hw
    have h1 : d.rest.length < 4 := by rw [hd, List.length_take]; omega
    simp [Decoder.Skip, WireValue.wireType, WireTypeFixed64, WireTypeVarint,
      WireTypeLengthDelimited, WireTypeFixed32, readFixed_truncated d 4 h1]

theorem unmarshalStep_tag_error {E : Type} (c : NestedCodec E) (d : Decoder)
    (m : AllTheThings E) (e : Err) (h : d.DecodeTag = .error e) :
    AllTheThings.unmarshalStep c d m = .error e := by
  unfold AllTheThings.unmarshalStep
  rw [h]



/-- An iteration of the loop on a buffer that ends strictly inside a well-formed record (after
at least one of its bytes and before its last) returns an error. -/
theorem unmarshalStep_truncated {E : Type} (c : NestedCodec E) (d : Decoder) (r : Record)
    (j : Nat) (m : AllTheThings E) (hr : r.Valid) (hj : j < r.bytes.length)
    (hd : d.rest = r.bytes.take j) :
    ∃ e, AllTheThings.unmarshalStep c d m = .error e ∧ e ≠ .loopBound := by
  have hlen : r.bytes.length = r.tagRaw.length + r.val.bytes.length := by
    simp [Record.bytes]
  by_cases hc : j < r.tagRaw.length
  · rw [Record.bytes, List.take_append_of_le_length (by omega)] at hd
    obtain ⟨e, he⟩ := readVarint_truncated d r.tagRaw _ j hr.1 hc hd
    refine ⟨.malformedTag, unmarshalStep_tag_error c d m _ ?_, by simp⟩
    unfold Decoder.DecodeTag
    rw [he]
  · rw [Record.bytes, List.take_append_eq_append_take, List.take_of_length_le (by omega)] at hd
    have htag : d.DecodeTag = .ok (r.tag, r.val.wireType, d.advance r.tagRaw.length) := by
      unfold Decoder.DecodeTag
      rw [readVarint_of d r.tagRaw _ _ hd hr.1]
      obtain ⟨h1, h2⟩ := tag_split r.tag r.val.wireType (wireType_lt _)
      simp only [h1, h2]
    have h1 := Decoder.rest_advance_of d r.tagRaw _ hd
    have hj2 : j - r.tagRaw.length < r.val.bytes.length := by omega
    obtain ⟨es, hskip⟩ := Skip_truncated (d.advance r.tagRaw.length) r.val r.tag
      (j - r.tagRaw.length) hr.2 hj2 h1
    have hv := hr.2
    generalize d.advance r.tagRaw.length = d1 at h1 hskip htag
    generalize j - r.tagRaw.length = i at h1 hj2
    cases hval : r.val with
    | varint raw v =>
      rw [hval] at h1 hv htag hj2
      simp only [WireValue.bytes, WireValue.Valid, WireValue.wireType] at h1 hv htag hj2
      obtain ⟨e, he⟩ := readVarint_truncated d1 raw v i hv hj2 h1
      rcases tag_cases r.tag with hk | hk | hk | hk | hk | hk | hk | hk | hk | hk | hk | hk | hk | hk | hk | hk | hk
      · rw [unmarshalStep_tag1 c d _ _ m (by rw [htag, hk])]
        simp [he, WireTypeVarint, WireTypeFixed64, WireTypeFixed32, WireTypeLengthDelimited, Decoder.DecodeInt32, Decoder.DecodeInt64, Decoder.DecodeUInt32, Decoder.DecodeUInt64, Decoder.DecodeBool, Decoder.DecodeSInt32, Decoder.DecodeSInt64, Decoder.DecodeFixed32, Decoder.DecodeFixed64, Decoder.DecodeBytes, Decoder.DecodeString, Decoder.DecodeNested, WireValue.wireType]
      · rw [unmarshalStep_tag2 c d _ _ m (by rw [htag, hk])]
        simp [he, WireTypeVarint, WireTypeFixed64, WireTypeFixed32, WireTypeLengthDelimited, Decoder.DecodeInt32, Decoder.DecodeInt64, Decoder.DecodeUInt32, Decoder.DecodeUInt64, Decoder.DecodeBool, Decoder.DecodeSInt32, Decoder.DecodeSInt64, Decoder.DecodeFixed32, Decoder.DecodeFixed64, Decoder.DecodeBytes, Decoder.DecodeString, Decoder.DecodeNested, WireValue.wireType]
      · rw [unmarshalStep_tag3 c d _ _ m (by rw [htag, hk])]
        simp [he, WireTypeVarint, WireTypeFixed64, WireTypeFixed32, WireTypeLengthDelimited, Decoder.DecodeInt32, Decoder.DecodeInt64, Decoder.DecodeUInt32, Decoder.DecodeUInt64, Decoder.DecodeBool, Decoder.DecodeSInt32, Decoder.DecodeSInt64, Decoder.DecodeFixed32, Decoder.DecodeFixed64, Decoder.DecodeBytes, Decoder.DecodeString, Decoder.DecodeNested, WireValue.wireType]
      · rw [unmarshalStep_tag4 c d _ _ m (by rw [htag, hk])]
        simp [he, WireTypeVarint, WireTypeFixed64, WireTypeFixed32, WireTypeLengthDelimited, Decoder.DecodeInt32, Decoder.DecodeInt64, Decoder.DecodeUInt32, Decoder.DecodeUInt64, Decoder.DecodeBool, Decoder.DecodeSInt32, Decoder.DecodeSInt64, Decoder.DecodeFixed32, Decoder.DecodeFixed64, Decoder.DecodeBytes, Decoder.DecodeString, Decoder.DecodeNested, WireValue.wireType]
      · rw [unmarshalStep_tag5 c d _ _ m (by rw [htag, hk])]
        simp [he, WireTypeVarint, WireTypeFixed64, WireTypeFixed32, WireTypeLengthDelimited, Decoder.DecodeInt32, Decoder.DecodeInt64, Decoder.DecodeUInt32, Decoder.DecodeUInt64, Decoder.DecodeBool, Decoder.DecodeSInt32, Decoder.DecodeSInt64, Decoder.DecodeFixed32, Decoder.DecodeFixed64, Decoder.DecodeBytes, Decoder.DecodeString, Decoder.DecodeNested, WireValue.wireType]
      · rw [unmarshalStep_tag6 c d _ _ m (by rw [htag, hk])]
        simp [he, WireTypeVarint, WireTypeFixed64, WireTypeFixed32, WireTypeLengthDelimited, Decoder.DecodeInt32, Decoder.DecodeInt64, Decoder.DecodeUInt32, Decoder.DecodeUInt64, Decoder.DecodeBool, Decoder.DecodeSInt32, Decoder.DecodeSInt64, Decoder.DecodeFixed32, Decoder.DecodeFixed64, Decoder.DecodeBytes, Decoder.DecodeString, Decoder.DecodeNested, WireValue.wireType]
      · rw [unmarshalStep_tag7 c d _ _ m (by rw [htag, hk])]
        simp [he, WireTypeVarint, WireTypeFixed64, WireTypeFixed32, WireTypeLengthDelimited, Decoder.DecodeInt32, Decoder.DecodeInt64, Decoder.DecodeUInt32, Decoder.DecodeUInt64, Decoder.DecodeBool, Decoder.DecodeSInt32, Decoder.DecodeSInt64, Decoder.DecodeFixed32, Decoder.DecodeFixed64, Decoder.DecodeBytes, Decoder.DecodeString, Decoder.DecodeNested, WireValue.wireType]
      · rw [unmarshalStep_tag8 c d _ _ m (by rw [htag, hk])]
        simp [he, WireTypeVarint, WireTypeFixed64, WireTypeFixed32, WireTypeLengthDelimited, Decoder.DecodeInt32, Decoder.DecodeInt64, Decoder.DecodeUInt32, Decoder.DecodeUInt64, Decoder.DecodeBool, Decoder.DecodeSInt32, Decoder.DecodeSInt64, Decoder.DecodeFixed32, Decoder.DecodeFixed64, Decoder.DecodeBytes, Decoder.DecodeString, Decoder.DecodeNested, WireValue.wireType]
      · rw [unmarshalStep_tag9 c d _ _ m (by rw [htag, hk])]
        simp [he, WireTypeVarint, WireTypeFixed64, WireTypeFixed32, WireTypeLengthDelimited, Decoder.DecodeInt32, Decoder.DecodeInt64, Decoder.DecodeUInt32, Decoder.DecodeUInt64, Decoder.DecodeBool, Decoder.DecodeSInt32, Decoder.DecodeSInt64, Decoder.DecodeFixed32, Decoder.DecodeFixed64, Decoder.DecodeBytes, Decoder.DecodeString, Decoder.DecodeNested, WireValue.wireType]
      · rw [unmarshalStep_tag10 c d _ _ m (by rw [htag, hk])]
        simp [he, WireTypeVarint, WireTypeFixed64, WireTypeFixed32, WireTypeLengthDelimited, Decoder.DecodeInt32, Decoder.DecodeInt64, Decoder.DecodeUInt32, Decoder.DecodeUInt64, Decoder.DecodeBool, Decoder.DecodeSInt32, Decoder.DecodeSInt64, Decoder.DecodeFixed32, Decoder.DecodeFixed64, Decoder.DecodeBytes, Decoder.DecodeString, Decoder.DecodeNested, WireValue.wireType]
      · rw [unmarshalStep_tag11 c d _ _ m (by rw [htag, hk])]
        simp [he, WireTypeVarint, WireTypeFixed64, WireTypeFixed32, WireTypeLengthDelimited, Decoder.DecodeInt32, Decoder.DecodeInt64, Decoder.DecodeUInt32, Decoder.DecodeUInt64, Decoder.DecodeBool, Decoder.DecodeSInt32, Decoder.DecodeSInt64, Decoder.DecodeFixed32, Decoder.DecodeFixed64, Decoder.DecodeBytes, Decoder.DecodeString, Decoder.DecodeNested, WireValue.wireType]
      · rw [unmarshalStep_tag12 c d _ _ m (by rw [htag, hk])]
        simp [he, WireTypeVarint, WireTypeFixed64, WireTypeFixed32, WireTypeLengthDelimited, Decoder.DecodeInt32, Decoder.DecodeInt64, Decoder.DecodeUInt32, Decoder.DecodeUInt64, Decoder.DecodeBool, Decoder.DecodeSInt32, Decoder.DecodeSInt64, Decoder.DecodeFixed32, Decoder.DecodeFixed64, Decoder.DecodeBytes, Decoder.DecodeString, Decoder.DecodeNested, WireValue.wireType]
      · rw [unmarshalStep_tag13 c d _ _ m (by rw [htag, hk])]
        simp [he, WireTypeVarint, WireTypeFixed64, WireTypeFixed32, WireTypeLengthDelimited, Decoder.DecodeInt32, Decoder.DecodeInt64, Decoder.DecodeUInt32, Decoder.DecodeUInt64, Decoder.DecodeBool, Decoder.DecodeSInt32, Decoder.DecodeSInt64, Decoder.DecodeFixed32, Decoder.DecodeFixed64, Decoder.DecodeBytes, Decoder.DecodeString, Decoder.DecodeNested, WireValue.wireType]
      · rw [unmarshalStep_tag14 c d _ _ m (by rw [htag, hk])]
        simp [he, WireTypeVarint, WireTypeFixed64, WireTypeFixed32, WireTypeLengthDelimited, Decoder.DecodeInt32, Decoder.DecodeInt64, Decoder.DecodeUInt32, Decoder.DecodeUInt64, Decoder.DecodeBool, Decoder.DecodeSInt32, Decoder.DecodeSInt64, Decoder.DecodeFixed32, Decoder.DecodeFixed64, Decoder.DecodeBytes, Decoder.DecodeString, Decoder.DecodeNested, WireValue.wireType]
      · rw [unmarshalStep_tag15 c d _ _ m (by rw [htag, hk])]
        simp [he, WireTypeVarint, WireTypeFixed64, WireTypeFixed32, WireTypeLengthDelimited, Decoder.DecodeInt32, Decoder.DecodeInt64, Decoder.DecodeUInt32, Decoder.DecodeUInt64, Decoder.DecodeBool, Decoder.DecodeSInt32, Decoder.DecodeSInt64, Decoder.DecodeFixed32, Decoder.DecodeFixed64, Decoder.DecodeBytes, Decoder.DecodeString, Decoder.DecodeNested, WireValue.wireType]
      · rw [unmarshalStep_tag16 c d _ _ m (by rw [htag, hk])]
        simp [he, WireTypeVarint, WireTypeFixed64, WireTypeFixed32, WireTypeLengthDelimited, Decoder.DecodeInt32, Decoder.DecodeInt64, Decoder.DecodeUInt32, Decoder.DecodeUInt64, Decoder.DecodeBool, Decoder.DecodeSInt32, Decoder.DecodeSInt64, Decoder.DecodeFixed32, Decoder.DecodeFixed64, Decoder.DecodeBytes, Decoder.DecodeString, Decoder.DecodeNested, WireValue.wireType]
      · rw [unmarshalStep_default c d _ _ _ m htag hk]
        simp only [hval, WireValue.wireType] at hskip
        simp [hskip]
    | fixed64 raw =>
      rw [hval] at h1 hv htag hj2
      simp only [WireValue.bytes, WireValue.Valid, WireValue.wireType] at h1 hv htag hj2
      have he := readFixed_truncated d1 8 (by rw [h1, List.length_take]; omega)
      rcases tag_cases r.tag with hk | hk | hk | hk | hk | hk | hk | hk | hk | hk | hk | hk | hk | hk | hk | hk | hk
      · rw [unmarshalStep_tag1 c d _ _ m (by rw [htag, hk])]
        simp [he, WireTypeVarint, WireTypeFixed64, WireTypeFixed32, WireTypeLengthDelimited, Decoder.DecodeInt32, Decoder.DecodeInt64, Decoder.DecodeUInt32, Decoder.DecodeUInt64, Decoder.DecodeBool, Decoder.DecodeSInt32, Decoder.DecodeSInt64, Decoder.DecodeFixed32, Decoder.DecodeFixed64, Decoder.DecodeBytes, Decoder.DecodeString, Decoder.DecodeNested, WireValue.wireType]
      · rw [unmarshalStep_tag2 c d _ _ m (by rw [htag, hk])]
        simp [he, WireTypeVarint, WireTypeFixed64, WireTypeFixed32, WireTypeLengthDelimited, Decoder.DecodeInt32, Decoder.DecodeInt64, Decoder.DecodeUInt32, Decoder.DecodeUInt64, Decoder.DecodeBool, Decoder.DecodeSInt32, Decoder.DecodeSInt64, Decoder.DecodeFixed32, Decoder.DecodeFixed64, Decoder.DecodeBytes, Decoder.DecodeString, Decoder.DecodeNested, WireValue.wireType]
      · rw [unmarshalStep_tag3 c d _ _ m (by rw [htag, hk])]
        simp [he, WireTypeVarint, WireTypeFixed64, WireTypeFixed32, WireTypeLengthDelimited, Decoder.DecodeInt32, Decoder.DecodeInt64, Decoder.DecodeUInt32, Decoder.DecodeUInt64, Decoder.DecodeBool, Decoder.DecodeSInt32, Decoder.DecodeSInt64, Decoder.DecodeFixed32, Decoder.DecodeFixed64, Decoder.DecodeBytes, Decoder.DecodeString, Decoder.DecodeNested, WireValue.wireType]
      · rw [unmarshalStep_tag4 c d _ _ m (by rw [htag, hk])]
        simp [he, WireTypeVarint, WireTypeFixed64, WireTypeFixed32, WireTypeLengthDelimited, Decoder.DecodeInt32, Decoder.DecodeInt64, Decoder.DecodeUInt32, Decoder.DecodeUInt64, Decoder.DecodeBool, Decoder.DecodeSInt32, Decoder.DecodeSInt64, Decoder.DecodeFixed32, Decoder.DecodeFixed64, Decoder.DecodeBytes, Decoder.DecodeString, Decoder.DecodeNested, WireValue.wireType]
      · rw [unmarshalStep_tag5 c d _ _ m (by rw [htag, hk])]
        simp [he, WireTypeVarint, WireTypeFixed64, WireTypeFixed32, WireTypeLengthDelimited, Decoder.DecodeInt32, Decoder.DecodeInt64, Decoder.DecodeUInt32, Decoder.DecodeUInt64, Decoder.DecodeBool, Decoder.DecodeSInt32, Decoder.DecodeSInt64, Decoder.DecodeFixed32, Decoder.DecodeFixed64, Decoder.DecodeBytes, Decoder.DecodeString, Decoder.DecodeNested, WireValue.wireType]
      · rw [unmarshalStep_tag6 c d _ _ m (by rw [htag, hk])]
        simp [he, WireTypeVarint, WireTypeFixed64, WireTypeFixed32, WireTypeLengthDelimited, Decoder.DecodeInt32, Decoder.DecodeInt64, Decoder.DecodeUInt32, Decoder.DecodeUInt64, Decoder.DecodeBool, Decoder.DecodeSInt32, Decoder.DecodeSInt64, Decoder.DecodeFixed32, Decoder.DecodeFixed64, Decoder.DecodeBytes, Decoder.DecodeString, Decoder.DecodeNested, WireValue.wireType]
      · rw [unmarshalStep_tag7 c d _ _ m (by rw [htag, hk])]
        simp [he, WireTypeVarint, WireTypeFixed64, WireTypeFixed32, WireTypeLengthDelimited, Decoder.DecodeInt32, Decoder.DecodeInt64, Decoder.DecodeUInt32, Decoder.DecodeUInt64, Decoder.DecodeBool, Decoder.DecodeSInt32, Decoder.DecodeSInt64, Decoder.DecodeFixed32, Decoder.DecodeFixed64, Decoder.DecodeBytes, Decoder.DecodeString, Decoder.DecodeNested, WireValue.wireType]
      · rw [unmarshalStep_tag8 c d _ _ m (by rw [htag, hk])]
        simp [he, WireTypeVarint, WireTypeFixed64, WireTypeFixed32, WireTypeLengthDelimited, Decoder.DecodeInt32, Decoder.DecodeInt64, Decoder.DecodeUInt32, Decoder.DecodeUInt64, Decoder.DecodeBool, Decoder.DecodeSInt32, Decoder.DecodeSInt64, Decoder.DecodeFixed32, Decoder.DecodeFixed64, Decoder.DecodeBytes, Decoder.DecodeString, Decoder.DecodeNested, WireValue.wireType]
      · rw [unmarshalStep_tag9 c d _ _ m (by rw [htag, hk])]
        simp [he, WireTypeVarint, WireTypeFixed64, WireTypeFixed32, WireTypeLengthDelimited, Decoder.DecodeInt32, Decoder.DecodeInt64, Decoder.DecodeUInt32, Decoder.DecodeUInt64, Decoder.DecodeBool, Decoder.DecodeSInt32, Decoder.DecodeSInt64, Decoder.DecodeFixed32, Decoder.DecodeFixed64, Decoder.DecodeBytes, Decoder.DecodeString, Decoder.DecodeNested, WireValue.wireType]
      · rw [unmarshalStep_tag10 c d _ _ m (by rw [htag, hk])]
        simp [he, WireTypeVarint, WireTypeFixed64, WireTypeFixed32, WireTypeLengthDelimited, Decoder.DecodeInt32, Decoder.DecodeInt64, Decoder.DecodeUInt32, Decoder.DecodeUInt64, Decoder.DecodeBool, Decoder.DecodeSInt32, Decoder.DecodeSInt64, Decoder.DecodeFixed32, Decoder.DecodeFixed64, Decoder.DecodeBytes, Decoder.DecodeString, Decoder.DecodeNested, WireValue.wireType]
      · rw [unmarshalStep_tag11 c d _ _ m (by rw [htag, hk])]
        simp [he, WireTypeVarint, WireTypeFixed64, WireTypeFixed32, WireTypeLengthDelimited, Decoder.DecodeInt32, Decoder.DecodeInt64, Decoder.DecodeUInt32, Decoder.DecodeUInt64, Decoder.DecodeBool, Decoder.DecodeSInt32, Decoder.DecodeSInt64, Decoder.DecodeFixed32, Decoder.DecodeFixed64, Decoder.DecodeBytes, Decoder.DecodeString, Decoder.DecodeNested, WireValue.wireType]
      · rw [unmarshalStep_tag12 c d _ _ m (by rw [htag, hk])]
        simp [he, WireTypeVarint, WireTypeFixed64, WireTypeFixed32, WireTypeLengthDelimited, Decoder.DecodeInt32, Decoder.DecodeInt64, Decoder.DecodeUInt32, Decoder.DecodeUInt64, Decoder.DecodeBool, Decoder.DecodeSInt32, Decoder.DecodeSInt64, Decoder.DecodeFixed32, Decoder.DecodeFixed64, Decoder.DecodeBytes, Decoder.DecodeString, Decoder.DecodeNested, WireValue.wireType]
      · rw [unmarshalStep_tag13 c d _ _ m (by rw [htag, hk])]
        simp [he, WireTypeVarint, WireTypeFixed64, WireTypeFixed32, WireTypeLengthDelimited, Decoder.DecodeInt32, Decoder.DecodeInt64, Decoder.DecodeUInt32, Decoder.DecodeUInt64, Decoder.DecodeBool, Decoder.DecodeSInt32, Decoder.DecodeSInt64, Decoder.DecodeFixed32, Decoder.DecodeFixed64, Decoder.DecodeBytes, Decoder.DecodeString, Decoder.DecodeNested, WireValue.wireType]
      · rw [unmarshalStep_tag14 c d _ _ m (by rw [htag, hk])]
        simp [he, WireTypeVarint, WireTypeFixed64, WireTypeFixed32, WireTypeLengthDelimited, Decoder.DecodeInt32, Decoder.DecodeInt64, Decoder.DecodeUInt32, Decoder.DecodeUInt64, Decoder.DecodeBool, Decoder.DecodeSInt32, Decoder.DecodeSInt64, Decoder.DecodeFixed32, Decoder.DecodeFixed64, Decoder.DecodeBytes, Decoder.DecodeString, Decoder.DecodeNested, WireValue.wireType]
      · rw [unmarshalStep_tag15 c d _ _ m (by rw [htag, hk])]
        simp [he, WireTypeVarint, WireTypeFixed64, WireTypeFixed32, WireTypeLengthDelimited, Decoder.DecodeInt32, Decoder.DecodeInt64, Decoder.DecodeUInt32, Decoder.DecodeUInt64, Decoder.DecodeBool, Decoder.DecodeSInt32, Decoder.DecodeSInt64, Decoder.DecodeFixed32, Decoder.DecodeFixed64, Decoder.DecodeBytes, Decoder.DecodeString, Decoder.DecodeNested, WireValue.wireType]
      · rw [unmarshalStep_tag16 c d _ _ m (by rw [htag, hk])]
        simp [he, WireTypeVarint, WireTypeFixed64, WireTypeFixed32, WireTypeLengthDelimited, Decoder.DecodeInt32, Decoder.DecodeInt64, Decoder.DecodeUInt32, Decoder.DecodeUInt64, Decoder.DecodeBool, Decoder.DecodeSInt32, Decoder.DecodeSInt64, Decoder.DecodeFixed32, Decoder.DecodeFixed64, Decoder.DecodeBytes, Decoder.DecodeString, Decoder.DecodeNested, WireValue.wireType]
      · rw [unmarshalStep_default c d _ _ _ m htag hk]
        simp only [hval, WireValue.wireType] at hskip
        simp [hskip]
    | lengthDelimited lenRaw payload =>
      rw [hval] at h1 hv htag hj2
      simp only [WireValue.bytes, WireValue.Valid, WireValue.wireType] at h1 hv htag hj2
      obtain ⟨e, he⟩ := readLengthDelimited_truncated d1 lenRaw payload i hv hj2 h1
      rcases tag_cases r.tag with hk | hk | hk | hk | hk | hk | hk | hk | hk | hk | hk | hk | hk | hk | hk | hk | hk
      · rw [unmarshalStep_tag1 c d _ _ m (by rw [htag, hk])]
        simp [he, WireTypeVarint, WireTypeFixed64, WireTypeFixed32, WireTypeLengthDelimited, Decoder.DecodeInt32, Decoder.DecodeInt64, Decoder.DecodeUInt32, Decoder.DecodeUInt64, Decoder.DecodeBool, Decoder.DecodeSInt32, Decoder.DecodeSInt64, Decoder.DecodeFixed32, Decoder.DecodeFixed64, Decoder.DecodeBytes, Decoder.DecodeString, Decoder.DecodeNested, WireValue.wireType]
      · rw [unmarshalStep_tag2 c d _ _ m (by rw [htag, hk])]
        simp [he, WireTypeVarint, WireTypeFixed64, WireTypeFixed32, WireTypeLengthDelimited, Decoder.DecodeInt32, Decoder.DecodeInt64, Decoder.DecodeUInt32, Decoder.DecodeUInt64, Decoder.DecodeBool, Decoder.DecodeSInt32, Decoder.DecodeSInt64, Decoder.DecodeFixed32, Decoder.DecodeFixed64, Decoder.DecodeBytes, Decoder.DecodeString, Decoder.DecodeNested, WireValue.wireType]
      · rw [unmarshalStep_tag3 c d _ _ m (by rw [htag, hk])]
        simp [he, WireTypeVarint, WireTypeFixed64, WireTypeFixed32, WireTypeLengthDelimited, Decoder.DecodeInt32, Decoder.DecodeInt64, Decoder.DecodeUInt32, Decoder.DecodeUInt64, Decoder.DecodeBool, Decoder.DecodeSInt32, Decoder.DecodeSInt64, Decoder.DecodeFixed32, Decoder.DecodeFixed64, Decoder.DecodeBytes, Decoder.DecodeString, Decoder.DecodeNested, WireValue.wireType]
      · rw [unmarshalStep_tag4 c d _ _ m (by rw [htag, hk])]
        simp [he, WireTypeVarint, WireTypeFixed64, WireTypeFixed32, WireTypeLengthDelimited, Decoder.DecodeInt32, Decoder.DecodeInt64, Decoder.DecodeUInt32, Decoder.DecodeUInt64, Decoder.DecodeBool, Decoder.DecodeSInt32, Decoder.DecodeSInt64, Decoder.DecodeFixed32, Decoder.DecodeFixed64, Decoder.DecodeBytes, Decoder.DecodeString, Decoder.DecodeNested, WireValue.wireType]
      · rw [unmarshalStep_tag5 c d _ _ m (by rw [htag, hk])]
        simp [he, WireTypeVarint, WireTypeFixed64, WireTypeFixed32, WireTypeLengthDelimited, Decoder.DecodeInt32, Decoder.DecodeInt64, Decoder.DecodeUInt32, Decoder.DecodeUInt64, Decoder.DecodeBool, Decoder.DecodeSInt32, Decoder.DecodeSInt64, Decoder.DecodeFixed32, Decoder.DecodeFixed64, Decoder.DecodeBytes, Decoder.DecodeString, Decoder.DecodeNested, WireValue.wireType]
      · rw [unmarshalStep_tag6 c d _ _ m (by rw [htag, hk])]
        simp [he, WireTypeVarint, WireTypeFixed64, WireTypeFixed32, WireTypeLengthDelimited, Decoder.DecodeInt32, Decoder.DecodeInt64, Decoder.DecodeUInt32, Decoder.DecodeUInt64, Decoder.DecodeBool, Decoder.DecodeSInt32, Decoder.DecodeSInt64, Decoder.DecodeFixed32, Decoder.DecodeFixed64, Decoder.DecodeBytes, Decoder.DecodeString, Decoder.DecodeNested, WireValue.wireType]
      · rw [unmarshalStep_tag7 c d _ _ m (by rw [htag, hk])]
        simp [he, WireTypeVarint, WireTypeFixed64, WireTypeFixed32, WireTypeLengthDelimited, Decoder.DecodeInt32, Decoder.DecodeInt64, Decoder.DecodeUInt32, Decoder.DecodeUInt64, Decoder.DecodeBool, Decoder.DecodeSInt32, Decoder.DecodeSInt64, Decoder.DecodeFixed32, Decoder.DecodeFixed64, Decoder.DecodeBytes, Decoder.DecodeString, Decoder.DecodeNested, WireValue.wireType]
      · rw [unmarshalStep_tag8 c d _ _ m (by rw [htag, hk])]
        simp [he, WireTypeVarint, WireTypeFixed64, WireTypeFixed32, WireTypeLengthDelimited, Decoder.DecodeInt32, Decoder.DecodeInt64, Decoder.DecodeUInt32, Decoder.DecodeUInt64, Decoder.DecodeBool, Decoder.DecodeSInt32, Decoder.DecodeSInt64, Decoder.DecodeFixed32, Decoder.DecodeFixed64, Decoder.DecodeBytes, Decoder.DecodeString, Decoder.DecodeNested, WireValue.wireType]
      · rw [unmarshalStep_tag9 c d _ _ m (by rw [htag, hk])]
        simp [he, WireTypeVarint, WireTypeFixed64, WireTypeFixed32, WireTypeLengthDelimited, Decoder.DecodeInt32, Decoder.DecodeInt64, Decoder.DecodeUInt32, Decoder.DecodeUInt64, Decoder.DecodeBool, Decoder.DecodeSInt32, Decoder.DecodeSInt64, Decoder.DecodeFixed32, Decoder.DecodeFixed64, Decoder.DecodeBytes, Decoder.DecodeString, Decoder.DecodeNested, WireValue.wireType]
      · rw [unmarshalStep_tag10 c d _ _ m (by rw [htag, hk])]
        simp [he, WireTypeVarint, WireTypeFixed64, WireTypeFixed32, WireTypeLengthDelimited, Decoder.DecodeInt32, Decoder.DecodeInt64, Decoder.DecodeUInt32, Decoder.DecodeUInt64, Decoder.DecodeBool, Decoder.DecodeSInt32, Decoder.DecodeSInt64, Decoder.DecodeFixed32, Decoder.DecodeFixed64, Decoder.DecodeBytes, Decoder.DecodeString, Decoder.DecodeNested, WireValue.wireType]
      · rw [unmarshalStep_tag11 c d _ _ m (by rw [htag, hk])]
        simp [he, WireTypeVarint, WireTypeFixed64, WireTypeFixed32, WireTypeLengthDelimited, Decoder.DecodeInt32, Decoder.DecodeInt64, Decoder.DecodeUInt32, Decoder.DecodeUInt64, Decoder.DecodeBool, Decoder.DecodeSInt32, Decoder.DecodeSInt64, Decoder.DecodeFixed32, Decoder.DecodeFixed64, Decoder.DecodeBytes, Decoder.DecodeString, Decoder.DecodeNested, WireValue.wireType]
      · rw [unmarshalStep_tag12 c d _ _ m (by rw [htag, hk])]
        simp [he, WireTypeVarint, WireTypeFixed64, WireTypeFixed32, WireTypeLengthDelimited, Decoder.DecodeInt32, Decoder.DecodeInt64, Decoder.DecodeUInt32, Decoder.DecodeUInt64, Decoder.DecodeBool, Decoder.DecodeSInt32, Decoder.DecodeSInt64, Decoder.DecodeFixed32, Decoder.DecodeFixed64, Decoder.DecodeBytes, Decoder.DecodeString, Decoder.DecodeNested, WireValue.wireType]
      · rw [unmarshalStep_tag13 c d _ _ m (by rw [htag, hk])]
        simp [he, WireTypeVarint, WireTypeFixed64, WireTypeFixed32, WireTypeLengthDelimited, Decoder.DecodeInt32, Decoder.DecodeInt64, Decoder.DecodeUInt32, Decoder.DecodeUInt64, Decoder.DecodeBool, Decoder.DecodeSInt32, Decoder.DecodeSInt64, Decoder.DecodeFixed32, Decoder.DecodeFixed64, Decoder.DecodeBytes, Decoder.DecodeString, Decoder.DecodeNested, WireValue.wireType]
      · rw [unmarshalStep_tag14 c d _ _ m (by rw [htag, hk])]
        simp [he, WireTypeVarint, WireTypeFixed64, WireTypeFixed32, WireTypeLengthDelimited, Decoder.DecodeInt32, Decoder.DecodeInt64, Decoder.DecodeUInt32, Decoder.DecodeUInt64, Decoder.DecodeBool, Decoder.DecodeSInt32, Decoder.DecodeSInt64, Decoder.DecodeFixed32, Decoder.DecodeFixed64, Decoder.DecodeBytes, Decoder.DecodeString, Decoder.DecodeNested, WireValue.wireType]
      · rw [unmarshalStep_tag15 c d _ _ m (by rw [htag, hk])]
        simp [he, WireTypeVarint, WireTypeFixed64, WireTypeFixed32, WireTypeLengthDelimited, Decoder.DecodeInt32, Decoder.DecodeInt64, Decoder.DecodeUInt32, Decoder.DecodeUInt64, Decoder.DecodeBool, Decoder.DecodeSInt32, Decoder.DecodeSInt64, Decoder.DecodeFixed32, Decoder.DecodeFixed64, Decoder.DecodeBytes, Decoder.DecodeString, Decoder.DecodeNested, WireValue.wireType]
      · rw [unmarshalStep_tag16 c d _ _ m (by rw [htag, hk])]
        simp [he, WireTypeVarint, WireTypeFixed64, WireTypeFixed32, WireTypeLengthDelimited, Decoder.DecodeInt32, Decoder.DecodeInt64, Decoder.DecodeUInt32, Decoder.DecodeUInt64, Decoder.DecodeBool, Decoder.DecodeSInt32, Decoder.DecodeSInt64, Decoder.DecodeFixed32, Decoder.DecodeFixed64, Decoder.DecodeBytes, Decoder.DecodeString, Decoder.DecodeNested, WireValue.wireType]
      · rw [unmarshalStep_default c d _ _ _ m htag hk]
        simp only [hval, WireValue.wireType] at hskip
        simp [hskip]
    | fixed32 raw =>
      rw [hval] at h1 hv htag hj2
      simp only [WireValue.bytes, WireValue.Valid, WireValue.wireType] at h1 hv htag hj2
      have he := readFixed_truncated d1 4 (by rw [h1, List.length_take]; omega)
      rcases tag_cases r.tag with hk | hk | hk | hk | hk | hk | hk | hk | hk | hk | hk | hk | hk | hk | hk | hk | hk
      · rw [unmarshalStep_tag1 c d _ _ m (by rw [htag, hk])]
        simp [he, WireTypeVarint, WireTypeFixed64, WireTypeFixed32, WireTypeLengthDelimited, Decoder.DecodeInt32, Decoder.DecodeInt64, Decoder.DecodeUInt32, Decoder.DecodeUInt64, Decoder.DecodeBool, Decoder.DecodeSInt32, Decoder.DecodeSInt64, Decoder.DecodeFixed32, Decoder.DecodeFixed64, Decoder.DecodeBytes, Decoder.DecodeString, Decoder.DecodeNested, WireValue.wireType]
      · rw [unmarshalStep_tag2 c d _ _ m (by rw [htag, hk])]
        simp [he, WireTypeVarint, WireTypeFixed64, WireTypeFixed32, WireTypeLengthDelimited, Decoder.DecodeInt32, Decoder.DecodeInt64, Decoder.DecodeUInt32, Decoder.DecodeUInt64, Decoder.DecodeBool, Decoder.DecodeSInt32, Decoder.DecodeSInt64, Decoder.DecodeFixed32, Decoder.DecodeFixed64, Decoder.DecodeBytes, Decoder.DecodeString, Decoder.DecodeNested, WireValue.wireType]
      · rw [unmarshalStep_tag3 c d _ _ m (by rw [htag, hk])]
        simp [he, WireTypeVarint, WireTypeFixed64, WireTypeFixed32, WireTypeLengthDelimited, Decoder.DecodeInt32, Decoder.DecodeInt64, Decoder.DecodeUInt32, Decoder.DecodeUInt64, Decoder.DecodeBool, Decoder.DecodeSInt32, Decoder.DecodeSInt64, Decoder.DecodeFixed32, Decoder.DecodeFixed64, Decoder.DecodeBytes, Decoder.DecodeString, Decoder.DecodeNested, WireValue.wireType]
      · rw [unmarshalStep_tag4 c d _ _ m (by rw [htag, hk])]
        simp [he, WireTypeVarint, WireTypeFixed64, WireTypeFixed32, WireTypeLengthDelimited, Decoder.DecodeInt32, Decoder.DecodeInt64, Decoder.DecodeUInt32, Decoder.DecodeUInt64, Decoder.DecodeBool, Decoder.DecodeSInt32, Decoder.DecodeSInt64, Decoder.DecodeFixed32, Decoder.DecodeFixed64, Decoder.DecodeBytes, Decoder.DecodeString, Decoder.DecodeNested, WireValue.wireType]
      · rw [unmarshalStep_tag5 c d _ _ m (by rw [htag, hk])]
        simp [he, WireTypeVarint, WireTypeFixed64, WireTypeFixed32, WireTypeLengthDelimited, Decoder.DecodeInt32, Decoder.DecodeInt64, Decoder.DecodeUInt32, Decoder.DecodeUInt64, Decoder.DecodeBool, Decoder.DecodeSInt32, Decoder.DecodeSInt64, Decoder.DecodeFixed32, Decoder.DecodeFixed64, Decoder.DecodeBytes, Decoder.DecodeString, Decoder.DecodeNested, WireValue.wireType]
      · rw [unmarshalStep_tag6 c d _ _ m (by rw [htag, hk])]
        simp [he, WireTypeVarint, WireTypeFixed64, WireTypeFixed32, WireTypeLengthDelimited, Decoder.DecodeInt32, Decoder.DecodeInt64, Decoder.DecodeUInt32, Decoder.DecodeUInt64, Decoder.DecodeBool, Decoder.DecodeSInt32, Decoder.DecodeSInt64, Decoder.DecodeFixed32, Decoder.DecodeFixed64, Decoder.DecodeBytes, Decoder.DecodeString, Decoder.DecodeNested, WireValue.wireType]
      · rw [unmarshalStep_tag7 c d _ _ m (by rw [htag, hk])]
        simp [he, WireTypeVarint, WireTypeFixed64, WireTypeFixed32, WireTypeLengthDelimited, Decoder.DecodeInt32, Decoder.DecodeInt64, Decoder.DecodeUInt32, Decoder.DecodeUInt64, Decoder.DecodeBool, Decoder.DecodeSInt32, Decoder.DecodeSInt64, Decoder.DecodeFixed32, Decoder.DecodeFixed64, Decoder.DecodeBytes, Decoder.DecodeString, Decoder.DecodeNested, WireValue.wireType]
      · rw [unmarshalStep_tag8 c d _ _ m (by rw [htag, hk])]
        simp [he, WireTypeVarint, WireTypeFixed64, WireTypeFixed32, WireTypeLengthDelimited, Decoder.DecodeInt32, Decoder.DecodeInt64, Decoder.DecodeUInt32, Decoder.DecodeUInt64, Decoder.DecodeBool, Decoder.DecodeSInt32, Decoder.DecodeSInt64, Decoder.DecodeFixed32, Decoder.DecodeFixed64, Decoder.DecodeBytes, Decoder.DecodeString, Decoder.DecodeNested, WireValue.wireType]
      · rw [unmarshalStep_tag9 c d _ _ m (by rw [htag, hk])]
        simp [he, WireTypeVarint, WireTypeFixed64, WireTypeFixed32, WireTypeLengthDelimited, Decoder.DecodeInt32, Decoder.DecodeInt64, Decoder.DecodeUInt32, Decoder.DecodeUInt64, Decoder.DecodeBool, Decoder.DecodeSInt32, Decoder.DecodeSInt64, Decoder.DecodeFixed32, Decoder.DecodeFixed64, Decoder.DecodeBytes, Decoder.DecodeString, Decoder.DecodeNested, WireValue.wireType]
      · rw [unmarshalStep_tag10 c d _ _ m (by rw [htag, hk])]
        simp [he, WireTypeVarint, WireTypeFixed64, WireTypeFixed32, WireTypeLengthDelimited, Decoder.DecodeInt32, Decoder.DecodeInt64, Decoder.DecodeUInt32, Decoder.DecodeUInt64, Decoder.DecodeBool, Decoder.DecodeSInt32, Decoder.DecodeSInt64, Decoder.DecodeFixed32, Decoder.DecodeFixed64, Decoder.DecodeBytes, Decoder.DecodeString, Decoder.DecodeNested, WireValue.wireType]
      · rw [unmarshalStep_tag11 c d _ _ m (by rw [htag, hk])]
        simp [he, WireTypeVarint, WireTypeFixed64, WireTypeFixed32, WireTypeLengthDelimited, Decoder.DecodeInt32, Decoder.DecodeInt64, Decoder.DecodeUInt32, Decoder.DecodeUInt64, Decoder.DecodeBool, Decoder.DecodeSInt32, Decoder.DecodeSInt64, Decoder.DecodeFixed32, Decoder.DecodeFixed64, Decoder.DecodeBytes, Decoder.DecodeString, Decoder.DecodeNested, WireValue.wireType]
      · rw [unmarshalStep_tag12 c d _ _ m (by rw [htag, hk])]
        simp [he, WireTypeVarint, WireTypeFixed64, WireTypeFixed32, WireTypeLengthDelimited, Decoder.DecodeInt32, Decoder.DecodeInt64, Decoder.DecodeUInt32, Decoder.DecodeUInt64, Decoder.DecodeBool, Decoder.DecodeSInt32, Decoder.DecodeSInt64, Decoder.DecodeFixed32, Decoder.DecodeFixed64, Decoder.DecodeBytes, Decoder.DecodeString, Decoder.DecodeNested, WireValue.wireType]
      · rw [unmarshalStep_tag13 c d _ _ m (by rw [htag, hk])]
        simp [he, WireTypeVarint, WireTypeFixed64, WireTypeFixed32, WireTypeLengthDelimited, Decoder.DecodeInt32, Decoder.DecodeInt64, Decoder.DecodeUInt32, Decoder.DecodeUInt64, Decoder.DecodeBool, Decoder.DecodeSInt32, Decoder.DecodeSInt64, Decoder.DecodeFixed32, Decoder.DecodeFixed64, Decoder.DecodeBytes, Decoder.DecodeString, Decoder.DecodeNested, WireValue.wireType]
      · rw [unmarshalStep_tag14 c d _ _ m (by rw [htag, hk])]
        simp [he, WireTypeVarint, WireTypeFixed64, WireTypeFixed32, WireTypeLengthDelimited, Decoder.DecodeInt32, Decoder.DecodeInt64, Decoder.DecodeUInt32, Decoder.DecodeUInt64, Decoder.DecodeBool, Decoder.DecodeSInt32, Decoder.DecodeSInt64, Decoder.DecodeFixed32, Decoder.DecodeFixed64, Decoder.DecodeBytes, Decoder.DecodeString, Decoder.DecodeNested, WireValue.wireType]
      · rw [unmarshalStep_tag15 c d _ _ m (by rw [htag, hk])]
        simp [he, WireTypeVarint, WireTypeFixed64, WireTypeFixed32, WireTypeLengthDelimited, Decoder.DecodeInt32, Decoder.DecodeInt64, Decoder.DecodeUInt32, Decoder.DecodeUInt64, Decoder.DecodeBool, Decoder.DecodeSInt32, Decoder.DecodeSInt64, Decoder.DecodeFixed32, Decoder.DecodeFixed64, Decoder.DecodeBytes, Decoder.DecodeString, Decoder.DecodeNested, WireValue.wireType]
      · rw [unmarshalStep_tag16 c d _ _ m (by rw [htag, hk])]
        simp [he, WireTypeVarint, WireTypeFixed64, WireTypeFixed32, WireTypeLengthDelimited, Decoder.DecodeInt32, Decoder.DecodeInt64, Decoder.DecodeUInt32, Decoder.DecodeUInt64, Decoder.DecodeBool, Decoder.DecodeSInt32, Decoder.DecodeSInt64, Decoder.DecodeFixed32, Decoder.DecodeFixed64, Decoder.DecodeBytes, Decoder.DecodeString, Decoder.DecodeNested, WireValue.wireType]
      · rw [unmarshalStep_default c d _ _ _ m htag hk]
        simp only [hval, WireValue.wireType] at hskip
        simp [hskip]



/-- The error of a record is an error of the codec, not the iteration bound of the loop. -/
theorem effect_error_ne_loopBound {E : Type} (c : NestedCodec E) (r : Record)
    (m : AllTheThings E) (e : Err) (h : r.effect c m = .error e) : e ≠ .loopBound := by
  rcases tag_cases r.tag with hk | hk | hk | hk | hk | hk | hk | hk | hk | hk | hk | hk | hk | hk | hk | hk | hk
  · rw [effect_tag1 c r m hk] at h
    cases hval : r.val <;> rw [hval] at h <;> simp at h <;> (subst h; simp)
  · rw [effect_tag2 c r m hk] at h
    cases hval : r.val <;> rw [hval] at h <;> simp at h <;> (subst h; simp)
  · rw [effect_tag3 c r m hk] at h
    cases hval : r.val <;> rw [hval] at h <;> simp at h <;> (subst h; simp)
  · rw [effect_tag4 c r m hk] at h
    cases hval : r.val <;> rw [hval] at h <;> simp at h <;> (subst h; simp)
  · rw [effect_tag5 c r m hk] at h
    cases hval : r.val <;> rw [hval] at h <;> simp at h <;> (subst h; simp)
  · rw [effect_tag6 c r m hk] at h
    cases hval : r.val <;> rw [hval] at h <;> simp at h <;> (subst h; simp)
  · rw [effect_tag7 c r m hk] at h
    cases hval : r.val <;> rw [hval] at h <;> simp at h <;> (subst h; simp)
  · rw [effect_tag8 c r m hk] at h
    cases hval : r.val <;> rw [hval] at h <;> simp at h <;> (subst h; simp)
  · rw [effect_tag9 c r m hk] at h
    cases hval : r.val <;> rw [hval] at h <;> simp at h <;> (subst h; simp)
  · rw [effect_tag10 c r m hk] at h
    cases hval : r.val <;> rw [hval] at h <;> simp at h <;> (subst h; simp)
  · rw [effect_tag11 c r m hk] at h
    cases hval : r.val <;> rw [hval] at h <;> simp at h <;> (subst h; simp)
  · rw [effect_tag12 c r m hk] at h
    cases hval : r.val <;> rw [hval] at h <;> simp at h <;> (subst h; simp)
  · rw [effect_tag13 c r m hk] at h
    cases hval : r.val <;> rw [hval] at h <;> simp at h <;> (subst h; simp)
  · rw [effect_tag14 c r m hk] at h
    cases hval : r.val <;> rw [hval] at h <;> simp at h <;> (subst h; simp)
  · rw [effect_tag15 c r m hk] at h
    cases hval : r.val <;> rw [hval] at h <;> simp at h <;> (subst h; simp)
  · rw [effect_tag16 c r m hk] at h
    cases hval : r.val with
    | lengthDelimited lenRaw b =>
      rw [hval] at h
      cases hu : c.Unmarshal b with
      | error e2 =>
        simp only [hu, Except.error.injEq] at h
        subst h
        simp
      | ok mm => simp [hu] at h
    | varint raw v => rw [hval] at h; simp at h; subst h; simp
    | fixed64 raw => rw [hval] at h; simp at h; subst h; simp
    | fixed32 raw => rw [hval] at h; simp at h; subst h; simp
  · rw [effect_default c r m hk] at h
    simp at h

theorem runRecords_error_ne_loopBound {E : Type} (c : NestedCodec E) (recs : List Record)
    (m m2 : AllTheThings E) (e : Err) (h : runRecords c recs m = (m2, some e)) :
    e ≠ .loopBound := by
  induction recs generalizing m with
  | nil => simp [runRecords] at h
  | cons r rs ih =>
    cases he : r.effect c m with
    | error err =>
      simp only [runRecords, he, Prod.mk.injEq, Option.some.injEq] at h
      rw [← h.2]
      exact effect_error_ne_loopBound c r m err he
    | ok m1 =>
      rw [runRecords_cons_ok c r rs m m1 he] at h
      exact ih m1 h

/-- Decoding with `Unmarshal` well-formed records followed by a strict, non-empty initial
segment of one more well-formed record returns an error of the codec. -/
theorem Unmarshal_truncated {E : Type} (c : NestedCodec E) (pre : List Record) (r : Record)
    (j : Nat) (hv : ∀ x ∈ pre, x.Valid) (hr : r.Valid) (hj0 : 0 < j) (hj : j < r.bytes.length)
    (m0 : AllTheThings E) :
    ∃ e, (AllTheThings.Unmarshal c m0 (recordsBytes pre ++ r.bytes.take j)).2 = some e ∧
      e ≠ .loopBound := by
  have hlen := recordsBytes_length_ge pre hv
  have htk : (r.bytes.take j).length = j := by rw [List.length_take]; omega
  have hp : ¬ ((recordsBytes pre ++ r.bytes.take j).length = 0) := by
    simp only [List.length_append, htk]; omega
  unfold AllTheThings.Unmarshal AllTheThings.unmarshalRun
  rw [if_neg hp]
  simp only [AllTheThings.Reset]
  obtain ⟨f, hf⟩ : ∃ f, (recordsBytes pre ++ r.bytes.take j).length + 1 =
      pre.length + (f + 1) :=
    ⟨(recordsBytes pre ++ r.bytes.take j).length - pre.length, by
      simp only [List.length_append]; omega⟩
  rw [hf]
  cases hrun : runRecords c pre AllTheThings.zero with
  | mk m2 e =>
    cases e with
    | some err =>
      obtain ⟨d2, h2⟩ := unmarshalLoop_records_error c pre hv (r.bytes.take j) (f + 1)
        (NewDecoder _) _ m2 err (by rw [NewDecoder_rest]) hrun
      rw [h2]
      exact ⟨err, rfl, runRecords_error_ne_loopBound c pre _ m2 err hrun⟩
    | none =>
      rw [unmarshalLoop_records c pre hv (r.bytes.take j) (f + 1) (NewDecoder _) _ m2
        (by rw [NewDecoder_rest]) hrun]
      have hrest : ((NewDecoder (recordsBytes pre ++ r.bytes.take j)).advance
          (recordsBytes pre).length).rest = r.bytes.take j := by
        rw [Decoder.rest_advance, NewDecoder_rest, List.drop_left]
      have hmore := Decoder.More_of_rest _ (r.bytes.take j) [] (by rw [hrest, List.append_nil])
        (by omega)
      obtain ⟨e, he, hne⟩ := unmarshalStep_truncated c _ r j m2 hr hj hrest
      rw [unmarshalLoop_succ, hmore, if_pos rfl, he]
      exact ⟨e, rfl, hne⟩

/-- A cut that is not on a boundary between two records falls strictly inside one record. -/
theorem cut_inside_record (recs : List Record) (k : Nat) (hk0 : 0 < k)
    (hk : k < (recordsBytes recs).length)
    (hcut : ∀ i, i ≤ recs.length → k ≠ (recordsBytes (recs.take i)).length) :
    ∃ pre r j, (∀ x ∈ pre, x ∈ recs) ∧ r ∈ recs ∧ 0 < j ∧ j < r.bytes.length ∧
      (recordsBytes recs).take k = recordsBytes pre ++ r.bytes.take j := by
  induction recs generalizing k with
  | nil => simp [recordsBytes] at hk
  | cons r rs ih =>
    simp only [recordsBytes, List.length_append] at hk
    by_cases h1 : k < r.bytes.length
    · refine ⟨[], r, k, by simp, List.mem_cons_self _ _, hk0, h1, ?_⟩
      simp only [recordsBytes, List.nil_append]
      exact List.take_append_of_le_length (by omega)
    · have h2 : k ≠ r.bytes.length := by
        have := hcut 1 (by simp)
        simpa [recordsBytes] using this
      have hcut2 : ∀ i, i ≤ rs.length →
          k - r.bytes.length ≠ (recordsBytes (rs.take i)).length := by
        intro i hi
        have := hcut (i + 1) (by simpa using hi)
        simp only [List.take_succ_cons, recordsBytes, List.length_append] at this
        omega
      obtain ⟨pre, r2, j, hpre, hr2, hj0, hj, htake⟩ :=
        ih (k - r.bytes.length) (by omega) (by omega) hcut2
      refine ⟨r :: pre, r2, j, ?_, List.mem_cons_of_mem _ hr2, hj0, hj, ?_⟩
      · intro x hx
        rcases List.mem_cons.mp hx with hx | hx
        · subst hx; exact List.mem_cons_self _ _
        · exact List.mem_cons_of_mem _ (hpre x hx)
      · simp only [recordsBytes, List.append_assoc]
        rw [List.take_append_eq_append_take, List.take_of_length_le (by omega), htake]



/-! ### What a successful read consumed -/

theorem Decoder.rest_split (d : Decoder) (n : Nat) :
    d.rest = d.rest.take n ++ (d.advance n).rest := by
  rw [Decoder.rest_advance, List.take_append_drop]

theorem readVarint_inv (d d2 : Decoder) (v : Nat) (h : d.readVarint = .ok (v, d2)) :
    ∃ raw, DecodeVarint raw = .ok (v, raw.length) ∧ d.rest = raw ++ d2.rest ∧
      d2 = d.advance raw.length := by
  unfold Decoder.readVarint at h
  split at h
  · simp at h
  · rename_i v2 n heq
    simp only [Except.ok.injEq, Prod.mk.injEq] at h
    obtain ⟨h1, h2⟩ := h
    subst h1 h2
    have hb := DecodeVarint_bounds _ _ _ heq
    have hl : (d.rest.take n).length = n := by rw [List.length_take]; omega
    refine ⟨d.rest.take n, ?_, ?_, ?_⟩
    · rw [hl]; exact DecodeVarint_take_self _ _ _ heq
    · exact d.rest_split n
    · rw [hl]

theorem readFixed_inv (d d2 : Decoder) (n v : Nat) (h : d.readFixed n = .ok (v, d2)) :
    ∃ raw, raw.length = n ∧ v = leValue raw ∧ d.rest = raw ++ d2.rest ∧
      d2 = d.advance raw.length := by
  unfold Decoder.readFixed at h
  split at h
  · simp at h
  · rename_i hlt
    simp only [Except.ok.injEq, Prod.mk.injEq] at h
    obtain ⟨h1, h2⟩ := h
    subst h1 h2
    have hl : (d.rest.take n).length = n := by rw [List.length_take]; omega
    exact ⟨d.rest.take n, hl, rfl, d.rest_split n, by rw [hl]⟩

theorem readLengthDelimited_inv (d d2 : Decoder) (b : List Byte)
    (h : d.readLengthDelimited = .ok (b, d2)) :
    ∃ lenRaw, DecodeVarint lenRaw = .ok (b.length, lenRaw.length) ∧
      d.rest = (lenRaw ++ b) ++ d2.rest ∧ d2 = d.advance (lenRaw ++ b).length := by
  unfold Decoder.readLengthDelimited at h
  split at h
  · simp at h
  · rename_i l d1 heq
    obtain ⟨raw, hraw, hrest, hd1⟩ := readVarint_inv d d1 l heq
    split at h
    · simp at h
    · rename_i hlt
      simp only [Except.ok.injEq, Prod.mk.injEq] at h
      obtain ⟨h1, h2⟩ := h
      have hl : b.length = l := by rw [← h1, List.length_take]; omega
      refine ⟨raw, by rw [hl]; exact hraw, ?_, ?_⟩
      · rw [List.append_assoc, hrest, ← h1, ← h2]
        congr 1
        exact d1.rest_split l
      · rw [← h2, hd1, Decoder.advance_advance, List.length_append, hl]

theorem Skip_inv (d d2 : Decoder) (tag wt : Nat) (skipped : List Byte)
    (h : d.Skip tag wt = .ok (skipped, d2)) :
    ∃ w : WireValue, w.Valid ∧ w.wireType = wt ∧ w.bytes = skipped ∧
      d.rest = skipped ++ d2.rest ∧ d2 = d.advance skipped.length := by
  unfold Decoder.Skip at h
  split at h
  · rename_i hwt
    split at h
    · simp at h
    · rename_i v d3 heq
      simp only [Except.ok.injEq, Prod.mk.injEq] at h
      obtain ⟨h1, h2⟩ := h
      subst h2
      obtain ⟨raw, hraw, hrest, hd3⟩ := readVarint_inv d d3 v heq
      have hs : skipped = raw := by
        rw [← h1, hd3, Decoder.advance_offset, Nat.add_sub_cancel_left, hrest]
        exact List.take_left' rfl
      subst hs
      exact ⟨.varint skipped v, hraw, hwt.symm, rfl, hrest, hd3⟩
  · split at h
    · rename_i hwt
      split at h
      · simp at h
      · rename_i v d3 heq
        simp only [Except.ok.injEq, Prod.mk.injEq] at h
        obtain ⟨h1, h2⟩ := h
        subst h2
        obtain ⟨raw, hlen, -, hrest, hd3⟩ := readFixed_inv d d3 8 v heq
        have hs : skipped = raw := by
          rw [← h1, hd3, Decoder.advance_offset, Nat.add_sub_cancel_left, hrest]
          exact List.take_left' rfl
        subst hs
        exact ⟨.fixed64 skipped, hlen, hwt.symm, rfl, hrest, hd3⟩
    · split at h
      · rename_i hwt
        split at h
        · simp at h
        · rename_i b d3 heq
          simp only [Except.ok.injEq, Prod.mk.injEq] at h
          obtain ⟨h1, h2⟩ := h
          subst h2
          obtain ⟨lenRaw, hraw, hrest, hd3⟩ := readLengthDelimited_inv d d3 b heq
          have hs : skipped = lenRaw ++ b := by
            rw [← h1, hd3, Decoder.advance_offset, Nat.add_sub_cancel_left, hrest]
            exact List.take_left' rfl
          subst hs
          exact ⟨.lengthDelimited lenRaw b, hraw, hwt.symm, rfl, hrest, hd3⟩
      · split at h
        · rename_i hwt
          split at h
          · simp at h
          · rename_i v d3 heq
            simp only [Except.ok.injEq, Prod.mk.injEq] at h
            obtain ⟨h1, h2⟩ := h
            subst h2
            obtain ⟨raw, hlen, -, hrest, hd3⟩ := readFixed_inv d d3 4 v heq
            have hs : skipped = raw := by
              rw [← h1, hd3, Decoder.advance_offset, Nat.add_sub_cancel_left, hrest]
              exact List.take_left' rfl
            subst hs
            exact ⟨.fixed32 skipped, hlen, hwt.symm, rfl, hrest, hd3⟩
        · simp at h

theorem key_join (key : Nat) : ((key >>> 3) <<< 3) ||| (key &&& 7) = key := by
  have h2 : key &&& 7 = key % 8 := Nat.and_pow_two_sub_one_eq_mod key 3
  have h3 : key >>> 3 = key / 8 := by rw [Nat.shiftRight_eq_div_pow]
  have h1 : ((key / 8) <<< 3) ||| (key % 8) = 8 * (key / 8) + key % 8 := by
    rw [Nat.shiftLeft_eq, Nat.mul_comm]
    exact (Nat.mul_add_lt_is_or (show key % 8 < 2 ^ 3 by omega) (key / 8)).symm
  rw [h2, h3, h1]
  omega

theorem DecodeTag_inv (d d1 : Decoder) (tag wt : Nat) (h : d.DecodeTag = .ok (tag, wt, d1)) :
    ∃ tagRaw, DecodeVarint tagRaw = .ok ((tag <<< 3) ||| wt, tagRaw.length) ∧
      d.rest = tagRaw ++ d1.rest ∧ d1 = d.advance tagRaw.length := by
  unfold Decoder.DecodeTag at h
  split at h
  · simp at h
  · rename_i key d3 heq
    simp only [Except.ok.injEq, Prod.mk.injEq] at h
    obtain ⟨h1, h2, h3⟩ := h
    subst h1 h2 h3
    rw [key_join]
    exact readVarint_inv d d3 key heq



theorem record_of_parts (d d1 d2 : Decoder) (tagRaw : List Byte) (tag : Nat) (w : WireValue)
    (htr : DecodeVarint tagRaw = .ok ((tag <<< 3) ||| w.wireType, tagRaw.length))
    (hw : w.Valid) (hrest : d.rest = tagRaw ++ d1.rest) (hd1 : d1 = d.advance tagRaw.length)
    (hrest1 : d1.rest = w.bytes ++ d2.rest) (hd2 : d2 = d1.advance w.bytes.length) :
    (⟨tagRaw, tag, w⟩ : Record).Valid ∧
    d.rest = (⟨tagRaw, tag, w⟩ : Record).bytes ++ d2.rest ∧
    d2 = d.advance (Record.bytes ⟨tagRaw, tag, w⟩).length := by
  refine ⟨⟨htr, hw⟩, ?_, ?_⟩
  · rw [hrest, hrest1]
    simp [Record.bytes]
  · rw [hd2, hd1, Decoder.advance_advance]
    simp [Record.bytes]

/-- A successful iteration of the loop has read exactly one well-formed record and has done
what that record says. -/
theorem unmarshalStep_ok_record {E : Type} (c : NestedCodec E) (d d2 : Decoder)
    (m m2 : AllTheThings E) (h : AllTheThings.unmarshalStep c d m = .ok (d2, m2)) :
    ∃ r : Record, r.Valid ∧ d.rest = r.bytes ++ d2.rest ∧ d2 = d.advance r.bytes.length ∧
      r.effect c m = .ok m2 := by
  cases hdt : d.DecodeTag with
  | error e =>
    rw [unmarshalStep_tag_error c d m e hdt] at h
    simp at h
  | ok x =>
    obtain ⟨tag, wt, d1⟩ := x
    obtain ⟨tagRaw, htr, hrest, hd1⟩ := DecodeTag_inv d d1 tag wt hdt
    rcases tag_cases tag with hk | hk | hk | hk | hk | hk | hk | hk | hk | hk | hk | hk | hk | hk | hk | hk | hk
    · subst hk
      rw [unmarshalStep_tag1 c d d1 wt m hdt] at h
      split at h
      · simp at h
      · rename_i hwt
        have hwt2 : wt = WireTypeVarint := by simpa using hwt
        subst hwt2
        cases hrv : d1.readVarint with
        | error e => simp [Decoder.DecodeInt32, hrv] at h
        | ok y =>
          obtain ⟨v0, d3⟩ := y
          simp only [Decoder.DecodeInt32, hrv, Except.ok.injEq, Prod.mk.injEq] at h
          obtain ⟨h1, h2⟩ := h
          subst h1 h2
          obtain ⟨raw, hraw, hrest1, hd3⟩ := readVarint_inv d1 d3 v0 hrv
          have hp := record_of_parts d d1 d3 tagRaw 1 (.varint raw v0) htr hraw hrest hd1
            hrest1 hd3
          exact ⟨_, hp.1, hp.2.1, hp.2.2, effect_tag1 c _ m rfl⟩
    · subst hk
      rw [unmarshalStep_tag2 c d d1 wt m hdt] at h
      split at h
      · simp at h
      · rename_i hwt
        have hwt2 : wt = WireTypeLengthDelimited := by simpa using hwt
        subst hwt2
        cases hrv : d1.readLengthDelimited with
        | error e => simp [Decoder.DecodeString, hrv] at h
        | ok y =>
          obtain ⟨b, d3⟩ := y
          simp only [Decoder.DecodeString, hrv, Except.ok.injEq, Prod.mk.injEq] at h
          obtain ⟨h1, h2⟩ := h
          subst h1 h2
          obtain ⟨lenRaw, hraw, hrest1, hd3⟩ := readLengthDelimited_inv d1 d3 b hrv
          have hp := record_of_parts d d1 d3 tagRaw 2 (.lengthDelimited lenRaw b) htr hraw
            hrest hd1 hrest1 hd3
          exact ⟨_, hp.1, hp.2.1, hp.2.2, effect_tag2 c _ m rfl⟩
    · subst hk
      rw [unmarshalStep_tag3 c d d1 wt m hdt] at h
      split at h
      · simp at h
      · rename_i hwt
        have hwt2 : wt = WireTypeVarint := by simpa using hwt
        subst hwt2
        cases hrv : d1.readVarint with
        | error e => simp [Decoder.DecodeBool, hrv] at h
        | ok y =>
          obtain ⟨v0, d3⟩ := y
          simp only [Decoder.DecodeBool, hrv, Except.ok.injEq, Prod.mk.injEq] at h
          obtain ⟨h1, h2⟩ := h
          subst h1 h2
          obtain ⟨raw, hraw, hrest1, hd3⟩ := readVarint_inv d1 d3 v0 hrv
          have hp := record_of_parts d d1 d3 tagRaw 3 (.varint raw v0) htr hraw hrest hd1
            hrest1 hd3
          exact ⟨_, hp.1, hp.2.1, hp.2.2, effect_tag3 c _ m rfl⟩
    · subst hk
      rw [unmarshalStep_tag4 c d d1 wt m hdt] at h
      split at h
      · simp at h
      · rename_i hwt
        have hwt2 : wt = WireTypeVarint := by simpa using hwt
        subst hwt2
        cases hrv : d1.readVarint with
        | error e => simp [Decoder.DecodeInt32, hrv] at h
        | ok y =>
          obtain ⟨v0, d3⟩ := y
          simp only [Decoder.DecodeInt32, hrv, Except.ok.injEq, Prod.mk.injEq] at h
          obtain ⟨h1, h2⟩ := h
          subst h1 h2
          obtain ⟨raw, hraw, hrest1, hd3⟩ := readVarint_inv d1 d3 v0 hrv
          have hp := record_of_parts d d1 d3 tagRaw 4 (.varint raw v0) htr hraw hrest hd1
            hrest1 hd3
          exact ⟨_, hp.1, hp.2.1, hp.2.2, effect_tag4 c _ m rfl⟩
    · subst hk
      rw [unmarshalStep_tag5 c d d1 wt m hdt] at h
      split at h
      · simp at h
      · rename_i hwt
        have hwt2 : wt = WireTypeVarint := by simpa using hwt
        subst hwt2
        cases hrv : d1.readVarint with
        | error e => simp [Decoder.DecodeInt64, hrv] at h
        | ok y =>
          obtain ⟨v0, d3⟩ := y
          simp only [Decoder.DecodeInt64, hrv, Except.ok.injEq, Prod.mk.injEq] at h
          obtain ⟨h1, h2⟩ := h
          subst h1 h2
          obtain ⟨raw, hraw, hrest1, hd3⟩ := readVarint_inv d1 d3 v0 hrv
          have hp := record_of_parts d d1 d3 tagRaw 5 (.varint raw v0) htr hraw hrest hd1
            hrest1 hd3
          exact ⟨_, hp.1, hp.2.1, hp.2.2, effect_tag5 c _ m rfl⟩
    · subst hk
      rw [unmarshalStep_tag6 c d d1 wt m hdt] at h
      split at h
      · simp at h
      · rename_i hwt
        have hwt2 : wt = WireTypeVarint := by simpa using hwt
        subst hwt2
        cases hrv : d1.readVarint with
        | error e => simp [Decoder.DecodeUInt32, hrv] at h
        | ok y =>
          obtain ⟨v0, d3⟩ := y
          simp only [Decoder.DecodeUInt32, hrv, Except.ok.injEq, Prod.mk.injEq] at h
          obtain ⟨h1, h2⟩ := h
          subst h1 h2
          obtain ⟨raw, hraw, hrest1, hd3⟩ := readVarint_inv d1 d3 v0 hrv
          have hp := record_of_parts d d1 d3 tagRaw 6 (.varint raw v0) htr hraw hrest hd1
            hrest1 hd3
          exact ⟨_, hp.1, hp.2.1, hp.2.2, effect_tag6 c _ m rfl⟩
    · subst hk
      rw [unmarshalStep_tag7 c d d1 wt m hdt] at h
      split at h
      · simp at h
      · rename_i hwt
        have hwt2 : wt = WireTypeVarint := by simpa using hwt
        subst hwt2
        cases hrv : d1.readVarint with
        | error e => simp [Decoder.DecodeUInt64, hrv] at h
        | ok y =>
          obtain ⟨v0, d3⟩ := y
          simp only [Decoder.DecodeUInt64, hrv, Except.ok.injEq, Prod.mk.injEq] at h
          obtain ⟨h1, h2⟩ := h
          subst h1 h2
          obtain ⟨raw, hraw, hrest1, hd3⟩ := readVarint_inv d1 d3 v0 hrv
          have hp := record_of_parts d d1 d3 tagRaw 7 (.varint raw v0) htr hraw hrest hd1
            hrest1 hd3
          exact ⟨_, hp.1, hp.2.1, hp.2.2, effect_tag7 c _ m rfl⟩
    · subst hk
      rw [unmarshalStep_tag8 c d d1 wt m hdt] at h
      split at h
      · simp at h
      · rename_i hwt
        have hwt2 : wt = WireTypeVarint := by simpa using hwt
        subst hwt2
        cases hrv : d1.readVarint with
        | error e => simp [Decoder.DecodeSInt32, hrv] at h
        | ok y =>
          obtain ⟨v0, d3⟩ := y
          simp only [Decoder.DecodeSInt32, hrv, Except.ok.injEq, Prod.mk.injEq] at h
          obtain ⟨h1, h2⟩ := h
          subst h1 h2
          obtain ⟨raw, hraw, hrest1, hd3⟩ := readVarint_inv d1 d3 v0 hrv
          have hp := record_of_parts d d1 d3 tagRaw 8 (.varint raw v0) htr hraw hrest hd1
            hrest1 hd3
          exact ⟨_, hp.1, hp.2.1, hp.2.2, effect_tag8 c _ m rfl⟩
    · subst hk
      rw [unmarshalStep_tag9 c d d1 wt m hdt] at h
      split at h
      · simp at h
      · rename_i hwt
        have hwt2 : wt = WireTypeVarint := by simpa using hwt
        subst hwt2
        cases hrv : d1.readVarint with
        | error e => simp [Decoder.DecodeSInt64, hrv] at h
        | ok y =>
          obtain ⟨v0, d3⟩ := y
          simp only [Decoder.DecodeSInt64, hrv, Except.ok.injEq, Prod.mk.injEq] at h
          obtain ⟨h1, h2⟩ := h
          subst h1 h2
          obtain ⟨raw, hraw, hrest1, hd3⟩ := readVarint_inv d1 d3 v0 hrv
          have hp := record_of_parts d d1 d3 tagRaw 9 (.varint raw v0) htr hraw hrest hd1
            hrest1 hd3
          exact ⟨_, hp.1, hp.2.1, hp.2.2, effect_tag9 c _ m rfl⟩
    · subst hk
      rw [unmarshalStep_tag10 c d d1 wt m hdt] at h
      split at h
      · simp at h
      · rename_i hwt
        have hwt2 : wt = WireTypeFixed32 := by simpa using hwt
        subst hwt2
        cases hrv : d1.readFixed 4 with
        | error e => simp [Decoder.DecodeFixed32, hrv] at h
        | ok y =>
          obtain ⟨v0, d3⟩ := y
          simp only [Decoder.DecodeFixed32, hrv, Except.ok.injEq, Prod.mk.injEq] at h
          obtain ⟨h1, h2⟩ := h
          subst h1 h2
          obtain ⟨raw, hraw, hval, hrest1, hd3⟩ := readFixed_inv d1 d3 4 v0 hrv
          subst hval
          have hp := record_of_parts d d1 d3 tagRaw 10 (.fixed32 raw) htr hraw hrest hd1
            hrest1 hd3
          exact ⟨_, hp.1, hp.2.1, hp.2.2, effect_tag10 c _ m rfl⟩
    · subst hk
      rw [unmarshalStep_tag11 c d d1 wt m hdt] at h
      split at h
      · simp at h
      · rename_i hwt
        have hwt2 : wt = WireTypeFixed64 := by simpa using hwt
        subst hwt2
        cases hrv : d1.readFixed 8 with
        | error e => simp [Decoder.DecodeFixed64, hrv] at h
        | ok y =>
          obtain ⟨v0, d3⟩ := y
          simp only [Decoder.DecodeFixed64, hrv, Except.ok.injEq, Prod.mk.injEq] at h
          obtain ⟨h1, h2⟩ := h
          subst h1 h2
          obtain ⟨raw, hraw, hval, hrest1, hd3⟩ := readFixed_inv d1 d3 8 v0 hrv
          subst hval
          have hp := record_of_parts d d1 d3 tagRaw 11 (.fixed64 raw) htr hraw hrest hd1
            hrest1 hd3
          exact ⟨_, hp.1, hp.2.1, hp.2.2, effect_tag11 c _ m rfl⟩
    · subst hk
      rw [unmarshalStep_tag12 c d d1 wt m hdt] at h
      split at h
      · simp at h
      · rename_i hwt
        have hwt2 : wt = WireTypeFixed32 := by simpa using hwt
        subst hwt2
        cases hrv : d1.readFixed 4 with
        | error e => simp [Decoder.DecodeFixed32, hrv] at h
        | ok y =>
          obtain ⟨v0, d3⟩ := y
          simp only [Decoder.DecodeFixed32, hrv, Except.ok.injEq, Prod.mk.injEq] at h
          obtain ⟨h1, h2⟩ := h
          subst h1 h2
          obtain ⟨raw, hraw, hval, hrest1, hd3⟩ := readFixed_inv d1 d3 4 v0 hrv
          subst hval
          have hp := record_of_parts d d1 d3 tagRaw 12 (.fixed32 raw) htr hraw hrest hd1
            hrest1 hd3
          exact ⟨_, hp.1, hp.2.1, hp.2.2, effect_tag12 c _ m rfl⟩
    · subst hk
      rw [unmarshalStep_tag13 c d d1 wt m hdt] at h
      split at h
      · simp at h
      · rename_i hwt
        have hwt2 : wt = WireTypeFixed64 := by simpa using hwt
        subst hwt2
        cases hrv : d1.readFixed 8 with
        | error e => simp [Decoder.DecodeFixed64, hrv] at h
        | ok y =>
          obtain ⟨v0, d3⟩ := y
          simp only [Decoder.DecodeFixed64, hrv, Except.ok.injEq, Prod.mk.injEq] at h
          obtain ⟨h1, h2⟩ := h
          subst h1 h2
          obtain ⟨raw, hraw, hval, hrest1, hd3⟩ := readFixed_inv d1 d3 8 v0 hrv
          subst hval
          have hp := record_of_parts d d1 d3 tagRaw 13 (.fixed64 raw) htr hraw hrest hd1
            hrest1 hd3
          exact ⟨_, hp.1, hp.2.1, hp.2.2, effect_tag13 c _ m rfl⟩
    · subst hk
      rw [unmarshalStep_tag14 c d d1 wt m hdt] at h
      split at h
      · simp at h
      · rename_i hwt
        have hwt2 : wt = WireTypeVarint := by simpa using hwt
        subst hwt2
        cases hrv : d1.readVarint with
        | error e => simp [Decoder.DecodeInt32, hrv] at h
        | ok y =>
          obtain ⟨v0, d3⟩ := y
          simp only [Decoder.DecodeInt32, hrv, Except.ok.injEq, Prod.mk.injEq] at h
          obtain ⟨h1, h2⟩ := h
          subst h1 h2
          obtain ⟨raw, hraw, hrest1, hd3⟩ := readVarint_inv d1 d3 v0 hrv
          have hp := record_of_parts d d1 d3 tagRaw 14 (.varint raw v0) htr hraw hrest hd1
            hrest1 hd3
          exact ⟨_, hp.1, hp.2.1, hp.2.2, effect_tag14 c _ m rfl⟩
    · subst hk
      rw [unmarshalStep_tag15 c d d1 wt m hdt] at h
      split at h
      · simp at h
      · rename_i hwt
        have hwt2 : wt = WireTypeLengthDelimited := by simpa using hwt
        subst hwt2
        cases hrv : d1.readLengthDelimited with
        | error e => simp [Decoder.DecodeBytes, hrv] at h
        | ok y =>
          obtain ⟨b, d3⟩ := y
          simp only [Decoder.DecodeBytes, hrv, Except.ok.injEq, Prod.mk.injEq] at h
          obtain ⟨h1, h2⟩ := h
          subst h1 h2
          obtain ⟨lenRaw, hraw, hrest1, hd3⟩ := readLengthDelimited_inv d1 d3 b hrv
          have hp := record_of_parts d d1 d3 tagRaw 15 (.lengthDelimited lenRaw b) htr hraw
            hrest hd1 hrest1 hd3
          exact ⟨_, hp.1, hp.2.1, hp.2.2, effect_tag15 c _ m rfl⟩
    · subst hk
      rw [unmarshalStep_tag16 c d d1 wt m hdt] at h
      split at h
      · simp at h
      · rename_i hwt
        have hwt2 : wt = WireTypeLengthDelimited := by simpa using hwt
        subst hwt2
        cases hrv : d1.readLengthDelimited with
        | error e => simp [Decoder.DecodeNested, hrv] at h
        | ok y =>
          obtain ⟨b, d3⟩ := y
          cases hu : c.Unmarshal b with
          | error e => simp [Decoder.DecodeNested, hrv, hu] at h
          | ok mm =>
            simp only [Decoder.DecodeNested, hrv, hu, Except.ok.injEq, Prod.mk.injEq] at h
            obtain ⟨h1, h2⟩ := h
            subst h1 h2
            obtain ⟨lenRaw, hraw, hrest1, hd3⟩ := readLengthDelimited_inv d1 d3 b hrv
            have hp := record_of_parts d d1 d3 tagRaw 16 (.lengthDelimited lenRaw b) htr hraw
              hrest hd1 hrest1 hd3
            refine ⟨_, hp.1, hp.2.1, hp.2.2, ?_⟩
            rw [effect_tag16 c _ m rfl]
            simp only [hu]
    · rw [unmarshalStep_default c d d1 tag wt m hdt hk] at h
      cases hs : d1.Skip tag wt with
      | error e => simp [hs] at h
      | ok y =>
        obtain ⟨skipped, d3⟩ := y
        simp only [hs, Except.ok.injEq, Prod.mk.injEq] at h
        obtain ⟨h1, h2⟩ := h
        subst h1 h2
        obtain ⟨w, hwv, hwt, hwb, hrest1, hd3⟩ := Skip_inv d1 d3 tag wt skipped hs
        subst hwt hwb
        have hp := record_of_parts d d1 d3 tagRaw tag w htr hwv hrest hd1 hrest1 hd3
        exact ⟨_, hp.1, hp.2.1, hp.2.2, effect_default c _ m hk⟩



/-- A record appends its value bytes to the unrecognized tail when its field number is unknown
and leaves the tail alone otherwise. -/
theorem effect_tail {E : Type} (c : NestedCodec E) (r : Record) (m m2 : AllTheThings E)
    (h : r.effect c m = .ok m2) :
    m2.XXX_unrecognized =
      m.XXX_unrecognized ++ (if 1 ≤ r.tag ∧ r.tag ≤ 16 then [] else r.val.bytes) := by
  rcases tag_cases r.tag with hk | hk | hk | hk | hk | hk | hk | hk | hk | hk | hk | hk | hk | hk | hk | hk | hk
  · rw [effect_tag1 c r m hk] at h
    have hkn : 1 ≤ r.tag ∧ r.tag ≤ 16 := by omega
    rw [if_pos hkn, List.append_nil]
    cases hval : r.val <;> rw [hval] at h <;> simp at h
    subst h
    rfl
  · rw [effect_tag2 c r m hk] at h
    have hkn : 1 ≤ r.tag ∧ r.tag ≤ 16 := by omega
    rw [if_pos hkn, List.append_nil]
    cases hval : r.val <;> rw [hval] at h <;> simp at h
    subst h
    rfl
  · rw [effect_tag3 c r m hk] at h
    have hkn : 1 ≤ r.tag ∧ r.tag ≤ 16 := by omega
    rw [if_pos hkn, List.append_nil]
    cases hval : r.val <;> rw [hval] at h <;> simp at h
    subst h
    rfl
  · rw [effect_tag4 c r m hk] at h
    have hkn : 1 ≤ r.tag ∧ r.tag ≤ 16 := by omega
    rw [if_pos hkn, List.append_nil]
    cases hval : r.val <;> rw [hval] at h <;> simp at h
    subst h
    rfl
  · rw [effect_tag5 c r m hk] at h
    have hkn : 1 ≤ r.tag ∧ r.tag ≤ 16 := by omega
    rw [if_pos hkn, List.append_nil]
    cases hval : r.val <;> rw [hval] at h <;> simp at h
    subst h
    rfl
  · rw [effect_tag6 c r m hk] at h
    have hkn : 1 ≤ r.tag ∧ r.tag ≤ 16 := by omega
    rw [if_pos hkn, List.append_nil]
    cases hval : r.val <;> rw [hval] at h <;> simp at h
    subst h
    rfl
  · rw [effect_tag7 c r m hk] at h
    have hkn : 1 ≤ r.tag ∧ r.tag ≤ 16 := by omega
    rw [if_pos hkn, List.append_nil]
    cases hval : r.val <;> rw [hval] at h <;> simp at h
    subst h
    rfl
  · rw [effect_tag8 c r m hk] at h
    have hkn : 1 ≤ r.tag ∧ r.tag ≤ 16 := by omega
    rw [if_pos hkn, List.append_nil]
    cases hval : r.val <;> rw [hval] at h <;> simp at h
    subst h
    rfl
  · rw [effect_tag9 c r m hk] at h
    have hkn : 1 ≤ r.tag ∧ r.tag ≤ 16 := by omega
    rw [if_pos hkn, List.append_nil]
    cases hval : r.val <;> rw [hval] at h <;> simp at h
    subst h
    rfl
  · rw [effect_tag10 c r m hk] at h
    have hkn : 1 ≤ r.tag ∧ r.tag ≤ 16 := by omega
    rw [if_pos hkn, List.append_nil]
    cases hval : r.val <;> rw [hval] at h <;> simp at h
    subst h
    rfl
  · rw [effect_tag11 c r m hk] at h
    have hkn : 1 ≤ r.tag ∧ r.tag ≤ 16 := by omega
    rw [if_pos hkn, List.append_nil]
    cases hval : r.val <;> rw [hval] at h <;> simp at h
    subst h
    rfl
  · rw [effect_tag12 c r m hk] at h
    have hkn : 1 ≤ r.tag ∧ r.tag ≤ 16 := by omega
    rw [if_pos hkn, List.append_nil]
    cases hval : r.val <;> rw [hval] at h <;> simp at h
    subst h
    rfl
  · rw [effect_tag13 c r m hk] at h
    have hkn : 1 ≤ r.tag ∧ r.tag ≤ 16 := by omega
    rw [if_pos hkn, List.append_nil]
    cases hval : r.val <;> rw [hval] at h <;> simp at h
    subst h
    rfl
  · rw [effect_tag14 c r m hk] at h
    have hkn : 1 ≤ r.tag ∧ r.tag ≤ 16 := by omega
    rw [if_pos hkn, List.append_nil]
    cases hval : r.val <;> rw [hval] at h <;> simp at h
    subst h
    rfl
  · rw [effect_tag15 c r m hk] at h
    have hkn : 1 ≤ r.tag ∧ r.tag ≤ 16 := by omega
    rw [if_pos hkn, List.append_nil]
    cases hval : r.val <;> rw [hval] at h <;> simp at h
    subst h
    rfl
  · rw [effect_tag16 c r m hk] at h
    have hkn : 1 ≤ r.tag ∧ r.tag ≤ 16 := by omega
    rw [if_pos hkn, List.append_nil]
    cases hval : r.val with
    | lengthDelimited lenRaw b =>
      rw [hval] at h
      cases hu : c.Unmarshal b with
      | error e => simp [hu] at h
      | ok mm =>
        simp only [hu, Except.ok.injEq] at h
        subst h
        rfl
    | varint raw v => rw [hval] at h; simp at h
    | fixed64 raw => rw [hval] at h; simp at h
    | fixed32 raw => rw [hval] at h; simp at h
  · rw [effect_default c r m hk] at h
    simp only [Except.ok.injEq] at h
    subst h
    rw [if_neg hk]

theorem runRecords_tail {E : Type} (c : NestedCodec E) (recs : List Record)
    (m m2 : AllTheThings E) (h : runRecords c recs m = (m2, none)) :
    m2.XXX_unrecognized = m.XXX_unrecognized ++ unknownValueBytes recs := by
  induction recs generalizing m with
  | nil =>
    simp only [runRecords, Prod.mk.injEq, and_true] at h
    subst h
    simp [unknownValueBytes]
  | cons r rs ih =>
    cases he : r.effect c m with
    | error err => simp [runRecords, he] at h
    | ok m1 =>
      rw [runRecords_cons_ok c r rs m m1 he] at h
      rw [ih m1 h, effect_tail c r m m1 he, unknownValueBytes, List.append_assoc]

theorem Decoder.rest_nil_of_not_More (d : Decoder) (h : d.More = false) : d.rest = [] := by
  simp only [Decoder.More, decide_eq_false_iff_not, Nat.not_lt] at h
  exact List.drop_eq_nil_of_le h

/-- A run of the loop that returns no error has read a sequence of well-formed records, all of
the rest of the buffer, and has done what they say. -/
theorem unmarshalLoop_ok_records {E : Type} (c : NestedCodec E) (fuel : Nat) (d : Decoder)
    (m : AllTheThings E)
    (hok : (AllTheThings.unmarshalLoop c fuel d m).err = none) :
    ∃ recs, (∀ r ∈ recs, r.Valid) ∧ d.rest = recordsBytes recs ∧
      runRecords c recs m = ((AllTheThings.unmarshalLoop c fuel d m).m, none) := by
  induction fuel generalizing d m with
  | zero => simp [AllTheThings.unmarshalLoop] at hok
  | succ fuel ih =>
    rw [unmarshalLoop_succ] at hok ⊢
    cases hmore : d.More with
    | false =>
      simp only [Bool.false_eq_true, if_false]
      exact ⟨[], by simp, by simpa [recordsBytes] using d.rest_nil_of_not_More hmore, rfl⟩
    | true =>
      rw [hmore] at hok
      simp only [if_true] at hok ⊢
      cases hs : AllTheThings.unmarshalStep c d m with
      | error err => rw [hs] at hok; simp at hok
      | ok x =>
        obtain ⟨d2, m1⟩ := x
        rw [hs] at hok
        simp only [] at hok ⊢
        obtain ⟨recs, hv, hrest, hrun⟩ := ih d2 m1 hok
        obtain ⟨r, hr, hdr, -, he⟩ := unmarshalStep_ok_record c d d2 m m1 hs
        refine ⟨r :: recs, ?_, ?_, ?_⟩
        · intro x hx
          rcases List.mem_cons.mp hx with hx | hx
          · subst hx; exact hr
          · exact hv x hx
        · rw [hdr, hrest, recordsBytes]
        · rw [runRecords_cons_ok c r recs m m1 he, hrun]

/-- Every buffer on which `Unmarshal` succeeds is a sequence of well-formed records, and the
result is the effect of these records on the zero state. -/
theorem Unmarshal_ok_records {E : Type} (c : NestedCodec E) (p : List Byte)
    (m0 m : AllTheThings E) (h : AllTheThings.Unmarshal c m0 p = (m, none)) :
    ∃ recs, (∀ r ∈ recs, r.Valid) ∧ p = recordsBytes recs ∧
      runRecords c recs AllTheThings.zero = (m, none) := by
  unfold AllTheThings.Unmarshal AllTheThings.unmarshalRun at h
  split at h
  · simp at h
  · simp only [AllTheThings.Reset, Prod.mk.injEq] at h
    obtain ⟨h1, h2⟩ := h
    obtain ⟨recs, hv, hrest, hrun⟩ := unmarshalLoop_ok_records c _ _ _ h2
    rw [h1] at hrun
    exact ⟨recs, hv, hrest, hrun⟩

/-! ### Bounds on the varint size -/

theorem sizeOfVarintAux_small (f k v : Nat) (hv : v < 128 ^ (k + 1)) :
    sizeOfVarintAux f v ≤ k + 1 := by
  induction f generalizing k v with
  | zero => simp [sizeOfVarintAux]
  | succ f ih =>
    unfold sizeOfVarintAux
    split
    · omega
    · rename_i h
      cases k with
      | zero => simp at hv; omega
      | succ k =>
        have h2 : v / 128 < 128 ^ (k + 1) := by
          rw [Nat.div_lt_iff_lt_mul (by norm_num)]
          rw [pow_succ] at hv; exact hv
        have := ih k (v / 128) h2
        omega

theorem sizeOfVarintAux_big (f v : Nat) (hv : 128 ^ f ≤ v) :
    sizeOfVarintAux f v = f + 1 := by
  induction f generalizing v with
  | zero => simp [sizeOfVarintAux]
  | succ f ih =>
    unfold sizeOfVarintAux
    have h1 : 128 ≤ v := by
      have : 128 ^ 1 ≤ 128 ^ (f + 1) := Nat.pow_le_pow_right (by norm_num) (by omega)
      omega
    rw [if_neg (by omega)]
    have h2 : 128 ^ f ≤ v / 128 := by
      rw [Nat.le_div_iff_mul_le (by norm_num)]
      rw [pow_succ] at hv; exact hv
    rw [ih (v / 128) h2]; omega

theorem SizeOfVarint_le_five (v : Nat) (hv : v < 34359738368) : SizeOfVarint v ≤ 5 := by
  unfold SizeOfVarint
  have h : v % 18446744073709551616 = v := Nat.mod_eq_of_lt (by omega)
  rw [h]
  exact sizeOfVarintAux_small 9 4 v (by norm_num; omega)

theorem SizeOfVarint_eq_ten (v : Nat) (h1 : 9223372036854775808 ≤ v)
    (h2 : v < 18446744073709551616) : SizeOfVarint v = 10 := by
  unfold SizeOfVarint
  rw [Nat.mod_eq_of_lt h2]
  exact sizeOfVarintAux_big 9 v (by norm_num; omega)

theorem zigzagEncode32_lt (v : Int) (h : isInt32 v) : zigzagEncode32 v < 4294967296 := by
  rw [zigzagEncode32_eq v h]
  unfold isInt32 at h
  split <;> omega
/-- The records of a message, applied in order to the zero state, rebuild its fields 1..15
whatever the nested codec does. -/
theorem runRecords_records_scalars {E : Type} (c : NestedCodec E) (m : AllTheThings E)
    (hwf : m.WF) :
    ∃ tm err, runRecords c (m.records c) AllTheThings.zero =
      ({ m with TheMessage := tm, XXX_unrecognized := [] }, err) := by
  obtain ⟨h1, h4, h5, h6, h7, h8, h9, h10, h11, h12, h13, h14, hs, hb⟩ := hwf
  obtain ⟨ID, TheString, TheBool, TheInt32, TheInt64, TheUInt32, TheUInt64, TheSInt32,
    TheSInt64, TheFixed32, TheFixed64, TheSFixed32, TheSFixed64, TheEventType, TheBytes,
    TheMessage, XXX_unrecognized⟩ := m
  simp only [] at h1 h4 h5 h6 h7 h8 h9 h10 h11 h12 h13 h14 hs hb
  have conv := And.intro (i32_u64 ID h1) (And.intro (i32_u64 TheInt32 h4)
    (And.intro (i64_u64_mod TheInt64 h5) (And.intro (u32_mod TheUInt32 h6)
    (And.intro (u64_mod TheUInt64 h7) (And.intro (zigzag32_roundtrip TheSInt32 h8)
    (And.intro (zigzag64_roundtrip TheSInt64 h9) (And.intro (fixed32_roundtrip TheFixed32 h10)
    (And.intro (fixed64_roundtrip TheFixed64 h11) (And.intro (sfixed32_roundtrip TheSFixed32 h12)
    (And.intro (sfixed64_roundtrip TheSFixed64 h13) (And.intro (i32_u64 TheEventType h14)
    (bool_mod TheBool))))))))))))
  obtain ⟨c1, c4, c5, c6, c7, c8, c9, c10, c11, c12, c13, c14, c3⟩ := conv
  unfold AllTheThings.records
  simp only []
  have hS : TheString.length > 0 ∨ TheString = [] := by
    cases TheString <;> simp
  have hB : TheBytes.length > 0 ∨ TheBytes = [] := by
    cases TheBytes <;> simp
  have key : ∀ (tl : List Record) (tm : Option E) (err : Option Err),
      (∀ m0 : AllTheThings E, m0.TheMessage = none →
        runRecords c tl m0 = ({ m0 with TheMessage := tm }, err)) →
      runRecords c ([Record.ofVarint 1 (u64 ID)] ++
        (if TheString.length > 0 then [Record.ofBytes 2 TheString] else []) ++
        [Record.ofVarint 3 (if TheBool then 1 else 0),
         Record.ofVarint 4 (u64 TheInt32),
         Record.ofVarint 5 (u64 TheInt64),
         Record.ofVarint 6 TheUInt32,
         Record.ofVarint 7 TheUInt64,
         Record.ofVarint 8 (zigzagEncode32 TheSInt32),
         Record.ofVarint 9 (zigzagEncode TheSInt64),
         Record.ofFixed32 10 TheFixed32,
         Record.ofFixed64 11 TheFixed64,
         Record.ofFixed32 12 (u32 (u64 TheSFixed32)),
         Record.ofFixed64 13 (u64 TheSFixed64),
         Record.ofVarint 14 (u64 TheEventType)] ++
        (if TheBytes.length > 0 then [Record.ofBytes 15 TheBytes] else []) ++ tl)
        AllTheThings.zero =
      ({ ID := ID, TheString := TheString, TheBool := TheBool, TheInt32 := TheInt32,
         TheInt64 := TheInt64, TheUInt32 := TheUInt32, TheUInt64 := TheUInt64,
         TheSInt32 := TheSInt32, TheSInt64 := TheSInt64, TheFixed32 := TheFixed32,
         TheFixed64 := TheFixed64, TheSFixed32 := TheSFixed32, TheSFixed64 := TheSFixed64,
         TheEventType := TheEventType, TheBytes := TheBytes, TheMessage := tm,
         XXX_unrecognized := [] }, err) := by
    intro tl tm err htl
    rcases hS with hS | hS <;> rcases hB with hB | hB <;>
      simp [hS, hB, runRecords, effect_canonical1, effect_canonical2, effect_canonical3, effect_canonical4, effect_canonical5, effect_canonical6, effect_canonical7, effect_canonical8, effect_canonical9, effect_canonical10, effect_canonical11, effect_canonical12, effect_canonical13, effect_canonical14, effect_canonical15, AllTheThings.zero,
        c1, c3, c4, c5, c6, c7, c8, c9, c10, c11, c12, c13, c14, htl]
  cases TheMessage with
  | none =>
    exact ⟨none, none, key [] none none (fun m0 h0 => by
      simp only [runRecords, Prod.mk.injEq, and_true]
      cases m0; simp only [] at h0; subst h0; rfl)⟩
  | some e =>
    simp only []
    cases hM : c.Marshal e with
    | error err =>
      exact ⟨none, none, key [] none none (fun m0 h0 => by
        simp only [runRecords, Prod.mk.injEq, and_true]
        cases m0; simp only [] at h0; subst h0; rfl)⟩
    | ok payload =>
      simp only []
      cases hU : c.Unmarshal payload with
      | ok e2 =>
        exact ⟨some e2, none, key _ (some e2) none (fun m0 _ => by
          simp only [runRecords, effect_canonical16 c payload e2 m0 hU])⟩
      | error err =>
        refine ⟨none, some (.fieldDecode 16 (.nestedDecodeFailure err)), key _ none _
          (fun m0 h0 => ?_)⟩
        have he : (Record.ofBytes 16 payload).effect c m0 =
            .error (.fieldDecode 16 (.nestedDecodeFailure err)) := by
          rw [effect_tag16 c _ m0 rfl]
          simp only [Record.ofBytes, hU]
        simp only [runRecords, he, Prod.mk.injEq, and_true]
        cases m0; simp only [] at h0; subst h0; rfl
/-- An iteration of the loop never returns the marker of an exhausted iteration bound. -/
theorem unmarshalStep_error_ne_loopBound {E : Type} (c : NestedCodec E) (d : Decoder)
    (m : AllTheThings E) (e : Err) (h : AllTheThings.unmarshalStep c d m = .error e) :
    e ≠ .loopBound := by
  cases hdt : d.DecodeTag with
  | error e2 =>
    rw [unmarshalStep_tag_error c d m e2 hdt] at h
    cases h
    unfold Decoder.DecodeTag at hdt
    split at hdt
    · cases hdt; simp
    · cases hdt
  | ok x =>
    obtain ⟨tag, wt, d1⟩ := x
    rcases tag_cases tag with hk | hk | hk | hk | hk | hk | hk | hk | hk | hk | hk | hk | hk | hk | hk | hk | hk
    · subst hk
      rw [unmarshalStep_tag1 c d d1 wt m hdt] at h
      split at h
      · cases h; simp
      · split at h
        · cases h; simp
        · cases h
    · subst hk
      rw [unmarshalStep_tag2 c d d1 wt m hdt] at h
      split at h
      · cases h; simp
      · split at h
        · cases h; simp
        · cases h
    · subst hk
      rw [unmarshalStep_tag3 c d d1 wt m hdt] at h
      split at h
      · cases h; simp
      · split at h
        · cases h; simp
        · cases h
    · subst hk
      rw [unmarshalStep_tag4 c d d1 wt m hdt] at h
      split at h
      · cases h; simp
      · split at h
        · cases h; simp
        · cases h
    · subst hk
      rw [unmarshalStep_tag5 c d d1 wt m hdt] at h
      split at h
      · cases h; simp
      · split at h
        · cases h; simp
        · cases h
    · subst hk
      rw [unmarshalStep_tag6 c d d1 wt m hdt] at h
      split at h
      · cases h; simp
      · split at h
        · cases h; simp
        · cases h
    · subst hk
      rw [unmarshalStep_tag7 c d d1 wt m hdt] at h
      split at h
      · cases h; simp
      · split at h
        · cases h; simp
        · cases h
    · subst hk
      rw [unmarshalStep_tag8 c d d1 wt m hdt] at h
      split at h
      · cases h; simp
      · split at h
        · cases h; simp
        · cases h
    · subst hk
      rw [unmarshalStep_tag9 c d d1 wt m hdt] at h
      split at h
      · cases h; simp
      · split at h
        · cases h; simp
        · cases h
    · subst hk
      rw [unmarshalStep_tag10 c d d1 wt m hdt] at h
      split at h
      · cases h; simp
      · split at h
        · cases h; simp
        · cases h
    · subst hk
      rw [unmarshalStep_tag11 c d d1 wt m hdt] at h
      split at h
      · cases h; simp
      · split at h
        · cases h; simp
        · cases h
    · subst hk
      rw [unmarshalStep_tag12 c d d1 wt m hdt] at h
      split at h
      · cases h; simp
      · split at h
        · cases h; simp
        · cases h
    · subst hk
      rw [unmarshalStep_tag13 c d d1 wt m hdt] at h
      split at h
      · cases h; simp
      · split at h
        · cases h; simp
        · cases h
    · subst hk
      rw [unmarshalStep_tag14 c d d1 wt m hdt] at h
      split at h
      · cases h; simp
      · split at h
        · cases h; simp
        · cases h
    · subst hk
      rw [unmarshalStep_tag15 c d d1 wt m hdt] at h
      split at h
      · cases h; simp
      · split at h
        · cases h; simp
        · cases h
    · subst hk
      rw [unmarshalStep_tag16 c d d1 wt m hdt] at h
      split at h
      · cases h; simp
      · split at h
        · cases h; simp
        · cases h
    · rw [unmarshalStep_default c d d1 tag wt m hdt hk] at h
      split at h
      · cases h; simp
      · cases h

/-- An iteration of the loop that does not return an error moves the cursor forward by at least
one byte and leaves it within the same buffer. -/
theorem unmarshalStep_progress {E : Type} (c : NestedCodec E) (d d2 : Decoder)
    (m m2 : AllTheThings E) (h : AllTheThings.unmarshalStep c d m = .ok (d2, m2)) :
    d2.p = d.p ∧ d.offset + 1 ≤ d2.offset ∧ d2.offset ≤ d.p.length := by
  obtain ⟨r, hr, hrest, hd2, -⟩ := unmarshalStep_ok_record c d d2 m m2 h
  have hpos := r.bytes_pos hr
  have hlen : d.rest.length = r.bytes.length + d2.rest.length := by
    rw [hrest, List.length_append]
  have h1 : d.rest.length = d.p.length - d.offset := by simp [Decoder.rest]
  subst hd2
  simp only [Decoder.advance]
  refine ⟨trivial, by omega, by omega⟩
/-! ### The loop of `Unmarshal` ends within the length of the buffer -/

theorem loopIterations_le {E : Type} (c : NestedCodec E) (fuel : Nat) (d : Decoder)
    (m : AllTheThings E) :
    AllTheThings.loopIterations c fuel d m ≤ d.p.length - d.offset := by
  induction fuel generalizing d m with
  | zero => simp [AllTheThings.loopIterations]
  | succ fuel ih =>
    unfold AllTheThings.loopIterations
    cases hmore : d.More with
    | false => simp
    | true =>
      have hlt : d.offset < d.p.length := by simpa [Decoder.More] using hmore
      simp only [if_true]
      cases hs : AllTheThings.unmarshalStep c d m with
      | error err => simp only []; omega
      | ok x =>
        obtain ⟨d2, m2⟩ := x
        obtain ⟨h1, h2, h3⟩ := unmarshalStep_progress c d d2 m m2 hs
        have := ih d2 m2
        simp only []
        rw [h1] at this
        omega

theorem unmarshalLoop_ne_loopBound {E : Type} (c : NestedCodec E) (fuel : Nat) (d : Decoder)
    (m : AllTheThings E) (hf : d.p.length - d.offset < fuel) :
    (AllTheThings.unmarshalLoop c fuel d m).err ≠ some .loopBound := by
  induction fuel generalizing d m with
  | zero => omega
  | succ fuel ih =>
    rw [unmarshalLoop_succ]
    cases hmore : d.More with
    | false => simp
    | true =>
      have hlt : d.offset < d.p.length := by simpa [Decoder.More] using hmore
      simp only [if_true]
      cases hs : AllTheThings.unmarshalStep c d m with
      | error err =>
        simp only [ne_eq, Option.some.injEq]
        exact unmarshalStep_error_ne_loopBound c d m err hs
      | ok x =>
        obtain ⟨d2, m2⟩ := x
        obtain ⟨h1, h2, h3⟩ := unmarshalStep_progress c d d2 m m2 hs
        simp only []
        apply ih
        rw [h1]; omega

theorem unmarshalLoop_fuel {E : Type} (c : NestedCodec E) (f1 f2 : Nat) (d : Decoder)
    (m : AllTheThings E) (h1 : d.p.length - d.offset < f1) (h2 : d.p.length - d.offset < f2) :
    AllTheThings.unmarshalLoop c f1 d m = AllTheThings.unmarshalLoop c f2 d m := by
  induction f1 generalizing d m f2 with
  | zero => omega
  | succ f1 ih =>
    cases f2 with
    | zero => omega
    | succ f2 =>
      rw [unmarshalLoop_succ, unmarshalLoop_succ]
      cases hmore : d.More with
      | false => simp
      | true =>
        have hlt : d.offset < d.p.length := by simpa [Decoder.More] using hmore
        simp only [if_true]
        cases hs : AllTheThings.unmarshalStep c d m with
        | error err => rfl
        | ok x =>
          obtain ⟨d2, m2⟩ := x
          obtain ⟨g1, g2, g3⟩ := unmarshalStep_progress c d d2 m m2 hs
          simp only []
          apply ih
          · rw [g1]; omega
          · rw [g1]; omega

theorem unmarshalRun_ne_loopBound {E : Type} (c : NestedCodec E) (m : AllTheThings E)
    (p : List Byte) : (AllTheThings.unmarshalRun c m p).err ≠ some .loopBound := by
  unfold AllTheThings.unmarshalRun
  split
  · simp
  · apply unmarshalLoop_ne_loopBound
    simp [NewDecoder]
theorem unknownValueBytes_append (a b : List Record) :
    unknownValueBytes (a ++ b) = unknownValueBytes a ++ unknownValueBytes b := by
  induction a with
  | nil => simp [unknownValueBytes]
  | cons r rs ih => simp [unknownValueBytes, ih]

theorem unknownValueBytes_known (recs : List Record)
    (h : ∀ r ∈ recs, 1 ≤ r.tag ∧ r.tag ≤ 16) : unknownValueBytes recs = [] := by
  induction recs with
  | nil => rfl
  | cons r rs ih =>
    have h1 := h r (List.mem_cons_self _ _)
    have h2 := ih (fun x hx => h x (List.mem_cons_of_mem _ hx))
    simp [unknownValueBytes, h1, h2]

/-- The field numbers of the records of a message, in order. -/
theorem records_tags {E : Type} (c : NestedCodec E) (m : AllTheThings E) :
    (m.records c).map Record.tag =
      [1] ++ (if m.TheString.length > 0 then [2] else []) ++
      [3, 4, 5, 6, 7, 8, 9, 10, 11, 12, 13, 14] ++
      (if m.TheBytes.length > 0 then [15] else []) ++
      (match m.TheMessage with
       | none => []
       | some e =>
         match c.Marshal e with
         | .ok _ => [16]
         | .error _ => []) := by
  unfold AllTheThings.records
  simp only [List.map_append, List.map_cons, List.map_nil]
  congr 1
  · congr 1
    · congr 1
      · congr 1
        split <;> rfl
    · split <;> rfl
  · cases m.TheMessage with
    | none => rfl
    | some e =>
      simp only []
      cases c.Marshal e <;> rfl

theorem records_known {E : Type} (c : NestedCodec E) (m : AllTheThings E) :
    ∀ r ∈ m.records c, 1 ≤ r.tag ∧ r.tag ≤ 16 := by
  intro r hr
  have h : r.tag ∈ (m.records c).map Record.tag := List.mem_map_of_mem _ hr
  rw [records_tags] at h
  simp only [List.mem_append, List.mem_cons, List.mem_singleton, List.not_mem_nil,
    or_false] at h
  rcases h with (((h | h) | h) | h) | h
  · omega
  · split at h <;> simp at h; omega
  · omega
  · split at h <;> simp at h; omega
  · split at h
    · simp at h
    · split at h <;> simp at h; omega
/-- The body of `MarshalTo` writes fields 1..15 as it does for the message without its nested
part, and then the nested message if there is one. -/
theorem marshalEnc_split {E : Type} (c : NestedCodec E) (m : AllTheThings E)
    (dest : List Byte) :
    AllTheThings.marshalEnc c m dest =
      match AllTheThings.marshalEnc c { m with TheMessage := none } dest with
      | none => none
      | some (enc, _) =>
        match m.TheMessage with
        | none => some (enc, none)
        | some e =>
          match enc.EncodeNested c 16 e with
          | none => none
          | some (enc, some err) => some (enc, some (Err.fieldEncode 16 err))
          | some (enc, none) => some (enc, none) := by
  unfold AllTheThings.marshalEnc
  simp only []
  cases (NewEncoder dest).EncodeInt32 1 m.ID with
  | none => rfl
  | some e1 =>
  simp only []
  cases (if m.TheString.length > 0 then e1.EncodeString 2 m.TheString else some e1) with
  | none => rfl
  | some e2 =>
  simp only []
  cases e2.EncodeBool 3 m.TheBool with
  | none => rfl
  | some e3 =>
  simp only []
  cases e3.EncodeInt32 4 m.TheInt32 with
  | none => rfl
  | some e4 =>
  simp only []
  cases e4.EncodeInt64 5 m.TheInt64 with
  | none => rfl
  | some e5 =>
  simp only []
  cases e5.EncodeUInt32 6 m.TheUInt32 with
  | none => rfl
  | some e6 =>
  simp only []
  cases e6.EncodeUInt64 7 m.TheUInt64 with
  | none => rfl
  | some e7 =>
  simp only []
  cases e7.EncodeSInt32 8 m.TheSInt32 with
  | none => rfl
  | some e8 =>
  simp only []
  cases e8.EncodeSInt64 9 m.TheSInt64 with
  | none => rfl
  | some e9 =>
  simp only []
  cases e9.EncodeFixed32 10 m.TheFixed32 with
  | none => rfl
  | some e10 =>
  simp only []
  cases e10.EncodeFixed64 11 m.TheFixed64 with
  | none => rfl
  | some e11 =>
  simp only []
  cases e11.EncodeFixed32 12 (u32 (u64 m.TheSFixed32)) with
  | none => rfl
  | some e12 =>
  simp only []
  cases e12.EncodeFixed64 13 (u64 m.TheSFixed64) with
  | none => rfl
  | some e13 =>
  simp only []
  cases e13.EncodeInt32 14 m.TheEventType with
  | none => rfl
  | some e14 =>
  simp only []
  cases (if m.TheBytes.length > 0 then e14.EncodeBytes 15 m.TheBytes else some e14) with
  | none => rfl
  | some e15 => rfl
theorem Size_without_nested_le {E : Type} (c : NestedCodec E) (m : AllTheThings E) :
    AllTheThings.Size c (some { m with TheMessage := none }) ≤ AllTheThings.Size c (some m) := by
  unfold AllTheThings.Size
  simp only []
  cases m.TheMessage with
  | none => exact Nat.le_refl _
  | some e => exact Nat.le_add_right _ _

/-- In a buffer of `Size(m)` bytes `MarshalTo` writes fields 1..15 without running out of
room. -/
theorem marshalEnc_scalars {E : Type} (c : NestedCodec E) (m : AllTheThings E) (hwf : m.WF) :
    ∃ enc, AllTheThings.marshalEnc c { m with TheMessage := none }
      (List.replicate (AllTheThings.Size c (some m)) 0) = some (enc, none) := by
  have hwf2 : ({ m with TheMessage := none } : AllTheThings E).WF := hwf
  have hsz := Size_eq_records c { m with TheMessage := none } hwf2
    (fun e he => by simp at he)
  have hle := Size_without_nested_le c m
  obtain ⟨enc, henc, -⟩ := marshalEnc_ok c { m with TheMessage := none }
    (List.replicate (AllTheThings.Size c (some m)) 0)
    (by rw [List.length_replicate, ← hsz]; exact hle) (fun e he => by simp at he)
  exact ⟨enc, henc⟩

/-- What `Marshal` returns, by the nested message: nothing but the nested encoding can make it
return an error. -/
theorem Marshal_cases {E : Type} (c : NestedCodec E) (m : AllTheThings E) (hwf : m.WF) :
    match m.TheMessage with
    | none => ∃ buf, AllTheThings.Marshal c (some m) = some (buf, none)
    | some e =>
      match c.Marshal e with
      | .error cause =>
        ∃ buf, AllTheThings.Marshal c (some m) = some (buf, some (.fieldEncode 16 cause))
      | .ok _ =>
        AllTheThings.Marshal c (some m) = none ∨
        ∃ buf, AllTheThings.Marshal c (some m) = some (buf, none) := by
  obtain ⟨enc, henc⟩ := marshalEnc_scalars c m hwf
  have hsplit := marshalEnc_split c m (List.replicate (AllTheThings.Size c (some m)) 0)
  rw [henc] at hsplit
  simp only [] at hsplit
  have hM : AllTheThings.Marshal c (some m) =
      (AllTheThings.marshalEnc c m (List.replicate (AllTheThings.Size c (some m)) 0)).map
        fun r => (r.1.p, r.2) := rfl
  rw [hM, hsplit]
  cases m.TheMessage with
  | none => exact ⟨enc.p, rfl⟩
  | some e =>
    simp only []
    unfold Encoder.EncodeNested
    cases c.Marshal e with
    | error cause => exact ⟨enc.p, rfl⟩
    | ok payload =>
      simp only []
      cases ((enc.write (EncodeTag 16 WireTypeLengthDelimited)).bind fun e =>
        e.write (EncodeLengthDelimited payload)) with
      | none => exact Or.inl rfl
      | some e2 => exact Or.inr ⟨e2.p, rfl⟩
/-! ### A buffer is a sequence of well-formed records in at most one way -/

theorem varint_prefix_unique (a b s t : List Byte) (v w : Nat)
    (ha : DecodeVarint a = .ok (v, a.length)) (hb : DecodeVarint b = .ok (w, b.length))
    (h : a ++ s = b ++ t) : a = b ∧ v = w ∧ s = t := by
  have h1 := DecodeVarint_append a s _ ha
  have h2 := DecodeVarint_append b t _ hb
  rw [h, h2] at h1
  simp only [Except.ok.injEq, Prod.mk.injEq] at h1
  obtain ⟨hv, hl⟩ := h1
  obtain ⟨e1, e2⟩ := List.append_inj h hl.symm
  exact ⟨e1, hv.symm, e2⟩

theorem wireValue_bytes_unique (x y : WireValue) (s t : List Byte) (hx : x.Valid) (hy : y.Valid)
    (hw : x.wireType = y.wireType) (h : x.bytes ++ s = y.bytes ++ t) : x = y ∧ s = t := by
  cases x <;> cases y <;>
    simp only [WireValue.wireType, WireTypeVarint, WireTypeFixed64, WireTypeFixed32,
      WireTypeLengthDelimited, OfNat.ofNat_ne_zero, OfNat.zero_ne_ofNat, Nat.reduceEqDiff,
      OfNat.ofNat_ne_one, OfNat.one_ne_ofNat] at hw
  · rename_i raw1 v1 raw2 v2
    obtain ⟨e1, e2, e3⟩ := varint_prefix_unique raw1 raw2 s t v1 v2 hx hy h
    subst e1 e2
    exact ⟨rfl, e3⟩
  · rename_i raw1 raw2
    have hx2 : raw1.length = 8 := hx
    have hy2 : raw2.length = 8 := hy
    obtain ⟨e1, e2⟩ := List.append_inj h (by show raw1.length = raw2.length; rw [hx2, hy2])
    subst e1
    exact ⟨rfl, e2⟩
  · rename_i l1 p1 l2 p2
    simp only [WireValue.bytes, List.append_assoc] at h
    obtain ⟨e1, e2, e3⟩ := varint_prefix_unique l1 l2 _ _ _ _ hx hy h
    obtain ⟨e4, e5⟩ := List.append_inj e3 e2
    subst e1 e4
    exact ⟨rfl, e5⟩
  · rename_i raw1 raw2
    have hx2 : raw1.length = 4 := hx
    have hy2 : raw2.length = 4 := hy
    obtain ⟨e1, e2⟩ := List.append_inj h (by show raw1.length = raw2.length; rw [hx2, hy2])
    subst e1
    exact ⟨rfl, e2⟩

theorem record_bytes_unique (x y : Record) (s t : List Byte) (hx : x.Valid) (hy : y.Valid)
    (h : x.bytes ++ s = y.bytes ++ t) : x = y ∧ s = t := by
  obtain ⟨xr, xt, xv⟩ := x
  obtain ⟨yr, yt, yv⟩ := y
  simp only [Record.bytes, List.append_assoc] at h
  obtain ⟨e1, e2, e3⟩ := varint_prefix_unique xr yr _ _ _ _ hx.1 hy.1 h
  simp only [] at e2
  have k1 := tag_split xt xv.wireType (wireType_lt xv)
  have k2 := tag_split yt yv.wireType (wireType_lt yv)
  rw [e2] at k1
  have et : xt = yt := by rw [← k1.1, k2.1]
  have ew : xv.wireType = yv.wireType := by rw [← k1.2, k2.2]
  obtain ⟨e4, e5⟩ := wireValue_bytes_unique xv yv s t hx.2 hy.2 ew e3
  subst e1 et e4
  exact ⟨rfl, e5⟩

theorem recordsBytes_injective (a b : List Record) (ha : ∀ r ∈ a, r.Valid)
    (hb : ∀ r ∈ b, r.Valid) (h : recordsBytes a = recordsBytes b) : a = b := by
  induction a generalizing b with
  | nil =>
    cases b with
    | nil => rfl
    | cons y ys =>
      have hy := (y.bytes_pos (hb y (List.mem_cons_self _ _)))
      have hl : (recordsBytes (y :: ys)).length = 0 := by rw [← h]; rfl
      simp only [recordsBytes, List.length_append] at hl
      omega
  | cons x xs ih =>
    cases b with
    | nil =>
      have hx := (x.bytes_pos (ha x (List.mem_cons_self _ _)))
      have hl : (recordsBytes (x :: xs)).length = 0 := by rw [h]; rfl
      simp only [recordsBytes, List.length_append] at hl
      omega
    | cons y ys =>
      simp only [recordsBytes] at h
      obtain ⟨e1, e2⟩ := record_bytes_unique x y _ _ (ha x (List.mem_cons_self _ _))
        (hb y (List.mem_cons_self _ _)) h
      subst e1
      rw [ih ys (fun r hr => ha r (List.mem_cons_of_mem _ hr))
        (fun r hr => hb r (List.mem_cons_of_mem _ hr)) e2]
/-- Every record `MarshalTo` writes carries the canonical tag: the varint of
`(fieldNumber<<3)|wireType`. -/
theorem records_tagRaw {E : Type} (c : NestedCodec E) (m : AllTheThings E) :
    ∀ r ∈ m.records c, r.tagRaw = EncodeVarint ((r.tag <<< 3) ||| r.val.wireType) := by
  intro r hr
  unfold AllTheThings.records at hr
  simp only [List.mem_append, List.mem_cons, List.mem_singleton, List.not_mem_nil,
    or_false] at hr
  rcases hr with (((hr | hr) | hr) | hr) | hr
  · subst hr
    simp only [Record.ofVarint, Record.ofBytes, Record.ofFixed32, Record.ofFixed64, EncodeTag,
      WireValue.wireType]
  · split at hr
    · simp only [List.mem_singleton] at hr
      subst hr
      simp only [Record.ofVarint, Record.ofBytes, Record.ofFixed32, Record.ofFixed64, EncodeTag,
        WireValue.wireType]
    · simp at hr
  · rcases hr with hr | hr | hr | hr | hr | hr | hr | hr | hr | hr | hr | hr <;> subst hr <;>
      simp only [Record.ofVarint, Record.ofBytes, Record.ofFixed32, Record.ofFixed64, EncodeTag,
        WireValue.wireType]
  · split at hr
    · simp only [List.mem_singleton] at hr
      subst hr
      simp only [Record.ofVarint, Record.ofBytes, Record.ofFixed32, Record.ofFixed64, EncodeTag,
        WireValue.wireType]
    · simp at hr
  · cases hm : m.TheMessage with
    | none => simp [hm] at hr
    | some e =>
      cases hp : c.Marshal e with
      | error err => simp [hm, hp] at hr
      | ok payload =>
        simp only [hm, hp, List.mem_singleton] at hr
        subst hr
        simp only [Record.ofVarint, Record.ofBytes, Record.ofFixed32, Record.ofFixed64, EncodeTag,
          WireValue.wireType]

/-- The field numbers `Size` counts, in the order it counts them. -/
theorem records_tags_sorted {E : Type} (c : NestedCodec E) (m : AllTheThings E) :
    ((m.records c).map Record.tag).Pairwise (fun a b => a < b) := by
  rw [records_tags]
  cases m.TheMessage with
  | none =>
    simp only []
    split <;> split <;> decide
  | some e =>
    simp only []
    cases c.Marshal e <;> simp only [] <;> split <;> split <;> decide
/-! ### Records of singular scalar fields: last one wins, order does not matter -/

/-- A well-formed record of a scalar field assigns its value to the field it names and leaves
every other field, the nested message and the unrecognized tail as they were. -/
theorem effect_scalar {E : Type} (c : NestedCodec E) (r : Record) (m : AllTheThings E)
    (h : r.IsScalarField) :
    ∃ m1, r.effect c m = .ok m1 ∧ m1.TheMessage = m.TheMessage ∧
      m1.XXX_unrecognized = m.XXX_unrecognized ∧
      (∀ k, k ≠ r.tag → m1.field k = m.field k) ∧ m1.field r.tag = r.value c := by
  obtain ⟨-, ⟨hk0, hk1⟩, hw⟩ := h
  rcases tag_cases r.tag with hk | hk | hk | hk | hk | hk | hk | hk | hk | hk | hk | hk | hk | hk | hk | hk | hk
  · unfold Record.value
    rw [effect_tag1 c r m hk, effect_tag1 c r AllTheThings.zero hk]
    rw [hk] at hw
    cases hval : r.val with
    | varint raw v =>
      refine ⟨{ m with ID := i32 v }, rfl, rfl, rfl, ?_, ?_⟩
      · intro k hkne
        rw [hk] at hkne
        simp only [AllTheThings.field, hkne, if_false]
      · rw [hk]
        rfl
    | _ =>
      rw [hval] at hw
      simp [expectedWireType, WireValue.wireType, WireTypeVarint, WireTypeFixed64,
        WireTypeFixed32, WireTypeLengthDelimited] at hw
  · unfold Record.value
    rw [effect_tag2 c r m hk, effect_tag2 c r AllTheThings.zero hk]
    rw [hk] at hw
    cases hval : r.val with
    | lengthDelimited lenRaw b =>
      refine ⟨{ m with TheString := b }, rfl, rfl, rfl, ?_, ?_⟩
      · intro k hkne
        rw [hk] at hkne
        simp only [AllTheThings.field, hkne, if_false]
      · rw [hk]
        rfl
    | _ =>
      rw [hval] at hw
      simp [expectedWireType, WireValue.wireType, WireTypeVarint, WireTypeFixed64,
        WireTypeFixed32, WireTypeLengthDelimited] at hw
  · unfold Record.value
    rw [effect_tag3 c r m hk, effect_tag3 c r AllTheThings.zero hk]
    rw [hk] at hw
    cases hval : r.val with
    | varint raw v =>
      refine ⟨{ m with TheBool := decide (v ≠ 0) }, rfl, rfl, rfl, ?_, ?_⟩
      · intro k hkne
        rw [hk] at hkne
        simp only [AllTheThings.field, hkne, if_false]
      · rw [hk]
        rfl
    | _ =>
      rw [hval] at hw
      simp [expectedWireType, WireValue.wireType, WireTypeVarint, WireTypeFixed64,
        WireTypeFixed32, WireTypeLengthDelimited] at hw
  · unfold Record.value
    rw [effect_tag4 c r m hk, effect_tag4 c r AllTheThings.zero hk]
    rw [hk] at hw
    cases hval : r.val with
    | varint raw v =>
      refine ⟨{ m with TheInt32 := i32 v }, rfl, rfl, rfl, ?_, ?_⟩
      · intro k hkne
        rw [hk] at hkne
        simp only [AllTheThings.field, hkne, if_false]
      · rw [hk]
        rfl
    | _ =>
      rw [hval] at hw
      simp [expectedWireType, WireValue.wireType, WireTypeVarint, WireTypeFixed64,
        WireTypeFixed32, WireTypeLengthDelimited] at hw
  · unfold Record.value
    rw [effect_tag5 c r m hk, effect_tag5 c r AllTheThings.zero hk]
    rw [hk] at hw
    cases hval : r.val with
    | varint raw v =>
      refine ⟨{ m with TheInt64 := i64 v }, rfl, rfl, rfl, ?_, ?_⟩
      · intro k hkne
        rw [hk] at hkne
        simp only [AllTheThings.field, hkne, if_false]
      · rw [hk]
        rfl
    | _ =>
      rw [hval] at hw
      simp [expectedWireType, WireValue.wireType, WireTypeVarint, WireTypeFixed64,
        WireTypeFixed32, WireTypeLengthDelimited] at hw
  · unfold Record.value
    rw [effect_tag6 c r m hk, effect_tag6 c r AllTheThings.zero hk]
    rw [hk] at hw
    cases hval : r.val with
    | varint raw v =>
      refine ⟨{ m with TheUInt32 := u32 v }, rfl, rfl, rfl, ?_, ?_⟩
      · intro k hkne
        rw [hk] at hkne
        simp only [AllTheThings.field, hkne, if_false]
      · rw [hk]
        rfl
    | _ =>
      rw [hval] at hw
      simp [expectedWireType, WireValue.wireType, WireTypeVarint, WireTypeFixed64,
        WireTypeFixed32, WireTypeLengthDelimited] at hw
  · unfold Record.value
    rw [effect_tag7 c r m hk, effect_tag7 c r AllTheThings.zero hk]
    rw [hk] at hw
    cases hval : r.val with
    | varint raw v =>
      refine ⟨{ m with TheUInt64 := v }, rfl, rfl, rfl, ?_, ?_⟩
      · intro k hkne
        rw [hk] at hkne
        simp only [AllTheThings.field, hkne, if_false]
      · rw [hk]
        rfl
    | _ =>
      rw [hval] at hw
      simp [expectedWireType, WireValue.wireType, WireTypeVarint, WireTypeFixed64,
        WireTypeFixed32, WireTypeLengthDelimited] at hw
  · unfold Record.value
    rw [effect_tag8 c r m hk, effect_tag8 c r AllTheThings.zero hk]
    rw [hk] at hw
    cases hval : r.val with
    | varint raw v =>
      refine ⟨{ m with TheSInt32 := zigzagDecode (u32 v) }, rfl, rfl, rfl, ?_, ?_⟩
      · intro k hkne
        rw [hk] at hkne
        simp only [AllTheThings.field, hkne, if_false]
      · rw [hk]
        rfl
    | _ =>
      rw [hval] at hw
      simp [expectedWireType, WireValue.wireType, WireTypeVarint, WireTypeFixed64,
        WireTypeFixed32, WireTypeLengthDelimited] at hw
  · unfold Record.value
    rw [effect_tag9 c r m hk, effect_tag9 c r AllTheThings.zero hk]
    rw [hk] at hw
    cases hval : r.val with
    | varint raw v =>
      refine ⟨{ m with TheSInt64 := zigzagDecode v }, rfl, rfl, rfl, ?_, ?_⟩
      · intro k hkne
        rw [hk] at hkne
        simp only [AllTheThings.field, hkne, if_false]
      · rw [hk]
        rfl
    | _ =>
      rw [hval] at hw
      simp [expectedWireType, WireValue.wireType, WireTypeVarint, WireTypeFixed64,
        WireTypeFixed32, WireTypeLengthDelimited] at hw
  · unfold Record.value
    rw [effect_tag10 c r m hk, effect_tag10 c r AllTheThings.zero hk]
    rw [hk] at hw
    cases hval : r.val with
    | fixed32 raw =>
      refine ⟨{ m with TheFixed32 := leValue raw }, rfl, rfl, rfl, ?_, ?_⟩
      · intro k hkne
        rw [hk] at hkne
        simp only [AllTheThings.field, hkne, if_false]
      · rw [hk]
        rfl
    | _ =>
      rw [hval] at hw
      simp [expectedWireType, WireValue.wireType, WireTypeVarint, WireTypeFixed64,
        WireTypeFixed32, WireTypeLengthDelimited] at hw
  · unfold Record.value
    rw [effect_tag11 c r m hk, effect_tag11 c r AllTheThings.zero hk]
    rw [hk] at hw
    cases hval : r.val with
    | fixed64 raw =>
      refine ⟨{ m with TheFixed64 := leValue raw }, rfl, rfl, rfl, ?_, ?_⟩
      · intro k hkne
        rw [hk] at hkne
        simp only [AllTheThings.field, hkne, if_false]
      · rw [hk]
        rfl
    | _ =>
      rw [hval] at hw
      simp [expectedWireType, WireValue.wireType, WireTypeVarint, WireTypeFixed64,
        WireTypeFixed32, WireTypeLengthDelimited] at hw
  · unfold Record.value
    rw [effect_tag12 c r m hk, effect_tag12 c r AllTheThings.zero hk]
    rw [hk] at hw
    cases hval : r.val with
    | fixed32 raw =>
      refine ⟨{ m with TheSFixed32 := i32 (leValue raw) }, rfl, rfl, rfl, ?_, ?_⟩
      · intro k hkne
        rw [hk] at hkne
        simp only [AllTheThings.field, hkne, if_false]
      · rw [hk]
        rfl
    | _ =>
      rw [hval] at hw
      simp [expectedWireType, WireValue.wireType, WireTypeVarint, WireTypeFixed64,
        WireTypeFixed32, WireTypeLengthDelimited] at hw
  · unfold Record.value
    rw [effect_tag13 c r m hk, effect_tag13 c r AllTheThings.zero hk]
    rw [hk] at hw
    cases hval : r.val with
    | fixed64 raw =>
      refine ⟨{ m with TheSFixed64 := i64 (leValue raw) }, rfl, rfl, rfl, ?_, ?_⟩
      · intro k hkne
        rw [hk] at hkne
        simp only [AllTheThings.field, hkne, if_false]
      · rw [hk]
        rfl
    | _ =>
      rw [hval] at hw
      simp [expectedWireType, WireValue.wireType, WireTypeVarint, WireTypeFixed64,
        WireTypeFixed32, WireTypeLengthDelimited] at hw
  · unfold Record.value
    rw [effect_tag14 c r m hk, effect_tag14 c r AllTheThings.zero hk]
    rw [hk] at hw
    cases hval : r.val with
    | varint raw v =>
      refine ⟨{ m with TheEventType := i32 v }, rfl, rfl, rfl, ?_, ?_⟩
      · intro k hkne
        rw [hk] at hkne
        simp only [AllTheThings.field, hkne, if_false]
      · rw [hk]
        rfl
    | _ =>
      rw [hval] at hw
      simp [expectedWireType, WireValue.wireType, WireTypeVarint, WireTypeFixed64,
        WireTypeFixed32, WireTypeLengthDelimited] at hw
  · unfold Record.value
    rw [effect_tag15 c r m hk, effect_tag15 c r AllTheThings.zero hk]
    rw [hk] at hw
    cases hval : r.val with
    | lengthDelimited lenRaw b =>
      refine ⟨{ m with TheBytes := b }, rfl, rfl, rfl, ?_, ?_⟩
      · intro k hkne
        rw [hk] at hkne
        simp only [AllTheThings.field, hkne, if_false]
      · rw [hk]
        rfl
    | _ =>
      rw [hval] at hw
      simp [expectedWireType, WireValue.wireType, WireTypeVarint, WireTypeFixed64,
        WireTypeFixed32, WireTypeLengthDelimited] at hw
  · omega
  · omega
theorem lastWithTag_cons (k : Nat) (r : Record) (rs : List Record) :
    lastWithTag k (r :: rs) =
      match lastWithTag k rs with
      | some x => some x
      | none => if r.tag = k then some r else none := rfl

/-- A sequence of well-formed records of scalar fields decodes without error; each field named
in it gets the value of the last record naming it, every other field, the nested message and
the unrecognized tail stay as they were. -/
theorem runRecords_scalars {E : Type} (c : NestedCodec E) (recs : List Record)
    (m : AllTheThings E) (h : ∀ r ∈ recs, r.IsScalarField) :
    ∃ m2, runRecords c recs m = (m2, none) ∧ m2.TheMessage = m.TheMessage ∧
      m2.XXX_unrecognized = m.XXX_unrecognized ∧
      ∀ k, m2.field k =
        match lastWithTag k recs with
        | some r => r.value c
        | none => m.field k := by
  induction recs generalizing m with
  | nil => exact ⟨m, rfl, rfl, rfl, fun k => rfl⟩
  | cons r rs ih =>
    obtain ⟨m1, he, h1, h2, h3, h4⟩ := effect_scalar c r m (h r (List.mem_cons_self _ _))
    obtain ⟨m2, hr, g1, g2, g3⟩ := ih m1 (fun x hx => h x (List.mem_cons_of_mem _ hx))
    refine ⟨m2, by rw [runRecords_cons_ok c r rs m m1 he]; exact hr, by rw [g1, h1],
      by rw [g2, h2], fun k => ?_⟩
    rw [g3 k]
    rw [lastWithTag_cons]
    cases lastWithTag k rs with
    | some x => rfl
    | none =>
      simp only []
      by_cases hk : r.tag = k
      · rw [if_pos hk]
        simp only []
        rw [← hk]; exact h4
      · rw [if_neg hk]
        simp only []
        exact h3 k (fun hh => hk hh.symm)

theorem lastWithTag_none (k : Nat) (recs : List Record) (h : ∀ r ∈ recs, r.tag ≠ k) :
    lastWithTag k recs = none := by
  induction recs with
  | nil => rfl
  | cons r rs ih =>
    rw [lastWithTag_cons]
    rw [ih (fun x hx => h x (List.mem_cons_of_mem _ hx)),
      if_neg (h r (List.mem_cons_self _ _))]

theorem lastWithTag_mem (k : Nat) (recs : List Record) (x : Record)
    (h : lastWithTag k recs = some x) : x ∈ recs ∧ x.tag = k := by
  induction recs with
  | nil => simp [lastWithTag] at h
  | cons r rs ih =>
    rw [lastWithTag_cons] at h
    cases hl : lastWithTag k rs with
    | some y =>
      rw [hl] at h
      simp only [Option.some.injEq] at h
      subst h
      obtain ⟨a, b⟩ := ih hl
      exact ⟨List.mem_cons_of_mem _ a, b⟩
    | none =>
      rw [hl] at h
      simp only [] at h
      split at h
      · rename_i hk
        simp only [Option.some.injEq] at h
        subst h
        exact ⟨List.mem_cons_self _ _, hk⟩
      · cases h

/-- Among records of pairwise distinct fields, the last record naming a field is the only
one. -/
theorem lastWithTag_of_nodup (recs : List Record) (x : Record)
    (hnd : (recs.map Record.tag).Nodup) (hx : x ∈ recs) : lastWithTag x.tag recs = some x := by
  cases hl : lastWithTag x.tag recs with
  | none =>
    exfalso
    have : ∀ (l : List Record), x ∈ l → lastWithTag x.tag l ≠ none := by
      intro l
      induction l with
      | nil => intro h; cases h
      | cons r rs ih =>
        intro h
        rw [lastWithTag_cons]
        cases h2 : lastWithTag x.tag rs with
        | some y => simp
        | none =>
          simp only []
          rcases List.mem_cons.mp h with e | e
          · subst e; simp
          · exact absurd h2 (ih e)
    exact this recs hx hl
  | some y =>
    obtain ⟨hy, hyt⟩ := lastWithTag_mem _ _ _ hl
    have := List.inj_on_of_nodup_map hnd hy hx hyt
    rw [this]

theorem lastWithTag_perm (k : Nat) (a b : List Record) (hp : a.Perm b)
    (hnd : (a.map Record.tag).Nodup) : lastWithTag k a = lastWithTag k b := by
  have hnd2 : (b.map Record.tag).Nodup := (hp.map Record.tag).nodup_iff.mp hnd
  cases hl : lastWithTag k a with
  | some x =>
    obtain ⟨hx, hxt⟩ := lastWithTag_mem _ _ _ hl
    rw [← hxt, lastWithTag_of_nodup b x hnd2 (hp.mem_iff.mp hx)]
  | none =>
    cases hl2 : lastWithTag k b with
    | none => rfl
    | some y =>
      obtain ⟨hy, hyt⟩ := lastWithTag_mem _ _ _ hl2
      have := lastWithTag_of_nodup a y hnd (hp.mem_iff.mpr hy)
      rw [hyt, hl] at this
      cases this

/-- Two messages with the same fields 1..15, the same nested message and the same unrecognized
tail are equal. -/
theorem AllTheThings.eq_of_fields {E : Type} (a b : AllTheThings E)
    (h : ∀ k, 1 ≤ k → k ≤ 15 → a.field k = b.field k) (hm : a.TheMessage = b.TheMessage)
    (ht : a.XXX_unrecognized = b.XXX_unrecognized) : a = b := by
  have h1 := h 1 (by decide) (by decide)
  have h2 := h 2 (by decide) (by decide)
  have h3 := h 3 (by decide) (by decide)
  have h4 := h 4 (by decide) (by decide)
  have h5 := h 5 (by decide) (by decide)
  have h6 := h 6 (by decide) (by decide)
  have h7 := h 7 (by decide) (by decide)
  have h8 := h 8 (by decide) (by decide)
  have h9 := h 9 (by decide) (by decide)
  have h10 := h 10 (by decide) (by decide)
  have h11 := h 11 (by decide) (by decide)
  have h12 := h 12 (by decide) (by decide)
  have h13 := h 13 (by decide) (by decide)
  have h14 := h 14 (by decide) (by decide)
  have h15 := h 15 (by decide) (by decide)
  simp only [AllTheThings.field, Nat.reduceEqDiff, if_true, if_false, FieldValue.int.injEq,
    FieldValue.nat.injEq, FieldValue.bool.injEq, FieldValue.bytes.injEq,
    OfNat.ofNat_ne_one] at h1 h2 h3 h4 h5 h6 h7 h8 h9 h10 h11 h12 h13 h14 h15
  cases a; cases b
  simp only [AllTheThings.mk.injEq]
  simp only [] at h1 h2 h3 h4 h5 h6 h7 h8 h9 h10 h11 h12 h13 h14 h15 hm ht
  exact ⟨h1, h2, h3, h4, h5, h6, h7, h8, h9, h10, h11, h12, h13, h14, h15, hm, ht⟩

theorem IsScalarField.valid (r : Record) (h : r.IsScalarField) : r.Valid := h.1
/-! ### What `Size` adds for one field -/

/-- The value of `Size` as the sum of the terms it adds, field by field. -/
theorem Size_terms {E : Type} (c : NestedCodec E) (m : AllTheThings E) :
    AllTheThings.Size c (some m) =
      (SizeOfTagKey 1 + SizeOfVarint (u64 m.ID)) +
      (if m.TheString.length > 0 then
        SizeOfTagKey 2 + SizeOfVarint m.TheString.length + m.TheString.length else 0) +
      (SizeOfTagKey 3 + 1) +
      (SizeOfTagKey 4 + SizeOfVarint (u64 m.TheInt32)) +
      (SizeOfTagKey 5 + SizeOfVarint (u64 m.TheInt64)) +
      (SizeOfTagKey 6 + SizeOfVarint m.TheUInt32) +
      (SizeOfTagKey 7 + SizeOfVarint m.TheUInt64) +
      (SizeOfTagKey 8 + SizeOfZigZag (u64 m.TheSInt32)) +
      (SizeOfTagKey 9 + SizeOfZigZag (u64 m.TheSInt64)) +
      (SizeOfTagKey 10 + 4) + (SizeOfTagKey 11 + 8) + (SizeOfTagKey 12 + 4) +
      (SizeOfTagKey 13 + 8) +
      (SizeOfTagKey 14 + SizeOfVarint (u64 m.TheEventType)) +
      (if m.TheBytes.length > 0 then
        SizeOfTagKey 15 + SizeOfVarint m.TheBytes.length + m.TheBytes.length else 0) +
      (match m.TheMessage with
       | some e => SizeOfTagKey 16 + SizeOfVarint (c.Size e) + c.Size e
       | none => 0) := by
  unfold AllTheThings.Size
  simp only [Nat.zero_add]
  cases m.TheMessage with
  | none =>
    simp only [Nat.add_zero]
    split <;> split <;> simp only [Nat.add_zero]
  | some e =>
    simp only []
    split <;> split <;> simp only [Nat.add_zero]

/-- The value bytes of the records `MarshalTo` writes for the int32, enum and sint32 fields. -/
theorem records_int32_values {E : Type} (c : NestedCodec E) (m : AllTheThings E) :
    ∀ r ∈ m.records c,
      (r.tag = 1 → r.val.bytes = EncodeVarint (u64 m.ID)) ∧
      (r.tag = 4 → r.val.bytes = EncodeVarint (u64 m.TheInt32)) ∧
      (r.tag = 8 → r.val.bytes = EncodeVarint (zigzagEncode32 m.TheSInt32)) ∧
      (r.tag = 14 → r.val.bytes = EncodeVarint (u64 m.TheEventType)) := by
  intro r hr
  unfold AllTheThings.records at hr
  simp only [List.mem_append, List.mem_cons, List.mem_singleton, List.not_mem_nil,
    or_false] at hr
  rcases hr with (((hr | hr) | hr) | hr) | hr
  · subst hr
    simp [Record.ofVarint, WireValue.bytes]
  · split at hr
    · simp only [List.mem_singleton] at hr
      subst hr
      simp [Record.ofBytes]
    · simp at hr
  · rcases hr with hr | hr | hr | hr | hr | hr | hr | hr | hr | hr | hr | hr <;> subst hr <;>
      simp [Record.ofVarint, Record.ofFixed32, Record.ofFixed64, WireValue.bytes]
  · split at hr
    · simp only [List.mem_singleton] at hr
      subst hr
      simp [Record.ofBytes]
    · simp at hr
  · cases hm : m.TheMessage with
    | none => simp [hm] at hr
    | some e =>
      cases hp : c.Marshal e with
      | error err => simp [hm, hp] at hr
      | ok payload =>
        simp only [hm, hp, List.mem_singleton] at hr
        subst hr
        simp [Record.ofBytes]

theorem EncodeVarint_int32_length (v : Int) (h : isInt32 v) :
    (v < 0 → (EncodeVarint (u64 v)).length = 10) ∧
    (0 ≤ v → (EncodeVarint (u64 v)).length ≤ 5) := by
  rw [EncodeVarint_length]
  unfold isInt32 at h
  constructor
  · intro hneg
    apply SizeOfVarint_eq_ten <;> unfold u64 <;> omega
  · intro hpos
    apply SizeOfVarint_le_five; unfold u64; omega

/-! ## The claims -/

/-- C1 (size exactness): for every non-nil message `m` whose fields are in the ranges of their Go
types (negative values included) and whose nested message, if present, has a `Size` equal to the
length of its own encoding, `MarshalTo` into any buffer of exactly `Size(m)` bytes does not
panic (no write past the end), returns no error and leaves the write cursor at `Size(m)`, the
length of the buffer (no byte left unwritten); so `Marshal(m)` returns a buffer of `Size(m)`
bytes. -/
theorem size_exact {E : Type} (c : NestedCodec E) (m : AllTheThings E) (hwf : m.WF)
    (hn : ∀ e, m.TheMessage = some e →
      ∃ payload, c.Marshal e = .ok payload ∧ payload.length = c.Size e) :
    (∀ dest : List Byte, dest.length = AllTheThings.Size c (some m) →
      ∃ enc, AllTheThings.marshalEnc c m dest = some (enc, none) ∧
        enc.offset = AllTheThings.Size c (some m) ∧
        enc.p.length = AllTheThings.Size c (some m) ∧
        AllTheThings.MarshalTo c (some m) dest = some (enc.p, none)) ∧
    ∃ buf, AllTheThings.Marshal c (some m) = some (buf, none) ∧
      buf.length = AllTheThings.Size c (some m) := by
  have hsz := Size_eq_records c m hwf hn
  constructor
  · intro dest hd
    obtain ⟨enc, henc, h1, -, h3⟩ := marshalEnc_ok c m dest (by rw [hd, hsz])
      (fun e he => by obtain ⟨p, hp, -⟩ := hn e he; exact ⟨p, hp⟩)
    refine ⟨enc, henc, by rw [h1, hsz], by rw [h3, hd], ?_⟩
    simp [AllTheThings.MarshalTo, henc]
  · exact ⟨_, (Marshal_eq_records c m hwf hn).2, hsz.symm⟩

/-- Witness of C1 on the example message: its `Size` is 99 and `Marshal` returns 99 bytes. -/
theorem size_exact_witness :
    exampleMessage.WF ∧ AllTheThings.Size exampleCodec (some exampleMessage) = 99 ∧
    ∃ buf, AllTheThings.Marshal exampleCodec (some exampleMessage) = some (buf, none) ∧
      buf.length = AllTheThings.Size exampleCodec (some exampleMessage) :=
  ⟨by decide, by decide,
    (size_exact exampleCodec exampleMessage (by decide) (fun e _ => ⟨e, rfl, rfl⟩)).2⟩

/-- C2 (round trip): for every non-nil message `m` with fields in the ranges of their Go types,
an empty unrecognized tail and a nested message that, if present, marshals to a buffer of its
`Size` bytes (a Go slice, hence shorter than `2^63`) which its own `Unmarshal` maps back to it,
`Marshal(m)` succeeds and `Unmarshal` of the result into any target succeeds and yields `m`,
equal in every field. -/
theorem round_trip {E : Type} (c : NestedCodec E) (m : AllTheThings E) (hwf : m.WF)
    (hu : m.XXX_unrecognized = [])
    (hn : ∀ e, m.TheMessage = some e →
      ∃ payload, c.Marshal e = .ok payload ∧ payload.length = c.Size e ∧
        payload.length < 9223372036854775808 ∧ c.Unmarshal payload = .ok e) :
    ∃ buf, AllTheThings.Marshal c (some m) = some (buf, none) ∧
      ∀ target, AllTheThings.Unmarshal c target buf = (m, none) := by
  have hn1 : ∀ e, m.TheMessage = some e →
      ∃ payload, c.Marshal e = .ok payload ∧ payload.length = c.Size e := fun e he => by
    obtain ⟨p, h1, h2, -⟩ := hn e he; exact ⟨p, h1, h2⟩
  have hn2 : ∀ e, m.TheMessage = some e →
      ∃ payload, c.Marshal e = .ok payload ∧ c.Unmarshal payload = .ok e := fun e he => by
    obtain ⟨p, h1, -, -, h3⟩ := hn e he; exact ⟨p, h1, h3⟩
  have hv : ∀ r ∈ m.records c, r.Valid := by
    apply records_valid c m hwf
    intro e payload he hp
    obtain ⟨p, h1, -, h3, -⟩ := hn e he
    rw [h1] at hp
    cases hp
    exact h3
  refine ⟨recordsBytes (m.records c), (Marshal_eq_records c m hwf hn1).2, fun target => ?_⟩
  rw [Unmarshal_records c _ hv (records_ne_nil c m) target]
  exact runRecords_records c m hwf hu hn2

/-- Witness of C2 on the example message, decoded into a target that is not in its zero
state. -/
theorem round_trip_witness :
    exampleMessage.WF ∧ exampleMessage.XXX_unrecognized = [] ∧
    ∃ buf, AllTheThings.Marshal exampleCodec (some exampleMessage) = some (buf, none) ∧
      ∀ target, AllTheThings.Unmarshal exampleCodec target buf = (exampleMessage, none) :=
  ⟨by decide, rfl,
    round_trip exampleCodec exampleMessage (by decide) rfl
      (fun e he => ⟨e, rfl, rfl, by
        have h : e = [1, 2, 3] := by
          have h2 : exampleMessage.TheMessage = some [1, 2, 3] := rfl
          rw [h2] at he
          exact (Option.some.inj he).symm
        subst h
        exact ⟨by decide, rfl⟩⟩)⟩

/-- C3 (empty input rejection): for every target value `m`, `Unmarshal` of the zero-length
buffer returns an error, the one built for the empty buffer; it never succeeds. -/
theorem empty_input_rejected {E : Type} (c : NestedCodec E) (m : AllTheThings E) :
    (AllTheThings.Unmarshal c m []).2 = some Err.emptyInput ∧
    (AllTheThings.Unmarshal c m []).2 ≠ none := by
  constructor
  · rfl
  · intro h
    cases h

/-- C4 (wire-type enforcement): for every known field number `k` in 1..16 and every wire-type
code `w` other than the one the field expects, a loop iteration of `Unmarshal` that reads the
tag `(k, w)` returns the wire-type error and leaves the target as it was, whatever bytes follow
the tag (the decoder `d1` after the tag is arbitrary); hence `Unmarshal` of any buffer made of
well-formed records that decode, then such a tag, then any bytes, returns that error. -/
theorem wire_type_enforced {E : Type} (c : NestedCodec E) (k w : Nat) (hk : 1 ≤ k ∧ k ≤ 16)
    (hw : w ≠ expectedWireType k) :
    (∀ (fuel : Nat) (d d1 : Decoder) (m : AllTheThings E), d.More = true →
      d.DecodeTag = .ok (k, w, d1) →
      AllTheThings.unmarshalStep c d m = .error (.wireTypeMismatch k w) ∧
      AllTheThings.unmarshalLoop c (fuel + 1) d m = ⟨m, d, some (.wireTypeMismatch k w)⟩) ∧
    (∀ (recs : List Record) (tagRaw rest : List Byte) (m0 : AllTheThings E),
      (∀ r ∈ recs, r.Valid) → (runRecords c recs AllTheThings.zero).2 = none → w < 8 →
      DecodeVarint tagRaw = .ok ((k <<< 3) ||| w, tagRaw.length) →
      (AllTheThings.Unmarshal c m0 (recordsBytes recs ++ tagRaw ++ rest)).2 =
        some (.wireTypeMismatch k w)) := by
  constructor
  · intro fuel d d1 m hmore hd
    have hs := unmarshalStep_mismatch c d d1 k w m hd hk hw
    exact ⟨hs, by rw [unmarshalLoop_succ, hmore, if_pos rfl, hs]⟩
  · intro recs tagRaw rest m0 hv hrun hw8 ht
    have hrun2 : runRecords c recs AllTheThings.zero =
        ((runRecords c recs AllTheThings.zero).1, none) := by
      rw [← hrun]
    rw [Unmarshal_records_mismatch c recs hv _ hrun2 tagRaw rest k w hw8 ht hk hw m0]

/-- Witness of C4: field 1 set to 42, then the tag of field 2 with wire type 1 (byte `11`),
then three more bytes. -/
theorem wire_type_enforced_witness :
    (1 ≤ 2 ∧ 2 ≤ 16) ∧ 1 ≠ expectedWireType 2 ∧
    (AllTheThings.Unmarshal exampleCodec exampleMessage
      (recordsBytes [Record.ofVarint 1 42] ++ [17] ++ [1, 2, 3])).2 =
        some (.wireTypeMismatch 2 1) :=
  ⟨by decide, by decide,
    (wire_type_enforced exampleCodec 2 1 (by decide) (by decide)).2
      [Record.ofVarint 1 42] [17] [1, 2, 3] exampleMessage (by decide) (by decide) (by decide)
      (by decide)⟩

/-- C6, refuted as stated: the message with every field at its zero value has a `Size` that is
not 0 and does not marshal to zero bytes. -/
theorem zero_value_not_omitted :
    ¬ (AllTheThings.Size exampleCodec (some AllTheThings.zero) = 0 ∧
      AllTheThings.Marshal exampleCodec (some AllTheThings.zero) = some ([], none)) := by
  decide

/-- C6, amended: the message with every field at its zero value has `Size` 46 and marshals to
46 bytes: the thirteen scalar fields 1 and 3 to 14 are written unconditionally (tag and zero
value); only the empty string (field 2), the empty bytes (field 15) and the absent nested
message (field 16) are omitted. -/
theorem zero_value_encoding {E : Type} (c : NestedCodec E) :
    AllTheThings.Size c (some AllTheThings.zero) = 46 ∧
    AllTheThings.Marshal c (some AllTheThings.zero) =
      some ([8, 0, 24, 0, 32, 0, 40, 0, 48, 0, 56, 0, 64, 0, 72, 0, 85, 0, 0, 0, 0,
        89, 0, 0, 0, 0, 0, 0, 0, 0, 101, 0, 0, 0, 0, 105, 0, 0, 0, 0, 0, 0, 0, 0, 112, 0],
        none) ∧
    (AllTheThings.zero.records c).map (fun r => r.tag) =
      [1, 3, 4, 5, 6, 7, 8, 9, 10, 11, 12, 13, 14] := by
  have hwf : (AllTheThings.zero : AllTheThings E).WF := by
    simp [AllTheThings.WF, AllTheThings.zero, isInt32, isInt64, isUInt32, isUInt64]
  have hn : ∀ e, (AllTheThings.zero : AllTheThings E).TheMessage = some e →
      ∃ payload, c.Marshal e = .ok payload ∧ payload.length = c.Size e := by
    intro e he
    simp [AllTheThings.zero] at he
  have hrec : (AllTheThings.zero : AllTheThings E).records c =
      [Record.ofVarint 1 (u64 0), Record.ofVarint 3 0, Record.ofVarint 4 (u64 0),
        Record.ofVarint 5 (u64 0), Record.ofVarint 6 0, Record.ofVarint 7 0,
        Record.ofVarint 8 (zigzagEncode32 0), Record.ofVarint 9 (zigzagEncode 0),
        Record.ofFixed32 10 0, Record.ofFixed64 11 0, Record.ofFixed32 12 (u32 (u64 0)),
        Record.ofFixed64 13 (u64 0), Record.ofVarint 14 (u64 0)] := by
    simp [AllTheThings.records, AllTheThings.zero]
  have hsz := Size_eq_records c AllTheThings.zero hwf hn
  have hm := (Marshal_eq_records c AllTheThings.zero hwf hn).2
  rw [hrec] at hsz hm
  refine ⟨?_, ?_, ?_⟩
  · rw [hsz]; decide
  · rw [hm]; decide
  · rw [hrec]; decide

/-- C7 (truncation handling): for every non-nil message `m` (fields in the ranges of their Go
types; the nested message, if present, marshals to a buffer of its `Size` bytes) and every `k`
with `0 < k < len(Marshal(m))` that is not a boundary between two records of `Marshal(m)`, so
that the `k`-byte prefix ends strictly inside a field record (inside a tag, a varint, a
fixed-width value, a length prefix or a payload), `Unmarshal` of that prefix into any target
returns an error (an error of the codec, not the iteration bound of the loop model). -/
theorem truncation_rejected {E : Type} (c : NestedCodec E) (m : AllTheThings E) (k : Nat)
    (hwf : m.WF)
    (hn : ∀ e, m.TheMessage = some e →
      ∃ payload, c.Marshal e = .ok payload ∧ payload.length = c.Size e ∧
        payload.length < 9223372036854775808)
    (hk0 : 0 < k) (hk : k < (recordsBytes (m.records c)).length)
    (hcut : ∀ i, i ≤ (m.records c).length →
      k ≠ (recordsBytes ((m.records c).take i)).length) :
    AllTheThings.Marshal c (some m) = some (recordsBytes (m.records c), none) ∧
    ∀ m0 : AllTheThings E,
      ∃ e, (AllTheThings.Unmarshal c m0 ((recordsBytes (m.records c)).take k)).2 = some e ∧
        e ≠ .loopBound := by
  have hn1 : ∀ e, m.TheMessage = some e →
      ∃ payload, c.Marshal e = .ok payload ∧ payload.length = c.Size e := fun e he => by
    obtain ⟨p, h1, h2, -⟩ := hn e he; exact ⟨p, h1, h2⟩
  have hv : ∀ r ∈ m.records c, r.Valid := by
    apply records_valid c m hwf
    intro e payload he hp
    obtain ⟨p, h1, -, h3⟩ := hn e he
    rw [h1] at hp
    cases hp
    exact h3
  refine ⟨(Marshal_eq_records c m hwf hn1).2, fun m0 => ?_⟩
  obtain ⟨pre, r, j, hpre, hr, hj0, hj, htake⟩ := cut_inside_record (m.records c) k hk0 hk hcut
  rw [htake]
  exact Unmarshal_truncated c pre r j (fun x hx => hv x (hpre x hx)) (hv r hr) hj0 hj m0

/-- Witness of C7: the encoding of the example message cut after 12 of its 99 bytes, inside the
10-byte varint of `TheInt32 = -1`. -/
theorem truncation_rejected_witness :
    exampleMessage.WF ∧ (0 < 12 ∧ 12 < (recordsBytes (exampleMessage.records exampleCodec)).length) ∧
    (recordsBytes (exampleMessage.records exampleCodec)).take 12 =
      [8, 42, 18, 5, 104, 101, 108, 108, 111, 24, 1, 32] ∧
    AllTheThings.Marshal exampleCodec (some exampleMessage) =
      some (recordsBytes (exampleMessage.records exampleCodec), none) ∧
    ∀ m0 : AllTheThings (List Byte),
      ∃ e, (AllTheThings.Unmarshal exampleCodec m0
        ((recordsBytes (exampleMessage.records exampleCodec)).take 12)).2 = some e ∧
        e ≠ .loopBound :=
  ⟨by decide, by decide, by decide,
    truncation_rejected exampleCodec exampleMessage 12 (by decide)
      (fun e he => ⟨e, rfl, rfl, by
        have h : e = [1, 2, 3] := by
          have h2 : exampleMessage.TheMessage = some [1, 2, 3] := rfl
          rw [h2] at he
          exact (Option.some.inj he).symm
        subst h
        decide⟩)
      (by decide) (by decide) (by decide)⟩

/-- C8 (Unmarshal resets its target): for every buffer `p` on which `Unmarshal` into `m1`
succeeds and every other prior target `m2`, `Unmarshal(p)` into `m1` and into `m2` yield the
same value, the one `Unmarshal(p)` yields into the zero value; and when `p` is a sequence of
well-formed records, that value is what the records of `p` assign on top of the zero state:
fields absent from `p` are zero and the unrecognized tail holds nothing from before the call. -/
theorem unmarshal_resets {E : Type} (c : NestedCodec E) (p : List Byte)
    (m1 m2 : AllTheThings E) (h : (AllTheThings.Unmarshal c m1 p).2 = none) :
    AllTheThings.Unmarshal c m1 p = AllTheThings.Unmarshal c m2 p ∧
    AllTheThings.Unmarshal c m1 p = AllTheThings.Unmarshal c AllTheThings.zero p ∧
    ∀ recs : List Record, (∀ r ∈ recs, r.Valid) → p = recordsBytes recs →
      AllTheThings.Unmarshal c m1 p = runRecords c recs AllTheThings.zero := by
  have hp : ¬ (p.length = 0) := by
    intro h0
    simp [AllTheThings.Unmarshal, AllTheThings.unmarshalRun, h0] at h
  have key : ∀ m : AllTheThings E, AllTheThings.Unmarshal c m p =
      AllTheThings.Unmarshal c AllTheThings.zero p := by
    intro m
    simp only [AllTheThings.Unmarshal, AllTheThings.unmarshalRun, if_neg hp,
      AllTheThings.Reset]
  refine ⟨by rw [key m1, key m2], key m1, ?_⟩
  intro recs hv hrec
  subst hrec
  have hne : recs ≠ [] := by
    intro h0
    subst h0
    exact hp rfl
  exact Unmarshal_records c recs hv hne m1

/-- Witness of C8: the buffer `08 2A` decoded into the example message and into the zero
value. -/
theorem unmarshal_resets_witness :
    (AllTheThings.Unmarshal exampleCodec exampleMessage [8, 42]).2 = none ∧
    AllTheThings.Unmarshal exampleCodec exampleMessage [8, 42] =
      AllTheThings.Unmarshal exampleCodec AllTheThings.zero [8, 42] ∧
    (AllTheThings.Unmarshal exampleCodec exampleMessage [8, 42]).1 =
      { (AllTheThings.zero : AllTheThings (List Byte)) with ID := 42 } :=
  ⟨by decide,
    (unmarshal_resets exampleCodec [8, 42] exampleMessage AllTheThings.zero (by decide)).1,
    by decide⟩

/-- C9, refuted as stated: on the buffer `08 2A 11` (field 1 = 42, then the tag of field 2 with
wire type 1) `Unmarshal` fails with the wire-type error and the target is not in the zero
state: its `ID` is 42. -/
theorem mismatch_not_atomic :
    (AllTheThings.Unmarshal exampleCodec AllTheThings.zero [8, 42, 17]).2 =
      some (.wireTypeMismatch 2 1) ∧
    (AllTheThings.Unmarshal exampleCodec AllTheThings.zero [8, 42, 17]).1.ID = 42 ∧
    (AllTheThings.Unmarshal exampleCodec AllTheThings.zero [8, 42, 17]).1 ≠
      AllTheThings.zero := by
  decide

/-- C9, amended: when `Unmarshal` of a non-empty buffer fails because a known field carries the
wrong wire type after a sequence of well-formed records that decode, the prior contents of the
target are cleared but nothing is rolled back: the target holds exactly what the records before
the offending tag assigned on top of the zero state; it is the zero state when the offending
tag comes first. -/
theorem mismatch_keeps_earlier_records {E : Type} (c : NestedCodec E) (recs : List Record)
    (tagRaw rest : List Byte) (k w : Nat) (m0 : AllTheThings E)
    (hv : ∀ r ∈ recs, r.Valid) (hrun : (runRecords c recs AllTheThings.zero).2 = none)
    (hw8 : w < 8) (ht : DecodeVarint tagRaw = .ok ((k <<< 3) ||| w, tagRaw.length))
    (hk : 1 ≤ k ∧ k ≤ 16) (hw : w ≠ expectedWireType k) :
    (AllTheThings.Unmarshal c m0 (recordsBytes recs ++ tagRaw ++ rest)).1 =
      (runRecords c recs AllTheThings.zero).1 ∧
    (recs = [] →
      (AllTheThings.Unmarshal c m0 (recordsBytes recs ++ tagRaw ++ rest)).1 =
        AllTheThings.zero) := by
  have hrun2 : runRecords c recs AllTheThings.zero =
      ((runRecords c recs AllTheThings.zero).1, none) := by
    rw [← hrun]
  have key := Unmarshal_records_mismatch c recs hv _ hrun2 tagRaw rest k w hw8 ht hk hw m0
  refine ⟨by rw [key], fun h0 => ?_⟩
  rw [key]
  subst h0
  rfl

/-- Witness of C9 (amended): after the record of field 1 with value 42 the offending tag leaves
a target whose `ID` is 42. -/
theorem mismatch_keeps_earlier_records_witness :
    (AllTheThings.Unmarshal exampleCodec exampleMessage
      (recordsBytes [Record.ofVarint 1 42] ++ [17] ++ [1, 2, 3])).1 =
      (runRecords exampleCodec [Record.ofVarint 1 42] AllTheThings.zero).1 ∧
    (runRecords exampleCodec [Record.ofVarint 1 42] AllTheThings.zero).1 =
      { (AllTheThings.zero : AllTheThings (List Byte)) with ID := 42 } :=
  ⟨(mismatch_keeps_earlier_records exampleCodec [Record.ofVarint 1 42] [17] [1, 2, 3] 2 1
      exampleMessage (by decide) (by decide) (by decide) (by decide) (by decide)
      (by decide)).1,
    by decide⟩

/-- C10 (unknown-field skip correctness): for every buffer made of a well-formed record `r1` of
a known field, then a well-formed record `r2` of an unknown field number (not in 1..16, wire
type 0, 1, 2 or 5), then a well-formed record `r3` of a known field, `Unmarshal` into any target
succeeds; the result is the zero state with the assignment of `r1`, then the value bytes of `r2`
appended to the (empty) unrecognized tail, then the assignment of `r3`, so both known fields hold
the values of their records; and the read cursor ends exactly at the length of the buffer. -/
theorem unknown_field_skipped {E : Type} (c : NestedCodec E) (r1 r2 r3 : Record)
    (m0 : AllTheThings E) (h1 : r1.IsKnownField c) (h2 : r2.IsUnknownField)
    (h3 : r3.IsKnownField c) :
    ∃ m1 m3 : AllTheThings E,
      r1.effect c AllTheThings.zero = .ok m1 ∧
      r3.effect c { m1 with XXX_unrecognized := r2.val.bytes } = .ok m3 ∧
      m3.XXX_unrecognized = r2.val.bytes ∧
      AllTheThings.Unmarshal c m0 (r1.bytes ++ r2.bytes ++ r3.bytes) = (m3, none) ∧
      (AllTheThings.unmarshalRun c m0 (r1.bytes ++ r2.bytes ++ r3.bytes)).dec.offset =
        (r1.bytes ++ r2.bytes ++ r3.bytes).length ∧
      (AllTheThings.unmarshalRun c m0 (r1.bytes ++ r2.bytes ++ r3.bytes)).dec.p =
        r1.bytes ++ r2.bytes ++ r3.bytes := by
  obtain ⟨m1, e1, t1⟩ := effect_known_ok c r1 AllTheThings.zero h1
  have t1b : m1.XXX_unrecognized = [] := t1
  have e2 : r2.effect c m1 = .ok { m1 with XXX_unrecognized := r2.val.bytes } := by
    rw [effect_default c r2 m1 h2.2, t1b, List.nil_append]
  obtain ⟨m3, e3, t3⟩ := effect_known_ok c r3 { m1 with XXX_unrecognized := r2.val.bytes } h3
  have hv : ∀ r ∈ [r1, r2, r3], r.Valid := by
    intro r hr
    simp only [List.mem_cons, List.mem_singleton, List.not_mem_nil, or_false] at hr
    rcases hr with hr | hr | hr <;> subst hr
    · exact h1.1
    · exact h2.1
    · exact h3.1
  have hb : recordsBytes [r1, r2, r3] = r1.bytes ++ r2.bytes ++ r3.bytes := by
    simp [recordsBytes]
  have hrun : runRecords c [r1, r2, r3] AllTheThings.zero = (m3, none) := by
    simp only [runRecords, e1, e2, e3]
  obtain ⟨k1, k2, k3⟩ := unmarshalRun_records c [r1, r2, r3] hv (by simp) m0
  rw [hb] at k1 k2 k3
  rw [hrun] at k1 k2 k3
  refine ⟨m1, m3, e1, e3, t3, ?_, (k3 rfl).1, (k3 rfl).2⟩
  unfold AllTheThings.Unmarshal
  simp only [k1, k2]

/-- Witness of C10: field 1 = 42, then the unknown field 17 as a varint with value 5 (bytes
`88 01 05`), then field 3 = true (`18 01`): `ID` is 42, `TheBool` is true, the unrecognized tail
is the value byte `05` and the cursor ends at 7, the length of the buffer. -/
theorem unknown_field_skipped_witness :
    (Record.ofVarint 1 42).IsKnownField exampleCodec ∧
    (Record.ofVarint 17 5).IsUnknownField ∧
    (Record.ofVarint 3 1).IsKnownField exampleCodec ∧
    (Record.ofVarint 1 42).bytes ++ (Record.ofVarint 17 5).bytes ++ (Record.ofVarint 3 1).bytes =
      [8, 42, 136, 1, 5, 24, 1] ∧
    AllTheThings.Unmarshal exampleCodec exampleMessage [8, 42, 136, 1, 5, 24, 1] =
      ({ (AllTheThings.zero : AllTheThings (List Byte)) with
          ID := 42, TheBool := true, XXX_unrecognized := [5] }, none) ∧
    ∃ m1 m3 : AllTheThings (List Byte),
      (Record.ofVarint 1 42).effect exampleCodec AllTheThings.zero = .ok m1 ∧
      (Record.ofVarint 3 1).effect exampleCodec
        { m1 with XXX_unrecognized := (Record.ofVarint 17 5).val.bytes } = .ok m3 ∧
      m3.XXX_unrecognized = (Record.ofVarint 17 5).val.bytes ∧
      AllTheThings.Unmarshal exampleCodec exampleMessage
        ((Record.ofVarint 1 42).bytes ++ (Record.ofVarint 17 5).bytes ++
          (Record.ofVarint 3 1).bytes) = (m3, none) ∧
      (AllTheThings.unmarshalRun exampleCodec exampleMessage
        ((Record.ofVarint 1 42).bytes ++ (Record.ofVarint 17 5).bytes ++
          (Record.ofVarint 3 1).bytes)).dec.offset =
        ((Record.ofVarint 1 42).bytes ++ (Record.ofVarint 17 5).bytes ++
          (Record.ofVarint 3 1).bytes).length ∧
      (AllTheThings.unmarshalRun exampleCodec exampleMessage
        ((Record.ofVarint 1 42).bytes ++ (Record.ofVarint 17 5).bytes ++
          (Record.ofVarint 3 1).bytes)).dec.p =
        (Record.ofVarint 1 42).bytes ++ (Record.ofVarint 17 5).bytes ++
          (Record.ofVarint 3 1).bytes :=
  ⟨⟨by decide, by decide, by decide, fun h => absurd h (by decide)⟩,
    ⟨by decide, by decide⟩,
    ⟨by decide, by decide, by decide, fun h => absurd h (by decide)⟩,
    by decide, by decide,
    unknown_field_skipped exampleCodec (Record.ofVarint 1 42) (Record.ofVarint 17 5)
      (Record.ofVarint 3 1) exampleMessage
      ⟨by decide, by decide, by decide, fun h => absurd h (by decide)⟩
      ⟨by decide, by decide⟩
      ⟨by decide, by decide, by decide, fun h => absurd h (by decide)⟩⟩

/-- C11, refuted as stated: the empty buffer consists of whole records (none at all), yet with
`a` and `b` both empty `Unmarshal(a ++ b)` does not succeed, and with `a` empty and `b` the one
record "field 1 = 9" `Unmarshal(a)` fails and leaves the target as it was, so that field 3,
which does not occur in `b`, is `true` after `Unmarshal(a)` and `false` after
`Unmarshal(a ++ b)`. -/
theorem last_wins_fails_on_empty_buffer :
    (∀ r ∈ ([] : List Record), r.IsScalarField) ∧
    (∀ r ∈ [Record.ofVarint 1 9], r.IsScalarField) ∧
    AllTheThings.Unmarshal exampleCodec exampleMessage (recordsBytes [] ++ recordsBytes []) =
      (exampleMessage, some Err.emptyInput) ∧
    AllTheThings.Unmarshal exampleCodec exampleMessage (recordsBytes []) =
      (exampleMessage, some Err.emptyInput) ∧
    AllTheThings.Unmarshal exampleCodec exampleMessage
        (recordsBytes [] ++ recordsBytes [Record.ofVarint 1 9]) =
      ({ (AllTheThings.zero : AllTheThings (List Byte)) with ID := 9 }, none) ∧
    lastWithTag 3 [Record.ofVarint 1 9] = none ∧
    (AllTheThings.Unmarshal exampleCodec exampleMessage (recordsBytes [])).1.field 3 =
      .bool true ∧
    (AllTheThings.Unmarshal exampleCodec exampleMessage
        (recordsBytes [] ++ recordsBytes [Record.ofVarint 1 9])).1.field 3 = .bool false := by
  decide

/-- C11, amended: for every two buffers `a` and `b` that each consist of whole well-formed
records of known singular scalar fields (fields 1..15, with the wire type the field expects),
`a` holding at least one record, `Unmarshal(a)` and `Unmarshal(a ++ b)` succeed;
`Unmarshal(a ++ b)` gives each field that occurs in `b` the value of its last occurrence in `b`
and every other field the value `Unmarshal(a)` gives it, which is the value of the field's last
occurrence in `a`, or the zero value; the nested message stays absent and the unrecognized tail
empty; and when the records of `a` name pairwise distinct fields, every permutation of them
decodes to the same message. -/
theorem any_order_last_wins {E : Type} (c : NestedCodec E) (ra rb : List Record)
    (ha : ∀ r ∈ ra, r.IsScalarField) (hb : ∀ r ∈ rb, r.IsScalarField) (hne : ra ≠ [])
    (m0 : AllTheThings E) :
    ∃ ma mab, AllTheThings.Unmarshal c m0 (recordsBytes ra) = (ma, none) ∧
      AllTheThings.Unmarshal c m0 (recordsBytes ra ++ recordsBytes rb) = (mab, none) ∧
      (∀ k, mab.field k =
        match lastWithTag k rb with
        | some r => r.value c
        | none => ma.field k) ∧
      (∀ k, ma.field k =
        match lastWithTag k ra with
        | some r => r.value c
        | none => (AllTheThings.zero : AllTheThings E).field k) ∧
      mab.TheMessage = none ∧ mab.XXX_unrecognized = [] ∧
      ∀ rp : List Record, (ra.map Record.tag).Nodup → ra.Perm rp →
        AllTheThings.Unmarshal c m0 (recordsBytes rp) = (ma, none) := by
  obtain ⟨ma, hra, a1, a2, a3⟩ := runRecords_scalars c ra AllTheThings.zero ha
  obtain ⟨mab, hrb, b1, b2, b3⟩ := runRecords_scalars c rb ma hb
  have hva : ∀ r ∈ ra, r.Valid := fun r hr => (ha r hr).1
  have hvab : ∀ r ∈ ra ++ rb, r.Valid := by
    intro r hr
    rcases List.mem_append.mp hr with h | h
    · exact (ha r h).1
    · exact (hb r h).1
  refine ⟨ma, mab, ?_, ?_, b3, a3, by rw [b1, a1]; rfl, by rw [b2, a2]; rfl, ?_⟩
  · rw [Unmarshal_records c ra hva hne m0, hra]
  · rw [← recordsBytes_append, Unmarshal_records c _ hvab (by simp [hne]) m0,
      runRecords_append c ra rb _ ma hra, hrb]
  · intro rp hnd hp
    have hpv : ∀ r ∈ rp, r.IsScalarField := fun r hr => ha r (hp.mem_iff.mpr hr)
    have hpne : rp ≠ [] := by
      intro h
      rw [h] at hp
      exact hne (List.perm_nil.mp hp)
    obtain ⟨mp, hrp, p1, p2, p3⟩ := runRecords_scalars c rp AllTheThings.zero hpv
    rw [Unmarshal_records c rp (fun r hr => (hpv r hr).1) hpne m0, hrp]
    have : mp = ma := by
      apply AllTheThings.eq_of_fields
      · intro k _ _
        rw [p3 k, a3 k, lastWithTag_perm k ra rp hp hnd]
      · rw [p1, a1]
      · rw [p2, a2]
    rw [this]

/-- Witness of C11 (amended): `a` holds fields 1 and 3, `b` writes field 1 twice around
field 2; field 1 ends with the last value in `b`, field 3 keeps what `a` gave it, and `a` with
its two records swapped decodes to the same message. -/
theorem any_order_last_wins_witness :
    (∀ r ∈ [Record.ofVarint 1 5, Record.ofVarint 3 1], r.IsScalarField) ∧
    (∀ r ∈ [Record.ofVarint 1 7, Record.ofBytes 2 [104, 105], Record.ofVarint 1 9],
      r.IsScalarField) ∧
    ∃ ma mab,
      AllTheThings.Unmarshal exampleCodec exampleMessage
        (recordsBytes [Record.ofVarint 1 5, Record.ofVarint 3 1]) = (ma, none) ∧
      AllTheThings.Unmarshal exampleCodec exampleMessage
        (recordsBytes [Record.ofVarint 1 5, Record.ofVarint 3 1] ++
          recordsBytes [Record.ofVarint 1 7, Record.ofBytes 2 [104, 105],
            Record.ofVarint 1 9]) = (mab, none) ∧
      mab.field 1 = .int 9 ∧ mab.field 2 = .bytes [104, 105] ∧
      mab.field 3 = ma.field 3 ∧ ma.field 3 = .bool true ∧ ma.field 1 = .int 5 ∧
      AllTheThings.Unmarshal exampleCodec exampleMessage
        (recordsBytes [Record.ofVarint 3 1, Record.ofVarint 1 5]) = (ma, none) := by
  obtain ⟨ma, mab, h1, h2, h3, h4, -, -, h7⟩ :=
    any_order_last_wins exampleCodec [Record.ofVarint 1 5, Record.ofVarint 3 1]
      [Record.ofVarint 1 7, Record.ofBytes 2 [104, 105], Record.ofVarint 1 9]
      (by decide) (by decide) (by simp) exampleMessage
  exact ⟨by decide, by decide, ma, mab, h1, h2, h3 1, h3 2, h3 3, h4 3, h4 1,
    h7 _ (by decide) (List.Perm.swap _ _ _)⟩

/-- C12 (concrete scenario): `Unmarshal` of the nine bytes `08 2A 12 05 68 65 6C 6C 6F` into any
target, with any nested codec, succeeds and yields the message with field 1 (`ID`) = 42 and
field 2 (`TheString`) = "hello", every other field at its zero value, no nested message and an
empty unrecognized tail; the cursor ends at 9. -/
theorem concrete_scenario {E : Type} (c : NestedCodec E) (m0 : AllTheThings E) :
    AllTheThings.Unmarshal c m0 [8, 42, 18, 5, 104, 101, 108, 108, 111] =
      ({ (AllTheThings.zero : AllTheThings E) with
          ID := 42, TheString := [104, 101, 108, 108, 111] }, none) ∧
    (AllTheThings.unmarshalRun c m0 [8, 42, 18, 5, 104, 101, 108, 108, 111]).dec.offset = 9 := by
  have hb : ([8, 42, 18, 5, 104, 101, 108, 108, 111] : List Byte) =
      recordsBytes [Record.ofVarint 1 42, Record.ofBytes 2 [104, 101, 108, 108, 111]] := by
    decide
  have hv : ∀ r ∈ [Record.ofVarint 1 42, Record.ofBytes 2 [104, 101, 108, 108, 111]],
      r.Valid := by decide
  have hrun : runRecords c [Record.ofVarint 1 42, Record.ofBytes 2 [104, 101, 108, 108, 111]]
      AllTheThings.zero =
      ({ (AllTheThings.zero : AllTheThings E) with
          ID := 42, TheString := [104, 101, 108, 108, 111] }, none) := by
    have h42 : i32 (42 % 18446744073709551616) = 42 := by decide
    simp only [runRecords, effect_canonical1, effect_canonical2, h42]
  obtain ⟨-, -, k3⟩ := unmarshalRun_records c _ hv (by simp) m0
  rw [hb, Unmarshal_records c _ hv (by simp) m0, hrun]
  refine ⟨rfl, ?_⟩
  rw [(k3 (by rw [hrun])).1]
  decide

/-- C13 (Marshal fails only through the nested message): for every non-nil message `m` with
fields in the ranges of their Go types, `Marshal(m)` returns an error if and only if
`TheMessage` is present and encoding that nested message fails, and the error is then the
wrapped nested error for field 16; in particular for every `m` with `TheMessage` absent
`Marshal` returns a buffer of `Size(m)` bytes with no error; and `Size` gives a number on every
receiver, nil included, having no error result at all. -/
theorem marshal_fails_only_nested {E : Type} (c : NestedCodec E) (m : AllTheThings E)
    (hwf : m.WF) :
    ((∃ buf err, AllTheThings.Marshal c (some m) = some (buf, some err)) ↔
      ∃ e cause, m.TheMessage = some e ∧ c.Marshal e = .error cause) ∧
    (∀ buf err, AllTheThings.Marshal c (some m) = some (buf, some err) →
      ∃ e cause, m.TheMessage = some e ∧ c.Marshal e = .error cause ∧
        err = .fieldEncode 16 cause) ∧
    (m.TheMessage = none →
      ∃ buf, AllTheThings.Marshal c (some m) = some (buf, none) ∧
        buf.length = AllTheThings.Size c (some m)) ∧
    (∀ mo : Option (AllTheThings E), ∃ n : Nat, AllTheThings.Size c mo = n) := by
  have hc := Marshal_cases c m hwf
  have key : ∀ buf err, AllTheThings.Marshal c (some m) = some (buf, some err) →
      ∃ e cause, m.TheMessage = some e ∧ c.Marshal e = .error cause ∧
        err = .fieldEncode 16 cause := by
    intro buf err h
    cases hm : m.TheMessage with
    | none =>
      rw [hm] at hc
      obtain ⟨b, hb⟩ := hc
      rw [hb] at h
      cases h
    | some e =>
      rw [hm] at hc
      simp only [] at hc
      cases hM : c.Marshal e with
      | error cause =>
        rw [hM] at hc
        obtain ⟨b, hb⟩ := hc
        rw [hb] at h
        cases h
        exact ⟨e, cause, rfl, hM, rfl⟩
      | ok payload =>
        rw [hM] at hc
        rcases hc with hb | ⟨b, hb⟩
        · rw [hb] at h; cases h
        · rw [hb] at h; cases h
  refine ⟨⟨?_, ?_⟩, key, ?_, fun mo => ⟨_, rfl⟩⟩
  · rintro ⟨buf, err, h⟩
    obtain ⟨e, cause, h1, h2, -⟩ := key buf err h
    exact ⟨e, cause, h1, h2⟩
  · rintro ⟨e, cause, h1, h2⟩
    rw [h1] at hc
    simp only [] at hc
    rw [h2] at hc
    obtain ⟨b, hb⟩ := hc
    exact ⟨b, _, hb⟩
  · intro hm
    have hn : ∀ e, m.TheMessage = some e →
        ∃ payload, c.Marshal e = .ok payload ∧ payload.length = c.Size e := by
      intro e he; rw [hm] at he; cases he
    exact ⟨_, (Marshal_eq_records c m hwf hn).2, (Size_eq_records c m hwf hn).symm⟩

/-- Witness of C13 on the example message with a nested codec that refuses to marshal: `Marshal`
returns the wrapped nested error. -/
theorem marshal_fails_only_nested_witness :
    exampleMessage.WF ∧
    ((∃ buf err, AllTheThings.Marshal refusingCodec (some exampleMessage) =
        some (buf, some err)) ↔
      ∃ e cause, exampleMessage.TheMessage = some e ∧ refusingCodec.Marshal e = .error cause) ∧
    ∃ buf, AllTheThings.Marshal refusingCodec (some exampleMessage) =
      some (buf, some (.fieldEncode 16 (.nestedFailure 1))) :=
  have h := marshal_fails_only_nested refusingCodec exampleMessage (by decide)
  ⟨by decide, h.1, by
    obtain ⟨buf, err, hb⟩ := h.1.mpr ⟨[1, 2, 3], .nestedFailure 1, rfl, rfl⟩
    obtain ⟨e, cause, -, h2, h3⟩ := h.2.1 buf err hb
    have h4 : cause = .nestedFailure 1 := by
      have h5 : refusingCodec.Marshal e = .error (.nestedFailure 1) := rfl
      rw [h5] at h2
      cases h2
      rfl
    subst h4
    subst h3
    exact ⟨buf, hb⟩⟩

/-- C14 (ascending emission order): for every non-nil message `m` with fields in the ranges of
their Go types and a nested message that, if present, marshals to a buffer of its `Size` bytes,
`Marshal(m)` succeeds and its result is a sequence of well-formed field records in exactly one
way; the field numbers of these records are strictly increasing and are exactly the fields
`Size` counted, in the same order (1; 2 if `TheString` is non-empty; 3..14; 15 if `TheBytes` is
non-empty; 16 if `TheMessage` is present), and the tag of each record is the varint of
`(fieldNumber<<3)|wireType`. -/
theorem ascending_emission {E : Type} (c : NestedCodec E) (m : AllTheThings E) (hwf : m.WF)
    (hn : ∀ e, m.TheMessage = some e →
      ∃ payload, c.Marshal e = .ok payload ∧ payload.length = c.Size e ∧
        payload.length < 9223372036854775808) :
    ∃ buf recs, AllTheThings.Marshal c (some m) = some (buf, none) ∧
      (∀ r ∈ recs, r.Valid) ∧ recordsBytes recs = buf ∧
      (∀ recs2 : List Record, (∀ r ∈ recs2, r.Valid) → recordsBytes recs2 = buf →
        recs2 = recs) ∧
      recs.map Record.tag =
        [1] ++ (if m.TheString.length > 0 then [2] else []) ++
        [3, 4, 5, 6, 7, 8, 9, 10, 11, 12, 13, 14] ++
        (if m.TheBytes.length > 0 then [15] else []) ++
        (match m.TheMessage with
         | none => []
         | some _ => [16]) ∧
      (recs.map Record.tag).Pairwise (fun a b => a < b) ∧
      ∀ r ∈ recs, r.tagRaw = EncodeVarint ((r.tag <<< 3) ||| r.val.wireType) := by
  have hn1 : ∀ e, m.TheMessage = some e →
      ∃ payload, c.Marshal e = .ok payload ∧ payload.length = c.Size e := fun e he => by
    obtain ⟨p, h1, h2, -⟩ := hn e he; exact ⟨p, h1, h2⟩
  have hval : ∀ r ∈ m.records c, r.Valid := by
    apply records_valid c m hwf
    intro e payload he hp
    obtain ⟨p, h1, -, h3⟩ := hn e he
    rw [h1] at hp
    cases hp
    exact h3
  refine ⟨recordsBytes (m.records c), m.records c, (Marshal_eq_records c m hwf hn1).2, hval,
    rfl, fun recs2 hv2 h2 => recordsBytes_injective _ _ hv2 hval h2, ?_,
    records_tags_sorted c m, records_tagRaw c m⟩
  rw [records_tags]
  congr 1
  cases hm : m.TheMessage with
  | none => rfl
  | some e =>
    obtain ⟨p, h1, -⟩ := hn e hm
    simp only [h1]

/-- Witness of C14 on the example message, which has all sixteen fields. -/
theorem ascending_emission_witness :
    exampleMessage.WF ∧
    ∃ buf recs, AllTheThings.Marshal exampleCodec (some exampleMessage) = some (buf, none) ∧
      (∀ r ∈ recs, r.Valid) ∧ recordsBytes recs = buf ∧
      (∀ recs2 : List Record, (∀ r ∈ recs2, r.Valid) → recordsBytes recs2 = buf →
        recs2 = recs) ∧
      recs.map Record.tag = [1, 2, 3, 4, 5, 6, 7, 8, 9, 10, 11, 12, 13, 14, 15, 16] ∧
      (recs.map Record.tag).Pairwise (fun a b => a < b) ∧
      ∀ r ∈ recs, r.tagRaw = EncodeVarint ((r.tag <<< 3) ||| r.val.wireType) :=
  ⟨by decide,
    ascending_emission exampleCodec exampleMessage (by decide)
      (fun e he => ⟨e, rfl, rfl, by
        have h : e = [1, 2, 3] := by
          have h2 : exampleMessage.TheMessage = some [1, 2, 3] := rfl
          rw [h2] at he
          exact (Option.some.inj he).symm
        subst h
        decide⟩)⟩

/-- C15 (zig-zag inverse): for every int64 `v`, the minimum and maximum included,
`zigzagDecode(zigzagEncode(v)) = v` where `zigzagEncode(n) = (n << 1) ^ (n >> 63)`, and for
every int32 `w` the 32-bit variant `(n << 1) ^ (n >> 31)` is inverted likewise; hence for every
message whose field 9 (`TheSInt64`) is `v` and whose field 8 (`TheSInt32`) is `w`, with fields
in the ranges of their Go types and a nested message that, if present, marshals to a buffer of
its `Size` bytes, `Marshal` succeeds and `Unmarshal` of the result reads back `v` in field 9 and
`w` in field 8, whatever becomes of the nested message. -/
theorem zigzag_inverse (v w : Int) (hv : isInt64 v) (hw : isInt32 w) :
    zigzagEncode v = u64 (Int.xor (v <<< 1) (v >>> 63)) ∧
    zigzagDecode (zigzagEncode v) = v ∧
    zigzagEncode32 w = u32 (u64 (Int.xor (w <<< 1) (w >>> 31))) ∧
    zigzagDecode (zigzagEncode32 w) = w ∧
    ∀ {E : Type} (c : NestedCodec E) (m : AllTheThings E), m.WF →
      (∀ e, m.TheMessage = some e →
        ∃ payload, c.Marshal e = .ok payload ∧ payload.length = c.Size e ∧
          payload.length < 9223372036854775808) →
      m.TheSInt64 = v → m.TheSInt32 = w →
      ∃ buf, AllTheThings.Marshal c (some m) = some (buf, none) ∧
        ∀ target, (AllTheThings.Unmarshal c target buf).1.TheSInt64 = v ∧
          (AllTheThings.Unmarshal c target buf).1.TheSInt32 = w := by
  refine ⟨rfl, ?_, rfl, ?_, ?_⟩
  · have h := zigzag64_roundtrip v hv
    have hlt : zigzagEncode v < 18446744073709551616 := by
      rw [zigzagEncode_eq v hv]; unfold isInt64 at hv; split <;> omega
    rwa [Nat.mod_eq_of_lt hlt] at h
  · have h := zigzag32_roundtrip w hw
    have hlt := zigzagEncode32_lt w hw
    rw [Nat.mod_eq_of_lt (by omega)] at h
    unfold u32 at h
    rwa [Nat.mod_eq_of_lt hlt] at h
  · intro E c m hwf hn h9 h8
    have hn1 : ∀ e, m.TheMessage = some e →
        ∃ payload, c.Marshal e = .ok payload ∧ payload.length = c.Size e := fun e he => by
      obtain ⟨p, h1, h2, -⟩ := hn e he; exact ⟨p, h1, h2⟩
    have hval : ∀ r ∈ m.records c, r.Valid := by
      apply records_valid c m hwf
      intro e payload he hp
      obtain ⟨p, h1, -, h3⟩ := hn e he
      rw [h1] at hp
      cases hp
      exact h3
    refine ⟨recordsBytes (m.records c), (Marshal_eq_records c m hwf hn1).2, fun target => ?_⟩
    rw [Unmarshal_records c _ hval (records_ne_nil c m) target]
    obtain ⟨tm, err, hrun⟩ := runRecords_records_scalars c m hwf
    rw [hrun]
    exact ⟨h9, h8⟩

/-- Witness of C15 at the least int64 and the least int32, on a message carrying them. -/
theorem zigzag_inverse_witness :
    isInt64 (-9223372036854775808) ∧ isInt32 (-2147483648) ∧
    zigzagDecode (zigzagEncode (-9223372036854775808)) = -9223372036854775808 ∧
    zigzagDecode (zigzagEncode32 (-2147483648)) = -2147483648 ∧
    ∃ buf, AllTheThings.Marshal exampleCodec
        (some { exampleMessage with TheSInt64 := -9223372036854775808 }) = some (buf, none) ∧
      ∀ target, (AllTheThings.Unmarshal exampleCodec target buf).1.TheSInt64 =
          -9223372036854775808 ∧
        (AllTheThings.Unmarshal exampleCodec target buf).1.TheSInt32 = -2147483648 :=
  have h := zigzag_inverse (-9223372036854775808) (-2147483648) (by decide) (by decide)
  ⟨by decide, by decide, h.2.1, h.2.2.2.1,
    h.2.2.2.2 exampleCodec { exampleMessage with TheSInt64 := -9223372036854775808 }
      (by decide)
      (fun e he => ⟨e, rfl, rfl, by
        have h2 : e = [1, 2, 3] := by
          have h3 : ({ exampleMessage with TheSInt64 := -9223372036854775808 } :
              AllTheThings (List Byte)).TheMessage = some [1, 2, 3] := rfl
          rw [h3] at he
          exact (Option.some.inj he).symm
        subst h2
        decide⟩)
      rfl rfl⟩

/-- C16 (size of an absent message): `Size` applied to the nil `AllTheThings` returns 0, with
any nested codec. -/
theorem size_of_nil {E : Type} (c : NestedCodec E) :
    AllTheThings.Size c (none : Option (AllTheThings E)) = 0 := rfl

/-- C17 (unknown fields are not re-emitted): two messages that agree on all sixteen known
fields and differ only in the unrecognized tail (`XXX_unrecognized`) have the same `Size`, the
same `Marshal` result and the same `MarshalTo` result into every buffer; consequently, for every
message with fields in the ranges of their Go types and a nested message that, if present,
marshals to a buffer of its `Size` bytes, every successful `Unmarshal` of `Marshal(m)` leaves an
empty tail, whatever tail `m` had. -/
theorem unknown_not_reemitted {E : Type} (c : NestedCodec E) (m : AllTheThings E)
    (u : List Byte) :
    AllTheThings.Size c (some { m with XXX_unrecognized := u }) = AllTheThings.Size c (some m) ∧
    AllTheThings.Marshal c (some { m with XXX_unrecognized := u }) =
      AllTheThings.Marshal c (some m) ∧
    (∀ dest, AllTheThings.MarshalTo c (some { m with XXX_unrecognized := u }) dest =
      AllTheThings.MarshalTo c (some m) dest) ∧
    (m.WF →
      (∀ e, m.TheMessage = some e →
        ∃ payload, c.Marshal e = .ok payload ∧ payload.length = c.Size e ∧
          payload.length < 9223372036854775808) →
      ∃ buf, AllTheThings.Marshal c (some m) = some (buf, none) ∧
        ∀ target m2, AllTheThings.Unmarshal c target buf = (m2, none) →
          m2.XXX_unrecognized = []) := by
  refine ⟨rfl, rfl, fun _ => rfl, ?_⟩
  intro hwf hn
  have hn1 : ∀ e, m.TheMessage = some e →
      ∃ payload, c.Marshal e = .ok payload ∧ payload.length = c.Size e := fun e he => by
    obtain ⟨p, h1, h2, -⟩ := hn e he; exact ⟨p, h1, h2⟩
  have hval : ∀ r ∈ m.records c, r.Valid := by
    apply records_valid c m hwf
    intro e payload he hp
    obtain ⟨p, h1, -, h3⟩ := hn e he
    rw [h1] at hp
    cases hp
    exact h3
  refine ⟨recordsBytes (m.records c), (Marshal_eq_records c m hwf hn1).2, ?_⟩
  intro target m2 h
  rw [Unmarshal_records c _ hval (records_ne_nil c m) target] at h
  rw [runRecords_tail c _ _ m2 h, unknownValueBytes_known _ (records_known c m)]
  rfl

/-- Witness of C17 on the example message with a tail of two bytes: same size, same bytes, and
the decoded message has an empty tail. -/
theorem unknown_not_reemitted_witness :
    AllTheThings.Size exampleCodec (some { exampleMessage with XXX_unrecognized := [9, 9] }) =
      AllTheThings.Size exampleCodec (some exampleMessage) ∧
    AllTheThings.Marshal exampleCodec (some { exampleMessage with XXX_unrecognized := [9, 9] }) =
      AllTheThings.Marshal exampleCodec (some exampleMessage) ∧
    ∃ buf, AllTheThings.Marshal exampleCodec
        (some { exampleMessage with XXX_unrecognized := [9, 9] }) = some (buf, none) ∧
      ∀ target m2, AllTheThings.Unmarshal exampleCodec target buf = (m2, none) →
        m2.XXX_unrecognized = [] :=
  have h1 := unknown_not_reemitted exampleCodec exampleMessage [9, 9]
  have h2 := unknown_not_reemitted exampleCodec
    { exampleMessage with XXX_unrecognized := [9, 9] } [9, 9]
  ⟨h1.1, h1.2.1, h2.2.2.2 (by decide)
    (fun e he => ⟨e, rfl, rfl, by
      have h3 : e = [1, 2, 3] := by
        have h4 : ({ exampleMessage with XXX_unrecognized := [9, 9] } :
            AllTheThings (List Byte)).TheMessage = some [1, 2, 3] := rfl
        rw [h4] at he
        exact (Option.some.inj he).symm
      subst h3
      decide⟩)⟩

/-- C18 (termination): every iteration of the loop of `Unmarshal` either returns an error or
moves the read cursor forward by at least one byte within the same buffer, keeping it at most
the buffer length; so from the start of any buffer `p` the body of the loop is entered at most
`len(p)` times, however many iterations are allowed; `Unmarshal` never gives up for lack of
iterations, and the loop gives the same result under every bound above `len(p)`. -/
theorem unmarshal_terminates {E : Type} (c : NestedCodec E) :
    (∀ (d : Decoder) (m : AllTheThings E),
      (∃ err, AllTheThings.unmarshalStep c d m = .error err) ∨
      ∃ d2 m2, AllTheThings.unmarshalStep c d m = .ok (d2, m2) ∧ d2.p = d.p ∧
        d.offset + 1 ≤ d2.offset ∧ d2.offset ≤ d.p.length) ∧
    (∀ (fuel : Nat) (p : List Byte) (m : AllTheThings E),
      AllTheThings.loopIterations c fuel (NewDecoder p) m ≤ p.length) ∧
    (∀ (m : AllTheThings E) (p : List Byte),
      (AllTheThings.Unmarshal c m p).2 ≠ some .loopBound) ∧
    (∀ (fuel : Nat) (p : List Byte) (m : AllTheThings E), p.length < fuel →
      AllTheThings.unmarshalLoop c fuel (NewDecoder p) m =
        AllTheThings.unmarshalLoop c (p.length + 1) (NewDecoder p) m) := by
  refine ⟨?_, ?_, ?_, ?_⟩
  · intro d m
    cases hs : AllTheThings.unmarshalStep c d m with
    | error err => exact Or.inl ⟨err, rfl⟩
    | ok x =>
      obtain ⟨d2, m2⟩ := x
      exact Or.inr ⟨d2, m2, rfl, unmarshalStep_progress c d d2 m m2 hs⟩
  · intro fuel p m
    have := loopIterations_le c fuel (NewDecoder p) m
    simpa [NewDecoder] using this
  · intro m p
    exact unmarshalRun_ne_loopBound c m p
  · intro fuel p m hf
    apply unmarshalLoop_fuel
    · simpa [NewDecoder] using hf
    · simp [NewDecoder]

/-- C19 (32-bit values sized through 64-bit arithmetic): for every non-nil message `m` with
fields in the ranges of their Go types (so every int32 value occurs in fields 1, 4, 8 and 14)
and a nested message that, if present, marshals to a buffer of its `Size` bytes: what `Size`
adds for field 8 (`TheSInt32`), the 64-bit zig-zag size of the sign-extended `uint64(v)`, is the
number of varint bytes of the 32-bit zig-zag encoding of `v`, at most 5, so `Size(m)` differs
from the `Size` of `m` with field 8 set to 0 by exactly the difference of the two encodings'
lengths; likewise what `Size` adds for the int32 and enum fields 1, 4 and 14,
`SizeOfVarint(uint64(v))`, is the number of varint bytes of the sign-extended `v`, which is 10
for every negative `v` and at most 5 otherwise; and these are the bytes `MarshalTo` writes:
`Marshal(m)` has `Size(m)` bytes and splits in exactly one way into well-formed records, whose
records of fields 8, 1, 4 and 14 carry exactly those varints as values. -/
theorem int32_sized_as_written {E : Type} (c : NestedCodec E) (m : AllTheThings E)
    (hwf : m.WF)
    (hn : ∀ e, m.TheMessage = some e →
      ∃ payload, c.Marshal e = .ok payload ∧ payload.length = c.Size e ∧
        payload.length < 9223372036854775808) :
    (AllTheThings.Size c (some m) + (EncodeVarint (zigzagEncode32 0)).length =
      AllTheThings.Size c (some { m with TheSInt32 := 0 }) +
        (EncodeVarint (zigzagEncode32 m.TheSInt32)).length) ∧
    (AllTheThings.Size c (some m) + (EncodeVarint (u64 0)).length =
      AllTheThings.Size c (some { m with ID := 0 }) + (EncodeVarint (u64 m.ID)).length) ∧
    (AllTheThings.Size c (some m) + (EncodeVarint (u64 0)).length =
      AllTheThings.Size c (some { m with TheInt32 := 0 }) +
        (EncodeVarint (u64 m.TheInt32)).length) ∧
    (AllTheThings.Size c (some m) + (EncodeVarint (u64 0)).length =
      AllTheThings.Size c (some { m with TheEventType := 0 }) +
        (EncodeVarint (u64 m.TheEventType)).length) ∧
    SizeOfZigZag (u64 m.TheSInt32) = (EncodeVarint (zigzagEncode32 m.TheSInt32)).length ∧
    (EncodeVarint (zigzagEncode32 m.TheSInt32)).length ≤ 5 ∧
    (∀ v ∈ [m.ID, m.TheInt32, m.TheEventType],
      SizeOfVarint (u64 v) = (EncodeVarint (u64 v)).length ∧
      (v < 0 → (EncodeVarint (u64 v)).length = 10) ∧
      (0 ≤ v → (EncodeVarint (u64 v)).length ≤ 5)) ∧
    ∃ buf recs, AllTheThings.Marshal c (some m) = some (buf, none) ∧
      buf.length = AllTheThings.Size c (some m) ∧
      (∀ r ∈ recs, r.Valid) ∧ recordsBytes recs = buf ∧
      (∀ recs2 : List Record, (∀ r ∈ recs2, r.Valid) → recordsBytes recs2 = buf →
        recs2 = recs) ∧
      ∀ r ∈ recs,
        (r.tag = 1 → r.val.bytes = EncodeVarint (u64 m.ID)) ∧
        (r.tag = 4 → r.val.bytes = EncodeVarint (u64 m.TheInt32)) ∧
        (r.tag = 8 → r.val.bytes = EncodeVarint (zigzagEncode32 m.TheSInt32)) ∧
        (r.tag = 14 → r.val.bytes = EncodeVarint (u64 m.TheEventType)) := by
  have hwf0 := hwf
  obtain ⟨h1, h4, -, -, -, h8, -, -, -, -, -, h14, -, -⟩ := hwf
  have z0 : isInt32 0 := by decide
  have hn1 : ∀ e, m.TheMessage = some e →
      ∃ payload, c.Marshal e = .ok payload ∧ payload.length = c.Size e := fun e he => by
    obtain ⟨p, g1, g2, -⟩ := hn e he; exact ⟨p, g1, g2⟩
  have hval : ∀ r ∈ m.records c, r.Valid := by
    apply records_valid c m hwf0
    intro e payload he hp
    obtain ⟨p, g1, -, g3⟩ := hn e he
    rw [g1] at hp
    cases hp
    exact g3
  refine ⟨?_, ?_, ?_, ?_, ?_, ?_, ?_, ?_⟩
  · rw [Size_terms, Size_terms]
    simp only []
    rw [SizeOfZigZag_int32 _ h8, SizeOfZigZag_int32 0 z0, EncodeVarint_length,
      EncodeVarint_length]
    omega
  · rw [Size_terms, Size_terms]
    simp only []
    rw [EncodeVarint_length, EncodeVarint_length]
    omega
  · rw [Size_terms, Size_terms]
    simp only []
    rw [EncodeVarint_length, EncodeVarint_length]
    omega
  · rw [Size_terms, Size_terms]
    simp only []
    rw [EncodeVarint_length, EncodeVarint_length]
    omega
  · rw [EncodeVarint_length, SizeOfZigZag_int32 _ h8]
  · rw [EncodeVarint_length]
    exact SizeOfVarint_le_five _ (by have := zigzagEncode32_lt _ h8; omega)
  · intro v hv
    simp only [List.mem_cons, List.mem_singleton, List.not_mem_nil, or_false] at hv
    have hv32 : isInt32 v := by
      rcases hv with hv | hv | hv <;> subst hv <;> assumption
    exact ⟨(EncodeVarint_length _).symm, EncodeVarint_int32_length v hv32⟩
  · exact ⟨recordsBytes (m.records c), m.records c, (Marshal_eq_records c m hwf0 hn1).2,
      (Size_eq_records c m hwf0 hn1).symm, hval, rfl,
      fun recs2 hv2 h2 => recordsBytes_injective _ _ hv2 hval h2,
      records_int32_values c m⟩

/-- Witness of C19 on the example message, whose field 8 is the least int32, whose fields 4 and
14 are negative and whose field 1 is positive. -/
theorem int32_sized_as_written_witness :
    exampleMessage.WF ∧
    AllTheThings.Size exampleCodec (some exampleMessage) + 1 =
      AllTheThings.Size exampleCodec (some { exampleMessage with TheSInt32 := 0 }) + 5 ∧
    AllTheThings.Size exampleCodec (some exampleMessage) + 1 =
      AllTheThings.Size exampleCodec (some { exampleMessage with TheInt32 := 0 }) + 10 ∧
    ∃ buf recs, AllTheThings.Marshal exampleCodec (some exampleMessage) = some (buf, none) ∧
      buf.length = AllTheThings.Size exampleCodec (some exampleMessage) ∧
      (∀ r ∈ recs, r.Valid) ∧ recordsBytes recs = buf ∧
      (∀ recs2 : List Record, (∀ r ∈ recs2, r.Valid) → recordsBytes recs2 = buf →
        recs2 = recs) ∧
      ∀ r ∈ recs,
        (r.tag = 1 → r.val.bytes = EncodeVarint (u64 exampleMessage.ID)) ∧
        (r.tag = 4 → r.val.bytes = EncodeVarint (u64 exampleMessage.TheInt32)) ∧
        (r.tag = 8 → r.val.bytes = EncodeVarint (zigzagEncode32 exampleMessage.TheSInt32)) ∧
        (r.tag = 14 → r.val.bytes = EncodeVarint (u64 exampleMessage.TheEventType)) :=
  have h := int32_sized_as_written exampleCodec exampleMessage (by decide)
    (fun e he => ⟨e, rfl, rfl, by
      have h2 : e = [1, 2, 3] := by
        have h3 : exampleMessage.TheMessage = some [1, 2, 3] := rfl
        rw [h3] at he
        exact (Option.some.inj he).symm
      subst h2
      decide⟩)
  ⟨by decide, h.1, h.2.2.1, h.2.2.2.2.2.2.2⟩

/-- C20 (empty-buffer failure leaves the target untouched): for every target `m`, `Unmarshal` of
the zero-length buffer returns its error before resetting, so the target after the call is `m`
itself, every field and the unrecognized tail included; whereas on every non-empty buffer the
target after the call, failure or not, is the one obtained from the zero state: the prior
contents of `m` are cleared, and when the very first iteration fails the target is in the zero
state. -/
theorem empty_buffer_leaves_target {E : Type} (c : NestedCodec E) (m : AllTheThings E) :
    AllTheThings.Unmarshal c m [] = (m, some Err.emptyInput) ∧
    (∀ p : List Byte, p ≠ [] →
      AllTheThings.Unmarshal c m p = AllTheThings.Unmarshal c AllTheThings.zero p) ∧
    (∀ (p : List Byte) (err : Err), p ≠ [] →
      AllTheThings.unmarshalStep c (NewDecoder p) AllTheThings.zero = .error err →
      AllTheThings.Unmarshal c m p = (AllTheThings.zero, some err)) := by
  refine ⟨rfl, ?_, ?_⟩
  · intro p hp
    have h0 : ¬ (p.length = 0) := by
      intro h; exact hp (List.length_eq_zero.mp h)
    simp only [AllTheThings.Unmarshal, AllTheThings.unmarshalRun, if_neg h0, AllTheThings.Reset]
  · intro p err hp hs
    have h0 : ¬ (p.length = 0) := by
      intro h; exact hp (List.length_eq_zero.mp h)
    have hmore : (NewDecoder p).More = true := by
      have : 0 < p.length := by omega
      simp [Decoder.More, NewDecoder, this]
    simp only [AllTheThings.Unmarshal, AllTheThings.unmarshalRun, if_neg h0, AllTheThings.Reset,
      unmarshalLoop_succ, hmore, if_true, hs]

/-- Witness of C20 on a target that is not in its zero state: the empty buffer leaves it as it
was, and the one-byte buffer `08` (the tag of field 1 with nothing after it) fails in the first
iteration and leaves the zero state. -/
theorem empty_buffer_leaves_target_witness :
    AllTheThings.Unmarshal exampleCodec exampleMessage [] =
      (exampleMessage, some Err.emptyInput) ∧
    AllTheThings.Unmarshal exampleCodec exampleMessage [8] =
      (AllTheThings.zero, some (.fieldDecode 1 .truncatedVarint)) :=
  have h := empty_buffer_leaves_target exampleCodec exampleMessage
  ⟨h.1, h.2.2 [8] _ (by simp) (by decide)⟩

end Csproto
